import Mathlib

/-!
Persistence layer of the notebook application.

A shallow embedding of `src/lib/persistence.js`: the deep validator that turns an
arbitrary parsed JSON value into a sanitized state document.

JavaScript values are modelled by `JsVal`; the validators are pure functions that
thread the diagnostics list (`errors`) explicitly, a rejected entity (`return null`)
is `none`.
-/

set_option autoImplicit false

namespace Notebook

/-! ## JavaScript values -/

/-- A JavaScript string, as the sequence of its UTF-16 code units (so that `length`,
`slice` and `trim` are the operations of the language). Every code unit is below 65536;
the type admits larger numbers, which no operation below tells apart from other
non-whitespace units. -/
abbrev JsString := List Nat

/-- The code units of a string literal of the source (all literals are ASCII). -/
def lit (s : String) : JsString := s.toList.map Char.toNat

/-- A JavaScript number: `NaN`, the two infinities, or a finite value. -/
inductive JsNum where
  | nan
  | posInf
  | negInf
  | fin (q : ℚ)
  deriving DecidableEq

/-- A JavaScript value as produced by `JSON.parse`, plus `undefined` (the value of an
absent property). An object is the list of its own properties; a property is read at its
first occurrence in the list. -/
inductive JsVal where
  | undefined
  | null
  | bool (b : Bool)
  | num (n : JsNum)
  | str (s : JsString)
  | arr (xs : List JsVal)
  | obj (fields : List (String × JsVal))

namespace JsVal

/-- Property read `v.k` for a property name `k` that only a parsed object can carry
(`id`, `schemaVersion`, `workspaces`, ...): `undefined` when `v` is not an object or has no
own property `k`. -/
def get (v : JsVal) (k : String) : JsVal :=
  match v with
  | obj fields => (fields.lookup k).getD undefined
  | _ => undefined

/-- The test that `v` is an object with an own property `k`. -/
def hasKey (v : JsVal) (k : String) : Bool :=
  match v with
  | obj fields => fields.any (fun f => f.1 == k)
  | _ => false

/-- The code units of a string value (none for any other value). -/
def chars (v : JsVal) : JsString :=
  match v with
  | str s => s
  | _ => []

/-- The elements of an array value (no elements for any other value). -/
def elems (v : JsVal) : List JsVal :=
  match v with
  | arr xs => xs
  | _ => []

/-- Truthiness of a value (`ToBoolean`), what `if (v)`, `!v` and `v || d` test. -/
def truthy (v : JsVal) : Bool :=
  match v with
  | undefined => false
  | null => false
  | bool b => b
  | num .nan => false
  | num (.fin q) => decide (q ≠ 0)
  | num _ => true
  | str s => !s.isEmpty
  | arr _ => true
  | obj _ => true

/-- The expression `a || b`. -/
def orElse (a b : JsVal) : JsVal := if a.truthy then a else b

/-- Strict equality `a === b` on primitive values. Arrays and objects are compared by
reference in JavaScript; the validators only ever compare against a string or a number,
so two such values are reported as different. -/
def strictEq (a b : JsVal) : Bool :=
  match a, b with
  | undefined, undefined => true
  | null, null => true
  | bool x, bool y => x == y
  | num .nan, num _ => false
  | num _, num .nan => false
  | num x, num y => decide (x = y)
  | str x, str y => decide (x = y)
  | _, _ => false

/-- The test `typeof v === 'object'` (true of `null`, arrays and objects). -/
def typeofObject (v : JsVal) : Bool :=
  match v with
  | null => true
  | arr _ => true
  | obj _ => true
  | _ => false

end JsVal

open JsVal

/-- What the validators take from their environment: the clock reading
`new Date().toISOString()` (one reading for a whole validation), the test
`!isNaN(Date.parse(s))` on a string, and the conversion of a value to text inside a template
literal. -/
structure Env where
  now : JsString
  dateParses : JsString → Bool
  display : JsVal → String

/-! ## Type validators -/

def SCHEMA_VERSION : JsVal := .num (.fin 1)

def isString (v : JsVal) : Bool :=
  match v with
  | .str _ => true
  | _ => false

def isNumber (v : JsVal) : Bool :=
  match v with
  | .num .nan => false
  | .num _ => true
  | _ => false

def isBoolean (v : JsVal) : Bool :=
  match v with
  | .bool _ => true
  | _ => false

def isArray (v : JsVal) : Bool :=
  match v with
  | .arr _ => true
  | _ => false

def isObject (v : JsVal) : Bool :=
  match v with
  | .obj _ => true
  | _ => false

def isNull (v : JsVal) : Bool :=
  match v with
  | .null => true
  | _ => false

def isNullOrString (v : JsVal) : Bool := isNull v || isString v

def isNullOrNumber (v : JsVal) : Bool := isNull v || isNumber v

def isValidId (v : JsVal) : Bool :=
  match v with
  | .str s => decide (0 < s.length) && decide (s.length < 100)
  | _ => false

def isValidDate (env : Env) (v : JsVal) : Bool :=
  match v with
  | .str s => env.dateParses s
  | _ => false

/-! ## Strings -/

/-- The code units that `String.prototype.trim` removes (WhiteSpace and LineTerminator). -/
def isWhiteSpace (c : Nat) : Bool :=
  c = 0x09 || c = 0x0A || c = 0x0B || c = 0x0C || c = 0x0D || c = 0x20 || c = 0xA0 ||
  c = 0x1680 || (decide (0x2000 ≤ c) && decide (c ≤ 0x200A)) || c = 0x2028 || c = 0x2029 ||
  c = 0x202F || c = 0x205F || c = 0x3000 || c = 0xFEFF

/-- The method `s.trim()`. -/
def trim (s : JsString) : JsString :=
  ((s.dropWhile isWhiteSpace).reverse.dropWhile isWhiteSpace).reverse

/-- The method `s.slice(0, n)` for a length `n ≥ 0`. -/
def slice0 (s : JsString) (n : Nat) : JsString := s.take n

/-- The method `s.toUpperCase()` on the ASCII letters (it is only applied to the ids of
the default columns). -/
def toUpperCase (s : JsString) : JsString :=
  s.map (fun c => if 97 ≤ c ∧ c ≤ 122 then c - 32 else c)

def sanitizeString (str : JsVal) (maxLength : Nat := 10000) : JsString :=
  match str with
  | .str s => slice0 (trim s) maxLength
  | _ => []

/-- The test `list.includes(v)` for a list of string literals. -/
def includes (list : List JsString) (v : JsVal) : Bool :=
  match v with
  | .str s => list.contains s
  | _ => false

/-- The loop `xs.forEach(x => { const v = validate(x, errors); if (v) out.push(v); })`. -/
def forEachPush (validate : JsVal → List String → Option JsVal × List String) :
    List JsVal → List JsVal → List String → List JsVal × List String
  | [], out, errors => (out, errors)
  | x :: xs, out, errors =>
    match validate x errors with
    | (some v, errors1) => forEachPush validate xs (out ++ [v]) errors1
    | (none, errors1) => forEachPush validate xs out errors1

/-- The statement `if (isArray(a)) { a.forEach(x => { const v = validate(x, errors);
if (v) out.push(v); }) }` on a list `out` that starts empty. -/
def validateArray (validate : JsVal → List String → Option JsVal × List String)
    (a : JsVal) (errors : List String) : List JsVal × List String :=
  if isArray a then forEachPush validate a.elems [] errors else ([], errors)

/-! ## Entity validators -/

def validateNote (env : Env) (note : JsVal) (errors : List String) :
    Option JsVal × List String :=
  if !isObject note then (none, errors ++ ["Note is not an object"])
  else
    let validated : JsVal := .obj [
      ("id", if isValidId (note.get "id") then note.get "id" else .null),
      ("type", if strictEq (note.get "type") (.str (lit "folder")) then .str (lit "folder")
               else .str (lit "note")),
      ("title", .str (sanitizeString (orElse (note.get "title") (.str [])) 500)),
      ("content", if strictEq (note.get "type") (.str (lit "folder")) then .undefined
                  else .str (sanitizeString (orElse (note.get "content") (.str [])) 100000)),
      ("parentId", if isNullOrString (note.get "parentId") then note.get "parentId" else .null),
      ("createdAt", if isValidDate env (note.get "createdAt") then note.get "createdAt"
                    else .str env.now),
      ("modifiedAt", if isValidDate env (note.get "modifiedAt") then note.get "modifiedAt"
                     else .str env.now)]
    if !(validated.get "id").truthy then (none, errors ++ ["Note missing valid ID"])
    else (some validated, errors)

def validPriorities : List JsString := [lit "low", lit "medium", lit "high"]

def validColumns : List JsString := [lit "backlog", lit "todo", lit "doing", lit "done"]

def validateTask (env : Env) (task : JsVal) (errors : List String) :
    Option JsVal × List String :=
  if !isObject task then (none, errors ++ ["Task is not an object"])
  else
    let validated : JsVal := .obj [
      ("id", if isValidId (task.get "id") then task.get "id" else .null),
      ("title", .str (sanitizeString (orElse (task.get "title") (.str [])) 500)),
      ("description", .str (sanitizeString (orElse (task.get "description") (.str [])) 10000)),
      ("priority", if includes validPriorities (task.get "priority") then task.get "priority"
                   else .str (lit "medium")),
      ("dueDate", if isNullOrString (task.get "dueDate") &&
                      (!(task.get "dueDate").truthy || isValidDate env (task.get "dueDate"))
                  then task.get "dueDate" else .null),
      ("columnId", if includes validColumns (task.get "columnId") then task.get "columnId"
                   else .str (lit "backlog")),
      ("createdAt", if isValidDate env (task.get "createdAt") then task.get "createdAt"
                    else .str env.now),
      ("isFinalized", if isBoolean (task.get "isFinalized") then task.get "isFinalized"
                      else .bool false),
      ("isDeleted", if isBoolean (task.get "isDeleted") then task.get "isDeleted"
                    else .bool false),
      ("finalizedAt", if isNullOrNumber (task.get "finalizedAt") then task.get "finalizedAt"
                      else .null),
      ("deletedAt", if isNullOrNumber (task.get "deletedAt") then task.get "deletedAt"
                    else .null)]
    if !(validated.get "id").truthy then (none, errors ++ ["Task missing valid ID"])
    else (some validated, errors)

def validateJournalEntry (env : Env) (entry : JsVal) (errors : List String) :
    Option JsVal × List String :=
  if !isObject entry then (none, errors)
  else
    let validated : JsVal := .obj [
      ("id", if isValidId (entry.get "id") then entry.get "id" else .null),
      ("text", .str (sanitizeString (orElse (entry.get "text") (.str [])) 50000)),
      ("createdAt", if isValidDate env (entry.get "createdAt") then entry.get "createdAt"
                    else .str env.now)]
    if !(validated.get "id").truthy then (none, errors)
    else (some validated, errors)

def validateJournal (env : Env) (journal : JsVal) (errors : List String) :
    Option JsVal × List String :=
  if !isObject journal then (none, errors)
  else
    let id : JsVal := if isValidId (journal.get "id") then journal.get "id" else .null
    let name : JsVal :=
      .str (sanitizeString (orElse (journal.get "name") (.str (lit "Journal"))) 200)
    if !id.truthy then (none, errors)
    else
      let entries := validateArray (validateJournalEntry env) (journal.get "entries") errors
      (some (.obj [("id", id), ("name", name), ("entries", .arr entries.1)]), entries.2)

/-- The loop over `snippet.tags`: a string of length 1 to 49 is pushed, sanitized. -/
def validateTags (tags : List JsVal) : List JsVal :=
  tags.filterMap (fun tag =>
    match tag with
    | .str s =>
      if 0 < s.length ∧ s.length < 50 then some (.str (sanitizeString (.str s) 50)) else none
    | _ => none)

def validateSnippet (env : Env) (snippet : JsVal) (errors : List String) :
    Option JsVal × List String :=
  if !isObject snippet then (none, errors)
  else
    let id : JsVal := if isValidId (snippet.get "id") then snippet.get "id" else .null
    let title : JsVal := .str (sanitizeString (orElse (snippet.get "title") (.str [])) 500)
    let code : JsVal :=
      if isString (snippet.get "code") then .str (slice0 (snippet.get "code").chars 100000)
      else .str []
    let language : JsVal :=
      .str (sanitizeString (orElse (snippet.get "language") (.str (lit "text"))) 50)
    let description : JsVal :=
      .str (sanitizeString (orElse (snippet.get "description") (.str [])) 2000)
    let createdAt : JsVal :=
      if isValidDate env (snippet.get "createdAt") then snippet.get "createdAt"
      else .str env.now
    if !id.truthy then (none, errors)
    else
      let tags : List JsVal :=
        if isArray (snippet.get "tags") then validateTags (snippet.get "tags").elems else []
      (some (.obj [("id", id), ("title", title), ("code", code), ("language", language),
                   ("description", description), ("tags", .arr tags),
                   ("createdAt", createdAt)]), errors)

def validateColumn (column : JsVal) (errors : List String) : Option JsVal × List String :=
  if !isObject column then (none, errors)
  else
    let id : JsVal := if isValidId (column.get "id") then column.get "id" else .null
    let title : JsVal := .str (sanitizeString (orElse (column.get "title") (.str [])) 100)
    if !id.truthy then (none, errors)
    else
      let taskIds : List JsVal :=
        if isArray (column.get "taskIds") then (column.get "taskIds").elems.filter isValidId
        else []
      (some (.obj [("id", id), ("title", title), ("taskIds", .arr taskIds)]), errors)

/-- The function `Math.floor` on a number that is not `NaN`. -/
def floorNum (n : JsNum) : JsNum :=
  match n with
  | .fin q => .fin (Int.floor q)
  | other => other

/-- The function `Math.max(0, n)` on a number that is not `NaN`. -/
def maxZero (n : JsNum) : JsNum :=
  match n with
  | .fin q => .fin (max 0 q)
  | .negInf => .fin 0
  | other => other

def allowedKeys : List String := ["focusDays", "incidentsResolved", "deepWorkDays"]

/-- The expression `Math.max(0, Math.floor(v))` for a value `v` that passed `isNumber`. -/
def maxZeroFloor (v : JsVal) : JsVal :=
  match v with
  | .num n => .num (maxZero (floorNum n))
  | other => other

def validateMetrics (metrics : JsVal) : JsVal :=
  if !isObject metrics then .obj []
  else
    .obj (allowedKeys.filterMap (fun key =>
      if isNumber (metrics.get key) then some (key, maxZeroFloor (metrics.get key))
      else none))

def defaultCols : List JsString := [lit "todo", lit "doing", lit "done"]

/-- The loop that ensures the default columns exist: a default id that no column has yet
is pushed as a new empty column. -/
def ensureDefaultCols (columns : List JsVal) : List JsVal :=
  defaultCols.foldl (fun cols colId =>
    if (cols.find? (fun c => strictEq (c.get "id") (.str colId))).isNone then
      cols ++ [.obj [("id", .str colId), ("title", .str (toUpperCase colId)),
                     ("taskIds", .arr [])]]
    else cols) columns

def validateAgenda (env : Env) (agenda : JsVal) (errors : List String) :
    Option JsVal × List String :=
  if !isObject agenda then (none, errors ++ ["Agenda is not an object"])
  else
    let id : JsVal := if isValidId (agenda.get "id") then agenda.get "id" else .null
    let name : JsVal :=
      .str (sanitizeString (orElse (agenda.get "name") (.str (lit "Untitled Agenda"))) 200)
    let createdAt : JsVal :=
      if isValidDate env (agenda.get "createdAt") then agenda.get "createdAt"
      else .str env.now
    let metrics : JsVal := validateMetrics (agenda.get "metrics")
    if !id.truthy then (none, errors ++ ["Agenda missing valid ID"])
    else
      let notes := validateArray (validateNote env) (agenda.get "notes") errors
      let tasks := validateArray (validateTask env) (agenda.get "tasks") notes.2
      let columns0 :=
        if isArray (agenda.get "columns") && decide (0 < (agenda.get "columns").elems.length)
        then forEachPush validateColumn (agenda.get "columns").elems [] tasks.2
        else ([], tasks.2)
      let columns := ensureDefaultCols columns0.1
      let journals :=
        if isArray (agenda.get "journals") then
          forEachPush (validateJournal env) (agenda.get "journals").elems [] columns0.2
        else if isArray (agenda.get "journal") then
          let entries :=
            forEachPush (validateJournalEntry env) (agenda.get "journal").elems [] columns0.2
          ([.obj [("id", .str (lit "default")), ("name", .str (lit "Main Journal")),
                  ("entries", .arr entries.1)]], entries.2)
        else ([], columns0.2)
      let snippets := validateArray (validateSnippet env) (agenda.get "snippets") journals.2
      let finalizedTasks :=
        validateArray (validateTask env) (agenda.get "finalizedTasks") snippets.2
      let deletedTasks :=
        validateArray (validateTask env) (agenda.get "deletedTasks") finalizedTasks.2
      (some (.obj [("id", id), ("name", name), ("createdAt", createdAt),
                   ("notes", .arr notes.1), ("tasks", .arr tasks.1), ("columns", .arr columns),
                   ("journals", .arr journals.1), ("snippets", .arr snippets.1),
                   ("finalizedTasks", .arr finalizedTasks.1),
                   ("deletedTasks", .arr deletedTasks.1), ("metrics", metrics)]),
       deletedTasks.2)

def validateWorkspace (env : Env) (workspace : JsVal) (errors : List String) :
    Option JsVal × List String :=
  if !isObject workspace then (none, errors ++ ["Workspace is not an object"])
  else
    let id : JsVal := if isValidId (workspace.get "id") then workspace.get "id" else .null
    let name : JsVal :=
      .str (sanitizeString (orElse (workspace.get "name") (.str (lit "Untitled Workspace"))) 200)
    let createdAt : JsVal :=
      if isValidDate env (workspace.get "createdAt") then workspace.get "createdAt"
      else .str env.now
    let modifiedAt : JsVal :=
      if isValidDate env (workspace.get "modifiedAt") then workspace.get "modifiedAt"
      else .str env.now
    if !id.truthy then (none, errors ++ ["Workspace missing valid ID"])
    else
      let agendas := validateArray (validateAgenda env) (workspace.get "agendas") errors
      (some (.obj [("id", id), ("name", name), ("createdAt", createdAt),
                   ("modifiedAt", modifiedAt), ("agendas", .arr agendas.1)]), agendas.2)

/-- The result record `{ valid, state, errors }` of `deepValidateState`. -/
structure ValidationResult where
  valid : Bool
  state : JsVal
  errors : List String

/-- The loop of `deepValidateState` over `state.workspaces`, with the element index. -/
def forEachWorkspace (env : Env) :
    List JsVal → Nat → List JsVal → List String → List JsVal × List String
  | [], _, out, errors => (out, errors)
  | ws :: rest, idx, out, errors =>
    match validateWorkspace env ws errors with
    | (some validWs, errors1) => forEachWorkspace env rest (idx + 1) (out ++ [validWs]) errors1
    | (none, errors1) =>
      forEachWorkspace env rest (idx + 1) out
        (errors1 ++ ["Workspace at index " ++ toString idx ++ " was invalid and removed"])

/-- The last part of `deepValidateState` (the two blocks "Validate activeWorkspaceId
exists" and "Validate activeAgendaId exists within active workspace"): from the validated
workspaces and the two active ids, the repaired active ids and the diagnostics. -/
def repairActiveIds (workspaces : List JsVal) (activeWorkspaceId0 activeAgendaId0 : JsVal)
    (errors : List String) : JsVal × JsVal × List String :=
  -- if (validated.activeWorkspaceId) { if (!workspaces.find(...)) { reset both } }
  let reset : Bool :=
    activeWorkspaceId0.truthy &&
      (workspaces.find? (fun ws => strictEq (ws.get "id") activeWorkspaceId0)).isNone
  let activeWorkspaceId : JsVal := if reset then .null else activeWorkspaceId0
  let activeAgendaId1 : JsVal := if reset then .null else activeAgendaId0
  let errors2 : List String :=
    if reset then
      errors ++ ["activeWorkspaceId references non-existent workspace, resetting"]
    else errors
  -- if (validated.activeAgendaId && validated.activeWorkspaceId) { ... }
  let resetAgenda : Bool :=
    activeAgendaId1.truthy && activeWorkspaceId.truthy &&
      (match workspaces.find? (fun w => strictEq (w.get "id") activeWorkspaceId) with
       | some ws =>
         ((ws.get "agendas").elems.find?
            (fun a => strictEq (a.get "id") activeAgendaId1)).isNone
       | none => false)
  let activeAgendaId : JsVal := if resetAgenda then .null else activeAgendaId1
  let errors3 : List String :=
    if resetAgenda then
      errors2 ++ ["activeAgendaId references non-existent agenda, resetting"]
    else errors2
  (activeWorkspaceId, activeAgendaId, errors3)

def deepValidateState (env : Env) (state : JsVal) : ValidationResult :=
  if !state.truthy || !state.typeofObject then
    ⟨false, .null, ["State is not an object"]⟩
  else if !strictEq (state.get "schemaVersion") SCHEMA_VERSION then
    ⟨false, .null, ["Schema version mismatch. Expected 1, got " ++
      env.display (state.get "schemaVersion")]⟩
  else if !isArray (state.get "workspaces") then
    ⟨false, .null, ["State.workspaces is not an array"]⟩
  else
    let activeWorkspaceId0 : JsVal :=
      if isNullOrString (state.get "activeWorkspaceId") then state.get "activeWorkspaceId"
      else .null
    let activeAgendaId0 : JsVal :=
      if isNullOrString (state.get "activeAgendaId") then state.get "activeAgendaId"
      else .null
    let workspaces := forEachWorkspace env (state.get "workspaces").elems 0 [] []
    let active := repairActiveIds workspaces.1 activeWorkspaceId0 activeAgendaId0 workspaces.2
    ⟨true, .obj [("schemaVersion", SCHEMA_VERSION), ("workspaces", .arr workspaces.1),
                 ("activeWorkspaceId", active.1), ("activeAgendaId", active.2.1)],
     active.2.2⟩

/-! ## The parent relation of notes -/

/-- One step up the parent relation, as the ancestor walk of `NoteActions.moveItem`
(`src/lib/actions/notes.js`) takes it: `p = allNotes.find(n => n.id === current);
current = p ? p.parentId : null`. -/
def parentOf (allNotes : List JsVal) (current : JsVal) : JsVal :=
  match allNotes.find? (fun n => strictEq (n.get "id") current) with
  | some p => p.get "parentId"
  | none => .null

/-- Following parent references upward from `current` arrives at null after at most
`steps` steps. -/
def reachesNull (allNotes : List JsVal) : Nat → JsVal → Bool
  | 0, current => isNull current
  | steps + 1, current => isNull current || reachesNull allNotes steps (parentOf allNotes current)

/-! ## The active selection -/

/-- The workspace that the active id of a state selects:
`state.workspaces.find(w => w.id === state.activeWorkspaceId)`, the first workspace with
that id. -/
def activeWorkspace (state : JsVal) : Option JsVal :=
  (state.get "workspaces").elems.find?
    (fun w => strictEq (w.get "id") (state.get "activeWorkspaceId"))

/-! ## Storage and import -/

/-- The functions `JSON.parse` (`none` when it throws) and `JSON.stringify`. -/
structure JsonCodec where
  parse : JsString → Option JsVal
  stringify : JsVal → JsString

/-- The browser's `localStorage` as the application sees it: the text stored under
`STORAGE_KEY` (`none` when there is none), and whether reading and writing throw. -/
structure Storage where
  item : Option JsString
  readThrows : Bool
  writeThrows : Bool

namespace Storage

/-- The call `localStorage.getItem(STORAGE_KEY)`. -/
def getItem (storage : Storage) : Except String (Option JsString) :=
  if storage.readThrows then .error "getItem" else .ok storage.item

/-- The call `localStorage.setItem(STORAGE_KEY, text)`. -/
def setItem (storage : Storage) (text : JsString) : Except String Storage :=
  if storage.writeThrows then .error "setItem" else .ok { storage with item := some text }

end Storage

/-- What the store does to the outside and to its live state, in the order it happens:
an assignment to `this.state`, a `setItem` that returned, a `setItem` that threw, a call of
a listener with a snapshot. -/
inductive Event where
  | stateSet (state : JsVal)
  | stored (text : JsString)
  | storeFailed
  | called (listener : Nat) (snapshot : JsVal)

/-- The `Set` of listeners, in insertion order. A listener function is named by a number;
calling it has no effect on the store. -/
structure ListenerSet where
  elems : List Nat
  nodup : elems.Nodup

namespace ListenerSet

/-- The value `new Set()`. -/
def empty : ListenerSet := ⟨[], List.nodup_nil⟩

/-- The call `listeners.add(listener)`. -/
def add (s : ListenerSet) (listener : Nat) : ListenerSet :=
  if h : listener ∈ s.elems then s
  else ⟨s.elems ++ [listener],
    List.Nodup.append s.nodup (List.nodup_singleton listener)
      (by
        intro a ha hb
        rw [List.mem_singleton] at hb
        exact h (hb ▸ ha))⟩

/-- The call `listeners.delete(listener)`. -/
def delete (s : ListenerSet) (listener : Nat) : ListenerSet :=
  ⟨s.elems.erase listener, s.nodup.erase listener⟩

end ListenerSet

/-- The fields of the `Store` object. -/
structure Store where
  state : JsVal
  listeners : ListenerSet
  initialized : Bool

/-- The store together with what it acts on: the storage, and the record of its events. -/
structure World where
  store : Store
  storage : Storage
  log : List Event

def getInitialState : JsVal :=
  .obj [("schemaVersion", SCHEMA_VERSION), ("workspaces", .arr []),
        ("activeWorkspaceId", .null), ("activeAgendaId", .null)]

/-- The function `saveState`; the console output of the `catch` block is not recorded. -/
def saveState (codec : JsonCodec) (w : World) (state : JsVal) : World :=
  -- try { localStorage.setItem(STORAGE_KEY, JSON.stringify(state)) }
  match w.storage.setItem (codec.stringify state) with
  | .ok storage => { w with storage := storage, log := w.log ++ [.stored (codec.stringify state)] }
  -- catch (err) { console.error(...) }
  | .error _ => { w with log := w.log ++ [.storeFailed] }

/-- The body of the `try` block of `loadState`. -/
def loadStateBody (env : Env) (codec : JsonCodec) (storage : Storage) : Except String JsVal :=
  match storage.getItem with
  | .error err => .error err
  | .ok serialized =>
    -- if (!serialized) return null
    if !(serialized.map (fun text => !text.isEmpty)).getD false then .ok .null
    else
      match codec.parse (serialized.getD []) with
      | none => .error "JSON.parse"
      | some state =>
        let result := deepValidateState env state
        if !result.valid then .ok .null else .ok result.state

/-- The function `loadState`: the validated state, or null. -/
def loadState (env : Env) (codec : JsonCodec) (storage : Storage) : JsVal :=
  match loadStateBody env codec storage with
  | .ok loaded => loaded
  | .error _ => .null

/-- The function `parseImportData`; a thrown `Error` is its message. -/
def parseImportData (env : Env) (codec : JsonCodec) (jsonString : JsString) :
    Except String JsVal :=
  match codec.parse jsonString with
  | none => .error "El archivo no es JSON válido."
  | some state =>
    let result := deepValidateState env state
    if !result.valid then
      .error ("Archivo de backup inválido: " ++ ", ".intercalate result.errors)
    else .ok result.state

/-! ## The store -/

/-- The own enumerable properties that an object spread `...v` copies: the fields of an
object, the indexed elements of an array or of a string, none for any other value. -/
def ownEntries (v : JsVal) : List (String × JsVal) :=
  match v with
  | .obj fields => fields
  | .arr xs => xs.enum.map (fun p => (toString p.1, p.2))
  | .str s => s.enum.map (fun p => (toString p.1, .str [p.2]))
  | _ => []

/-- The object literal `{ ...a, ...b }`: the properties of `a` in their order, each with
the value `b` gives it when `b` has the key, then the properties that only `b` has. -/
def objectSpread (a b : JsVal) : JsVal :=
  .obj ((ownEntries a).map (fun p => (p.1, ((ownEntries b).lookup p.1).getD p.2)) ++
    (ownEntries b).filter (fun p => ((ownEntries a).lookup p.1).isNone))

/-- The function `structuredClone` on a value without functions: a deep copy, the same
value. -/
def structuredClone (v : JsVal) : JsVal := v

/-- A mutator passed to `Store.update`: from the draft, the draft as the mutator leaves it
and the value it returns. -/
abbrev Mutator := JsVal → JsVal × JsVal

namespace Store

/-- The method `notify`: every listener is called with the live state. -/
def notify (w : World) : World :=
  { w with log := w.log ++ w.store.listeners.elems.map (fun l => .called l w.store.state) }

/-- The assignment `this.state = state`. -/
def setState (w : World) (state : JsVal) : World :=
  { w with store := { w.store with state := state }, log := w.log ++ [.stateSet state] }

/-- The method `init`. -/
def init (env : Env) (codec : JsonCodec) (w : World) : World :=
  if w.store.initialized then w
  else
    let loaded := loadState env codec w.storage
    let w1 :=
      if loaded.truthy then setState w loaded
      else
        let w0 := setState w getInitialState
        saveState codec w0 w0.store.state
    let w2 := { w1 with store := { w1.store with initialized := true } }
    notify w2

/-- The method `getState`. -/
def getState (w : World) : JsVal := w.store.state

/-- The function that `subscribe(listener)` returns. -/
def unsubscribe (listener : Nat) (w : World) : World :=
  { w with store := { w.store with listeners := w.store.listeners.delete listener } }

/-- The method `subscribe`: the world after the call, and the returned function. -/
def subscribe (w : World) (listener : Nat) : World × (World → World) :=
  let w1 := { w with store := { w.store with listeners := w.store.listeners.add listener } }
  let w2 := { w1 with log := w1.log ++ [.called listener w1.store.state] }
  (w2, unsubscribe listener)

/-- The first statements of `update`, up to the assignment of the next state. -/
def updateState (w : World) (updateFn : Mutator) : World :=
  let nextState := (updateFn (structuredClone w.store.state)).1
  let result := (updateFn (structuredClone w.store.state)).2
  if result.truthy && result.typeofObject then setState w (objectSpread nextState result)
  else setState w nextState

/-- The worlds after each of the three statements of `update`: the assignment of the next
state, `saveState(this.state)` and `this.notify()`. -/
def updateSteps (codec : JsonCodec) (w : World) (updateFn : Mutator) : List World :=
  let w1 := updateState w updateFn
  let w2 := saveState codec w1 w1.store.state
  let w3 := notify w2
  [w1, w2, w3]

/-- The method `update`. -/
def update (codec : JsonCodec) (w : World) (updateFn : Mutator) : World :=
  let w1 := updateState w updateFn
  let w2 := saveState codec w1 w1.store.state
  notify w2

/-- The store as its constructor makes it, over a given storage. -/
def create (storage : Storage) : World :=
  { store := { state := getInitialState, listeners := .empty, initialized := false },
    storage := storage, log := [] }

end Store

/-- A call on the store (for `unsubscribe`, of a function that `subscribe(listener)`
returned) or a change of the storage from outside. -/
inductive Op where
  | init
  | update (updateFn : Mutator)
  | subscribe (listener : Nat)
  | unsubscribe (listener : Nat)
  | storageChanged (storage : Storage)

/-- The world after one call. -/
def step (env : Env) (codec : JsonCodec) (w : World) : Op → World
  | .init => Store.init env codec w
  | .update updateFn => Store.update codec w updateFn
  | .subscribe listener => (Store.subscribe w listener).1
  | .unsubscribe listener => Store.unsubscribe listener w
  | .storageChanged storage => { w with storage := storage }

/-- The world after a sequence of calls. -/
def run (env : Env) (codec : JsonCodec) (w : World) (ops : List Op) : World :=
  ops.foldl (step env codec) w

/-! ## Actions: steps that can throw -/

/-- Why a step of an action does not complete: a TypeError is thrown, or the walk over the
parent references has not ended within the steps allowed to it. -/
inductive Fault where
  | typeError
  | outOfFuel
  deriving DecidableEq

/-- The clock as the actions read it: `new Date().toISOString()` and `Date.now()` (the
same instant for all readings of one action). -/
structure Clock where
  iso : JsString
  ms : Nat

namespace JsVal

/-- Property read `v.k` as a step: reading a property of undefined or null throws. -/
def prop (v : JsVal) (k : String) : Except Fault JsVal :=
  match v with
  | undefined => .error .typeError
  | null => .error .typeError
  | other => .ok (other.get k)

/-- The elements of `v` for the call of an array method on it (`map`, `find`, `findIndex`,
`filter`, `push`, `splice`): the call throws when `v` is not an array. -/
def items (v : JsVal) : Except Fault (List JsVal) :=
  match v with
  | arr xs => .ok xs
  | _ => .error .typeError

/-- The assignment `v.k = x` on an object: the property keeps its place when the object
has it and is added at the end otherwise. On a primitive value the assignment throws (the
modules run in strict mode); an array, to which `JsVal` can give no named property, is
treated alike. -/
def setProp (v : JsVal) (k : String) (x : JsVal) : Except Fault JsVal :=
  match v with
  | obj fields => .ok (objectSpread (obj fields) (obj [(k, x)]))
  | _ => .error .typeError

/-- The statement `delete v.k`. -/
def deleteProp (v : JsVal) (k : String) : JsVal :=
  match v with
  | obj fields => obj (fields.filter (fun f => !(f.1 == k)))
  | other => other

end JsVal

/-- The search that `xs.find(x => x.k === v)` and `xs.findIndex(x => x.k === v)` run: the
index of the first element whose property `k` is strictly equal to `v`, `none` when there is
none. It throws when an element before it is undefined or null. -/
def findIndexByKey (k : String) (v : JsVal) : List JsVal → Except Fault (Option Nat)
  | [] => .ok none
  | x :: xs =>
    match x.prop k with
    | .error e => .error e
    | .ok xk =>
      if strictEq xk v then .ok (some 0)
      else
        match findIndexByKey k v xs with
        | .error e => .error e
        | .ok none => .ok none
        | .ok (some i) => .ok (some (i + 1))

/-- The element `xs[i]` of a search result `i`; `undefined` when nothing was found. -/
def elementAt (xs : List JsVal) (i : Option Nat) : JsVal :=
  match i with
  | some n => xs.getD n .undefined
  | none => .undefined

/-- The call `xs.find(x => x.k === v)`: the first such element, or `undefined`. -/
def findByKey (k : String) (v : JsVal) (xs : List JsVal) : Except Fault JsVal :=
  match findIndexByKey k v xs with
  | .error e => .error e
  | .ok i => .ok (elementAt xs i)

/-- The call `xs.map(f)` for a callback that can throw. -/
def mapThrowing (f : JsVal → Except Fault JsVal) : List JsVal → Except Fault (List JsVal)
  | [] => .ok []
  | x :: xs =>
    match f x with
    | .error e => .error e
    | .ok y =>
      match mapThrowing f xs with
      | .error e => .error e
      | .ok ys => .ok (y :: ys)

/-- The call `xs.filter(x => x.k !== v)`. -/
def rejectByKey (k : String) (v : JsVal) : List JsVal → Except Fault (List JsVal)
  | [] => .ok []
  | x :: xs =>
    match x.prop k with
    | .error e => .error e
    | .ok xk =>
      match rejectByKey k v xs with
      | .error e => .error e
      | .ok ys => .ok (if strictEq xk v then ys else x :: ys)

/-- The strings that iterating a string yields: one per code point, a surrogate pair
staying together. -/
def codePoints : JsString → List JsVal
  | [] => []
  | [a] => [.str [a]]
  | a :: b :: rest =>
    if 0xD800 ≤ a ∧ a ≤ 0xDBFF ∧ 0xDC00 ≤ b ∧ b ≤ 0xDFFF then .str [a, b] :: codePoints rest
    else .str [a] :: codePoints (b :: rest)

/-- The array spread `[...v]`: the elements of an array, the code points of a string; any
other value that reaches it (a number, a boolean, an object) is not iterable. -/
def spreadItems (v : JsVal) : Except Fault (List JsVal) :=
  match v with
  | .arr xs => .ok xs
  | .str s => .ok (codePoints s)
  | _ => .error .typeError

/-- The call `store.update(mutator)` for a mutator that can throw: the exception reaches
the caller and the store stays as it is, since the mutator only worked on a copy of the
state. -/
def Store.updateWith (codec : JsonCodec) (w : World)
    (mutator : JsVal → Except Fault (JsVal × JsVal)) : Except Fault World :=
  match mutator (structuredClone w.store.state) with
  | .error e => .error e
  | .ok outcome => .ok (Store.update codec w (fun _ => outcome))

/-! ## Actions: the two frames -/

/-- The frame of the actions that rebuild the document (`createNote`, `moveItem`,
`moveTask`, ...): nothing is done without an active workspace id; otherwise every workspace
with that id gets its agendas mapped, `body` being applied to every agenda whose id is
`agendaId`, and a new `modifiedAt`, and the mutator returns `{ workspaces }`. The draft is
left as it is. -/
def rebuildAgenda (clock : Clock) (agendaId : JsVal) (body : JsVal → Except Fault JsVal)
    (state : JsVal) : Except Fault (JsVal × JsVal) := do
  let activeWsId ← state.prop "activeWorkspaceId"
  if !activeWsId.truthy then
    pure (state, .undefined)
  else
    let workspaces ← (state.get "workspaces").items
    let mapped ← mapThrowing (fun ws => do
      let wsId ← ws.prop "id"
      if strictEq wsId activeWsId then
        let agendas ← (ws.get "agendas").items
        let mappedAgendas ← mapThrowing (fun agenda => do
          let id ← agenda.prop "id"
          if strictEq id agendaId then body agenda else pure agenda) agendas
        pure (objectSpread ws
          (.obj [("agendas", .arr mappedAgendas), ("modifiedAt", .str clock.iso)]))
      else pure ws) workspaces
    pure (state, .obj [("workspaces", .arr mapped)])

/-- How the body of an action that works in place ends: with `return;` before it changed
anything, with `return;` after it changed the agenda, or by running to `return state`. -/
inductive Ending where
  | untouched
  | abandoned (agenda : JsVal)
  | completed (agenda : JsVal)

/-- The frame of the actions that change the draft in place (`finalizeTask`,
`recycleTask`, `restoreTask`, `permanentDeleteTask`): the first workspace with the active id
and in it the first agenda with the id `agendaId` are looked up, and nothing is done when
one of them is missing; `body` changes the agenda; a body that runs to its end stamps the
workspace and returns the draft. The changed agenda and workspace stay at their places in
the draft. -/
def changeAgenda (clock : Clock) (agendaId : JsVal) (body : JsVal → Except Fault Ending)
    (state : JsVal) : Except Fault (JsVal × JsVal) := do
  let workspaces ← (← state.prop "workspaces").items
  let wsIdx ← findIndexByKey "id" (state.get "activeWorkspaceId") workspaces
  let ws := elementAt workspaces wsIdx
  if !ws.truthy then
    pure (state, .undefined)
  else
    let agendas ← (ws.get "agendas").items
    let agendaIdx ← findIndexByKey "id" agendaId agendas
    let agenda := elementAt agendas agendaIdx
    if !agenda.truthy then
      pure (state, .undefined)
    else
      match ← body agenda with
      | .untouched => pure (state, .undefined)
      | .abandoned changed =>
        let ws1 ← ws.setProp "agendas" (.arr (agendas.set (agendaIdx.getD 0) changed))
        let draft ← state.setProp "workspaces" (.arr (workspaces.set (wsIdx.getD 0) ws1))
        pure (draft, .undefined)
      | .completed changed =>
        let ws1 ← ws.setProp "agendas" (.arr (agendas.set (agendaIdx.getD 0) changed))
        let ws2 ← ws1.setProp "modifiedAt" (.str clock.iso)
        let draft ← state.setProp "workspaces" (.arr (workspaces.set (wsIdx.getD 0) ws2))
        pure (draft, draft)

/-! ## Note actions -/

namespace NoteActions

/-- The ancestor walk of `moveItem`: `let current = newParentId; while (current) { if
(current === itemId) return agenda; const p = allNotes.find(n => n.id === current);
current = p ? p.parentId : null; }`. The answer is `true` when the walk arrives at the
item (the move would close a cycle), `false` when it ends at a falsy value. The loop is run
for at most `fuel` passes. -/
def ancestorWalk (allNotes : List JsVal) (itemId : JsVal) : Nat → JsVal → Except Fault Bool
  | fuel, current =>
    if !current.truthy then .ok false
    else
      match fuel with
      | 0 => .error .outOfFuel
      | fuel + 1 =>
        if strictEq current itemId then .ok true
        else
          match findByKey "id" current allNotes with
          | .error e => .error e
          | .ok p =>
            ancestorWalk allNotes itemId fuel (if p.truthy then p.get "parentId" else .null)

/-- What `moveItem` does to the agenda with the id `agendaId`. -/
def moveItemInAgenda (clock : Clock) (fuel : Nat) (itemId newParentId agenda : JsVal) :
    Except Fault JsVal := do
  -- const allNotes = agenda.notes || []
  let allNotes ← (orElse (← agenda.prop "notes") (.arr [])).items
  let item ← findByKey "id" itemId allNotes
  if !item.truthy then
    pure agenda
  else
    let cycle ←
      if strictEq (item.get "type") (.str (lit "folder")) then
        ancestorWalk allNotes itemId fuel newParentId
      else pure false
    if cycle then
      pure agenda
    else
      let notes ← mapThrowing (fun n => do
        let id ← n.prop "id"
        if strictEq id itemId then
          pure (objectSpread n
            (.obj [("parentId", newParentId), ("modifiedAt", .str clock.iso)]))
        else pure n) allNotes
      pure (objectSpread agenda (.obj [("notes", .arr notes)]))

/-- The mutator that `moveItem` passes to `store.update`. -/
def moveItemMutator (clock : Clock) (fuel : Nat) (agendaId itemId newParentId : JsVal) :
    JsVal → Except Fault (JsVal × JsVal) :=
  rebuildAgenda clock agendaId (moveItemInAgenda clock fuel itemId newParentId)

/-- The action `NoteActions.moveItem(agendaId, itemId, newParentId)`. -/
def moveItem (clock : Clock) (codec : JsonCodec) (fuel : Nat)
    (agendaId itemId newParentId : JsVal) (w : World) : Except Fault World :=
  Store.updateWith codec w (moveItemMutator clock fuel agendaId itemId newParentId)

end NoteActions

/-! ## Task actions -/

namespace TaskActions

/-- The index at which `moveTask` inserts into a list of `length` ids: `(newIndex >= 0 &&
newIndex <= length) ? newIndex : length`, which `splice` truncates to an integer. An index
that is left out behaves as `NaN`. -/
def insertIndex (newIndex : JsNum) (length : Nat) : Nat :=
  match newIndex with
  | .fin q => if 0 ≤ q ∧ q ≤ (length : ℚ) then (Int.floor q).toNat else length
  | _ => length

/-- The statement `newTaskIds.splice(insertIndex, 0, taskId)`. -/
def spliceIn (ids : List JsVal) (index : Nat) (taskId : JsVal) : List JsVal :=
  ids.take index ++ taskId :: ids.drop index

/-- The columns with the backlog column in front when no column has the id `backlog`. -/
def withBacklog (columns : List JsVal) : Except Fault (List JsVal) := do
  let backlog ← findByKey "id" (.str (lit "backlog")) columns
  if !backlog.truthy then
    pure (.obj [("id", .str (lit "backlog")), ("title", .str (lit "Backlog")),
                ("taskIds", .arr [])] :: columns)
  else pure columns

/-- What `moveTask` does to the agenda with the id `agendaId`. -/
def moveTaskInAgenda (taskId targetColumnId : JsVal) (newIndex : JsNum) (agenda : JsVal) :
    Except Fault JsVal := do
  -- 1. Find Task
  let tasks ← (← agenda.prop "tasks").items
  let task ← findByKey "id" taskId tasks
  if !task.truthy then
    pure agenda
  else
    -- Ensure columns exist
    let columns0 ← (orElse (agenda.get "columns") (.arr [])).items
    let columns ← withBacklog columns0
    -- 2. Remove from old column
    let oldColumnId := orElse (task.get "columnId") (.str (lit "backlog"))
    let newColumns ← mapThrowing (fun col => do
      let id ← col.prop "id"
      if strictEq id oldColumnId then
        let ids ← (orElse (col.get "taskIds") (.arr [])).items
        pure (objectSpread col
          (.obj [("taskIds", .arr (ids.filter (fun id => !strictEq id taskId)))]))
      else pure col) columns
    -- 3. Update task column property
    let updatedTask := objectSpread task (.obj [("columnId", targetColumnId)])
    let updatedTasks ← mapThrowing (fun t => do
      let id ← t.prop "id"
      pure (if strictEq id taskId then updatedTask else t)) tasks
    -- 4. Insert into new column at index
    let targetColIndex ← findIndexByKey "id" targetColumnId newColumns
    let finalColumns ←
      match targetColIndex with
      | none => pure newColumns
      | some i =>
        let col := newColumns.getD i .undefined
        let newTaskIds ← spreadItems (orElse (col.get "taskIds") (.arr []))
        pure (newColumns.set i (objectSpread col
          (.obj [("taskIds",
            .arr (spliceIn newTaskIds (insertIndex newIndex newTaskIds.length) taskId))])))
    pure (objectSpread agenda
      (.obj [("tasks", .arr updatedTasks), ("columns", .arr finalColumns)]))

/-- The mutator that `moveTask` passes to `store.update`. -/
def moveTaskMutator (clock : Clock) (agendaId taskId targetColumnId : JsVal)
    (newIndex : JsNum) : JsVal → Except Fault (JsVal × JsVal) :=
  rebuildAgenda clock agendaId (moveTaskInAgenda taskId targetColumnId newIndex)

/-- The action `TaskActions.moveTask(agendaId, taskId, targetColumnId, newIndex)`. -/
def moveTask (clock : Clock) (codec : JsonCodec) (agendaId taskId targetColumnId : JsVal)
    (newIndex : JsNum) (w : World) : Except Fault World :=
  Store.updateWith codec w (moveTaskMutator clock agendaId taskId targetColumnId newIndex)

/-- The statements `const col = agenda.columns.find(c => c.id === task.columnId); if (col)
col.taskIds = col.taskIds.filter(id => id !== taskId)` on the agenda. -/
def dropFromColumn (taskId columnId agenda : JsVal) : Except Fault JsVal := do
  let columns ← (← agenda.prop "columns").items
  let colIdx ← findIndexByKey "id" columnId columns
  let col := elementAt columns colIdx
  if !col.truthy then
    pure agenda
  else
    let ids ← (col.get "taskIds").items
    let changed ← col.setProp "taskIds" (.arr (ids.filter (fun id => !strictEq id taskId)))
    agenda.setProp "columns" (.arr (columns.set (colIdx.getD 0) changed))

/-- The statements `if (!agenda[list]) agenda[list] = []; agenda[list].push(task)`. -/
def pushTo (list : String) (task agenda : JsVal) : Except Fault JsVal := do
  let present := agenda.get list
  let xs ← (if !present.truthy then JsVal.arr [] else present).items
  agenda.setProp list (.arr (xs ++ [task]))

/-- What `finalizeTask` does to the agenda. -/
def finalizeTaskInAgenda (clock : Clock) (taskId agenda : JsVal) : Except Fault Ending := do
  let tasks ← (← agenda.prop "tasks").items
  let taskIdx ← findIndexByKey "id" taskId tasks
  match taskIdx with
  | none => pure .untouched
  | some i =>
    let task := tasks.getD i .undefined
    -- Remove from main tasks
    let agenda1 ← agenda.setProp "tasks" (.arr (tasks.eraseIdx i))
    -- Remove from column
    let columnId ← task.prop "columnId"
    let agenda2 ← dropFromColumn taskId columnId agenda1
    -- Add to finalizedTasks
    let stamped ← task.setProp "finalizedAt" (.num (.fin clock.ms))
    let agenda3 ← pushTo "finalizedTasks" stamped agenda2
    pure (.completed agenda3)

/-- What `recycleTask` does to the agenda. -/
def recycleTaskInAgenda (clock : Clock) (taskId agenda : JsVal) : Except Fault Ending := do
  let tasks ← (← agenda.prop "tasks").items
  let taskIdx ← findIndexByKey "id" taskId tasks
  -- the task that was taken out, and the agenda without it (none: nothing was changed)
  let taken : Option (JsVal × JsVal) ←
    match taskIdx with
    | some i =>
      let task := tasks.getD i .undefined
      let agenda1 ← agenda.setProp "tasks" (.arr (tasks.eraseIdx i))
      let columnId ← task.prop "columnId"
      let agenda2 ← dropFromColumn taskId columnId agenda1
      pure (some (task, agenda2))
    | none =>
      if (agenda.get "finalizedTasks").truthy then
        let finalized ← (agenda.get "finalizedTasks").items
        let idx ← findIndexByKey "id" taskId finalized
        match idx with
        | some i =>
          let task := finalized.getD i .undefined
          let agenda1 ← agenda.setProp "finalizedTasks" (.arr (finalized.eraseIdx i))
          pure (some (task, agenda1))
        | none => pure none
      else pure none
  match taken with
  | none => pure .untouched
  | some (task, agenda1) =>
    -- if (!task) return
    if !task.truthy then
      pure (.abandoned agenda1)
    else
      let stamped ← task.setProp "deletedAt" (.num (.fin clock.ms))
      let agenda2 ← pushTo "deletedTasks" stamped agenda1
      pure (.completed agenda2)

/-- What `restoreTask` does to the agenda. -/
def restoreTaskInAgenda (taskId agenda : JsVal) : Except Fault Ending := do
  if !(agenda.get "deletedTasks").truthy then
    pure .untouched
  else
    let deleted ← (agenda.get "deletedTasks").items
    let taskIdx ← findIndexByKey "id" taskId deleted
    match taskIdx with
    | none => pure .untouched
    | some i =>
      let task := deleted.getD i .undefined
      let agenda1 ← agenda.setProp "deletedTasks" (.arr (deleted.eraseIdx i))
      -- Default to Backlog
      let task1 ← task.setProp "columnId" (.str (lit "backlog"))
      let task2 := (task1.deleteProp "deletedAt").deleteProp "finalizedAt"
      let tasks ← (agenda1.get "tasks").items
      let agenda2 ← agenda1.setProp "tasks" (.arr (tasks ++ [task2]))
      -- let columns = agenda.columns || []
      let columns ← (orElse (agenda2.get "columns") (.arr [])).items
      let backlogIdx ← findIndexByKey "id" (.str (lit "backlog")) columns
      let backlog := elementAt columns backlogIdx
      if backlog.truthy then
        let ids ← (backlog.get "taskIds").items
        let changed ← backlog.setProp "taskIds" (.arr (ids ++ [task2.get "id"]))
        let agenda3 ← agenda2.setProp "columns" (.arr (columns.set (backlogIdx.getD 0) changed))
        pure (.completed agenda3)
      else
        pure (.completed agenda2)

/-- What `permanentDeleteTask` does to the agenda. -/
def permanentDeleteTaskInAgenda (taskId agenda : JsVal) : Except Fault Ending := do
  if (agenda.get "deletedTasks").truthy then
    let deleted ← (agenda.get "deletedTasks").items
    let kept ← rejectByKey "id" taskId deleted
    let agenda1 ← agenda.setProp "deletedTasks" (.arr kept)
    pure (.completed agenda1)
  else
    pure (.completed agenda)

/-- The action `TaskActions.finalizeTask(agendaId, taskId)`. -/
def finalizeTask (clock : Clock) (codec : JsonCodec) (agendaId taskId : JsVal) (w : World) :
    Except Fault World :=
  Store.updateWith codec w (changeAgenda clock agendaId (finalizeTaskInAgenda clock taskId))

/-- The action `TaskActions.recycleTask(agendaId, taskId)`. -/
def recycleTask (clock : Clock) (codec : JsonCodec) (agendaId taskId : JsVal) (w : World) :
    Except Fault World :=
  Store.updateWith codec w (changeAgenda clock agendaId (recycleTaskInAgenda clock taskId))

/-- The action `TaskActions.restoreTask(agendaId, taskId)`. -/
def restoreTask (clock : Clock) (codec : JsonCodec) (agendaId taskId : JsVal) (w : World) :
    Except Fault World :=
  Store.updateWith codec w (changeAgenda clock agendaId (restoreTaskInAgenda taskId))

/-- The action `TaskActions.permanentDeleteTask(agendaId, taskId)`. -/
def permanentDeleteTask (clock : Clock) (codec : JsonCodec) (agendaId taskId : JsVal)
    (w : World) : Except Fault World :=
  Store.updateWith codec w (changeAgenda clock agendaId (permanentDeleteTaskInAgenda taskId))

end TaskActions

/-! ## Actions: further steps -/

namespace JsVal

/-- The call `v.trim()`: the trimmed string. Only a string has the method; on any other
value the call throws. -/
def trimCall (v : JsVal) : Except Fault JsString :=
  match v with
  | str s => .ok (trim s)
  | _ => .error .typeError

/-- A parameter with a default value: the default stands in for `undefined`. -/
def defaultTo (v d : JsVal) : JsVal :=
  match v with
  | undefined => d
  | other => other

/-- The test `v.length === 0` on a value that is not undefined or null. -/
def lengthIsZero (v : JsVal) : Bool :=
  match v with
  | arr xs => xs.isEmpty
  | str s => s.isEmpty
  | obj fields => strictEq ((obj fields).get "length") (.num (.fin 0))
  | _ => false

/-- The test `typeof v === 'number'` (true of `NaN` too). -/
def typeofNumber (v : JsVal) : Bool :=
  match v with
  | num _ => true
  | _ => false

/-- The sum `v + 1` for a number `v`; exact, as the sum of two doubles is for the integers
below 2^53. -/
def plusOne (v : JsVal) : JsVal :=
  match v with
  | num (.fin q) => num (.fin (q + 1))
  | other => other

end JsVal

/-- The comparison `SameValueZero` of `Set.prototype.has`: strict equality, except that
`NaN` is the same as `NaN`. (Objects and arrays are compared by reference there; as for
`strictEq`, two such values are reported as different.) -/
def sameValueZero (a b : JsVal) : Bool :=
  match a, b with
  | .num .nan, .num .nan => true
  | _, _ => strictEq a b

/-- The guard `if (!text || !text.trim()) return;` in front of an action: `true` when the
action goes on. -/
def hasText (text : JsVal) : Except Fault Bool :=
  if !text.truthy then .ok false
  else
    match text.trimCall with
    | .error e => .error e
    | .ok trimmed => .ok (!trimmed.isEmpty)

/-- The call `xs.map(x => x.k === v ? f(x) : x)`. -/
def mapByKey (k : String) (v : JsVal) (f : JsVal → Except Fault JsVal) (xs : List JsVal) :
    Except Fault (List JsVal) :=
  mapThrowing (fun x => do
    let xk ← x.prop k
    if strictEq xk v then f x else pure x) xs

/-! ## Agenda actions -/

namespace AgendaActions

/-- The frame of the agenda actions (`createAgenda`, `deleteAgenda`, `renameAgenda`):
nothing is done without an active workspace id; otherwise every workspace with that id gets
the agendas that `agendasOf` computes from it and a new `modifiedAt`, and the mutator
returns `{ workspaces }`. -/
def rebuildWorkspace (clock : Clock) (agendasOf : JsVal → Except Fault (List JsVal))
    (state : JsVal) : Except Fault (JsVal × JsVal) := do
  let activeId ← state.prop "activeWorkspaceId"
  if !activeId.truthy then
    pure (state, .undefined)
  else
    let workspaces ← (state.get "workspaces").items
    let mapped ← mapThrowing (fun ws => do
      let wsId ← ws.prop "id"
      if strictEq wsId activeId then
        let agendas ← agendasOf ws
        pure (objectSpread ws
          (.obj [("agendas", .arr agendas), ("modifiedAt", .str clock.iso)]))
      else pure ws) workspaces
    pure (state, .obj [("workspaces", .arr mapped)])

/-- The agenda that `createAgenda` makes, with the id that `generateId()` returned. -/
def newAgenda (clock : Clock) (newId name : JsString) : JsVal :=
  .obj [("id", .str newId), ("name", .str name), ("createdAt", .str clock.iso),
        ("notes", .arr []), ("tasks", .arr []),
        ("columns", .arr [
          .obj [("id", .str (lit "todo")), ("title", .str (lit "To Do")), ("taskIds", .arr [])],
          .obj [("id", .str (lit "doing")), ("title", .str (lit "In Progress")),
                ("taskIds", .arr [])],
          .obj [("id", .str (lit "done")), ("title", .str (lit "Done")),
                ("taskIds", .arr [])]])]

/-- The action `AgendaActions.createAgenda(name)`; `newId` is what `generateId()`
returns. -/
def createAgenda (clock : Clock) (codec : JsonCodec) (newId : JsString) (name : JsVal)
    (w : World) : Except Fault World := do
  if !(← hasText name) then pure w
  else
    let trimmed ← name.trimCall
    Store.updateWith codec w (rebuildWorkspace clock (fun ws => do
      -- [...(ws.agendas || []), newAgenda]
      let agendas ← spreadItems (orElse (ws.get "agendas") (.arr []))
      pure (agendas ++ [newAgenda clock newId trimmed])))

/-- The action `AgendaActions.deleteAgenda(agendaId)`. -/
def deleteAgenda (clock : Clock) (codec : JsonCodec) (agendaId : JsVal) (w : World) :
    Except Fault World :=
  Store.updateWith codec w (rebuildWorkspace clock (fun ws => do
    -- ws.agendas.filter(a => a.id !== agendaId)
    let agendas ← (ws.get "agendas").items
    rejectByKey "id" agendaId agendas))

/-- The action `AgendaActions.renameAgenda(agendaId, newName)`. -/
def renameAgenda (clock : Clock) (codec : JsonCodec) (agendaId newName : JsVal) (w : World) :
    Except Fault World := do
  if !(← hasText newName) then pure w
  else
    let trimmed ← newName.trimCall
    Store.updateWith codec w (rebuildWorkspace clock (fun ws => do
      let agendas ← (ws.get "agendas").items
      mapByKey "id" agendaId
        (fun a => pure (objectSpread a (.obj [("name", .str trimmed)]))) agendas))

end AgendaActions

/-! ## Note actions: creating, updating and deleting -/

namespace NoteActions

/-- What `createNote` does to the agenda with the id `agendaId`. -/
def createNoteInAgenda (clock : Clock) (newId : JsString)
    (title content customId parentId agenda : JsVal) : Except Fault JsVal := do
  let newNote : JsVal :=
    .obj [("id", orElse customId (.str newId)), ("type", .str (lit "note")),
          ("title", title), ("content", content), ("parentId", parentId),
          ("createdAt", .str clock.iso), ("modifiedAt", .str clock.iso)]
  -- notes: [...(agenda.notes || []), newNote]
  let notes ← spreadItems (orElse (agenda.get "notes") (.arr []))
  pure (objectSpread agenda (.obj [("notes", .arr (notes ++ [newNote]))]))

/-- The action `NoteActions.createNote(agendaId, title = 'Untitled Note', content = '',
customId = null, parentId = null)`. -/
def createNote (clock : Clock) (codec : JsonCodec) (newId : JsString)
    (agendaId title content customId parentId : JsVal) (w : World) : Except Fault World :=
  Store.updateWith codec w (rebuildAgenda clock agendaId
    (createNoteInAgenda clock newId (title.defaultTo (.str (lit "Untitled Note")))
      (content.defaultTo (.str [])) (customId.defaultTo .null) (parentId.defaultTo .null)))

/-- What `createFolder` does to the agenda with the id `agendaId`. -/
def createFolderInAgenda (clock : Clock) (newId : JsString) (name parentId agenda : JsVal) :
    Except Fault JsVal := do
  let newFolder : JsVal :=
    .obj [("id", .str newId), ("type", .str (lit "folder")), ("title", name),
          ("parentId", parentId), ("createdAt", .str clock.iso),
          ("modifiedAt", .str clock.iso)]
  let notes ← spreadItems (orElse (agenda.get "notes") (.arr []))
  pure (objectSpread agenda (.obj [("notes", .arr (notes ++ [newFolder]))]))

/-- The action `NoteActions.createFolder(agendaId, name, parentId = null)`. -/
def createFolder (clock : Clock) (codec : JsonCodec) (newId : JsString)
    (agendaId name parentId : JsVal) (w : World) : Except Fault World :=
  Store.updateWith codec w (rebuildAgenda clock agendaId
    (createFolderInAgenda clock newId name (parentId.defaultTo .null)))

/-- What `updateNote` does to the agenda with the id `agendaId`. -/
def updateNoteInAgenda (clock : Clock) (noteId updates agenda : JsVal) :
    Except Fault JsVal := do
  let notes ← (agenda.get "notes").items
  let mapped ← mapByKey "id" noteId (fun note =>
    -- { ...note, ...updates, modifiedAt: new Date().toISOString() }
    pure (objectSpread (objectSpread note updates) (.obj [("modifiedAt", .str clock.iso)])))
    notes
  pure (objectSpread agenda (.obj [("notes", .arr mapped)]))

/-- The action `NoteActions.updateNote(agendaId, noteId, updates)`. -/
def updateNote (clock : Clock) (codec : JsonCodec) (agendaId noteId updates : JsVal)
    (w : World) : Except Fault World :=
  Store.updateWith codec w (rebuildAgenda clock agendaId (updateNoteInAgenda clock noteId updates))

/-- One pass `allNotes.forEach(n => { if (n.parentId && toDelete.has(n.parentId) &&
!toDelete.has(n.id)) { toDelete.add(n.id); changed = true; } })` of `deleteItem`: the set
`toDelete`, in the order of insertion, and the flag `changed` after the pass. -/
def markChildren : List JsVal → List JsVal → Bool → Except Fault (List JsVal × Bool)
  | [], toDelete, changed => .ok (toDelete, changed)
  | n :: rest, toDelete, changed =>
    match n.prop "parentId" with
    | .error e => .error e
    | .ok parentId =>
      if parentId.truthy && toDelete.any (sameValueZero parentId) &&
          !toDelete.any (sameValueZero (n.get "id")) then
        markChildren rest (toDelete ++ [n.get "id"]) true
      else markChildren rest toDelete changed

/-- The loop `let changed = true; while (changed) { changed = false; allNotes.forEach(...) }`
of `deleteItem`, run for at most `fuel` passes: the set `toDelete` when the loop ends. -/
def collectDescendants (allNotes : List JsVal) : Nat → List JsVal → Except Fault (List JsVal)
  | 0, _ => .error .outOfFuel
  | fuel + 1, toDelete =>
    match markChildren allNotes toDelete false with
    | .error e => .error e
    | .ok (marked, changed) =>
      if changed then collectDescendants allNotes fuel marked else .ok marked

/-- The call `allNotes.filter(n => !toDelete.has(n.id))`. -/
def dropMarked (toDelete : List JsVal) : List JsVal → Except Fault (List JsVal)
  | [] => .ok []
  | n :: rest =>
    match n.prop "id" with
    | .error e => .error e
    | .ok id =>
      match dropMarked toDelete rest with
      | .error e => .error e
      | .ok kept => .ok (if toDelete.any (sameValueZero id) then kept else n :: kept)

/-- What `deleteItem` does to the agenda with the id `agendaId`. -/
def deleteItemInAgenda (fuel : Nat) (itemId agenda : JsVal) : Except Fault JsVal := do
  -- const allNotes = agenda.notes || []
  let allNotes ← (orElse (agenda.get "notes") (.arr [])).items
  -- const toDelete = new Set([itemId])
  let toDelete ← collectDescendants allNotes fuel [itemId]
  let notes ← dropMarked toDelete allNotes
  pure (objectSpread agenda (.obj [("notes", .arr notes)]))

/-- The action `NoteActions.deleteItem(agendaId, itemId)`. -/
def deleteItem (clock : Clock) (codec : JsonCodec) (fuel : Nat) (agendaId itemId : JsVal)
    (w : World) : Except Fault World :=
  Store.updateWith codec w (rebuildAgenda clock agendaId (deleteItemInAgenda fuel itemId))

/-- The action `NoteActions.deleteNote(agendaId, noteId)`, which calls `deleteItem`. -/
def deleteNote (clock : Clock) (codec : JsonCodec) (fuel : Nat) (agendaId noteId : JsVal)
    (w : World) : Except Fault World :=
  deleteItem clock codec fuel agendaId noteId w

end NoteActions

/-! ## Task actions: creating, deleting and updating -/

namespace TaskActions

/-- What `createTask` does to the agenda with the id `agendaId`; `title` is the trimmed
title. -/
def createTaskInAgenda (clock : Clock) (newId title : JsString) (taskData agenda : JsVal) :
    Except Fault JsVal := do
  let newTask : JsVal :=
    .obj [("id", .str newId), ("title", .str title),
          ("description", orElse (taskData.get "description") (.str [])),
          ("priority", orElse (taskData.get "priority") (.str (lit "medium"))),
          ("dueDate", orElse (taskData.get "dueDate") .null),
          ("createdAt", .str clock.iso), ("columnId", .str (lit "backlog"))]
  -- const newTasks = [...(agenda.tasks || []), newTask]
  let tasks ← spreadItems (orElse (agenda.get "tasks") (.arr []))
  -- Ensure we have a backlog column if it doesn't exist
  let columns0 ← (orElse (agenda.get "columns") (.arr [])).items
  let columns ← withBacklog columns0
  let newColumns ← mapByKey "id" (.str (lit "backlog")) (fun col => do
    let ids ← spreadItems (orElse (col.get "taskIds") (.arr []))
    pure (objectSpread col (.obj [("taskIds", .arr (ids ++ [.str newId]))]))) columns
  pure (objectSpread agenda
    (.obj [("tasks", .arr (tasks ++ [newTask])), ("columns", .arr newColumns)]))

/-- The action `TaskActions.createTask(agendaId, taskData)`. -/
def createTask (clock : Clock) (codec : JsonCodec) (newId : JsString)
    (agendaId taskData : JsVal) (w : World) : Except Fault World := do
  let title ← taskData.prop "title"
  if !(← hasText title) then pure w
  else
    let trimmed ← title.trimCall
    Store.updateWith codec w (rebuildAgenda clock agendaId
      (createTaskInAgenda clock newId trimmed taskData))

/-- What `deleteTask` does to the agenda with the id `agendaId`. -/
def deleteTaskInAgenda (taskId agenda : JsVal) : Except Fault JsVal := do
  let tasks ← (agenda.get "tasks").items
  let newTasks ← rejectByKey "id" taskId tasks
  let columns ← (orElse (agenda.get "columns") (.arr [])).items
  let newColumns ← mapThrowing (fun col => do
    let ids ← (orElse (← col.prop "taskIds") (.arr [])).items
    pure (objectSpread col
      (.obj [("taskIds", .arr (ids.filter (fun id => !strictEq id taskId)))]))) columns
  pure (objectSpread agenda (.obj [("tasks", .arr newTasks), ("columns", .arr newColumns)]))

/-- The action `TaskActions.deleteTask(agendaId, taskId)`. -/
def deleteTask (clock : Clock) (codec : JsonCodec) (agendaId taskId : JsVal) (w : World) :
    Except Fault World :=
  Store.updateWith codec w (rebuildAgenda clock agendaId (deleteTaskInAgenda taskId))

/-- What `updateTask` does to the agenda with the id `agendaId`. -/
def updateTaskInAgenda (taskId updates agenda : JsVal) : Except Fault JsVal := do
  let tasks ← (agenda.get "tasks").items
  let updatedTasks ← mapByKey "id" taskId (fun t => pure (objectSpread t updates)) tasks
  pure (objectSpread agenda (.obj [("tasks", .arr updatedTasks)]))

/-- The action `TaskActions.updateTask(agendaId, taskId, updates)`. -/
def updateTask (clock : Clock) (codec : JsonCodec) (agendaId taskId updates : JsVal)
    (w : World) : Except Fault World :=
  Store.updateWith codec w (rebuildAgenda clock agendaId (updateTaskInAgenda taskId updates))

end TaskActions

/-! ## Journal actions -/

namespace JournalActions

/-- The journals that a journal action starts from: `let journals = agenda.journals || [];
if (!agenda.journals && agenda.journal) journals = [{ id: 'default', name, entries:
agenda.journal }]; else if (journals.length === 0) journals = [{ id: 'default', name,
entries: [] }];`. The actions that delete have no `else` branch (`fillEmpty` is false). -/
def currentJournals (name : JsString) (fillEmpty : Bool) (agenda : JsVal) : JsVal :=
  let journals := orElse (agenda.get "journals") (.arr [])
  if !(agenda.get "journals").truthy && (agenda.get "journal").truthy then
    .arr [.obj [("id", .str (lit "default")), ("name", .str name),
                ("entries", agenda.get "journal")]]
  else if fillEmpty && journals.lengthIsZero then
    .arr [.obj [("id", .str (lit "default")), ("name", .str name), ("entries", .arr [])]]
  else journals

/-- The statements `const { journal, ...rest } = agenda; return { ...rest, journals };`. -/
def withJournals (agenda : JsVal) (journals : List JsVal) : JsVal :=
  objectSpread (agenda.deleteProp "journal") (.obj [("journals", .arr journals)])

/-- What `addEntry` does to the agenda with the id `agendaId`; `text` is the trimmed
text. The journals are never empty where the entry is put in, so the assignment to
`updatedJournals[targetIdx]` replaces an element. -/
def addEntryInAgenda (clock : Clock) (newId text : JsString) (journalId agenda : JsVal) :
    Except Fault JsVal := do
  let journals := currentJournals (lit "Main Journal") true agenda
  -- Find target
  let targetIdx ←
    if journalId.truthy then do
      let found ← findIndexByKey "id" journalId (← journals.items)
      pure (found.getD 0)
    else pure 0
  let newEntry : JsVal :=
    .obj [("id", .str newId), ("text", .str text), ("createdAt", .str clock.iso)]
  let updatedJournals ← spreadItems journals
  let target := updatedJournals.getD targetIdx .undefined
  let entries ← spreadItems (orElse (← target.prop "entries") (.arr []))
  pure (withJournals agenda (updatedJournals.set targetIdx
    (objectSpread target (.obj [("entries", .arr (newEntry :: entries))]))))

/-- The action `JournalActions.addEntry(agendaId, text, journalId = null)`. -/
def addEntry (clock : Clock) (codec : JsonCodec) (newId : JsString)
    (agendaId text journalId : JsVal) (w : World) : Except Fault World := do
  if !(← hasText text) then pure w
  else
    let trimmed ← text.trimCall
    Store.updateWith codec w (rebuildAgenda clock agendaId
      (addEntryInAgenda clock newId trimmed (journalId.defaultTo .null)))

/-- What `deleteEntry` does to the agenda with the id `agendaId`. -/
def deleteEntryInAgenda (entryId journalId agenda : JsVal) : Except Fault JsVal := do
  let journals ← (currentJournals (lit "Main Journal") false agenda).items
  let updatedJournals ← mapThrowing (fun j => do
    -- if (journalId && j.id !== journalId) return j;
    let skip ←
      if journalId.truthy then do
        let id ← j.prop "id"
        pure (!strictEq id journalId)
      else pure false
    if skip then pure j
    else
      let entries ← (← j.prop "entries").items
      let kept ← rejectByKey "id" entryId entries
      pure (objectSpread j (.obj [("entries", .arr kept)]))) journals
  pure (withJournals agenda updatedJournals)

/-- The action `JournalActions.deleteEntry(agendaId, entryId, journalId = null)`. -/
def deleteEntry (clock : Clock) (codec : JsonCodec) (agendaId entryId journalId : JsVal)
    (w : World) : Except Fault World :=
  Store.updateWith codec w (rebuildAgenda clock agendaId
    (deleteEntryInAgenda entryId (journalId.defaultTo .null)))

/-- What `createJournal` does to the agenda with the id `agendaId`. -/
def createJournalInAgenda (newId : JsString) (name agenda : JsVal) : Except Fault JsVal := do
  let journals ← spreadItems (currentJournals (lit "Journal Principal") true agenda)
  let newJournal : JsVal := .obj [("id", .str newId), ("name", name), ("entries", .arr [])]
  pure (withJournals agenda (journals ++ [newJournal]))

/-- The action `JournalActions.createJournal(agendaId, name)`. -/
def createJournal (clock : Clock) (codec : JsonCodec) (newId : JsString)
    (agendaId name : JsVal) (w : World) : Except Fault World :=
  Store.updateWith codec w (rebuildAgenda clock agendaId (createJournalInAgenda newId name))

/-- What `renameJournal` does to the agenda with the id `agendaId`. -/
def renameJournalInAgenda (journalId newName agenda : JsVal) : Except Fault JsVal := do
  let journals ← (currentJournals (lit "Journal Principal") true agenda).items
  let updatedJournals ← mapByKey "id" journalId
    (fun j => pure (objectSpread j (.obj [("name", newName)]))) journals
  pure (withJournals agenda updatedJournals)

/-- The action `JournalActions.renameJournal(agendaId, journalId, newName)`. -/
def renameJournal (clock : Clock) (codec : JsonCodec) (agendaId journalId newName : JsVal)
    (w : World) : Except Fault World :=
  Store.updateWith codec w (rebuildAgenda clock agendaId
    (renameJournalInAgenda journalId newName))

/-- What `deleteJournal` does to the agenda with the id `agendaId`. -/
def deleteJournalInAgenda (journalId agenda : JsVal) : Except Fault JsVal := do
  let journals ← (currentJournals (lit "Journal Principal") false agenda).items
  let updatedJournals ← rejectByKey "id" journalId journals
  pure (withJournals agenda updatedJournals)

/-- The action `JournalActions.deleteJournal(agendaId, journalId)`. -/
def deleteJournal (clock : Clock) (codec : JsonCodec) (agendaId journalId : JsVal)
    (w : World) : Except Fault World :=
  Store.updateWith codec w (rebuildAgenda clock agendaId (deleteJournalInAgenda journalId))

end JournalActions

/-! ## Snippet actions -/

namespace SnippetActions

/-- What `createSnippet` does to the agenda with the id `agendaId`. -/
def createSnippetInAgenda (clock : Clock) (newId : JsString) (data agenda : JsVal) :
    Except Fault JsVal := do
  let newSnip : JsVal :=
    .obj [("id", .str newId),
          ("title", orElse (← data.prop "title") (.str (lit "Untitled Snippet"))),
          ("code", orElse (data.get "code") (.str [])),
          ("language", orElse (data.get "language") (.str (lit "text"))),
          ("description", orElse (data.get "description") (.str [])),
          ("tags", orElse (data.get "tags") (.arr [])),
          ("createdAt", .str clock.iso)]
  -- snippets: [newSnip, ...(ag.snippets || [])]
  let snippets ← spreadItems (orElse (agenda.get "snippets") (.arr []))
  pure (objectSpread agenda (.obj [("snippets", .arr (newSnip :: snippets))]))

/-- The action `SnippetActions.createSnippet(agendaId, data)`. -/
def createSnippet (clock : Clock) (codec : JsonCodec) (newId : JsString)
    (agendaId data : JsVal) (w : World) : Except Fault World :=
  Store.updateWith codec w (rebuildAgenda clock agendaId (createSnippetInAgenda clock newId data))

/-- What `deleteSnippet` does to the agenda with the id `agendaId`. -/
def deleteSnippetInAgenda (snippetId agenda : JsVal) : Except Fault JsVal := do
  let snippets ← (orElse (agenda.get "snippets") (.arr [])).items
  let kept ← rejectByKey "id" snippetId snippets
  pure (objectSpread agenda (.obj [("snippets", .arr kept)]))

/-- The action `SnippetActions.deleteSnippet(agendaId, snippetId)`. -/
def deleteSnippet (clock : Clock) (codec : JsonCodec) (agendaId snippetId : JsVal)
    (w : World) : Except Fault World :=
  Store.updateWith codec w (rebuildAgenda clock agendaId (deleteSnippetInAgenda snippetId))

/-- What `updateSnippet` does to the agenda with the id `agendaId`. -/
def updateSnippetInAgenda (snippetId updates agenda : JsVal) : Except Fault JsVal := do
  let snippets ← (orElse (agenda.get "snippets") (.arr [])).items
  let newSnips ← mapByKey "id" snippetId (fun s => pure (objectSpread s updates)) snippets
  pure (objectSpread agenda (.obj [("snippets", .arr newSnips)]))

/-- The action `SnippetActions.updateSnippet(agendaId, snippetId, updates)`. -/
def updateSnippet (clock : Clock) (codec : JsonCodec) (agendaId snippetId updates : JsVal)
    (w : World) : Except Fault World :=
  Store.updateWith codec w (rebuildAgenda clock agendaId
    (updateSnippetInAgenda snippetId updates))

end SnippetActions

/-! ## Metrics actions -/

namespace MetricsActions

/-- The copy `{ ...(ag.metrics || {}) }` of the metrics of an agenda. -/
def metricsOf (agenda : JsVal) : JsVal :=
  objectSpread (.obj []) (orElse (agenda.get "metrics") (.obj []))

/-- What `updateMetric` does to the agenda with the id `agendaId`. -/
def updateMetricInAgenda (key : String) (value agenda : JsVal) : Except Fault JsVal :=
  -- metrics[key] = value; return { ...ag, metrics }
  pure (objectSpread agenda
    (.obj [("metrics", objectSpread (metricsOf agenda) (.obj [(key, value)]))]))

/-- The action `MetricsActions.updateMetric(agendaId, key, value)`. -/
def updateMetric (clock : Clock) (codec : JsonCodec) (agendaId : JsVal) (key : String)
    (value : JsVal) (w : World) : Except Fault World :=
  Store.updateWith codec w (rebuildAgenda clock agendaId (updateMetricInAgenda key value))

/-- What `incrementMetric` does to the agenda with the id `agendaId`. -/
def incrementMetricInAgenda (key : String) (agenda : JsVal) : Except Fault JsVal :=
  -- const current = typeof metrics[key] === 'number' ? metrics[key] : 0
  let current : JsVal :=
    if ((metricsOf agenda).get key).typeofNumber then (metricsOf agenda).get key
    else .num (.fin 0)
  pure (objectSpread agenda
    (.obj [("metrics", objectSpread (metricsOf agenda) (.obj [(key, current.plusOne)]))]))

/-- The action `MetricsActions.incrementMetric(agendaId, key)`. -/
def incrementMetric (clock : Clock) (codec : JsonCodec) (agendaId : JsVal) (key : String)
    (w : World) : Except Fault World :=
  Store.updateWith codec w (rebuildAgenda clock agendaId (incrementMetricInAgenda key))

end MetricsActions

/-! ## Workspace actions -/

namespace WorkspaceActions

/-- The mutator of `createWorkspace`; `name` is the trimmed name. -/
def createWorkspaceMutator (clock : Clock) (newId name : JsString) (state : JsVal) :
    Except Fault (JsVal × JsVal) := do
  let newWorkspace : JsVal :=
    .obj [("id", .str newId), ("name", .str name), ("createdAt", .str clock.iso),
          ("modifiedAt", .str clock.iso), ("agendas", .arr [])]
  -- const updatedWorkspaces = [...state.workspaces, newWorkspace]
  let workspaces ← spreadItems (← state.prop "workspaces")
  -- let activeId = state.activeWorkspaceId; if (!activeId) activeId = newWorkspace.id
  let activeId := orElse (state.get "activeWorkspaceId") (.str newId)
  pure (state, .obj [("workspaces", .arr (workspaces ++ [newWorkspace])),
                     ("activeWorkspaceId", activeId)])

/-- The action `WorkspaceActions.createWorkspace(name)`; `newId` is what `generateId()`
returns. -/
def createWorkspace (clock : Clock) (codec : JsonCodec) (newId : JsString) (name : JsVal)
    (w : World) : Except Fault World := do
  if !(← hasText name) then pure w
  else
    let trimmed ← name.trimCall
    Store.updateWith codec w (createWorkspaceMutator clock newId trimmed)

/-- The mutator of `renameWorkspace`; `newName` is the trimmed name. -/
def renameWorkspaceMutator (clock : Clock) (id : JsVal) (newName : JsString) (state : JsVal) :
    Except Fault (JsVal × JsVal) := do
  let workspaces ← (← state.prop "workspaces").items
  let mapped ← mapByKey "id" id (fun ws =>
    pure (objectSpread ws (.obj [("name", .str newName), ("modifiedAt", .str clock.iso)])))
    workspaces
  pure (state, .obj [("workspaces", .arr mapped)])

/-- The action `WorkspaceActions.renameWorkspace(id, newName)`. -/
def renameWorkspace (clock : Clock) (codec : JsonCodec) (id newName : JsVal) (w : World) :
    Except Fault World := do
  if !(← hasText newName) then pure w
  else
    let trimmed ← newName.trimCall
    Store.updateWith codec w (renameWorkspaceMutator clock id trimmed)

/-- The mutator of `deleteWorkspace`. -/
def deleteWorkspaceMutator (id state : JsVal) : Except Fault (JsVal × JsVal) := do
  let workspaces ← (← state.prop "workspaces").items
  let kept ← rejectByKey "id" id workspaces
  -- if (activeId === id) activeId = null
  let activeId : JsVal :=
    if strictEq (state.get "activeWorkspaceId") id then .null
    else state.get "activeWorkspaceId"
  pure (state, .obj [("workspaces", .arr kept), ("activeWorkspaceId", activeId),
                     ("activeAgendaId", .null)])

/-- The action `WorkspaceActions.deleteWorkspace(id)`. -/
def deleteWorkspace (codec : JsonCodec) (id : JsVal) (w : World) : Except Fault World :=
  Store.updateWith codec w (deleteWorkspaceMutator id)

/-- The mutator of `selectWorkspace`. -/
def selectWorkspaceMutator (id state : JsVal) : Except Fault (JsVal × JsVal) := do
  let workspaces ← (← state.prop "workspaces").items
  -- Validate ID exists
  let found ← findByKey "id" id workspaces
  if found.truthy || strictEq id .null then
    pure (state, .obj [("activeWorkspaceId", id), ("activeAgendaId", .null)])
  else pure (state, .obj [])

/-- The action `WorkspaceActions.selectWorkspace(id)`. -/
def selectWorkspace (codec : JsonCodec) (id : JsVal) (w : World) : Except Fault World :=
  Store.updateWith codec w (selectWorkspaceMutator id)

end WorkspaceActions

/-! ## Sample inputs -/

/-- A sample environment: the clock reads 2024-01-01T00:00:00.000Z, a string counts as a
date when it is that reading, and a value inside a template literal is shown as `?`. -/
def sampleEnv : Env where
  now := lit "2024-01-01T00:00:00.000Z"
  dateParses := fun s => decide (s = lit "2024-01-01T00:00:00.000Z")
  display := fun _ => "?"

/-- The object of a document with the given workspaces and active ids. -/
def mkDoc (workspaces : List JsVal) (activeWorkspaceId activeAgendaId : JsVal) : JsVal :=
  .obj [("schemaVersion", .num (.fin 1)), ("workspaces", .arr workspaces),
        ("activeWorkspaceId", activeWorkspaceId), ("activeAgendaId", activeAgendaId)]

/-- A document with one workspace `w1` holding the agenda `ag1`, which has one task and
neither a `columns` nor a `notes` field; both are the active ones. -/
def sampleDoc : JsVal :=
  mkDoc [.obj [("id", .str (lit "w1")), ("agendas", .arr [
    .obj [("id", .str (lit "ag1")), ("tasks", .arr [
      .obj [("id", .str (lit "t1")), ("title", .str (lit "x")),
            ("columnId", .str (lit "zzz"))]])]])]]
    (.str (lit "w1")) (.str (lit "ag1"))

/-- A document whose only agenda holds one note that names itself as its parent. -/
def selfParentDoc : JsVal :=
  mkDoc [.obj [("id", .str (lit "w1")), ("agendas", .arr [
    .obj [("id", .str (lit "ag1")), ("notes", .arr [
      .obj [("id", .str (lit "n1")), ("type", .str (lit "folder")),
            ("parentId", .str (lit "n1"))]])]])]]
    .null .null

/-- A document whose only agenda holds a folder `f1` at the root and a note `n2` in it. -/
def nestedNotesDoc : JsVal :=
  mkDoc [.obj [("id", .str (lit "w1")), ("agendas", .arr [
    .obj [("id", .str (lit "ag1")), ("notes", .arr [
      .obj [("id", .str (lit "f1")), ("type", .str (lit "folder")), ("parentId", .null)],
      .obj [("id", .str (lit "n2")), ("parentId", .str (lit "f1"))]])]])]]
    .null .null

/-- The workspace `w1` with the single agenda `ag1`. -/
def oneWorkspace : List JsVal :=
  [.obj [("id", .str (lit "w1")), ("agendas", .arr [.obj [("id", .str (lit "ag1"))]])]]

/-- The active workspace id names no workspace. -/
def ghostDoc : JsVal := mkDoc oneWorkspace (.str (lit "ghost")) (.str (lit "ag1"))

/-- The active workspace id is the empty string. -/
def emptyWorkspaceIdDoc : JsVal := mkDoc oneWorkspace (.str []) (.str (lit "ag1"))

/-- The active agenda id names no agenda of the active workspace `w1`. -/
def ghostAgendaDoc : JsVal := mkDoc oneWorkspace (.str (lit "w1")) (.str (lit "ghost"))

/-- The active agenda id is the empty string, the active workspace is `w1`. -/
def emptyAgendaIdDoc : JsVal := mkDoc oneWorkspace (.str (lit "w1")) (.str [])

/-- Two workspaces share the id `w1`; only the first one has the active agenda `ag1`. -/
def twinWorkspacesDoc : JsVal :=
  mkDoc [.obj [("id", .str (lit "w1")), ("agendas", .arr [.obj [("id", .str (lit "ag1"))]])],
         .obj [("id", .str (lit "w1")), ("agendas", .arr [])]]
    (.str (lit "w1")) (.str (lit "ag1"))

/-- No workspace is active, and the active agenda id is `ag1`. -/
def agendaOnlyDoc : JsVal := mkDoc oneWorkspace .null (.str (lit "ag1"))

/-- An agenda in the legacy shape: a `journal` array of entries (the second one has no
id) and no `journals` field. -/
def legacyAgenda : JsVal :=
  .obj [("id", .str (lit "ag1")), ("journal", .arr [
    .obj [("id", .str (lit "e1")), ("text", .str (lit " first "))],
    .obj [("text", .str (lit "no id"))],
    .obj [("id", .str (lit "e3")), ("text", .str (lit "third"))]])]

/-- An agenda with an empty `journals` array next to a legacy `journal` array. -/
def emptyJournalsAgenda : JsVal :=
  .obj [("id", .str (lit "ag1")), ("journals", .arr []), ("journal", .arr [
    .obj [("id", .str (lit "e1")), ("text", .str (lit "first"))]])]

/-- A document whose only workspace has a name made of one space. -/
def blankNameDoc : JsVal :=
  mkDoc [.obj [("id", .str (lit "w1")), ("name", .str (lit " "))]] .null .null

/-- A task whose `columnId` is outside the allow-list. -/
def zzzTask : JsVal :=
  .obj [("id", .str (lit "t1")), ("title", .str (lit "x")), ("columnId", .str (lit "zzz"))]

/-- A note whose `type` is neither `folder` nor `note`. -/
def oddTypeNote : JsVal :=
  .obj [("id", .str (lit "n1")), ("type", .str (lit "sheet"))]

/-- A journal with three entries, the second of which has no id. -/
def mixedJournal : JsVal :=
  .obj [("id", .str (lit "j1")), ("entries", .arr [
    .obj [("id", .str (lit "e1"))], .obj [("text", .str (lit "no id"))],
    .obj [("id", .str (lit "e3"))]])]

/-- An agenda with two notes around a rejected one, a `journals` array and the columns
`done` and `later`. -/
def mixedAgenda : JsVal :=
  .obj [("id", .str (lit "ag1")),
    ("notes", .arr [.obj [("id", .str (lit "n1"))], .num (.fin 7),
      .obj [("id", .str (lit "n3"))]]),
    ("journals", .arr [mixedJournal, .null]),
    ("columns", .arr [.obj [("id", .str (lit "done"))], .obj [("id", .str (lit "later"))]])]

/-- A workspace holding `mixedAgenda` between two rejected agendas. -/
def mixedWorkspace : JsVal :=
  .obj [("id", .str (lit "w1")), ("agendas", .arr [.obj [], mixedAgenda, .str (lit "x")])]

/-- The JSON text of the empty initial document. -/
def emptyDocText : JsString :=
  lit ("\x7b\"schemaVersion\":1,\"workspaces\":[]," ++
    "\"activeWorkspaceId\":null,\"activeAgendaId\":null\x7d")

/-- The JSON text of a document without workspaces whose active workspace id is
`"ghost"`. -/
def ghostDocText : JsString :=
  lit ("\x7b\"schemaVersion\":1,\"workspaces\":[]," ++
    "\"activeWorkspaceId\":\"ghost\",\"activeAgendaId\":null\x7d")

/-- A stand-in for `JSON.parse` and `JSON.stringify` that is right on the documents of the
samples: it parses the two texts above and the text `[]`, nothing else, and writes a
document without workspaces as one of the two texts, by its active workspace id. -/
def sampleCodec : JsonCodec where
  parse := fun text =>
    if text = emptyDocText then some (mkDoc [] .null .null)
    else if text = ghostDocText then some (mkDoc [] (.str (lit "ghost")) .null)
    else if text = lit "[]" then some (.arr [])
    else none
  stringify := fun v =>
    match v.get "activeWorkspaceId" with
    | .str _ => ghostDocText
    | _ => emptyDocText

/-- A storage that holds `item` and works. -/
def openStorage (item : Option JsString) : Storage :=
  { item := item, readThrows := false, writeThrows := false }

/-- A storage that holds `item` and refuses every write. -/
def fullStorage (item : Option JsString) : Storage :=
  { item := item, readThrows := false, writeThrows := true }

/-- A storage that refuses every read. -/
def closedStorage (item : Option JsString) : Storage :=
  { item := item, readThrows := true, writeThrows := false }

/-- An initialised store with the listeners 7 and 9, subscribed in this order. -/
def watchedWorld (state : JsVal) (storage : Storage) : World :=
  { store := { state := state, listeners := (ListenerSet.empty.add 7).add 9,
               initialized := true },
    storage := storage, log := [] }

/-- A store that has not been initialised, with the listeners 7 and 9. -/
def newWorld (storage : Storage) : World :=
  { store := { state := getInitialState, listeners := (ListenerSet.empty.add 7).add 9,
               initialized := false },
    storage := storage, log := [] }

/-- The state `{a: 1, b: 2}`. -/
def abState : JsVal := .obj [("a", .num (.fin 1)), ("b", .num (.fin 2))]

/-- The mutator `draft => ({ b: 3 })`. -/
def returnsB : Mutator := fun draft => (draft, .obj [("b", .num (.fin 3))])

/-- The mutator `draft => ({ activeWorkspaceId: "ghost" })`. -/
def selectGhost : Mutator :=
  fun draft => (draft, .obj [("activeWorkspaceId", .str (lit "ghost"))])

/-- The mutator `draft => { draft.activeWorkspaceId = "ghost" }`, which returns nothing. -/
def selectGhostInPlace : Mutator :=
  fun draft =>
    (.obj [("schemaVersion", draft.get "schemaVersion"), ("workspaces", draft.get "workspaces"),
           ("activeWorkspaceId", .str (lit "ghost")),
           ("activeAgendaId", draft.get "activeAgendaId")], .undefined)

/-- Two workspaces share the id `w1`, and the first one has two agendas with the id
`ag1`. -/
def twinIdsDoc : JsVal :=
  mkDoc [.obj [("id", .str (lit "w1")),
               ("agendas", .arr [.obj [("id", .str (lit "ag1"))], .obj [("id", .str (lit "ag1"))]])],
         .obj [("id", .str (lit "w1")), ("agendas", .arr [])]]
    .null .null

/-- An agenda without tasks whose column `todo` lists the task id `ghost`. -/
def ghostTaskAgenda : JsVal :=
  .obj [("id", .str (lit "ag1")), ("tasks", .arr []),
        ("columns", .arr [.obj [("id", .str (lit "todo")), ("title", .str (lit "To Do")),
                                ("taskIds", .arr [.str (lit "ghost")])]])]

/-- A document whose only agenda is `ghostTaskAgenda`. -/
def ghostTaskDoc : JsVal :=
  mkDoc [.obj [("id", .str (lit "w1")), ("agendas", .arr [ghostTaskAgenda])]] .null .null

/-- An agenda with a snippet, a column, a journal and a journal entry that have no id. -/
def silentDropAgenda : JsVal :=
  .obj [("id", .str (lit "ag1")),
        ("snippets", .arr [.obj [("title", .str (lit "no id"))]]),
        ("columns", .arr [.obj [("title", .str (lit "no id"))]]),
        ("journals", .arr [.obj [("name", .str (lit "no id"))],
          .obj [("id", .str (lit "j1")), ("entries", .arr [.obj [("text", .str (lit "no id"))]])]])]

/-- A document whose only agenda is `silentDropAgenda`. -/
def silentDropDoc : JsVal :=
  mkDoc [.obj [("id", .str (lit "w1")), ("agendas", .arr [silentDropAgenda])]] .null .null

/-- A snippet whose code is the letter `a` 100001 times. -/
def longCodeSnippet : JsVal :=
  .obj [("id", .str (lit "s1")), ("code", .str (List.replicate 100001 97))]

/-- A clock reading later than every date of the samples. -/
def laterClock : Clock := { iso := lit "2024-06-01T00:00:00.000Z", ms := 1717200000000 }

/-- The folder `F1` at the root and the folder `F2` in it. -/
def nestedFolders : List JsVal :=
  [.obj [("id", .str (lit "F1")), ("type", .str (lit "folder")), ("title", .str (lit "one")),
         ("parentId", .null)],
   .obj [("id", .str (lit "F2")), ("type", .str (lit "folder")), ("title", .str (lit "two")),
         ("parentId", .str (lit "F1"))]]

/-- The agenda `ag1` with the notes `nestedFolders`. -/
def foldersAgenda : JsVal := .obj [("id", .str (lit "ag1")), ("notes", .arr nestedFolders)]

/-- A document with the workspace `w1`, last modified at the start of 2024, that holds
`foldersAgenda`; both are the active ones. -/
def foldersDoc : JsVal :=
  mkDoc [.obj [("id", .str (lit "w1")), ("modifiedAt", .str (lit "2024-01-01T00:00:00.000Z")),
               ("agendas", .arr [foldersAgenda])]]
    (.str (lit "w1")) (.str (lit "ag1"))

/-- One note `n1` of type `note` at the root. -/
def loneNote : List JsVal :=
  [.obj [("id", .str (lit "n1")), ("type", .str (lit "note")), ("title", .str (lit "n")),
         ("parentId", .null)]]

/-- The agenda `ag1` with the single note `n1`. -/
def loneNoteAgenda : JsVal := .obj [("id", .str (lit "ag1")), ("notes", .arr loneNote)]

/-- An agenda with the active task `t1` in the column `todo`, no finalized task and the
deleted task `t9`. -/
def archiveAgenda : JsVal :=
  .obj [("id", .str (lit "ag1")),
        ("tasks", .arr [.obj [("id", .str (lit "t1")), ("title", .str (lit "one")),
                              ("columnId", .str (lit "todo"))]]),
        ("columns", .arr [.obj [("id", .str (lit "todo")), ("title", .str (lit "To Do")),
                                ("taskIds", .arr [.str (lit "t1")])]]),
        ("deletedTasks", .arr [.obj [("id", .str (lit "t9")), ("title", .str (lit "nine")),
                                     ("columnId", .str (lit "done")),
                                     ("deletedAt", .num (.fin 5))]])]

/-- An agenda with the tasks `t1` in the column `todo` and `t2` in the column `done`. -/
def boardAgenda : JsVal :=
  .obj [("id", .str (lit "ag1")),
        ("tasks", .arr [.obj [("id", .str (lit "t1")), ("columnId", .str (lit "todo"))],
                        .obj [("id", .str (lit "t2")), ("columnId", .str (lit "done"))]]),
        ("columns", .arr [.obj [("id", .str (lit "todo")), ("taskIds", .arr [.str (lit "t1")])],
                          .obj [("id", .str (lit "done")),
                                ("taskIds", .arr [.str (lit "t2")])]])]

/-- A metrics object as `JSON.parse` gives it for the text `\x7b"focusDays":1e999\x7d`: the
number is too large for a double and is read as `Infinity`. -/
def infiniteMetrics : JsVal := .obj [("focusDays", .num .posInf)]

/-- A task whose `dueDate` is the empty string. -/
def emptyDueDateTask : JsVal :=
  .obj [("id", .str (lit "t1")), ("title", .str (lit "x")), ("dueDate", .str [])]

/-- The JSON text of the import scenario. -/
def scenarioText : JsString :=
  lit ("\x7b\"schemaVersion\":1,\"workspaces\":[\x7b\"id\":\"w1\",\"agendas\":[\x7b\"id\":\"ag1\"," ++
    "\"tasks\":[\x7b\"id\":\"t1\",\"title\":\"x\",\"columnId\":\"zzz\"\x7d]\x7d]\x7d]\x7d")

/-- The task of the import scenario. -/
def scenarioTask : JsVal :=
  .obj [("id", .str (lit "t1")), ("title", .str (lit "x")), ("columnId", .str (lit "zzz"))]

/-- The agenda of the import scenario. -/
def scenarioAgenda : JsVal := .obj [("id", .str (lit "ag1")), ("tasks", .arr [scenarioTask])]

/-- The workspace of the import scenario. -/
def scenarioWorkspace : JsVal :=
  .obj [("id", .str (lit "w1")), ("agendas", .arr [scenarioAgenda])]

/-- The document that the text of the import scenario denotes. -/
def scenarioDoc : JsVal :=
  .obj [("schemaVersion", .num (.fin 1)), ("workspaces", .arr [scenarioWorkspace])]

/-- A stand-in for `JSON.parse` and `JSON.stringify` that is right on the text of the import
scenario: it parses that text and nothing else. -/
def scenarioCodec : JsonCodec where
  parse := fun text => if text = scenarioText then some scenarioDoc else none
  stringify := fun _ => scenarioText

/-- Two notes that are each other's parent, and a third one at the root. -/
def cyclicNotes : List JsVal :=
  [.obj [("id", .str (lit "a")), ("type", .str (lit "folder")), ("parentId", .str (lit "b"))],
   .obj [("id", .str (lit "b")), ("type", .str (lit "folder")), ("parentId", .str (lit "a"))],
   .obj [("id", .str (lit "c")), ("type", .str (lit "note")), ("parentId", .null)]]

/-- The document `foldersDoc` with no active workspace. -/
def idleDoc : JsVal :=
  mkDoc [.obj [("id", .str (lit "w1")), ("modifiedAt", .str (lit "2024-01-01T00:00:00.000Z")),
               ("agendas", .arr [foldersAgenda])]] .null .null

/-- The workspace `w1`, last modified at the start of 2024, that holds `archiveAgenda`. -/
def archiveWorkspace : JsVal :=
  .obj [("id", .str (lit "w1")), ("modifiedAt", .str (lit "2024-01-01T00:00:00.000Z")),
        ("agendas", .arr [archiveAgenda])]

/-- A document whose only workspace is `archiveWorkspace`; the workspace and its agenda are
the active ones. -/
def archiveDoc : JsVal := mkDoc [archiveWorkspace] (.str (lit "w1")) (.str (lit "ag1"))

/-- A document with the workspace `w1`, last modified at the start of 2024, that holds
`boardAgenda`; both are the active ones. -/
def boardDoc : JsVal :=
  mkDoc [.obj [("id", .str (lit "w1")), ("modifiedAt", .str (lit "2024-01-01T00:00:00.000Z")),
               ("agendas", .arr [boardAgenda])]]
    (.str (lit "w1")) (.str (lit "ag1"))

/-- The agenda `ag1` with the notes `cyclicNotes`. -/
def cyclicAgenda : JsVal := .obj [("id", .str (lit "ag1")), ("notes", .arr cyclicNotes)]

/-- A document with the workspace `w1`, last modified at the start of 2024, that holds
`cyclicAgenda`; both are the active ones. -/
def cyclicDoc : JsVal :=
  mkDoc [.obj [("id", .str (lit "w1")), ("modifiedAt", .str (lit "2024-01-01T00:00:00.000Z")),
               ("agendas", .arr [cyclicAgenda])]]
    (.str (lit "w1")) (.str (lit "ag1"))

/-! ## Properties stated by the specification -/

/-- The entity a validator returns for `x` (`none` when it rejects `x`), its diagnostics
left aside. -/
def accepted (validate : JsVal → List String → Option JsVal × List String) (x : JsVal) :
    Option JsVal :=
  (validate x []).1

/-- An id as the specification requires it: a string of length between 1 and 99. -/
def IsIdString (v : JsVal) : Prop :=
  ∃ s : JsString, v = .str s ∧ 1 ≤ s.length ∧ s.length ≤ 99

/-- The hard rejection rule of a per-entity validator: the input is rejected exactly when
it is not an object or has no id string of length 1 to 99, and an accepted entity keeps
the id of its input. -/
def RejectsExactlyBadIds (validate : JsVal → List String → Option JsVal × List String) :
    Prop :=
  ∀ (x : JsVal) (errors : List String),
    ((validate x errors).1 = none ↔ ¬ (isObject x = true ∧ IsIdString (x.get "id"))) ∧
    (∀ v, (validate x errors).1 = some v → v.get "id" = x.get "id")

/-- The agenda has a column whose id is the given literal. -/
def hasColumn (agenda : JsVal) (colId : String) : Prop :=
  ∃ c ∈ (agenda.get "columns").elems, c.get "id" = .str (lit colId)

/-- The notes form a forest: from every note, following `parentId` arrives at null within
as many steps as there are notes (the first step goes from the note to its `parentId`). -/
def isForest (notes : List JsVal) : Prop :=
  ∀ n ∈ notes, reachesNull notes (notes.length - 1) (n.get "parentId") = true

instance (notes : List JsVal) : Decidable (isForest notes) := by
  unfold isForest
  infer_instance

/-- The id and parent reference that validation leaves an input note with: none when
the note is rejected, otherwise its id and its `parentId` when that is null or a string,
null when it is anything else. -/
def repairedLink (note : JsVal) : Option JsVal :=
  if isObject note && isValidId (note.get "id") then
    some (.obj [("id", note.get "id"),
      ("parentId", if isNullOrString (note.get "parentId") then note.get "parentId"
                   else .null)])
  else none

/-- Two lists of notes that carry the same ids and parent references, in the same order. -/
def sameLinks (notes notes' : List JsVal) : Prop :=
  notes.map (fun n => (n.get "id", n.get "parentId")) =
    notes'.map (fun n => (n.get "id", n.get "parentId"))

/-- The value is one of the listed strings. -/
def IsOneOf (list : List JsString) (v : JsVal) : Prop := ∃ s ∈ list, v = .str s

/-- The field `field` of `v` is the array field `field` of `x` mapped through the
validator, the rejected elements removed and the order kept. -/
def FilteredField (validate : JsVal → List String → Option JsVal × List String)
    (field : String) (x v : JsVal) : Prop :=
  v.get field = .arr ((x.get field).elems.filterMap (accepted validate))

/-- The empty column that validation adds for a default id. -/
def defaultColumn (colId : JsString) : JsVal :=
  .obj [("id", .str colId), ("title", .str (toUpperCase colId)), ("taskIds", .arr [])]

/-- The default columns missing from a list of columns: one empty column for each of
`todo`, `doing`, `done`, in that order, that is the id of no column of the list. -/
def missingDefaultCols (cols : List JsVal) : List JsVal :=
  ([lit "todo", lit "doing", lit "done"].filter
    (fun d => cols.all (fun c => !strictEq (c.get "id") (.str d)))).map defaultColumn

/-- The snapshots with which `listener` is called in a record of events, in order. -/
def callsOf (listener : Nat) (log : List Event) : List JsVal :=
  log.filterMap (fun e =>
    match e with
    | .called l snapshot => if l = listener then some snapshot else none
    | _ => none)

/-- The events of `w2` that come after those of `w1`. -/
def eventsSince (w1 w2 : World) : List Event := w2.log.drop w1.log.length

/-- Storage gives `loadState` no document: the read throws, there is no text or the empty
one, the text does not parse, or what it parses to is not valid. -/
def NoStoredDocument (env : Env) (codec : JsonCodec) (storage : Storage) : Prop :=
  storage.readThrows = true ∨ storage.item = none ∨ storage.item = some [] ∨
  (∃ text, storage.item = some text ∧ codec.parse text = none) ∨
  (∃ text v, storage.item = some text ∧ codec.parse text = some v ∧
    (deepValidateState env v).valid = false)

/-- Storage can be read and holds a text that parses to `v`, which is valid. -/
def HoldsValidDocument (env : Env) (codec : JsonCodec) (storage : Storage) (v : JsVal) :
    Prop :=
  storage.readThrows = false ∧
  ∃ text, storage.item = some text ∧ text ≠ [] ∧ codec.parse text = some v ∧
    (deepValidateState env v).valid = true

/-- The call is of an unsubscribe function of `listener`. -/
def Op.unsubscribes (listener : Nat) : Op → Bool
  | .unsubscribe l => l == listener
  | _ => false

/-- The call is `subscribe(listener)`. -/
def Op.subscribes (listener : Nat) : Op → Bool
  | .subscribe l => l == listener
  | _ => false

/-- The ids of a list of entities, in order. -/
def idsOf (xs : List JsVal) : List JsVal := xs.map (fun x => x.get "id")

/-- An element that the entity validators keep: an object with a valid id. -/
def hasValidId (x : JsVal) : Bool := isObject x && isValidId (x.get "id")

/-- The string does not end with a whitespace code unit. -/
def NoTrailingWs (l : JsString) : Prop := ∀ c, l.getLast? = some c → isWhiteSpace c = false

/-- The value is a string that `sanitizeString` returned for the cap `cap`. -/
def IsSanitized (v : JsVal) (cap : Nat) : Prop := ∃ x, v = .str (sanitizeString x cap)

/-- The value is a string of at most `cap` code units. -/
def IsStringWithin (v : JsVal) (cap : Nat) : Prop := ∃ s, v = .str s ∧ s.length ≤ cap

/-- The string fields of the notes, tasks and journal entries of an agenda are sanitized
strings, each for the cap of its field (a folder has no content). -/
def SanitizedFields (ag : JsVal) : Prop :=
  (∀ n ∈ (ag.get "notes").elems, IsSanitized (n.get "title") 500 ∧
    (n.get "content" = .undefined ∨ IsSanitized (n.get "content") 100000)) ∧
  (∀ t ∈ (ag.get "tasks").elems ++ (ag.get "finalizedTasks").elems ++
      (ag.get "deletedTasks").elems,
    IsSanitized (t.get "title") 500 ∧ IsSanitized (t.get "description") 10000) ∧
  (∀ j ∈ (ag.get "journals").elems, ∀ e ∈ (j.get "entries").elems,
    IsSanitized (e.get "text") 50000)

/-- The parent relation of the notes has no cycle: from every note, following `parentId`
arrives at null after some number of steps. -/
def Acyclic (notes : List JsVal) : Prop :=
  ∀ n ∈ notes, ∃ steps, reachesNull notes steps (n.get "parentId") = true

/-- Following parent references upward from `current` arrives at `itemId` within `steps`
steps, before the chain ends at a falsy value: `itemId` is `current` itself or an ancestor
of it. -/
def reachesItem (allNotes : List JsVal) (itemId : JsVal) : Nat → JsVal → Bool
  | 0, current => current.truthy && strictEq current itemId
  | steps + 1, current =>
    current.truthy &&
      (strictEq current itemId || reachesItem allNotes itemId steps (parentOf allNotes current))

/-- Every element of the list is an object. -/
def AllObjects (xs : List JsVal) : Prop := ∀ x ∈ xs, isObject x = true

/-- The notes of an agenda as the actions expect them: an array of objects with truthy
ids. -/
def HasNotes (agenda : JsVal) (notes : List JsVal) : Prop :=
  isObject agenda = true ∧ agenda.get "notes" = .arr notes ∧
  ∀ n ∈ notes, isObject n = true ∧ (n.get "id").truthy = true

/-- The workspace `ws2` is `ws1` with a new `modifiedAt`, the clock reading, and every
other property as it was. -/
def OnlyStamped (clock : Clock) (ws1 ws2 : JsVal) : Prop :=
  ∀ key, ws2.get key = if key = "modifiedAt" then .str clock.iso else ws1.get key

/-- A document as the actions that rebuild it expect it: the active workspace id is
`active`, a truthy value, the workspaces are the objects `wss`, and in each workspace with
the active id the agendas are an array of objects. -/
def HasWorkspaces (state active : JsVal) (wss : List JsVal) : Prop :=
  state.get "activeWorkspaceId" = active ∧ active.truthy = true ∧
  state.get "workspaces" = .arr wss ∧
  ∀ ws ∈ wss, isObject ws = true ∧
    (strictEq (ws.get "id") active = true →
      isArray (ws.get "agendas") = true ∧ AllObjects (ws.get "agendas").elems)

/-- The agenda is addressed by an action on `state`: it has the id `agendaId` and lies in
a workspace with the active id. -/
def Addressed (state agendaId agenda : JsVal) : Prop :=
  ∃ ws ∈ (state.get "workspaces").elems,
    strictEq (ws.get "id") (state.get "activeWorkspaceId") = true ∧
    agenda ∈ (ws.get "agendas").elems ∧ strictEq (agenda.get "id") agendaId = true

/-- The ids of the tasks of an agenda across its three lists: active, finalized and
deleted. -/
def archiveIds (agenda : JsVal) : List JsVal :=
  idsOf (agenda.get "tasks").elems ++ idsOf (agenda.get "finalizedTasks").elems ++
    idsOf (agenda.get "deletedTasks").elems

/-- Every task id occurs exactly once across `tasks`, `finalizedTasks` and
`deletedTasks`. -/
def Exclusive (agenda : JsVal) : Prop := (archiveIds agenda).Nodup

/-- The task lists of an agenda as the archival actions expect them: `tasks` and `columns`
are arrays of objects, the `taskIds` of every column are an array, and each of
`finalizedTasks` and `deletedTasks` is absent or an array of objects. -/
def TaskLists (agenda : JsVal) : Prop :=
  isObject agenda = true ∧
  isArray (agenda.get "tasks") = true ∧ AllObjects (agenda.get "tasks").elems ∧
  isArray (agenda.get "columns") = true ∧
  (∀ c ∈ (agenda.get "columns").elems, isObject c = true ∧ isArray (c.get "taskIds") = true) ∧
  (agenda.get "finalizedTasks" = .undefined ∨ isArray (agenda.get "finalizedTasks") = true) ∧
  AllObjects (agenda.get "finalizedTasks").elems ∧
  (agenda.get "deletedTasks" = .undefined ∨ isArray (agenda.get "deletedTasks") = true) ∧
  AllObjects (agenda.get "deletedTasks").elems

/-- From `agenda1` to `agenda2` the task `task` has left the list `source`, where it was
the first one with the id `taskId`, and has become, as `moved` with the same id, the last
element of the list `target`; the list `other` is as it was. -/
def MovedBetween (source target other : String) (taskId agenda1 agenda2 task moved : JsVal) :
    Prop :=
  ∃ i, (agenda1.get source).elems.findIdx? (fun t => strictEq (t.get "id") taskId) = some i ∧
    (agenda1.get source).elems[i]? = some task ∧
    agenda2.get source = .arr ((agenda1.get source).elems.eraseIdx i) ∧
    agenda2.get target = .arr ((agenda1.get target).elems ++ [moved]) ∧
    agenda2.get other = agenda1.get other ∧
    moved.get "id" = task.get "id"

/-- The task ids that the columns list, column after column. -/
def columnTaskIds (columns : List JsVal) : List JsVal :=
  columns.flatMap (fun c => (c.get "taskIds").elems)

/-- How often the value occurs in a list of ids. -/
def occurrences (v : JsVal) (ids : List JsVal) : Nat :=
  (ids.filter (fun id => strictEq id v)).length

/-- Each task of `tasks` is listed at most once by the columns, and only by a column whose
id is the task's `columnId`. -/
def InOneColumn (tasks columns : List JsVal) : Prop :=
  ∀ t ∈ tasks,
    occurrences (t.get "id") (columnTaskIds columns) ≤ 1 ∧
    ∀ c ∈ columns, occurrences (t.get "id") (c.get "taskIds").elems ≠ 0 →
      strictEq (c.get "id") (t.get "columnId") = true

/-- The board of an agenda as `moveTask` expects it: `tasks` is an array of objects and
`columns` an array of objects whose ids are truthy (as non-empty strings are) and whose
`taskIds` are arrays. -/
def HasBoard (agenda : JsVal) (tasks columns : List JsVal) : Prop :=
  isObject agenda = true ∧ agenda.get "tasks" = .arr tasks ∧ AllObjects tasks ∧
  agenda.get "columns" = .arr columns ∧
  ∀ c ∈ columns, isObject c = true ∧ isArray (c.get "taskIds") = true ∧
    (c.get "id").truthy = true

/-- The value is a number that is a non-negative integer. -/
def IsNonNegInteger (v : JsVal) : Prop := ∃ n : Nat, v = .num (.fin (n : ℚ))

/-- The value is a string that parses as a date. -/
def ParsesAsDate (env : Env) (v : JsVal) : Prop := ∃ s, v = .str s ∧ env.dateParses s = true

/-- The ids of a column other than the task id, in their order. -/
def otherIds (taskId : JsVal) (ids : List JsVal) : List JsVal :=
  ids.filter (fun id => !strictEq id taskId)

/-- The position `k` is the one that the index `newIndex` asks for in a list of `length`
ids: `newIndex` itself when it is an integer between 0 and `length`; its integer part when
it is a fraction in that range; and the end of the list, `length`, in every other case: a
negative index, one above `length`, an infinite one, and NaN, which is what an index that is
left out behaves as. -/
def RequestedPosition (newIndex : JsNum) (length k : Nat) : Prop :=
  (∀ n : Nat, newIndex = .fin (n : ℚ) → n ≤ length → k = n) ∧
  (∀ q : ℚ, newIndex = .fin q → 0 ≤ q → q ≤ (length : ℚ) →
    (k : ℚ) ≤ q ∧ q < (k : ℚ) + 1) ∧
  ((∀ q : ℚ, newIndex = .fin q → ¬ (0 ≤ q ∧ q ≤ (length : ℚ))) → k = length)

/-- The value is a primitive: not an array and not an object. -/
def isPrimitive (v : JsVal) : Bool :=
  match v with
  | .arr _ => false
  | .obj _ => false
  | _ => true

/-- The id is the id of the item or of a note below it: it is `itemId`, or the id of a
note that has a parent link to such an id. A note has a parent link when its `parentId` is
truthy; a note at the root, whose `parentId` is null, has none. -/
inductive Below (notes : List JsVal) (itemId : JsVal) : JsVal → Prop
  | item : Below notes itemId itemId
  | child (n : JsVal) : n ∈ notes → (n.get "parentId").truthy = true →
      Below notes itemId (n.get "parentId") → Below notes itemId (n.get "id")

/-- The `id` and the `parentId` of every note are primitive values (strings or null, as in
every validated or created note). -/
def PrimitiveLinks (notes : List JsVal) : Prop :=
  ∀ n ∈ notes, isPrimitive (n.get "id") = true ∧ isPrimitive (n.get "parentId") = true

/-- From the agenda `a` to `a2` the item `itemId` and the notes below it have been
removed: the notes of `a2` are, in their order, the notes of `a` whose id is neither
`itemId` nor the id of a note below it; every other property of the agenda is as before;
and no note that stays has a `parentId` equal to the id of a note that was removed. -/
def NotesDeleted (itemId a a2 : JsVal) : Prop :=
  ∃ keep : JsVal → Bool,
    (∀ n ∈ (a.get "notes").elems,
      keep n = true ↔ ¬ Below (a.get "notes").elems itemId (n.get "id")) ∧
    a2.get "notes" = .arr ((a.get "notes").elems.filter keep) ∧
    (∀ key, key ≠ "notes" → a2.get key = a.get key) ∧
    ∀ n ∈ (a.get "notes").elems.filter keep, ∀ r ∈ (a.get "notes").elems,
      r ∉ (a.get "notes").elems.filter keep → n.get "parentId" ≠ r.get "id"

/-- The active workspace id is null or the id of a workspace of the document. -/
def SoundActive (state : JsVal) : Prop :=
  state.get "activeWorkspaceId" = .null ∨
  ∃ ws ∈ (state.get "workspaces").elems, ws.get "id" = state.get "activeWorkspaceId"

/-- A document whose workspaces are the objects `wss`, each with a non-empty string as
id. -/
def WorkspaceList (state : JsVal) (wss : List JsVal) : Prop :=
  isObject state = true ∧ state.get "workspaces" = .arr wss ∧
  ∀ ws ∈ wss, isObject ws = true ∧ ∃ s : JsString, ws.get "id" = .str s ∧ s ≠ []

/-- A document in which no workspace has the active workspace id (which is so when that id
is null, since no workspace has the id null): an object with distinct keys whose workspaces
are the objects `wss`. -/
def NoActiveWorkspace (state : JsVal) (wss : List JsVal) : Prop :=
  (∃ fields, state = .obj fields ∧ (fields.map Prod.fst).Nodup) ∧
  state.get "workspaces" = .arr wss ∧ AllObjects wss ∧
  ∀ ws ∈ wss, strictEq (ws.get "id") (state.get "activeWorkspaceId") = false

/-- The action returns and leaves the document of the store as it was. -/
def KeepsDocument (w : World) (result : Except Fault World) : Prop :=
  ∃ w2, result = .ok w2 ∧ Store.getState w2 = Store.getState w

/-- From the workspace `ws` to `ws2` every agenda with the id `agendaId` has changed as `R`
says and every other agenda is as it was, all at their places; `modifiedAt` is the clock
reading and every other property of the workspace is as before. -/
def AgendasRebuilt (clock : Clock) (agendaId : JsVal) (R : JsVal → JsVal → Prop)
    (ws ws2 : JsVal) : Prop :=
  ws2.get "modifiedAt" = .str clock.iso ∧
  (∀ key, key ≠ "agendas" → key ≠ "modifiedAt" → ws2.get key = ws.get key) ∧
  ∃ agendas2, ws2.get "agendas" = .arr agendas2 ∧
    List.Forall₂ (fun a a2 => if strictEq (a.get "id") agendaId = true then R a a2 else a2 = a)
      (ws.get "agendas").elems agendas2

/-- From the document `state` to `state2` the addressed agendas (those with the id
`agendaId` in a workspace with the active id) have changed as `R` says: every workspace
with the active id has its agendas rebuilt and the clock reading as `modifiedAt`, every
other workspace is as it was, all at their places, and every property of the document
other than `workspaces` is as before. -/
def Rebuilt (clock : Clock) (agendaId : JsVal) (R : JsVal → JsVal → Prop)
    (state state2 : JsVal) : Prop :=
  (∀ key, key ≠ "workspaces" → state2.get key = state.get key) ∧
  ∃ wss2, state2.get "workspaces" = .arr wss2 ∧
    List.Forall₂ (fun ws ws2 =>
      if strictEq (ws.get "id") (state.get "activeWorkspaceId") = true then
        AgendasRebuilt clock agendaId R ws ws2
      else ws2 = ws) (state.get "workspaces").elems wss2

/-- What the actions that change the draft in place look up with `find`: the workspaces of
the document are objects, the first one with the active id is `ws` at place `i`, its
agendas are objects, and the first one with the id `agendaId` is `agenda` at place `j`. -/
def FirstAddressed (state agendaId : JsVal) (i : Nat) (ws : JsVal) (j : Nat)
    (agenda : JsVal) : Prop :=
  isArray (state.get "workspaces") = true ∧ AllObjects (state.get "workspaces").elems ∧
  (state.get "workspaces").elems.findIdx?
    (fun ws => strictEq (ws.get "id") (state.get "activeWorkspaceId")) = some i ∧
  (state.get "workspaces").elems[i]? = some ws ∧
  isArray (ws.get "agendas") = true ∧ AllObjects (ws.get "agendas").elems ∧
  (ws.get "agendas").elems.findIdx? (fun a => strictEq (a.get "id") agendaId) = some j ∧
  (ws.get "agendas").elems[j]? = some agenda

/-- From the document `state` to `state2` the agenda at place `j` of the workspace `ws` at
place `i` has become `a2` and that workspace has the clock reading as `modifiedAt`; every
other agenda of the workspace, every other property of it, every other workspace and every
other property of the document are as before. -/
def AgendaChanged (clock : Clock) (i : Nat) (ws : JsVal) (j : Nat) (a2 state state2 : JsVal) :
    Prop :=
  (∀ key, key ≠ "workspaces" → state2.get key = state.get key) ∧
  ∃ ws2, state2.get "workspaces" = .arr ((state.get "workspaces").elems.set i ws2) ∧
    ws2.get "agendas" = .arr ((ws.get "agendas").elems.set j a2) ∧
    ws2.get "modifiedAt" = .str clock.iso ∧
    ∀ key, key ≠ "agendas" → key ≠ "modifiedAt" → ws2.get key = ws.get key

/-! ## Notions used in the proofs -/

/-- A validator whose returned entity does not depend on the diagnostics collected so
far. -/
def ErrorsBlind (validate : JsVal → List String → Option JsVal × List String) : Prop :=
  ∀ x errors, (validate x errors).1 = accepted validate x

/-- The string does not start with a whitespace code unit. -/
def NoLeadingWs (l : JsString) : Prop := ∀ c, l.head? = some c → isWhiteSpace c = false

/-- The value is a string that `sanitizeString` returned for the cap `cap`, from some value
`x`: it does not start with whitespace; it does not end with whitespace when it was not cut,
that is, when `x` is no string (the result is empty) or a string whose trimmed form has at
most `cap` code units; and it was not cut whenever it is shorter than `cap`. -/
def TrimmedUnlessCut (v : JsVal) (cap : Nat) : Prop :=
  ∃ x : JsVal, v = .str (sanitizeString x cap) ∧ NoLeadingWs v.chars ∧
    ((∀ s, x = .str s → (trim s).length ≤ cap) → NoTrailingWs v.chars) ∧
    (v.chars.length < cap → NoTrailingWs v.chars)

/-- A tag as validation leaves it: a trimmed string shorter than 50. -/
def IsCleanTag (t : JsVal) : Prop := ∃ u : JsString, t = .str u ∧ trim u = u ∧ u.length < 50

/-- The list of columns has a column for each default id. -/
def HasDefaultCols (cols : List JsVal) : Prop :=
  ∀ d ∈ defaultCols, ∃ c ∈ cols, c.get "id" = .str d

/-- A column that `validateColumn` accepts under the same id, and whose validated form is
returned unchanged by a further validation. -/
def SettlesColumn (c : JsVal) : Prop :=
  (∃ z, accepted validateColumn c = some z ∧ z.get "id" = c.get "id") ∧
  ∀ z, accepted validateColumn c = some z → accepted validateColumn z = some z

/-- The diagnostics that a validator adds for `x`. -/
def diagnostics (validate : JsVal → List String → Option JsVal × List String) (x : JsVal) :
    List String :=
  (validate x []).2

/-- A validator that only appends to the diagnostics collected so far. -/
def Appends (validate : JsVal → List String → Option JsVal × List String) : Prop :=
  ∀ x errors, (validate x errors).2 = errors ++ diagnostics validate x

/-- A validator that never adds a diagnostic. -/
def Silent (validate : JsVal → List String → Option JsVal × List String) : Prop :=
  ∀ x errors, (validate x errors).2 = errors

/-- The note as `moveItem` leaves it: with the new parent and a new `modifiedAt` when its
id is `itemId`, unchanged otherwise. -/
def movedNote (clock : Clock) (itemId newParentId n : JsVal) : JsVal :=
  if strictEq (n.get "id") itemId then
    objectSpread n (.obj [("parentId", newParentId), ("modifiedAt", .str clock.iso)])
  else n

/-- The workspace as the frame `rebuildAgenda` leaves it, for a body that maps an agenda
`a` to `g a`. -/
def rebuiltWorkspace (clock : Clock) (active agendaId : JsVal) (g : JsVal → JsVal)
    (ws : JsVal) : JsVal :=
  if strictEq (ws.get "id") active then
    objectSpread ws
      (.obj [("agendas", .arr ((ws.get "agendas").elems.map
          (fun a => if strictEq (a.get "id") agendaId then g a else a))),
        ("modifiedAt", .str clock.iso)])
  else ws

/-- The column that `moveTask` puts in front when no column has the id `backlog`. -/
def backlogColumn : JsVal :=
  .obj [("id", .str (lit "backlog")), ("title", .str (lit "Backlog")), ("taskIds", .arr [])]

/-- The columns with the backlog column in front when none has the id `backlog`. -/
def backlogged (columns : List JsVal) : List JsVal :=
  if (columns.find? (fun c => strictEq (c.get "id") (.str (lit "backlog")))).isNone then
    backlogColumn :: columns
  else columns

/-- The column without the task id, when it is an old column of the task. -/
def clearedColumn (taskId oldColumnId col : JsVal) : JsVal :=
  if strictEq (col.get "id") oldColumnId then
    objectSpread col (.obj [("taskIds",
      .arr ((col.get "taskIds").elems.filter (fun id => !strictEq id taskId)))])
  else col

/-- The column with the task id spliced into its `taskIds`. -/
def filledColumn (taskId : JsVal) (newIndex : JsNum) (col : JsVal) : JsVal :=
  objectSpread col (.obj [("taskIds", .arr (TaskActions.spliceIn (col.get "taskIds").elems
    (TaskActions.insertIndex newIndex (col.get "taskIds").elems.length) taskId))])

/-- The columns with the task id spliced into the first column with the target id. -/
def filledColumns (taskId targetColumnId : JsVal) (newIndex : JsNum)
    (columns : List JsVal) : List JsVal :=
  match columns.findIdx? (fun c => strictEq (c.get "id") targetColumnId) with
  | none => columns
  | some i => columns.set i (filledColumn taskId newIndex (columns.getD i .undefined))

/-- The columns of the agenda after `moveTask` of the task `task`. -/
def movedColumns (taskId targetColumnId : JsVal) (newIndex : JsNum) (task : JsVal)
    (columns : List JsVal) : List JsVal :=
  filledColumns taskId targetColumnId newIndex
    ((backlogged columns).map
      (clearedColumn taskId (orElse (task.get "columnId") (.str (lit "backlog")))))

/-- The tasks of the agenda after `moveTask` of the task `task`. -/
def movedTasks (taskId targetColumnId task : JsVal) (tasks : List JsVal) : List JsVal :=
  tasks.map (fun t =>
    if strictEq (t.get "id") taskId then objectSpread task (.obj [("columnId", targetColumnId)])
    else t)

/-- From the agenda `a` to `a2` the task `taskId` has been moved to the column
`targetColumnId` at the index `newIndex`. The agenda has a first task `task` with the id
and a first column with the target id, at place `i` of its columns (counted with the empty
backlog column that `moveTask` puts in front when no column has the id `backlog`). The
tasks keep their ids and every task with the id `taskId` has the column id
`targetColumnId`; every column keeps its place and its id, and the ids other than `taskId`
keep their order in it; a column with the old column id of the task (its `columnId`, or
`backlog` when that is missing) other than the target no longer lists `taskId`, and any
other column but the target is unchanged; in the target column `taskId` stands at the
position that `newIndex` asks for among the `L` ids that the column has after the removal,
the ids around it being those ids; every property of the agenda other than `tasks` and
`columns` is as before. -/
def TaskPlaced (taskId targetColumnId : JsVal) (newIndex : JsNum) (a a2 : JsVal) : Prop :=
  ∃ task i,
    (a.get "tasks").elems.find? (fun t => strictEq (t.get "id") taskId) = some task ∧
    (backlogged (a.get "columns").elems).findIdx?
      (fun c => strictEq (c.get "id") targetColumnId) = some i ∧
    (∀ key, key ≠ "tasks" → key ≠ "columns" → a2.get key = a.get key) ∧
    idsOf (a2.get "tasks").elems = idsOf (a.get "tasks").elems ∧
    (∀ u ∈ (a2.get "tasks").elems, strictEq (u.get "id") taskId = true →
      u.get "columnId" = targetColumnId) ∧
    (a2.get "columns").elems.length = (backlogged (a.get "columns").elems).length ∧
    ∀ p c0, (backlogged (a.get "columns").elems)[p]? = some c0 →
      ∃ c, (a2.get "columns").elems[p]? = some c ∧ c.get "id" = c0.get "id" ∧
        otherIds taskId (c.get "taskIds").elems = otherIds taskId (c0.get "taskIds").elems ∧
        (p ≠ i → strictEq (c0.get "id")
            (orElse (task.get "columnId") (.str (lit "backlog"))) = true →
          occurrences taskId (c.get "taskIds").elems = 0) ∧
        (p ≠ i → strictEq (c0.get "id")
            (orElse (task.get "columnId") (.str (lit "backlog"))) = false → c = c0) ∧
        (p = i → ∀ rest, rest = (if strictEq (c0.get "id")
              (orElse (task.get "columnId") (.str (lit "backlog")))
            then otherIds taskId (c0.get "taskIds").elems else (c0.get "taskIds").elems) →
          ∃ k, RequestedPosition newIndex rest.length k ∧
            (c.get "taskIds").elems[k]? = some taskId ∧
            (c.get "taskIds").elems.eraseIdx k = rest)

/-- The test of `deleteItem` on a note during a pass: its parent is marked and it is not. -/
def toMark (toDelete : List JsVal) (n : JsVal) : Bool :=
  (n.get "parentId").truthy && toDelete.any (sameValueZero (n.get "parentId")) &&
    !toDelete.any (sameValueZero (n.get "id"))

/-- The notes whose id is not marked yet. -/
def unmarked (notes toDelete : List JsVal) : Nat :=
  notes.countP (fun n => !toDelete.any (sameValueZero (n.get "id")))

/-- What the marked ids have in common: each is the id of the item or of a note below
it. -/
def AllBelow (notes : List JsVal) (itemId : JsVal) (toDelete : List JsVal) : Prop :=
  ∀ e ∈ toDelete, Below notes itemId e

/-! ## Basic facts about values -/

@[simp] theorem get_obj_nil (k : String) : (JsVal.obj []).get k = .undefined := rfl

@[simp] theorem get_obj_cons (k k' : String) (v : JsVal) (fs : List (String × JsVal)) :
    (JsVal.obj ((k, v) :: fs)).get k' = if k' = k then v else (JsVal.obj fs).get k' := by
  by_cases h : k' = k
  · simp [JsVal.get, List.lookup, h]
  · have : (k' == k) = false := by simpa using h
    simp [JsVal.get, List.lookup, h, this]

@[simp] theorem elems_arr (xs : List JsVal) : (JsVal.arr xs).elems = xs := rfl

theorem isValidId_iff (v : JsVal) : isValidId v = true ↔ IsIdString v := by
  unfold IsIdString
  cases v <;> simp [isValidId]
  omega

theorem truthy_of_isValidId {v : JsVal} (h : isValidId v = true) : v.truthy = true := by
  cases v <;> simp_all [isValidId, JsVal.truthy]
  rintro rfl
  simp at h

theorem isObject_iff (v : JsVal) : isObject v = true ↔ ∃ fields, v = .obj fields := by
  cases v <;> simp [isObject]

theorem strictEq_schemaVersion (v : JsVal) :
    strictEq v SCHEMA_VERSION = true ↔ v = .num (.fin 1) := by
  unfold SCHEMA_VERSION
  cases v with
  | num n => cases n <;> simp [strictEq]
  | _ => simp [strictEq]

/-- How an id field is computed and tested by every validator. -/
theorem idField_truthy (v : JsVal) :
    (if isValidId v = true then v else JsVal.null).truthy = isValidId v := by
  by_cases h : isValidId v = true
  · simp [h, truthy_of_isValidId h]
  · simp [h, JsVal.truthy]

theorem rejectsExactlyBadIds_of
    (validate : JsVal → List String → Option JsVal × List String)
    (hrej : ∀ x errors, ¬ (isObject x = true ∧ isValidId (x.get "id") = true) →
      (validate x errors).1 = none)
    (hacc : ∀ x errors, isObject x = true → isValidId (x.get "id") = true →
      ∃ v, (validate x errors).1 = some v ∧ v.get "id" = x.get "id") :
    RejectsExactlyBadIds validate := by
  intro x errors
  by_cases h : isObject x = true ∧ isValidId (x.get "id") = true
  · obtain ⟨v, hv, hid⟩ := hacc x errors h.1 h.2
    refine ⟨?_, ?_⟩
    · rw [hv]
      simp only [reduceCtorEq, false_iff, not_not]
      exact ⟨h.1, (isValidId_iff _).1 h.2⟩
    · intro w hw
      rw [hv] at hw
      cases hw
      exact hid
  · have hn := hrej x errors h
    refine ⟨?_, ?_⟩
    · rw [hn]
      simp only [true_iff]
      intro hc
      exact h ⟨hc.1, (isValidId_iff _).2 hc.2⟩
    · intro w hw
      rw [hn] at hw
      cases hw

/-! ## Validation results -/

/-- C1: `deepValidateState` answers valid exactly for an object whose `schemaVersion` is 1
and whose `workspaces` is an array, then with a state that is not null; for every other
input it answers invalid, with a null state and at least one diagnostic. -/
theorem deepValidateState_valid_iff (env : Env) (state : JsVal) :
    (isObject state = true ∧ state.get "schemaVersion" = .num (.fin 1) ∧
        isArray (state.get "workspaces") = true ∧
        (deepValidateState env state).valid = true ∧
        (deepValidateState env state).state ≠ .null) ∨
    (¬ (isObject state = true ∧ state.get "schemaVersion" = .num (.fin 1) ∧
          isArray (state.get "workspaces") = true) ∧
        (deepValidateState env state).valid = false ∧
        (deepValidateState env state).state = .null ∧
        (deepValidateState env state).errors ≠ []) := by
  by_cases hobj : isObject state = true
  · obtain ⟨fields, rfl⟩ := (isObject_iff _).1 hobj
    by_cases hver : strictEq ((JsVal.obj fields).get "schemaVersion") SCHEMA_VERSION = true
    · have hver' := (strictEq_schemaVersion _).1 hver
      by_cases harr : isArray ((JsVal.obj fields).get "workspaces") = true
      · left
        refine ⟨hobj, hver', harr, ?_, ?_⟩ <;>
          simp [deepValidateState, JsVal.truthy, JsVal.typeofObject, hver, harr]
      · right
        refine ⟨fun h => harr h.2.2, ?_, ?_, ?_⟩ <;>
          simp [deepValidateState, JsVal.truthy, JsVal.typeofObject, hver, harr]
    · right
      have hver' : ¬ (JsVal.obj fields).get "schemaVersion" = .num (.fin 1) :=
        fun h => hver ((strictEq_schemaVersion _).2 h)
      refine ⟨fun h => hver' h.2.1, ?_, ?_, ?_⟩ <;>
        simp [deepValidateState, JsVal.truthy, JsVal.typeofObject, hver]
  · right
    refine ⟨fun h => hobj h.1, ?_⟩
    cases state with
    | obj fields => simp [isObject] at hobj
    | arr xs =>
      have hver : strictEq ((JsVal.arr xs).get "schemaVersion") SCHEMA_VERSION = false := by
        simp [JsVal.get, strictEq, SCHEMA_VERSION]
      simp [deepValidateState, JsVal.truthy, JsVal.typeofObject, hver]
    | num n => cases n <;> simp [deepValidateState, JsVal.truthy, JsVal.typeofObject]
    | _ => simp [deepValidateState, JsVal.truthy, JsVal.typeofObject]

/-! ## The hard rejection rule -/

theorem validateNote_rejects (env : Env) : RejectsExactlyBadIds (validateNote env) := by
  apply rejectsExactlyBadIds_of
  · intro x errors h
    by_cases hobj : isObject x = true
    · have hid : isValidId (x.get "id") = false := by simpa [hobj] using h
      simp [validateNote, hobj, hid, JsVal.truthy]
    · simp [validateNote, hobj]
  · intro x errors hobj hid
    simp [validateNote, hobj, hid, truthy_of_isValidId hid]

theorem validateTask_rejects (env : Env) : RejectsExactlyBadIds (validateTask env) := by
  apply rejectsExactlyBadIds_of
  · intro x errors h
    by_cases hobj : isObject x = true
    · have hid : isValidId (x.get "id") = false := by simpa [hobj] using h
      simp [validateTask, hobj, hid, JsVal.truthy]
    · simp [validateTask, hobj]
  · intro x errors hobj hid
    simp [validateTask, hobj, hid, truthy_of_isValidId hid]

theorem validateJournalEntry_rejects (env : Env) :
    RejectsExactlyBadIds (validateJournalEntry env) := by
  apply rejectsExactlyBadIds_of
  · intro x errors h
    by_cases hobj : isObject x = true
    · have hid : isValidId (x.get "id") = false := by simpa [hobj] using h
      simp [validateJournalEntry, hobj, hid, JsVal.truthy]
    · simp [validateJournalEntry, hobj]
  · intro x errors hobj hid
    simp [validateJournalEntry, hobj, hid, truthy_of_isValidId hid]

theorem validateJournal_rejects (env : Env) : RejectsExactlyBadIds (validateJournal env) := by
  apply rejectsExactlyBadIds_of
  · intro x errors h
    by_cases hobj : isObject x = true
    · have hid : isValidId (x.get "id") = false := by simpa [hobj] using h
      simp [validateJournal, hobj, hid, JsVal.truthy]
    · simp [validateJournal, hobj]
  · intro x errors hobj hid
    simp [validateJournal, hobj, hid, truthy_of_isValidId hid]

theorem validateSnippet_rejects (env : Env) : RejectsExactlyBadIds (validateSnippet env) := by
  apply rejectsExactlyBadIds_of
  · intro x errors h
    by_cases hobj : isObject x = true
    · have hid : isValidId (x.get "id") = false := by simpa [hobj] using h
      simp [validateSnippet, hobj, hid, JsVal.truthy]
    · simp [validateSnippet, hobj]
  · intro x errors hobj hid
    simp [validateSnippet, hobj, hid, truthy_of_isValidId hid]

theorem validateColumn_rejects : RejectsExactlyBadIds validateColumn := by
  apply rejectsExactlyBadIds_of
  · intro x errors h
    by_cases hobj : isObject x = true
    · have hid : isValidId (x.get "id") = false := by simpa [hobj] using h
      simp [validateColumn, hobj, hid, JsVal.truthy]
    · simp [validateColumn, hobj]
  · intro x errors hobj hid
    simp [validateColumn, hobj, hid, truthy_of_isValidId hid]

theorem validateAgenda_rejects (env : Env) : RejectsExactlyBadIds (validateAgenda env) := by
  apply rejectsExactlyBadIds_of
  · intro x errors h
    by_cases hobj : isObject x = true
    · have hid : isValidId (x.get "id") = false := by simpa [hobj] using h
      simp [validateAgenda, hobj, hid, JsVal.truthy]
    · simp [validateAgenda, hobj]
  · intro x errors hobj hid
    simp [validateAgenda, hobj, hid, truthy_of_isValidId hid]

theorem validateWorkspace_rejects (env : Env) :
    RejectsExactlyBadIds (validateWorkspace env) := by
  apply rejectsExactlyBadIds_of
  · intro x errors h
    by_cases hobj : isObject x = true
    · have hid : isValidId (x.get "id") = false := by simpa [hobj] using h
      simp [validateWorkspace, hobj, hid, JsVal.truthy]
    · simp [validateWorkspace, hobj]
  · intro x errors hobj hid
    simp [validateWorkspace, hobj, hid, truthy_of_isValidId hid]

/-- C3: each per-entity validator rejects its input exactly when the input is not an
object or its id is not a string of length 1 to 99, whatever the other fields are, and an
accepted entity keeps the id of its input. -/
theorem entity_validators_reject_exactly_bad_ids (env : Env) :
    RejectsExactlyBadIds (validateNote env) ∧ RejectsExactlyBadIds (validateTask env) ∧
    RejectsExactlyBadIds (validateJournalEntry env) ∧
    RejectsExactlyBadIds (validateJournal env) ∧
    RejectsExactlyBadIds (validateSnippet env) ∧ RejectsExactlyBadIds validateColumn ∧
    RejectsExactlyBadIds (validateAgenda env) ∧ RejectsExactlyBadIds (validateWorkspace env) :=
  ⟨validateNote_rejects env, validateTask_rejects env, validateJournalEntry_rejects env,
   validateJournal_rejects env, validateSnippet_rejects env, validateColumn_rejects,
   validateAgenda_rejects env, validateWorkspace_rejects env⟩

/-! ## The collection loops -/

theorem forEachPush_fst (validate : JsVal → List String → Option JsVal × List String)
    (hv : ErrorsBlind validate) (xs out : List JsVal) (errors : List String) :
    (forEachPush validate xs out errors).1 = out ++ xs.filterMap (accepted validate) := by
  induction xs generalizing out errors with
  | nil => simp [forEachPush]
  | cons x xs ih =>
    have hx := hv x errors
    rcases hfx : validate x errors with ⟨o, e1⟩
    rw [hfx] at hx
    cases o with
    | none =>
      simp only [forEachPush, hfx, ih]
      simp [List.filterMap_cons, ← hx]
    | some v =>
      simp only [forEachPush, hfx, ih]
      simp [List.filterMap_cons, ← hx]

theorem validateNote_blind (env : Env) : ErrorsBlind (validateNote env) := by
  intro x errors
  unfold accepted validateNote
  by_cases hobj : isObject x = true
  · by_cases hid : isValidId (x.get "id") = true
    · simp [hobj, hid, truthy_of_isValidId hid]
    · simp [hobj, hid, JsVal.truthy]
  · simp [hobj]

theorem validateTask_blind (env : Env) : ErrorsBlind (validateTask env) := by
  intro x errors
  unfold accepted validateTask
  by_cases hobj : isObject x = true
  · by_cases hid : isValidId (x.get "id") = true
    · simp [hobj, hid, truthy_of_isValidId hid]
    · simp [hobj, hid, JsVal.truthy]
  · simp [hobj]

theorem validateJournalEntry_blind (env : Env) : ErrorsBlind (validateJournalEntry env) := by
  intro x errors
  unfold accepted validateJournalEntry
  by_cases hobj : isObject x = true
  · by_cases hid : isValidId (x.get "id") = true
    · simp [hobj, hid, truthy_of_isValidId hid]
    · simp [hobj, hid, JsVal.truthy]
  · simp [hobj]

theorem validateSnippet_blind (env : Env) : ErrorsBlind (validateSnippet env) := by
  intro x errors
  unfold accepted validateSnippet
  by_cases hobj : isObject x = true
  · by_cases hid : isValidId (x.get "id") = true
    · simp [hobj, hid, truthy_of_isValidId hid]
    · simp [hobj, hid, JsVal.truthy]
  · simp [hobj]

theorem validateColumn_blind : ErrorsBlind validateColumn := by
  intro x errors
  unfold accepted validateColumn
  by_cases hobj : isObject x = true
  · by_cases hid : isValidId (x.get "id") = true
    · simp [hobj, hid, truthy_of_isValidId hid]
    · simp [hobj, hid, JsVal.truthy]
  · simp [hobj]

theorem elems_of_not_isArray {a : JsVal} (h : isArray a = false) : a.elems = [] := by
  cases a <;> simp_all [isArray, JsVal.elems]

theorem validateArray_fst (validate : JsVal → List String → Option JsVal × List String)
    (hv : ErrorsBlind validate) (a : JsVal) (errors : List String) :
    (validateArray validate a errors).1 = a.elems.filterMap (accepted validate) := by
  unfold validateArray
  by_cases h : isArray a = true
  · simp [h, forEachPush_fst validate hv]
  · simp [h, elems_of_not_isArray (Bool.eq_false_iff.2 h)]

theorem validateJournal_fst (env : Env) (x : JsVal) (errors : List String)
    (hobj : isObject x = true) (hid : isValidId (x.get "id") = true) :
    (validateJournal env x errors).1 = some (.obj [("id", x.get "id"),
      ("name", .str (sanitizeString (orElse (x.get "name") (.str (lit "Journal"))) 200)),
      ("entries", .arr ((x.get "entries").elems.filterMap
        (accepted (validateJournalEntry env))))]) := by
  simp [validateJournal, hobj, hid, truthy_of_isValidId hid,
    validateArray_fst _ (validateJournalEntry_blind env)]

theorem validateJournal_blind (env : Env) : ErrorsBlind (validateJournal env) := by
  intro x errors
  by_cases hobj : isObject x = true
  · by_cases hid : isValidId (x.get "id") = true
    · simp [accepted, validateJournal_fst env x _ hobj hid]
    · simp [accepted, validateJournal, hobj, hid, JsVal.truthy]
  · simp [accepted, validateJournal, hobj]

/-- The journals of a validated agenda, from the `journals` and `journal` fields of the
input. -/
theorem validateAgenda_fst (env : Env) (x : JsVal) (errors : List String)
    (hobj : isObject x = true) (hid : isValidId (x.get "id") = true) :
    (validateAgenda env x errors).1 = some (.obj [("id", x.get "id"),
      ("name", .str (sanitizeString (orElse (x.get "name") (.str (lit "Untitled Agenda"))) 200)),
      ("createdAt", if isValidDate env (x.get "createdAt") then x.get "createdAt"
                    else .str env.now),
      ("notes", .arr ((x.get "notes").elems.filterMap (accepted (validateNote env)))),
      ("tasks", .arr ((x.get "tasks").elems.filterMap (accepted (validateTask env)))),
      ("columns", .arr (ensureDefaultCols
        ((x.get "columns").elems.filterMap (accepted validateColumn)))),
      ("journals", .arr (
        if isArray (x.get "journals") then
          (x.get "journals").elems.filterMap (accepted (validateJournal env))
        else if isArray (x.get "journal") then
          [.obj [("id", .str (lit "default")), ("name", .str (lit "Main Journal")),
                 ("entries", .arr ((x.get "journal").elems.filterMap
                    (accepted (validateJournalEntry env))))]]
        else [])),
      ("snippets", .arr ((x.get "snippets").elems.filterMap (accepted (validateSnippet env)))),
      ("finalizedTasks",
        .arr ((x.get "finalizedTasks").elems.filterMap (accepted (validateTask env)))),
      ("deletedTasks",
        .arr ((x.get "deletedTasks").elems.filterMap (accepted (validateTask env)))),
      ("metrics", validateMetrics (x.get "metrics"))]) := by
  have hcols : ∀ e, (if (isArray (x.get "columns") &&
        decide (0 < (x.get "columns").elems.length)) = true
      then forEachPush validateColumn (x.get "columns").elems [] e else ([], e)).1 =
      (x.get "columns").elems.filterMap (accepted validateColumn) := by
    intro e
    by_cases h : isArray (x.get "columns") = true
    · by_cases h2 : 0 < (x.get "columns").elems.length
      · simp [h, h2, forEachPush_fst _ validateColumn_blind]
      · have : (x.get "columns").elems = [] := by
          simpa using h2
        simp [h, this]
    · simp [h, elems_of_not_isArray (Bool.eq_false_iff.2 h)]
  simp only [validateAgenda, hobj, hid, truthy_of_isValidId hid, hcols,
    validateArray_fst _ (validateNote_blind env), validateArray_fst _ (validateTask_blind env),
    validateArray_fst _ (validateSnippet_blind env)]
  by_cases hj : isArray (x.get "journals") = true
  · simp [hj, truthy_of_isValidId hid, forEachPush_fst _ (validateJournal_blind env)]
  · by_cases hl : isArray (x.get "journal") = true
    · simp [hj, hl, truthy_of_isValidId hid, forEachPush_fst _ (validateJournalEntry_blind env)]
    · simp [hj, hl, truthy_of_isValidId hid]

theorem validateAgenda_blind (env : Env) : ErrorsBlind (validateAgenda env) := by
  intro x errors
  by_cases hobj : isObject x = true
  · by_cases hid : isValidId (x.get "id") = true
    · simp only [accepted, validateAgenda_fst env x _ hobj hid]
    · simp [accepted, validateAgenda, hobj, hid, JsVal.truthy]
  · simp [accepted, validateAgenda, hobj]

theorem validateWorkspace_fst (env : Env) (x : JsVal) (errors : List String)
    (hobj : isObject x = true) (hid : isValidId (x.get "id") = true) :
    (validateWorkspace env x errors).1 = some (.obj [("id", x.get "id"),
      ("name",
        .str (sanitizeString (orElse (x.get "name") (.str (lit "Untitled Workspace"))) 200)),
      ("createdAt", if isValidDate env (x.get "createdAt") then x.get "createdAt"
                    else .str env.now),
      ("modifiedAt", if isValidDate env (x.get "modifiedAt") then x.get "modifiedAt"
                     else .str env.now),
      ("agendas", .arr ((x.get "agendas").elems.filterMap (accepted (validateAgenda env))))]) := by
  simp [validateWorkspace, hobj, hid, truthy_of_isValidId hid,
    validateArray_fst _ (validateAgenda_blind env)]

theorem validateWorkspace_blind (env : Env) : ErrorsBlind (validateWorkspace env) := by
  intro x errors
  by_cases hobj : isObject x = true
  · by_cases hid : isValidId (x.get "id") = true
    · simp only [accepted, validateWorkspace_fst env x _ hobj hid]
    · simp [accepted, validateWorkspace, hobj, hid, JsVal.truthy]
  · simp [accepted, validateWorkspace, hobj]

theorem forEachWorkspace_fst (env : Env) (xs out : List JsVal) (idx : Nat)
    (errors : List String) :
    (forEachWorkspace env xs idx out errors).1 =
      out ++ xs.filterMap (accepted (validateWorkspace env)) := by
  induction xs generalizing out errors idx with
  | nil => simp [forEachWorkspace]
  | cons x xs ih =>
    have hx := validateWorkspace_blind env x errors
    rcases hfx : validateWorkspace env x errors with ⟨o, e1⟩
    rw [hfx] at hx
    cases o with
    | none =>
      simp only [forEachWorkspace, hfx, ih]
      simp [List.filterMap_cons, ← hx]
    | some v =>
      simp only [forEachWorkspace, hfx, ih]
      simp [List.filterMap_cons, ← hx]

theorem deepValidateState_checks (env : Env) (doc : JsVal)
    (h : (deepValidateState env doc).valid = true) :
    (!doc.truthy || !doc.typeofObject) = false ∧
    (!strictEq (doc.get "schemaVersion") SCHEMA_VERSION) = false ∧
    (!isArray (doc.get "workspaces")) = false := by
  by_cases h1 : (!doc.truthy || !doc.typeofObject) = true
  · simp [deepValidateState, h1] at h
  by_cases h2 : (!strictEq (doc.get "schemaVersion") SCHEMA_VERSION) = true
  · simp [deepValidateState, h1, h2] at h
  by_cases h3 : (!isArray (doc.get "workspaces")) = true
  · simp [deepValidateState, h1, h2, h3] at h
  exact ⟨by simpa using h1, by simpa using h2, by simpa using h3⟩

/-- The workspaces of a validated document: the accepted input workspaces, in order. -/
theorem deepValidateState_workspaces (env : Env) (doc : JsVal)
    (h : (deepValidateState env doc).valid = true) :
    (deepValidateState env doc).state.get "workspaces" =
      .arr ((doc.get "workspaces").elems.filterMap (accepted (validateWorkspace env))) := by
  obtain ⟨h1, h2, h3⟩ := deepValidateState_checks env doc h
  simp only [deepValidateState, h1, h2, h3]
  simp [forEachWorkspace_fst]


/-! ## Default columns -/

theorem accepted_some_valid {validate : JsVal → List String → Option JsVal × List String}
    (hrej : RejectsExactlyBadIds validate) {x v : JsVal} (h : accepted validate x = some v) :
    isObject x = true ∧ isValidId (x.get "id") = true := by
  by_contra hn
  have h1 : ¬ (isObject x = true ∧ IsIdString (x.get "id")) := by
    intro hc
    exact hn ⟨hc.1, (isValidId_iff _).2 hc.2⟩
  have h2 := ((hrej x []).1).2 h1
  unfold accepted at h
  rw [h2] at h
  cases h

theorem strictEq_str (a : JsVal) (s : JsString) : strictEq a (.str s) = true ↔ a = .str s := by
  cases a with
  | num n => cases n <;> simp [strictEq]
  | _ => simp [strictEq]

theorem mem_ensureStep (cols : List JsVal) (colId : JsString) :
    ∃ c ∈ (if (cols.find? (fun c => strictEq (c.get "id") (.str colId))).isNone then
        cols ++ [.obj [("id", .str colId), ("title", .str (toUpperCase colId)),
                     ("taskIds", .arr [])]]
      else cols), c.get "id" = .str colId := by
  cases hf : cols.find? (fun c => strictEq (c.get "id") (.str colId)) with
  | none =>
    refine ⟨.obj [("id", .str colId), ("title", .str (toUpperCase colId)),
      ("taskIds", .arr [])], ?_, ?_⟩ <;> simp
  | some c =>
    have hp := List.find?_some hf
    have hm := List.mem_of_find?_eq_some hf
    exact ⟨c, by simpa using hm, (strictEq_str _ _).1 hp⟩

theorem ensureStep_mono (cols : List JsVal) (colId : JsString) (c : JsVal) (hc : c ∈ cols) :
    c ∈ (if (cols.find? (fun c => strictEq (c.get "id") (.str colId))).isNone then
        cols ++ [.obj [("id", .str colId), ("title", .str (toUpperCase colId)),
                     ("taskIds", .arr [])]]
      else cols) := by
  split_ifs <;> simp [hc]

theorem ensureDefaultCols_has (cols : List JsVal) (colId : JsString)
    (h : colId ∈ defaultCols) :
    ∃ c ∈ ensureDefaultCols cols, c.get "id" = .str colId := by
  simp only [defaultCols, List.mem_cons, List.mem_singleton, List.not_mem_nil, or_false] at h
  simp only [ensureDefaultCols, defaultCols, List.foldl_cons, List.foldl_nil]
  rcases h with rfl | rfl | rfl
  · obtain ⟨c, hc, hid⟩ := mem_ensureStep cols (lit "todo")
    exact ⟨c, ensureStep_mono _ _ _ (ensureStep_mono _ _ _ hc), hid⟩
  · obtain ⟨c, hc, hid⟩ := mem_ensureStep
      (if (cols.find? (fun c => strictEq (c.get "id") (.str (lit "todo")))).isNone then
        cols ++ [.obj [("id", .str (lit "todo")), ("title", .str (toUpperCase (lit "todo"))),
                     ("taskIds", .arr [])]]
      else cols) (lit "doing")
    exact ⟨c, ensureStep_mono _ _ _ hc, hid⟩
  · exact mem_ensureStep _ (lit "done")


theorem mem_output_workspaces (env : Env) (doc : JsVal)
    (h : (deepValidateState env doc).valid = true) {ws : JsVal}
    (hws : ws ∈ ((deepValidateState env doc).state.get "workspaces").elems) :
    ∃ w0 ∈ (doc.get "workspaces").elems, accepted (validateWorkspace env) w0 = some ws := by
  rw [deepValidateState_workspaces env doc h] at hws
  simpa [List.mem_filterMap] using hws

theorem accepted_workspace_agendas (env : Env) {w0 ws : JsVal}
    (h : accepted (validateWorkspace env) w0 = some ws) :
    ws.get "agendas" =
      .arr ((w0.get "agendas").elems.filterMap (accepted (validateAgenda env))) := by
  obtain ⟨hobj, hid⟩ := accepted_some_valid (validateWorkspace_rejects env) h
  unfold accepted at h
  rw [validateWorkspace_fst env w0 [] hobj hid] at h
  cases h
  simp

theorem mem_workspace_agendas (env : Env) {w0 ws ag : JsVal}
    (h : accepted (validateWorkspace env) w0 = some ws) (hag : ag ∈ (ws.get "agendas").elems) :
    ∃ a0 ∈ (w0.get "agendas").elems, accepted (validateAgenda env) a0 = some ag := by
  rw [accepted_workspace_agendas env h] at hag
  simpa [List.mem_filterMap] using hag

theorem accepted_agenda_columns (env : Env) {a0 ag : JsVal}
    (h : accepted (validateAgenda env) a0 = some ag) :
    ag.get "columns" =
      .arr (ensureDefaultCols ((a0.get "columns").elems.filterMap (accepted validateColumn))) := by
  obtain ⟨hobj, hid⟩ := accepted_some_valid (validateAgenda_rejects env) h
  unfold accepted at h
  rw [validateAgenda_fst env a0 [] hobj hid] at h
  cases h
  simp

/-- C4: in the state returned for a document that validates, every agenda of every
workspace has a column with id `todo`, one with id `doing` and one with id `done`. -/
theorem validated_agendas_have_default_columns (env : Env) (doc : JsVal)
    (h : (deepValidateState env doc).valid = true) :
    ∀ ws ∈ ((deepValidateState env doc).state.get "workspaces").elems,
      ∀ ag ∈ (ws.get "agendas").elems,
        hasColumn ag "todo" ∧ hasColumn ag "doing" ∧ hasColumn ag "done" := by
  intro ws hws ag hag
  obtain ⟨w0, -, hw0⟩ := mem_output_workspaces env doc h hws
  obtain ⟨a0, -, ha0⟩ := mem_workspace_agendas env hw0 hag
  have hcols := accepted_agenda_columns env ha0
  unfold hasColumn
  rw [hcols]
  refine ⟨?_, ?_, ?_⟩ <;>
    exact ensureDefaultCols_has _ _ (by simp [defaultCols])

theorem validated_agendas_have_default_columns_witness :
    (deepValidateState sampleEnv sampleDoc).valid = true ∧
    ∀ ws ∈ ((deepValidateState sampleEnv sampleDoc).state.get "workspaces").elems,
      ∀ ag ∈ (ws.get "agendas").elems,
        hasColumn ag "todo" ∧ hasColumn ag "doing" ∧ hasColumn ag "done" :=
  ⟨by decide, validated_agendas_have_default_columns sampleEnv sampleDoc (by decide)⟩


/-! ## Parent links of notes -/

theorem parentOf_congr {notes notes' : List JsVal} (h : sameLinks notes notes')
    (current : JsVal) : parentOf notes current = parentOf notes' current := by
  unfold sameLinks at h
  induction notes generalizing notes' with
  | nil =>
    cases notes' with
    | nil => rfl
    | cons b bs => simp at h
  | cons a as ih =>
    cases notes' with
    | nil => simp at h
    | cons b bs =>
      simp only [List.map_cons, List.cons.injEq, Prod.mk.injEq] at h
      obtain ⟨⟨hid, hpar⟩, hrest⟩ := h
      have ih' := ih hrest
      unfold parentOf at ih' ⊢
      simp only [List.find?_cons, hid]
      cases hb : strictEq (b.get "id") current
      · simpa using ih'
      · simpa using hpar

theorem reachesNull_congr {notes notes' : List JsVal} (h : sameLinks notes notes')
    (steps : Nat) (current : JsVal) :
    reachesNull notes steps current = reachesNull notes' steps current := by
  induction steps generalizing current with
  | zero => rfl
  | succ k ih => simp [reachesNull, ih, parentOf_congr h]

theorem isForest_congr {notes notes' : List JsVal} (h : sameLinks notes notes') :
    isForest notes ↔ isForest notes' := by
  have hlen : notes.length = notes'.length := by
    have := congrArg List.length h
    simpa using this
  have hpar : notes.map (fun n => n.get "parentId") = notes'.map (fun n => n.get "parentId") := by
    have := congrArg (List.map Prod.snd) h
    simpa [List.map_map, Function.comp_def] using this
  have key : ∀ l : List JsVal, isForest l ↔
      ∀ p ∈ l.map (fun n => n.get "parentId"), reachesNull l (l.length - 1) p = true := by
    intro l
    simp [isForest]
  rw [key, key, hpar, hlen]
  simp only [reachesNull_congr h]

theorem accepted_validateNote_link (env : Env) (n0 : JsVal) :
    (accepted (validateNote env) n0).map (fun n => (n.get "id", n.get "parentId")) =
      (repairedLink n0).map (fun n => (n.get "id", n.get "parentId")) := by
  unfold accepted validateNote repairedLink
  by_cases hobj : isObject n0 = true
  · by_cases hid : isValidId (n0.get "id") = true
    · simp [hobj, hid, truthy_of_isValidId hid]
    · simp [hobj, hid, JsVal.truthy]
  · simp [hobj]

theorem filterMap_sameLinks (f g : JsVal → Option JsVal)
    (h : ∀ x, (f x).map (fun n => (n.get "id", n.get "parentId")) =
      (g x).map (fun n => (n.get "id", n.get "parentId"))) (xs : List JsVal) :
    sameLinks (xs.filterMap f) (xs.filterMap g) := by
  unfold sameLinks
  induction xs with
  | nil => rfl
  | cons x xs ih =>
    have hx := h x
    cases hf : f x <;> cases hg : g x <;> simp_all [List.filterMap_cons]

theorem accepted_agenda_notes (env : Env) {a0 ag : JsVal}
    (h : accepted (validateAgenda env) a0 = some ag) :
    ag.get "notes" = .arr ((a0.get "notes").elems.filterMap (accepted (validateNote env))) := by
  obtain ⟨hobj, hid⟩ := accepted_some_valid (validateAgenda_rejects env) h
  unfold accepted at h
  rw [validateAgenda_fst env a0 [] hobj hid] at h
  cases h
  simp

/-- C5 (as stated, refuted): the document `selfParentDoc` validates, and in the returned
state the note `n1` still names itself as parent, so the notes of its agenda are not a
forest. -/
theorem validated_notes_forest_counterexample :
    (deepValidateState sampleEnv selfParentDoc).valid = true ∧
    ¬ (∀ ws ∈ ((deepValidateState sampleEnv selfParentDoc).state.get "workspaces").elems,
        ∀ ag ∈ (ws.get "agendas").elems, isForest (ag.get "notes").elems) := by
  decide

/-- C5 (amended): validation keeps the parent links. Every agenda of the state returned for
a document that validates comes from an input agenda, and its notes carry, in order, the
ids of the accepted input notes with their `parentId` when it is null or a string and null
otherwise; so they form a forest exactly when those input links do. -/
theorem validated_notes_keep_parent_links (env : Env) (doc : JsVal)
    (h : (deepValidateState env doc).valid = true) :
    ∀ ws ∈ ((deepValidateState env doc).state.get "workspaces").elems,
      ∀ ag ∈ (ws.get "agendas").elems,
        ∃ w0 ∈ (doc.get "workspaces").elems, ∃ a0 ∈ (w0.get "agendas").elems,
          accepted (validateAgenda env) a0 = some ag ∧
          sameLinks (ag.get "notes").elems ((a0.get "notes").elems.filterMap repairedLink) ∧
          (isForest (ag.get "notes").elems ↔
            isForest ((a0.get "notes").elems.filterMap repairedLink)) := by
  intro ws hws ag hag
  obtain ⟨w0, hw0m, hw0⟩ := mem_output_workspaces env doc h hws
  obtain ⟨a0, ha0m, ha0⟩ := mem_workspace_agendas env hw0 hag
  have hlinks : sameLinks (ag.get "notes").elems
      ((a0.get "notes").elems.filterMap repairedLink) := by
    rw [accepted_agenda_notes env ha0]
    exact filterMap_sameLinks _ _ (accepted_validateNote_link env) _
  exact ⟨w0, hw0m, a0, ha0m, ha0, hlinks, isForest_congr hlinks⟩

theorem validated_notes_keep_parent_links_witness :
    (deepValidateState sampleEnv nestedNotesDoc).valid = true ∧
    ∀ ws ∈ ((deepValidateState sampleEnv nestedNotesDoc).state.get "workspaces").elems,
      ∀ ag ∈ (ws.get "agendas").elems,
        ∃ w0 ∈ (nestedNotesDoc.get "workspaces").elems, ∃ a0 ∈ (w0.get "agendas").elems,
          accepted (validateAgenda sampleEnv) a0 = some ag ∧
          sameLinks (ag.get "notes").elems ((a0.get "notes").elems.filterMap repairedLink) ∧
          (isForest (ag.get "notes").elems ↔
            isForest ((a0.get "notes").elems.filterMap repairedLink)) :=
  ⟨by decide, validated_notes_keep_parent_links sampleEnv nestedNotesDoc (by decide)⟩


/-! ## Active ids -/

theorem strictEq_eq_true {a b : JsVal} (h : strictEq a b = true) : a = b := by
  cases a <;> cases b <;> simp_all [strictEq]
  all_goals (rename_i x y; cases x <;> cases y <;> simp_all)

/-- The active ids of the state returned for a document that validates. -/
theorem deepValidateState_active (env : Env) (doc : JsVal)
    (h : (deepValidateState env doc).valid = true) :
    (deepValidateState env doc).state.get "activeWorkspaceId" =
      (repairActiveIds ((deepValidateState env doc).state.get "workspaces").elems
        (if isNullOrString (doc.get "activeWorkspaceId") then doc.get "activeWorkspaceId"
          else .null)
        (if isNullOrString (doc.get "activeAgendaId") then doc.get "activeAgendaId"
          else .null) []).1 ∧
    (deepValidateState env doc).state.get "activeAgendaId" =
      (repairActiveIds ((deepValidateState env doc).state.get "workspaces").elems
        (if isNullOrString (doc.get "activeWorkspaceId") then doc.get "activeWorkspaceId"
          else .null)
        (if isNullOrString (doc.get "activeAgendaId") then doc.get "activeAgendaId"
          else .null) []).2.1 := by
  obtain ⟨h1, h2, h3⟩ := deepValidateState_checks env doc h
  simp only [deepValidateState, h1, h2, h3]
  simp [repairActiveIds]

theorem find?_id_eq_none {wss : List JsVal} {v : JsVal}
    (h : ∀ ws ∈ wss, ws.get "id" ≠ v) :
    wss.find? (fun ws => strictEq (ws.get "id") v) = none := by
  rw [List.find?_eq_none]
  intro ws hws hc
  exact h ws hws (strictEq_eq_true hc)

theorem ids_ne_of_all (l : List JsVal) (s : JsString)
    (h : l.all (fun ws => !strictEq (ws.get "id") (.str s)) = true) :
    ∀ ws ∈ l, ws.get "id" ≠ .str s := by
  intro ws hws hc
  rw [List.all_eq_true] at h
  have := h ws hws
  rw [hc] at this
  simp [strictEq] at this

/-- C6 (as stated, refuted): in `emptyWorkspaceIdDoc` the active workspace id is a string
(the empty one) that is the id of no returned workspace, and the returned state keeps both
active ids instead of resetting them to null. -/
theorem dangling_workspace_id_counterexample :
    (deepValidateState sampleEnv emptyWorkspaceIdDoc).valid = true ∧
    emptyWorkspaceIdDoc.get "activeWorkspaceId" = .str [] ∧
    (∀ ws ∈ ((deepValidateState sampleEnv emptyWorkspaceIdDoc).state.get "workspaces").elems,
      ws.get "id" ≠ .str []) ∧
    (deepValidateState sampleEnv emptyWorkspaceIdDoc).state.get "activeWorkspaceId" =
      .str [] ∧
    (deepValidateState sampleEnv emptyWorkspaceIdDoc).state.get "activeAgendaId" =
      .str (lit "ag1") ∧
    ¬ ((deepValidateState sampleEnv emptyWorkspaceIdDoc).state.get "activeWorkspaceId" =
        .null ∧
      (deepValidateState sampleEnv emptyWorkspaceIdDoc).state.get "activeAgendaId" = .null) :=
  ⟨by decide, rfl, ids_ne_of_all _ _ (by decide), rfl, rfl, fun hc => by
    have h1 : (deepValidateState sampleEnv emptyWorkspaceIdDoc).state.get "activeWorkspaceId" =
      .str [] := rfl
    rw [h1] at hc
    exact absurd hc.1 (by simp)⟩

/-- C6 (amended): when the document validates and its active workspace id is a non-empty
string that is the id of no returned workspace, the returned state has both active ids
null. -/
theorem dangling_workspace_id_resets (env : Env) (doc : JsVal) (s : JsString)
    (h : (deepValidateState env doc).valid = true)
    (hs : doc.get "activeWorkspaceId" = .str s) (hne : s ≠ [])
    (hno : ∀ ws ∈ ((deepValidateState env doc).state.get "workspaces").elems,
      ws.get "id" ≠ .str s) :
    (deepValidateState env doc).state.get "activeWorkspaceId" = .null ∧
    (deepValidateState env doc).state.get "activeAgendaId" = .null := by
  obtain ⟨haw, haa⟩ := deepValidateState_active env doc h
  have hnone := find?_id_eq_none hno
  rw [hs] at haw haa
  rw [haw, haa]
  cases s with
  | nil => exact absurd rfl hne
  | cons c cs =>
    simp only [repairActiveIds, isNullOrString, isNull, isString, Bool.false_or, if_true, hnone]
    simp [JsVal.truthy]

theorem dangling_workspace_id_resets_witness :
    (deepValidateState sampleEnv ghostDoc).valid = true ∧
    ghostDoc.get "activeWorkspaceId" = .str (lit "ghost") ∧ lit "ghost" ≠ [] ∧
    (deepValidateState sampleEnv ghostDoc).state.get "activeWorkspaceId" = .null ∧
    (deepValidateState sampleEnv ghostDoc).state.get "activeAgendaId" = .null :=
  ⟨by decide, rfl, by decide,
   dangling_workspace_id_resets sampleEnv ghostDoc (lit "ghost") (by decide) rfl (by decide)
    (ids_ne_of_all _ _ (by decide))⟩


theorem output_workspace_id_valid (env : Env) (doc : JsVal)
    (h : (deepValidateState env doc).valid = true) :
    ∀ ws ∈ ((deepValidateState env doc).state.get "workspaces").elems,
      isValidId (ws.get "id") = true := by
  intro ws hws
  obtain ⟨w0, -, hw0⟩ := mem_output_workspaces env doc h hws
  obtain ⟨-, hid⟩ := accepted_some_valid (validateWorkspace_rejects env) hw0
  have := ((validateWorkspace_rejects env) w0 []).2 ws hw0
  rw [this]
  exact hid

theorem find?_holds {p : JsVal → Bool} {l : List JsVal} {a : JsVal}
    (h : l.find? p = some a) : p a = true :=
  List.find?_some h

theorem repaired_null_or_str (v : JsVal) :
    (if isNullOrString v = true then v else JsVal.null) = .null ∨
    ∃ s, (if isNullOrString v = true then v else JsVal.null) = .str s := by
  cases v <;> simp [isNullOrString, isNull, isString]

/-- C7 (as stated, refuted): in `emptyAgendaIdDoc` the active workspace `w1` is returned,
the active agenda id is a string (the empty one) that is the id of none of its agendas, and
the returned state keeps it instead of resetting it to null. In `twinWorkspacesDoc` the
second returned workspace has the active workspace id and no agenda `ag1`, and the returned
state keeps the active agenda id `ag1`, found in the first workspace with that id. -/
theorem dangling_agenda_id_counterexample :
    ((deepValidateState sampleEnv emptyAgendaIdDoc).valid = true ∧
      emptyAgendaIdDoc.get "activeAgendaId" = .str [] ∧
      (∃ W ∈ ((deepValidateState sampleEnv emptyAgendaIdDoc).state.get "workspaces").elems,
        W.get "id" = emptyAgendaIdDoc.get "activeWorkspaceId" ∧
        ∀ a ∈ (W.get "agendas").elems, a.get "id" ≠ .str []) ∧
      (deepValidateState sampleEnv emptyAgendaIdDoc).state.get "activeAgendaId" = .str [] ∧
      ¬ ((deepValidateState sampleEnv emptyAgendaIdDoc).state.get "activeAgendaId" = .null ∧
        (deepValidateState sampleEnv emptyAgendaIdDoc).state.get "activeWorkspaceId" =
          emptyAgendaIdDoc.get "activeWorkspaceId")) ∧
    ((deepValidateState sampleEnv twinWorkspacesDoc).valid = true ∧
      twinWorkspacesDoc.get "activeAgendaId" = .str (lit "ag1") ∧
      (∃ W ∈ ((deepValidateState sampleEnv twinWorkspacesDoc).state.get "workspaces").elems,
        W.get "id" = twinWorkspacesDoc.get "activeWorkspaceId" ∧
        ∀ a ∈ (W.get "agendas").elems, a.get "id" ≠ .str (lit "ag1")) ∧
      (deepValidateState sampleEnv twinWorkspacesDoc).state.get "activeAgendaId" =
        .str (lit "ag1") ∧
      ¬ ((deepValidateState sampleEnv twinWorkspacesDoc).state.get "activeAgendaId" = .null ∧
        (deepValidateState sampleEnv twinWorkspacesDoc).state.get "activeWorkspaceId" =
          twinWorkspacesDoc.get "activeWorkspaceId")) := by
  refine ⟨⟨by decide, rfl, ?_, rfl, fun hc => ?_⟩, ⟨by decide, rfl, ?_, rfl, fun hc => ?_⟩⟩
  · refine ⟨(((deepValidateState sampleEnv emptyAgendaIdDoc).state.get "workspaces").elems).get
      ⟨0, by decide⟩, ?_, rfl, ids_ne_of_all _ _ (by decide)⟩
    exact List.get_mem _ _ _
  · have h1 : (deepValidateState sampleEnv emptyAgendaIdDoc).state.get "activeAgendaId" =
      .str [] := rfl
    rw [h1] at hc
    exact absurd hc.1 (by simp)
  · refine ⟨(((deepValidateState sampleEnv twinWorkspacesDoc).state.get "workspaces").elems).get
      ⟨1, by decide⟩, ?_, rfl, ids_ne_of_all _ _ (by decide)⟩
    exact List.get_mem _ _ _
  · have h1 : (deepValidateState sampleEnv twinWorkspacesDoc).state.get "activeAgendaId" =
      .str (lit "ag1") := rfl
    rw [h1] at hc
    exact absurd hc.1 (by simp)

/-- C7 (amended): when the document validates, its active workspace id selects the
returned workspace `W` (the first one with that id) and its active agenda id is a non-empty
string that is the id of no agenda of `W`, the returned state has a null active agenda id
and the active workspace id of the input. -/
theorem dangling_agenda_id_resets (env : Env) (doc : JsVal) (s : JsString) (W : JsVal)
    (h : (deepValidateState env doc).valid = true)
    (hW : ((deepValidateState env doc).state.get "workspaces").elems.find?
      (fun w => strictEq (w.get "id") (doc.get "activeWorkspaceId")) = some W)
    (hs : doc.get "activeAgendaId" = .str s) (hne : s ≠ [])
    (hno : ∀ a ∈ (W.get "agendas").elems, a.get "id" ≠ .str s) :
    (deepValidateState env doc).state.get "activeAgendaId" = .null ∧
    (deepValidateState env doc).state.get "activeWorkspaceId" =
      doc.get "activeWorkspaceId" := by
  obtain ⟨haw, haa⟩ := deepValidateState_active env doc h
  have hWid := output_workspace_id_valid env doc h W (List.mem_of_find?_eq_some hW)
  have hp := find?_holds hW
  have heq := strictEq_eq_true hp
  have hnone := find?_id_eq_none hno
  obtain ⟨t, ht, -⟩ := (isValidId_iff _).1 hWid
  have htr := truthy_of_isValidId hWid
  rw [heq] at ht htr
  rw [ht] at hW htr
  rw [hs, ht] at haw haa
  rw [haw, haa]
  cases s with
  | nil => exact absurd rfl hne
  | cons c cs =>
    simp only [repairActiveIds, isNullOrString, isNull, isString, Bool.false_or, if_true, hW,
      htr, ht]
    simp [JsVal.truthy]
    refine ⟨?_, ?_⟩
    · rintro rfl
      simp [JsVal.truthy] at htr
    · rw [hW]
      simp [hnone]

theorem dangling_agenda_id_resets_witness :
    (deepValidateState sampleEnv ghostAgendaDoc).valid = true ∧
    ghostAgendaDoc.get "activeAgendaId" = .str (lit "ghost") ∧ lit "ghost" ≠ [] ∧
    (deepValidateState sampleEnv ghostAgendaDoc).state.get "activeAgendaId" = .null ∧
    (deepValidateState sampleEnv ghostAgendaDoc).state.get "activeWorkspaceId" =
      ghostAgendaDoc.get "activeWorkspaceId" :=
  ⟨by decide, rfl, by decide,
   dangling_agenda_id_resets sampleEnv ghostAgendaDoc (lit "ghost")
    ((((deepValidateState sampleEnv ghostAgendaDoc).state.get "workspaces").elems).get
      ⟨0, by decide⟩)
    (by decide) rfl rfl (by decide) (ids_ne_of_all _ _ (by decide))⟩


theorem falsy_null_or_str {v : JsVal} (h : v = .null ∨ ∃ s, v = .str s)
    (hf : v.truthy = false) : v = .null ∨ v = .str [] := by
  rcases h with h | ⟨s, h⟩
  · exact Or.inl h
  · subst h
    cases s with
    | nil => exact Or.inr rfl
    | cons c cs => simp [JsVal.truthy] at hf

theorem repairActiveIds_fst (wss : List JsVal) (aw0 aa0 : JsVal) (errors : List String) :
    (repairActiveIds wss aw0 aa0 errors).1 =
      if (aw0.truthy && (wss.find? (fun ws => strictEq (ws.get "id") aw0)).isNone) = true
      then .null else aw0 := rfl

theorem repairActiveIds_snd_of_reset (wss : List JsVal) (aw0 aa0 : JsVal)
    (errors : List String)
    (hreset : (aw0.truthy &&
      (wss.find? (fun ws => strictEq (ws.get "id") aw0)).isNone) = true) :
    (repairActiveIds wss aw0 aa0 errors).2.1 = .null := by
  have ht : JsVal.null.truthy = false := rfl
  simp only [repairActiveIds, hreset, if_true, ht, Bool.false_and]
  simp

theorem repairActiveIds_snd_of_keep (wss : List JsVal) (aw0 aa0 : JsVal)
    (errors : List String)
    (hreset : (aw0.truthy &&
      (wss.find? (fun ws => strictEq (ws.get "id") aw0)).isNone) = false) :
    (repairActiveIds wss aw0 aa0 errors).2.1 =
      if (aa0.truthy && aw0.truthy &&
          (match wss.find? (fun w => strictEq (w.get "id") aw0) with
           | some ws => ((ws.get "agendas").elems.find?
                (fun a => strictEq (a.get "id") aa0)).isNone
           | none => false)) = true
      then .null else aa0 := by
  simp only [repairActiveIds, hreset]
  simp

theorem repairActiveIds_workspace (wss : List JsVal) (aw0 aa0 : JsVal) (errors : List String)
    (haw : aw0 = .null ∨ ∃ s, aw0 = .str s) :
    (repairActiveIds wss aw0 aa0 errors).1 = .null ∨
    (repairActiveIds wss aw0 aa0 errors).1 = .str [] ∨
    ∃ W ∈ wss, W.get "id" = (repairActiveIds wss aw0 aa0 errors).1 ∧
      wss.find? (fun w => strictEq (w.get "id") (repairActiveIds wss aw0 aa0 errors).1) =
        some W := by
  rw [repairActiveIds_fst]
  cases ht : aw0.truthy with
  | false =>
    simp only [Bool.false_and, Bool.false_eq_true, if_false]
    rcases falsy_null_or_str haw ht with h | h
    · exact Or.inl h
    · exact Or.inr (Or.inl h)
  | true =>
    cases hf : wss.find? (fun ws => strictEq (ws.get "id") aw0) with
    | none =>
      left
      simp
    | some W =>
      right; right
      have hp := find?_holds hf
      refine ⟨W, List.mem_of_find?_eq_some hf, ?_, ?_⟩
      · simpa using strictEq_eq_true hp
      · simp [hf]

theorem repairActiveIds_agenda (wss : List JsVal) (aw0 aa0 : JsVal) (errors : List String)
    (hids : ∀ ws ∈ wss, isValidId (ws.get "id") = true)
    (haa : aa0 = .null ∨ ∃ s, aa0 = .str s) (W : JsVal)
    (hW : wss.find? (fun w => strictEq (w.get "id") (repairActiveIds wss aw0 aa0 errors).1) =
      some W) :
    (repairActiveIds wss aw0 aa0 errors).2.1 = .null ∨
    (repairActiveIds wss aw0 aa0 errors).2.1 = .str [] ∨
    ∃ a ∈ (W.get "agendas").elems, a.get "id" = (repairActiveIds wss aw0 aa0 errors).2.1 := by
  have hWid := hids W (List.mem_of_find?_eq_some hW)
  have hp := find?_holds hW
  have heq := strictEq_eq_true hp
  have htr := truthy_of_isValidId hWid
  rw [heq] at htr
  cases hreset : (aw0.truthy &&
      (wss.find? (fun ws => strictEq (ws.get "id") aw0)).isNone) with
  | true => exact Or.inl (repairActiveIds_snd_of_reset wss aw0 aa0 errors hreset)
  | false =>
    have h1 : (repairActiveIds wss aw0 aa0 errors).1 = aw0 := by
      rw [repairActiveIds_fst, hreset]
      simp
    rw [h1] at hW htr
    rw [repairActiveIds_snd_of_keep wss aw0 aa0 errors hreset, hW, htr]
    cases ht : aa0.truthy with
    | false =>
      simp only [Bool.false_and, Bool.false_eq_true, if_false]
      rcases falsy_null_or_str haa ht with h | h
      · exact Or.inl h
      · exact Or.inr (Or.inl h)
    | true =>
      cases hf : (W.get "agendas").elems.find? (fun a => strictEq (a.get "id") aa0) with
      | none =>
        left
        simp [hf]
      | some a =>
        right; right
        have hpa := find?_holds hf
        refine ⟨a, List.mem_of_find?_eq_some hf, ?_⟩
        simpa [hf] using strictEq_eq_true hpa

/-- C8 (as stated, refuted): the state returned for `emptyWorkspaceIdDoc` has an active
workspace id (the empty string) that is neither null nor the id of a returned workspace, and
the state returned for `agendaOnlyDoc` has the active agenda id `ag1` although no workspace
is active. -/
theorem active_ids_dangle_counterexample :
    ((deepValidateState sampleEnv emptyWorkspaceIdDoc).valid = true ∧
      ¬ ((deepValidateState sampleEnv emptyWorkspaceIdDoc).state.get "activeWorkspaceId" =
          .null ∨
        ∃ W ∈ ((deepValidateState sampleEnv emptyWorkspaceIdDoc).state.get
            "workspaces").elems,
          W.get "id" =
            (deepValidateState sampleEnv emptyWorkspaceIdDoc).state.get "activeWorkspaceId")) ∧
    ((deepValidateState sampleEnv agendaOnlyDoc).valid = true ∧
      (deepValidateState sampleEnv agendaOnlyDoc).state.get "activeWorkspaceId" = .null ∧
      activeWorkspace (deepValidateState sampleEnv agendaOnlyDoc).state = none ∧
      ¬ ((deepValidateState sampleEnv agendaOnlyDoc).state.get "activeAgendaId" = .null ∨
        ∃ W, activeWorkspace (deepValidateState sampleEnv agendaOnlyDoc).state = some W ∧
          ∃ a ∈ (W.get "agendas").elems, a.get "id" =
            (deepValidateState sampleEnv agendaOnlyDoc).state.get "activeAgendaId")) := by
  have h1 : (deepValidateState sampleEnv emptyWorkspaceIdDoc).state.get "activeWorkspaceId" =
    .str [] := rfl
  have h2 : (deepValidateState sampleEnv agendaOnlyDoc).state.get "activeAgendaId" =
    .str (lit "ag1") := rfl
  have h3 : activeWorkspace (deepValidateState sampleEnv agendaOnlyDoc).state = none := rfl
  refine ⟨⟨by decide, ?_⟩, by decide, rfl, h3, ?_⟩
  · rw [h1]
    rintro (hc | ⟨W, hW, hid⟩)
    · simp at hc
    · exact ids_ne_of_all _ _ (by decide) W hW hid
  · rw [h2, h3]
    rintro (hc | ⟨W, hW, -⟩)
    · simp at hc
    · simp at hW

/-- C8 (amended): in the state returned for a document that validates, the active workspace
id is null, the empty string, or the id of the returned workspace it selects; and when it
selects a workspace, the active agenda id is null, the empty string, or the id of an agenda
of that workspace. -/
theorem active_ids_after_validation (env : Env) (doc : JsVal)
    (h : (deepValidateState env doc).valid = true) :
    ((deepValidateState env doc).state.get "activeWorkspaceId" = .null ∨
      (deepValidateState env doc).state.get "activeWorkspaceId" = .str [] ∨
      ∃ W ∈ ((deepValidateState env doc).state.get "workspaces").elems,
        W.get "id" = (deepValidateState env doc).state.get "activeWorkspaceId" ∧
        activeWorkspace (deepValidateState env doc).state = some W) ∧
    (∀ W, activeWorkspace (deepValidateState env doc).state = some W →
      (deepValidateState env doc).state.get "activeAgendaId" = .null ∨
      (deepValidateState env doc).state.get "activeAgendaId" = .str [] ∨
      ∃ a ∈ (W.get "agendas").elems,
        a.get "id" = (deepValidateState env doc).state.get "activeAgendaId") := by
  obtain ⟨haw, haa⟩ := deepValidateState_active env doc h
  unfold activeWorkspace
  rw [haw, haa]
  exact ⟨repairActiveIds_workspace _ _ _ _ (repaired_null_or_str _),
    fun W hW => repairActiveIds_agenda _ _ _ _ (output_workspace_id_valid env doc h)
      (repaired_null_or_str _) W hW⟩

theorem active_ids_after_validation_witness :
    (deepValidateState sampleEnv sampleDoc).valid = true ∧
    (((deepValidateState sampleEnv sampleDoc).state.get "activeWorkspaceId" = .null ∨
      (deepValidateState sampleEnv sampleDoc).state.get "activeWorkspaceId" = .str [] ∨
      ∃ W ∈ ((deepValidateState sampleEnv sampleDoc).state.get "workspaces").elems,
        W.get "id" = (deepValidateState sampleEnv sampleDoc).state.get "activeWorkspaceId" ∧
        activeWorkspace (deepValidateState sampleEnv sampleDoc).state = some W) ∧
    (∀ W, activeWorkspace (deepValidateState sampleEnv sampleDoc).state = some W →
      (deepValidateState sampleEnv sampleDoc).state.get "activeAgendaId" = .null ∨
      (deepValidateState sampleEnv sampleDoc).state.get "activeAgendaId" = .str [] ∨
      ∃ a ∈ (W.get "agendas").elems,
        a.get "id" = (deepValidateState sampleEnv sampleDoc).state.get "activeAgendaId")) :=
  ⟨by decide, active_ids_after_validation sampleEnv sampleDoc (by decide)⟩


/-! ## Legacy journals -/

/-- C9: for an agenda object with a valid id, a legacy `journal` array and no `journals`
field, `validateAgenda` returns an agenda whose journals are exactly one journal with id
`default`, name `Main Journal` and, as entries, the legacy entries accepted by
`validateJournalEntry`, in order; the returned agenda has no `journal` key. -/
theorem legacy_journal_migrated (env : Env) (agenda : JsVal) (errors : List String)
    (hobj : isObject agenda = true) (hid : isValidId (agenda.get "id") = true)
    (hlegacy : isArray (agenda.get "journal") = true)
    (hnone : agenda.get "journals" = .undefined) :
    ∃ v, (validateAgenda env agenda errors).1 = some v ∧
      v.get "journals" = .arr [.obj [("id", .str (lit "default")),
        ("name", .str (lit "Main Journal")),
        ("entries", .arr ((agenda.get "journal").elems.filterMap
          (accepted (validateJournalEntry env))))]] ∧
      hasKey v "journal" = false := by
  refine ⟨_, validateAgenda_fst env agenda errors hobj hid, ?_, ?_⟩
  · have h1 : isArray JsVal.undefined = false := rfl
    simp [hnone, h1, hlegacy]
  · simp [JsVal.hasKey]

theorem legacy_journal_migrated_witness :
    isObject legacyAgenda = true ∧ isValidId (legacyAgenda.get "id") = true ∧
    isArray (legacyAgenda.get "journal") = true ∧ legacyAgenda.get "journals" = .undefined ∧
    ∃ v, (validateAgenda sampleEnv legacyAgenda []).1 = some v ∧
      v.get "journals" = .arr [.obj [("id", .str (lit "default")),
        ("name", .str (lit "Main Journal")),
        ("entries", .arr ((legacyAgenda.get "journal").elems.filterMap
          (accepted (validateJournalEntry sampleEnv))))]] ∧
      hasKey v "journal" = false :=
  ⟨rfl, rfl, rfl, rfl, legacy_journal_migrated sampleEnv legacyAgenda [] rfl rfl rfl rfl⟩

theorem validateAgenda_empty_journals (env : Env) (agenda : JsVal) (errors : List String)
    (hobj : isObject agenda = true) (hid : isValidId (agenda.get "id") = true)
    (hempty : agenda.get "journals" = .arr []) :
    ∃ v, (validateAgenda env agenda errors).1 = some v ∧ v.get "journals" = .arr [] := by
  refine ⟨_, validateAgenda_fst env agenda errors hobj hid, ?_⟩
  simp [hempty, isArray]

/-- C10 (as stated, refuted): `emptyJournalsAgenda` has a valid id, an empty `journals`
array and a legacy `journal` array with one entry, and `validateAgenda` returns it with an
empty journals list: the legacy entry is not migrated. -/
theorem empty_journals_counterexample :
    isObject emptyJournalsAgenda = true ∧ isValidId (emptyJournalsAgenda.get "id") = true ∧
    emptyJournalsAgenda.get "journals" = .arr [] ∧
    isArray (emptyJournalsAgenda.get "journal") = true ∧
    ∃ v, (validateAgenda sampleEnv emptyJournalsAgenda []).1 = some v ∧
      v.get "journals" = .arr [] ∧
      ¬ ∃ j, v.get "journals" = .arr [j] := by
  obtain ⟨v, hv, hj⟩ := validateAgenda_empty_journals sampleEnv emptyJournalsAgenda [] rfl rfl rfl
  refine ⟨rfl, rfl, rfl, rfl, v, hv, hj, ?_⟩
  rw [hj]
  simp

/-- C10 (amended): for an agenda object with a valid id whose `journals` field is an empty
array, `validateAgenda` returns an agenda with an empty journals list and no `journal` key,
whether or not the input has a legacy `journal` array: legacy entries are not migrated. -/
theorem empty_journals_not_migrated (env : Env) (agenda : JsVal) (errors : List String)
    (hobj : isObject agenda = true) (hid : isValidId (agenda.get "id") = true)
    (hempty : agenda.get "journals" = .arr []) :
    ∃ v, (validateAgenda env agenda errors).1 = some v ∧
      v.get "journals" = .arr [] ∧ hasKey v "journal" = false := by
  refine ⟨_, validateAgenda_fst env agenda errors hobj hid, ?_, ?_⟩
  · simp [hempty, isArray]
  · simp [JsVal.hasKey]

theorem empty_journals_not_migrated_witness :
    isObject emptyJournalsAgenda = true ∧ isValidId (emptyJournalsAgenda.get "id") = true ∧
    emptyJournalsAgenda.get "journals" = .arr [] ∧
    ∃ v, (validateAgenda sampleEnv emptyJournalsAgenda []).1 = some v ∧
      v.get "journals" = .arr [] ∧ hasKey v "journal" = false :=
  ⟨rfl, rfl, rfl, empty_journals_not_migrated sampleEnv emptyJournalsAgenda [] rfl rfl rfl⟩


/-! ## Repeated validation -/

theorem trim_eq_rdropWhile (s : JsString) :
    trim s = List.rdropWhile isWhiteSpace (s.dropWhile isWhiteSpace) := rfl

theorem noLeadingWs_dropWhile (s : JsString) : NoLeadingWs (s.dropWhile isWhiteSpace) := by
  intro c hc
  induction s with
  | nil => simp at hc
  | cons a as ih =>
    by_cases ha : isWhiteSpace a = true
    · rw [List.dropWhile_cons_of_pos ha] at hc
      exact ih hc
    · rw [List.dropWhile_cons_of_neg ha] at hc
      simp only [List.head?_cons, Option.some.injEq] at hc
      subst hc
      simpa using ha

theorem noLeadingWs_of_initial {u t : JsString} (h : u <+: t) (ht : NoLeadingWs t) :
    NoLeadingWs u := by
  intro c hc
  obtain ⟨r, rfl⟩ := h
  cases u with
  | nil => simp at hc
  | cons a as =>
    apply ht c
    simpa using hc

theorem dropWhile_of_noLeadingWs {u : JsString} (h : NoLeadingWs u) :
    u.dropWhile isWhiteSpace = u := by
  cases u with
  | nil => rfl
  | cons a as =>
    have := h a rfl
    rw [List.dropWhile_cons_of_neg (by simp [this])]

theorem noLeadingWs_trim (s : JsString) : NoLeadingWs (trim s) :=
  noLeadingWs_of_initial (List.rdropWhile_prefix _ _) (noLeadingWs_dropWhile s)

theorem trim_of_noLeadingWs {u : JsString} (h : NoLeadingWs u) :
    trim u = List.rdropWhile isWhiteSpace u := by
  rw [trim_eq_rdropWhile, dropWhile_of_noLeadingWs h]

theorem trim_trim (s : JsString) : trim (trim s) = trim s := by
  rw [trim_of_noLeadingWs (noLeadingWs_trim s), trim_eq_rdropWhile,
    List.rdropWhile_idempotent]

theorem length_trim_le (s : JsString) : (trim s).length ≤ s.length := by
  rw [trim_eq_rdropWhile]
  have h1 := (List.rdropWhile_prefix isWhiteSpace (s.dropWhile isWhiteSpace)).length_le
  have h2 := (List.dropWhile_suffix isWhiteSpace : s.dropWhile isWhiteSpace <:+ s).length_le
  omega

theorem trim_ne_nil_of_noLeadingWs {u : JsString} (h : NoLeadingWs u) (hne : u ≠ []) :
    trim u ≠ [] := by
  rw [trim_of_noLeadingWs h]
  intro hc
  rw [List.rdropWhile_eq_nil_iff] at hc
  cases u with
  | nil => exact hne rfl
  | cons a as =>
    have h1 := h a rfl
    have h2 := hc a (by simp)
    rw [h1] at h2
    cases h2


theorem sanitizeString_shape (a : JsVal) (n : Nat) :
    NoLeadingWs (sanitizeString a n) ∧ (sanitizeString a n).length ≤ n := by
  cases a with
  | str s =>
    simp only [sanitizeString, slice0]
    exact ⟨noLeadingWs_of_initial (List.take_prefix _ _) (noLeadingWs_trim s),
      List.length_take_le _ _⟩
  | _ => exact ⟨fun c hc => by simp [sanitizeString] at hc, by simp [sanitizeString]⟩

theorem sanitizeString_orElse_str (d : JsString) (n : Nat) (hd : trim d = d)
    (hdn : d.length ≤ n) (r : JsString) (hr : r.length ≤ n) :
    sanitizeString (orElse (.str r) (.str d)) n = if r = [] then d else trim r := by
  cases r with
  | nil =>
    simp [JsVal.orElse, JsVal.truthy, sanitizeString, slice0, hd, List.take_of_length_le hdn]
  | cons c cs =>
    have h1 := length_trim_le (c :: cs)
    simp [JsVal.orElse, JsVal.truthy, sanitizeString, slice0,
      List.take_of_length_le (Nat.le_trans h1 hr)]

/-- A sanitized string field is a fixed point of sanitization from the second pass on. -/
theorem sanitize_twice_fixed (d : JsString) (n : Nat) (hd : trim d = d) (hdn : d.length ≤ n)
    (v : JsVal) :
    sanitizeString (orElse (.str (sanitizeString (orElse (.str
        (sanitizeString (orElse v (.str d)) n)) (.str d)) n)) (.str d)) n =
      sanitizeString (orElse (.str (sanitizeString (orElse v (.str d)) n)) (.str d)) n := by
  obtain ⟨hlead, hlen⟩ := sanitizeString_shape (orElse v (.str d)) n
  generalize sanitizeString (orElse v (.str d)) n = r1 at hlead hlen
  rw [sanitizeString_orElse_str d n hd hdn r1 hlen]
  by_cases h1 : r1 = []
  · simp only [h1, if_true]
    rw [sanitizeString_orElse_str d n hd hdn d hdn]
    simp [hd]
  · simp only [h1, if_false]
    have h2 : (trim r1).length ≤ n := Nat.le_trans (length_trim_le r1) hlen
    rw [sanitizeString_orElse_str d n hd hdn (trim r1) h2]
    simp [trim_ne_nil_of_noLeadingWs hlead h1, trim_trim]


theorem isValidDate_congr {env env' : Env} (h : env'.dateParses = env.dateParses) (v : JsVal) :
    isValidDate env' v = isValidDate env v := by
  cases v <;> simp [isValidDate, h]

theorem isValidDate_repaired {env env' : Env} (h : env'.dateParses = env.dateParses)
    (hnow : env.dateParses env.now = true) (v : JsVal) :
    isValidDate env' (if isValidDate env v = true then v else .str env.now) = true := by
  rw [isValidDate_congr h]
  by_cases hv : isValidDate env v = true
  · simp [hv]
  · rw [if_neg hv]
    simp [isValidDate, hnow]

theorem isValidId_repaired (v : JsVal) (h : isValidId v = true) :
    (if isValidId v = true then v else JsVal.null) = v := by
  simp [h]

theorem validateJournalEntry_fst (env : Env) (x : JsVal) (errors : List String)
    (hobj : isObject x = true) (hid : isValidId (x.get "id") = true) :
    (validateJournalEntry env x errors).1 = some (.obj [("id", x.get "id"),
      ("text", .str (sanitizeString (orElse (x.get "text") (.str [])) 50000)),
      ("createdAt", if isValidDate env (x.get "createdAt") then x.get "createdAt"
                    else .str env.now)]) := by
  simp [validateJournalEntry, hobj, hid, truthy_of_isValidId hid]

theorem validateJournalEntry_twice_fixed (env1 env2 env3 : Env)
    (h12 : env2.dateParses = env1.dateParses) (h13 : env3.dateParses = env1.dateParses)
    (hnow : env1.dateParses env1.now = true) (x y z : JsVal)
    (hy : accepted (validateJournalEntry env1) x = some y)
    (hz : accepted (validateJournalEntry env2) y = some z) :
    accepted (validateJournalEntry env3) z = some z := by
  obtain ⟨hobj, hid⟩ := accepted_some_valid (validateJournalEntry_rejects env1) hy
  unfold accepted at hy hz ⊢
  rw [validateJournalEntry_fst env1 x [] hobj hid] at hy
  cases hy
  simp [validateJournalEntry, isObject, hid, truthy_of_isValidId hid,
    isValidDate_repaired h12 hnow] at hz
  subst hz
  simp [validateJournalEntry, isObject, hid, truthy_of_isValidId hid,
    isValidDate_repaired h13 hnow, sanitize_twice_fixed [] 50000 rfl (by decide)]


theorem strictEq_type_repaired (v : JsVal) :
    strictEq (if strictEq v (.str (lit "folder")) = true then .str (lit "folder")
      else .str (lit "note")) (.str (lit "folder")) = strictEq v (.str (lit "folder")) := by
  by_cases h : strictEq v (.str (lit "folder")) = true
  · rw [if_pos h, h]
    simp [strictEq]
  · rw [if_neg h, Bool.eq_false_iff.2 h]
    have hne : lit "note" ≠ lit "folder" := by decide
    simp [strictEq, hne]

theorem isNullOrString_repaired (v : JsVal) :
    isNullOrString (if isNullOrString v = true then v else .null) = true := by
  by_cases h : isNullOrString v = true
  · rw [if_pos h, h]
  · rw [if_neg h]
    rfl

theorem isNullOrNumber_repaired (v : JsVal) :
    isNullOrNumber (if isNullOrNumber v = true then v else .null) = true := by
  by_cases h : isNullOrNumber v = true
  · rw [if_pos h, h]
  · rw [if_neg h]
    rfl

theorem isBoolean_repaired (v : JsVal) :
    isBoolean (if isBoolean v = true then v else .bool false) = true := by
  by_cases h : isBoolean v = true
  · rw [if_pos h, h]
  · rw [if_neg h]
    rfl

theorem includes_repaired (list : List JsString) (d : JsString) (hd : d ∈ list) (v : JsVal) :
    includes list (if includes list v = true then v else .str d) = true := by
  by_cases h : includes list v = true
  · rw [if_pos h, h]
  · rw [if_neg h]
    simp [includes, hd]

theorem dueDate_repaired {env env' : Env} (h : env'.dateParses = env.dateParses) (v : JsVal) :
    (isNullOrString (if (isNullOrString v && (!v.truthy || isValidDate env v)) = true
        then v else .null) &&
      (!(if (isNullOrString v && (!v.truthy || isValidDate env v)) = true
          then v else JsVal.null).truthy ||
        isValidDate env' (if (isNullOrString v && (!v.truthy || isValidDate env v)) = true
          then v else .null))) = true := by
  by_cases hc : (isNullOrString v && (!v.truthy || isValidDate env v)) = true
  · rw [if_pos hc, isValidDate_congr h]
    exact hc
  · rw [if_neg hc]
    rfl

theorem validateNote_twice_fixed (env1 env2 env3 : Env)
    (h12 : env2.dateParses = env1.dateParses) (h13 : env3.dateParses = env1.dateParses)
    (hnow : env1.dateParses env1.now = true) (x y z : JsVal)
    (hy : accepted (validateNote env1) x = some y)
    (hz : accepted (validateNote env2) y = some z) :
    accepted (validateNote env3) z = some z := by
  obtain ⟨hobj, hid⟩ := accepted_some_valid (validateNote_rejects env1) hy
  unfold accepted at hy hz ⊢
  simp only [validateNote, hobj, hid, truthy_of_isValidId hid, Bool.not_true,
    Bool.false_eq_true, if_false, if_true, get_obj_cons] at hy
  simp only [Prod.fst, Option.some.injEq] at hy
  subst hy
  simp only [validateNote, isObject, hid, truthy_of_isValidId hid, Bool.not_true,
    Bool.false_eq_true, if_false, if_true, get_obj_cons, get_obj_nil,
    isValidDate_repaired h12 hnow, strictEq_type_repaired, isNullOrString_repaired,
    String.reduceEq] at hz
  simp only [Prod.fst, Option.some.injEq] at hz
  subst hz
  simp only [validateNote, isObject, hid, truthy_of_isValidId hid, Bool.not_true,
    Bool.false_eq_true, if_false, if_true, get_obj_cons, get_obj_nil,
    isValidDate_repaired h13 hnow, strictEq_type_repaired, isNullOrString_repaired,
    String.reduceEq, sanitize_twice_fixed [] 500 rfl (by decide)]
  by_cases hf : strictEq (x.get "type") (.str (lit "folder")) = true
  · simp [hf]
  · simp [hf, sanitize_twice_fixed [] 100000 rfl (by decide)]


theorem validateTask_twice_fixed (env1 env2 env3 : Env)
    (h12 : env2.dateParses = env1.dateParses) (h13 : env3.dateParses = env1.dateParses)
    (hnow : env1.dateParses env1.now = true) (x y z : JsVal)
    (hy : accepted (validateTask env1) x = some y)
    (hz : accepted (validateTask env2) y = some z) :
    accepted (validateTask env3) z = some z := by
  obtain ⟨hobj, hid⟩ := accepted_some_valid (validateTask_rejects env1) hy
  have hm : lit "medium" ∈ validPriorities := by decide
  have hb : lit "backlog" ∈ validColumns := by decide
  unfold accepted at hy hz ⊢
  simp only [validateTask, hobj, hid, truthy_of_isValidId hid, Bool.not_true,
    Bool.false_eq_true, if_false, if_true, get_obj_cons] at hy
  simp only [Prod.fst, Option.some.injEq] at hy
  subst hy
  simp only [validateTask, isObject, hid, truthy_of_isValidId hid, Bool.not_true,
    Bool.false_eq_true, if_false, if_true, get_obj_cons, get_obj_nil,
    isValidDate_repaired h12 hnow, isNullOrNumber_repaired, isBoolean_repaired,
    includes_repaired _ _ hm, includes_repaired _ _ hb, dueDate_repaired h12,
    String.reduceEq] at hz
  simp only [Prod.fst, Option.some.injEq] at hz
  subst hz
  simp only [validateTask, isObject, hid, truthy_of_isValidId hid, Bool.not_true,
    Bool.false_eq_true, if_false, if_true, get_obj_cons, get_obj_nil,
    isValidDate_repaired h13 hnow, isNullOrNumber_repaired, isBoolean_repaired,
    includes_repaired _ _ hm, includes_repaired _ _ hb, dueDate_repaired h13,
    String.reduceEq, sanitize_twice_fixed [] 500 rfl (by decide),
    sanitize_twice_fixed [] 10000 rfl (by decide)]

theorem filter_isValidId_idem (l : List JsVal) :
    (l.filter isValidId).filter isValidId = l.filter isValidId := by
  simp

theorem validateColumn_twice_fixed (x y z : JsVal)
    (hy : accepted validateColumn x = some y) (hz : accepted validateColumn y = some z) :
    accepted validateColumn z = some z := by
  obtain ⟨hobj, hid⟩ := accepted_some_valid validateColumn_rejects hy
  unfold accepted at hy hz ⊢
  simp only [validateColumn, hobj, hid, truthy_of_isValidId hid, Bool.not_true,
    Bool.false_eq_true, if_false, if_true] at hy
  simp only [Prod.fst, Option.some.injEq] at hy
  subst hy
  simp only [validateColumn, isObject, isArray, hid, truthy_of_isValidId hid, Bool.not_true,
    Bool.false_eq_true, if_false, if_true, get_obj_cons, get_obj_nil, elems_arr,
    String.reduceEq] at hz
  simp only [Prod.fst, Option.some.injEq] at hz
  subst hz
  simp only [validateColumn, isObject, isArray, hid, truthy_of_isValidId hid, Bool.not_true,
    Bool.false_eq_true, if_false, if_true, get_obj_cons, get_obj_nil, elems_arr,
    String.reduceEq, sanitize_twice_fixed [] 100 rfl (by decide)]
  simp


theorem isArray_arr (xs : List JsVal) : isArray (.arr xs) = true := rfl

theorem isObject_obj (fields : List (String × JsVal)) : isObject (.obj fields) = true := rfl

theorem validateTags_clean (l : List JsVal) : ∀ t ∈ validateTags l, IsCleanTag t := by
  intro t ht
  simp only [validateTags, List.mem_filterMap] at ht
  obtain ⟨a, -, ha⟩ := ht
  cases a with
  | str s =>
    by_cases hs : 0 < s.length ∧ s.length < 50
    · simp only [hs, and_self, if_true, Option.some.injEq] at ha
      subst ha
      have hlen : (trim s).length ≤ 50 := by
        have := length_trim_le s
        omega
      refine ⟨trim s, ?_, trim_trim s, ?_⟩
      · simp [sanitizeString, slice0, List.take_of_length_le hlen]
      · have := length_trim_le s
        omega
    · simp [hs] at ha
  | _ => simp at ha

theorem validateTags_of_clean (l : List JsVal) (h : ∀ t ∈ l, IsCleanTag t) :
    validateTags l = l.filter (fun t => t.truthy) := by
  induction l with
  | nil => rfl
  | cons a as ih =>
    have ih' := ih (fun t ht => h t (List.mem_cons_of_mem _ ht))
    obtain ⟨u, rfl, hu, hlen⟩ := h a (List.mem_cons_self _ _)
    have hlen' : u.length ≤ 50 := by omega
    unfold validateTags at ih' ⊢
    rw [List.filterMap_cons, ih']
    cases u with
    | nil => simp [JsVal.truthy]
    | cons c cs =>
      have : 0 < (c :: cs).length ∧ (c :: cs).length < 50 := ⟨by simp, hlen⟩
      simp only [this, and_self, if_true]
      simp [JsVal.truthy, sanitizeString, slice0, hu, List.take_of_length_le hlen']

theorem validateTags_twice_fixed (l : List JsVal) :
    validateTags (validateTags (validateTags l)) = validateTags (validateTags l) := by
  have h1 := validateTags_of_clean _ (validateTags_clean l)
  rw [h1]
  rw [validateTags_of_clean _ (fun t ht => validateTags_clean l t (List.mem_of_mem_filter ht))]
  simp

theorem validateSnippet_twice_fixed (env1 env2 env3 : Env)
    (h12 : env2.dateParses = env1.dateParses) (h13 : env3.dateParses = env1.dateParses)
    (hnow : env1.dateParses env1.now = true) (x y z : JsVal)
    (hy : accepted (validateSnippet env1) x = some y)
    (hz : accepted (validateSnippet env2) y = some z) :
    accepted (validateSnippet env3) z = some z := by
  obtain ⟨hobj, hid⟩ := accepted_some_valid (validateSnippet_rejects env1) hy
  have hcode : ∀ v : JsVal, isString (if isString v = true
      then JsVal.str (slice0 v.chars 100000) else .str []) = true := by
    intro v
    split_ifs <;> rfl
  have hchars : ∀ v : JsVal, slice0 (if isString v = true
      then JsVal.str (slice0 v.chars 100000) else .str []).chars 100000 =
      (if isString v = true then JsVal.str (slice0 v.chars 100000) else .str []).chars := by
    intro v
    split_ifs <;> simp [JsVal.chars, slice0, List.take_take]
  have hstr : ∀ v : JsVal, JsVal.str (if isString v = true
      then JsVal.str (slice0 v.chars 100000) else .str []).chars =
      (if isString v = true then JsVal.str (slice0 v.chars 100000) else .str []) := by
    intro v
    split_ifs <;> rfl
  unfold accepted at hy hz ⊢
  simp only [validateSnippet, hobj, hid, truthy_of_isValidId hid, Bool.not_true,
    Bool.false_eq_true, if_false, if_true] at hy
  simp only [Prod.fst, Option.some.injEq] at hy
  subst hy
  simp only [validateSnippet, isObject_obj, isArray_arr, hid, truthy_of_isValidId hid, Bool.not_true,
    Bool.false_eq_true, if_false, if_true, get_obj_cons, get_obj_nil, elems_arr,
    isValidDate_repaired h12 hnow, hcode, hchars, hstr, String.reduceEq] at hz
  simp only [Prod.fst, Option.some.injEq] at hz
  subst hz
  simp only [validateSnippet, isObject_obj, isArray_arr, hid, truthy_of_isValidId hid, Bool.not_true,
    Bool.false_eq_true, if_false, if_true, get_obj_cons, get_obj_nil, elems_arr,
    isValidDate_repaired h13 hnow, hcode, hchars, hstr, String.reduceEq,
    sanitize_twice_fixed [] 500 rfl (by decide),
    sanitize_twice_fixed [] 2000 rfl (by decide),
    sanitize_twice_fixed (lit "text") 50 (by decide) (by decide)]
  by_cases ht : isArray (x.get "tags") = true
  · simp only [ht, if_true, validateTags_twice_fixed]
  · simp only [ht, if_false]
    rfl


theorem filterMap_eq_self {f : JsVal → Option JsVal} {l : List JsVal}
    (h : ∀ a ∈ l, f a = some a) : l.filterMap f = l := by
  induction l with
  | nil => rfl
  | cons a as ih =>
    rw [List.filterMap_cons, h a (List.mem_cons_self _ _)]
    simp only [List.cons.injEq, true_and]
    exact ih (fun b hb => h b (List.mem_cons_of_mem _ hb))

theorem filterMap_twice_fixed (V1 V2 V3 : JsVal → Option JsVal)
    (h : ∀ x y z, V1 x = some y → V2 y = some z → V3 z = some z) (xs : List JsVal) :
    ((xs.filterMap V1).filterMap V2).filterMap V3 = (xs.filterMap V1).filterMap V2 := by
  apply filterMap_eq_self
  intro z hz
  obtain ⟨y, hy, hyz⟩ := List.mem_filterMap.1 hz
  obtain ⟨x, -, hxy⟩ := List.mem_filterMap.1 hy
  exact h x y z hxy hyz

theorem validateJournal_twice_fixed (env1 env2 env3 : Env)
    (h12 : env2.dateParses = env1.dateParses) (h13 : env3.dateParses = env1.dateParses)
    (hnow : env1.dateParses env1.now = true) (x y z : JsVal)
    (hy : accepted (validateJournal env1) x = some y)
    (hz : accepted (validateJournal env2) y = some z) :
    accepted (validateJournal env3) z = some z := by
  obtain ⟨hobj, hid⟩ := accepted_some_valid (validateJournal_rejects env1) hy
  unfold accepted at hy hz ⊢
  rw [validateJournal_fst env1 x [] hobj hid] at hy
  simp only [Option.some.injEq] at hy
  subst hy
  simp only [validateJournal_fst, isObject_obj, get_obj_cons, get_obj_nil, if_true, hid,
    elems_arr, String.reduceEq, if_false, Option.some.injEq] at hz
  subst hz
  simp only [validateJournal_fst, isObject_obj, get_obj_cons, get_obj_nil, if_true, hid,
    elems_arr, String.reduceEq, if_false, Option.some.injEq,
    sanitize_twice_fixed (lit "Journal") 200 (by decide) (by decide),
    filterMap_twice_fixed _ _ _ (validateJournalEntry_twice_fixed env1 env2 env3 h12 h13 hnow)]


theorem maxZeroFloor_fixed (v : JsVal) (h : isNumber v = true) :
    isNumber (maxZeroFloor v) = true ∧ maxZeroFloor (maxZeroFloor v) = maxZeroFloor v := by
  cases v with
  | num n =>
    cases n with
    | nan => simp [isNumber] at h
    | posInf => exact ⟨rfl, rfl⟩
    | negInf =>
      refine ⟨rfl, ?_⟩
      simp [maxZeroFloor, maxZero, floorNum]
    | fin q =>
      refine ⟨rfl, ?_⟩
      simp only [maxZeroFloor, maxZero, floorNum, JsVal.num.injEq, JsNum.fin.injEq]
      have h1 : max (0 : ℚ) (⌊q⌋ : ℚ) = ((max 0 ⌊q⌋ : ℤ) : ℚ) := by
        push_cast
        rfl
      rw [h1, Int.floor_intCast]
      push_cast
      simp
  | _ => simp [isNumber] at h

theorem validateMetrics_idem (v : JsVal) :
    validateMetrics (validateMetrics v) = validateMetrics v := by
  by_cases hobj : isObject v = true
  · have key : ∀ k, isNumber (v.get k) = true →
        isNumber (maxZeroFloor (v.get k)) = true ∧
        maxZeroFloor (maxZeroFloor (v.get k)) = maxZeroFloor (v.get k) :=
      fun k hk => maxZeroFloor_fixed _ hk
    have hu : isNumber JsVal.undefined = false := rfl
    simp only [validateMetrics, hobj, isObject_obj, allowedKeys, Bool.not_true,
      Bool.false_eq_true, if_false]
    by_cases h1 : isNumber (v.get "focusDays") = true <;>
    by_cases h2 : isNumber (v.get "incidentsResolved") = true <;>
    by_cases h3 : isNumber (v.get "deepWorkDays") = true <;>
    simp [List.filterMap_cons, h1, h2, h3, hu, key]
  · simp [validateMetrics, hobj, isObject_obj, allowedKeys, isNumber]


theorem ensureDefaultCols_of_has (cols : List JsVal) (h : HasDefaultCols cols) :
    ensureDefaultCols cols = cols := by
  have hfind : ∀ d ∈ defaultCols,
      (cols.find? (fun c => strictEq (c.get "id") (.str d))).isNone = false := by
    intro d hd
    obtain ⟨c, hc, hid⟩ := h d hd
    rw [Bool.eq_false_iff]
    intro hn
    have hnone : cols.find? (fun c => strictEq (c.get "id") (.str d)) = none := by
      simpa using hn
    rw [List.find?_eq_none] at hnone
    have := hnone c hc
    rw [hid] at this
    simp [strictEq] at this
  simp only [ensureDefaultCols, defaultCols, List.foldl_cons, List.foldl_nil]
  rw [hfind (lit "todo") (by simp [defaultCols])]
  simp only [Bool.false_eq_true, if_false]
  rw [hfind (lit "doing") (by simp [defaultCols])]
  simp only [Bool.false_eq_true, if_false]
  rw [hfind (lit "done") (by simp [defaultCols])]
  simp only [Bool.false_eq_true, if_false]

theorem hasDefaultCols_ensure (cols : List JsVal) : HasDefaultCols (ensureDefaultCols cols) :=
  fun d hd => ensureDefaultCols_has cols d hd

theorem settles_of_accepted {x y : JsVal} (h : accepted validateColumn x = some y) :
    SettlesColumn y := by
  obtain ⟨hobj, hid⟩ := accepted_some_valid validateColumn_rejects h
  have hyid := (validateColumn_rejects x []).2 y h
  have hy : isObject y = true ∧ isValidId (y.get "id") = true := by
    unfold accepted at h
    simp only [validateColumn, hobj, hid, truthy_of_isValidId hid, Bool.not_true,
      Bool.false_eq_true, if_false, if_true] at h
    simp only [Prod.fst, Option.some.injEq] at h
    subst h
    exact ⟨rfl, by simpa using hid⟩
  constructor
  · cases hz : accepted validateColumn y with
    | none =>
      have := ((validateColumn_rejects y []).1).1 hz
      exact absurd ⟨hy.1, (isValidId_iff _).1 hy.2⟩ this
    | some z => exact ⟨z, rfl, (validateColumn_rejects y []).2 z hz⟩
  · intro z hz
    exact validateColumn_twice_fixed x y z h hz

theorem settles_default (d : JsString) (hd : d ∈ defaultCols) :
    SettlesColumn (.obj [("id", .str d), ("title", .str (toUpperCase d)),
      ("taskIds", .arr [])]) := by
  simp only [defaultCols, List.mem_cons, List.mem_singleton, List.not_mem_nil, or_false] at hd
  have key : accepted validateColumn (.obj [("id", .str d), ("title", .str (toUpperCase d)),
      ("taskIds", .arr [])]) = some (.obj [("id", .str d), ("title", .str (toUpperCase d)),
      ("taskIds", .arr [])]) := by
    rcases hd with rfl | rfl | rfl <;> rfl
  refine ⟨⟨_, key, rfl⟩, ?_⟩
  intro z hz
  rw [key] at hz
  cases hz
  exact key

theorem mem_ensureDefaultCols (cols : List JsVal) (c : JsVal)
    (hc : c ∈ ensureDefaultCols cols) :
    c ∈ cols ∨ ∃ d ∈ defaultCols, c = .obj [("id", .str d), ("title", .str (toUpperCase d)),
      ("taskIds", .arr [])] := by
  simp only [ensureDefaultCols, defaultCols, List.foldl_cons, List.foldl_nil] at hc
  simp only [defaultCols, List.mem_cons, List.mem_singleton, List.not_mem_nil, or_false,
    exists_eq_or_imp, exists_eq_left]
  split_ifs at hc <;> (try simp only [List.mem_append, List.mem_singleton] at hc) <;> tauto

/-- The columns of an agenda are settled from the second validation on. -/
theorem columns_twice_fixed (l : List JsVal) :
    ensureDefaultCols ((ensureDefaultCols ((ensureDefaultCols
        (l.filterMap (accepted validateColumn))).filterMap
          (accepted validateColumn))).filterMap (accepted validateColumn)) =
      ensureDefaultCols ((ensureDefaultCols (l.filterMap (accepted validateColumn))).filterMap
        (accepted validateColumn)) := by
  have hsettle : ∀ c ∈ ensureDefaultCols (l.filterMap (accepted validateColumn)),
      SettlesColumn c := by
    intro c hc
    rcases mem_ensureDefaultCols _ _ hc with h | ⟨d, hd, rfl⟩
    · obtain ⟨x, -, hx⟩ := List.mem_filterMap.1 h
      exact settles_of_accepted hx
    · exact settles_default d hd
  have hdef : HasDefaultCols ((ensureDefaultCols (l.filterMap (accepted validateColumn))).filterMap
      (accepted validateColumn)) := by
    intro d hd
    obtain ⟨c, hc, hid⟩ := hasDefaultCols_ensure (l.filterMap (accepted validateColumn)) d hd
    obtain ⟨⟨z, hz, hzid⟩, -⟩ := hsettle c hc
    exact ⟨z, List.mem_filterMap.2 ⟨c, hc, hz⟩, hzid.trans hid⟩
  rw [ensureDefaultCols_of_has _ hdef]
  have hfix : ((ensureDefaultCols (l.filterMap (accepted validateColumn))).filterMap
      (accepted validateColumn)).filterMap (accepted validateColumn) =
      (ensureDefaultCols (l.filterMap (accepted validateColumn))).filterMap
      (accepted validateColumn) := by
    apply filterMap_eq_self
    intro z hz
    obtain ⟨c, hc, hcz⟩ := List.mem_filterMap.1 hz
    exact (hsettle c hc).2 z hcz
  rw [hfix, ensureDefaultCols_of_has _ hdef]


theorem sanitize_main_journal :
    sanitizeString (orElse (.str (lit "Main Journal")) (.str (lit "Journal"))) 200 =
      lit "Main Journal" := by
  decide

theorem migrated_journal_twice_fixed (env1 env2 env3 : Env)
    (h12 : env2.dateParses = env1.dateParses) (h13 : env3.dateParses = env1.dateParses)
    (hnow : env1.dateParses env1.now = true) (l : List JsVal) :
    ([JsVal.obj [("id", .str (lit "default")), ("name", .str (lit "Main Journal")),
        ("entries", .arr (l.filterMap (accepted (validateJournalEntry env1))))]].filterMap
        (accepted (validateJournal env2))).filterMap (accepted (validateJournal env3)) =
      [JsVal.obj [("id", .str (lit "default")), ("name", .str (lit "Main Journal")),
        ("entries", .arr (l.filterMap (accepted (validateJournalEntry env1))))]].filterMap
        (accepted (validateJournal env2)) := by
  have hdef : isValidId (.str (lit "default")) = true := by decide
  have h2 : accepted (validateJournal env2)
      (.obj [("id", .str (lit "default")), ("name", .str (lit "Main Journal")),
        ("entries", .arr (l.filterMap (accepted (validateJournalEntry env1))))]) =
      some (.obj [("id", .str (lit "default")), ("name", .str (lit "Main Journal")),
        ("entries", .arr ((l.filterMap (accepted (validateJournalEntry env1))).filterMap
          (accepted (validateJournalEntry env2))))]) := by
    unfold accepted
    simp only [validateJournal_fst, isObject_obj, hdef, get_obj_cons, get_obj_nil, if_true,
      elems_arr, String.reduceEq, if_false, sanitize_main_journal]
    rfl
  have h3 : accepted (validateJournal env3)
      (.obj [("id", .str (lit "default")), ("name", .str (lit "Main Journal")),
        ("entries", .arr ((l.filterMap (accepted (validateJournalEntry env1))).filterMap
          (accepted (validateJournalEntry env2))))]) =
      some (.obj [("id", .str (lit "default")), ("name", .str (lit "Main Journal")),
        ("entries", .arr ((l.filterMap (accepted (validateJournalEntry env1))).filterMap
          (accepted (validateJournalEntry env2))))]) := by
    have hfix := filterMap_twice_fixed _ _ _
      (validateJournalEntry_twice_fixed env1 env2 env3 h12 h13 hnow) l
    unfold accepted at hfix ⊢
    simp only [validateJournal_fst, isObject_obj, hdef, get_obj_cons, get_obj_nil, if_true,
      elems_arr, String.reduceEq, if_false, sanitize_main_journal]
    unfold accepted
    rw [hfix]
  simp only [List.filterMap_cons, List.filterMap_nil, h2, h3]

theorem validateAgenda_twice_fixed (env1 env2 env3 : Env)
    (h12 : env2.dateParses = env1.dateParses) (h13 : env3.dateParses = env1.dateParses)
    (hnow : env1.dateParses env1.now = true) (x y z : JsVal)
    (hy : accepted (validateAgenda env1) x = some y)
    (hz : accepted (validateAgenda env2) y = some z) :
    accepted (validateAgenda env3) z = some z := by
  obtain ⟨hobj, hid⟩ := accepted_some_valid (validateAgenda_rejects env1) hy
  have hdef : isValidId (.str (lit "default")) = true := by decide
  unfold accepted at hy hz ⊢
  rw [validateAgenda_fst env1 x [] hobj hid] at hy
  simp only [Option.some.injEq] at hy
  subst hy
  simp only [validateAgenda_fst, isObject_obj, isArray_arr, get_obj_cons, get_obj_nil, if_true,
    hid, elems_arr, String.reduceEq, if_false, Option.some.injEq,
    isValidDate_repaired h12 hnow] at hz
  subst hz
  simp only [validateAgenda_fst, isObject_obj, isArray_arr, get_obj_cons, get_obj_nil, if_true,
    hid, elems_arr, String.reduceEq, if_false, Option.some.injEq,
    isValidDate_repaired h13 hnow, validateMetrics_idem, columns_twice_fixed,
    sanitize_twice_fixed (lit "Untitled Agenda") 200 (by decide) (by decide),
    filterMap_twice_fixed _ _ _ (validateNote_twice_fixed env1 env2 env3 h12 h13 hnow),
    filterMap_twice_fixed _ _ _ (validateTask_twice_fixed env1 env2 env3 h12 h13 hnow),
    filterMap_twice_fixed _ _ _ (validateSnippet_twice_fixed env1 env2 env3 h12 h13 hnow)]
  cases hj : isArray (x.get "journals") with
  | true =>
    simp only [if_true,
      filterMap_twice_fixed _ _ _ (validateJournal_twice_fixed env1 env2 env3 h12 h13 hnow)]
  | false =>
    cases hl : isArray (x.get "journal") with
    | true =>
      simp only [Bool.false_eq_true, if_true, if_false,
        migrated_journal_twice_fixed env1 env2 env3 h12 h13 hnow]
    | false =>
      simp only [Bool.false_eq_true, if_false, List.filterMap_nil]

theorem validateWorkspace_twice_fixed (env1 env2 env3 : Env)
    (h12 : env2.dateParses = env1.dateParses) (h13 : env3.dateParses = env1.dateParses)
    (hnow : env1.dateParses env1.now = true) (x y z : JsVal)
    (hy : accepted (validateWorkspace env1) x = some y)
    (hz : accepted (validateWorkspace env2) y = some z) :
    accepted (validateWorkspace env3) z = some z := by
  obtain ⟨hobj, hid⟩ := accepted_some_valid (validateWorkspace_rejects env1) hy
  unfold accepted at hy hz ⊢
  rw [validateWorkspace_fst env1 x [] hobj hid] at hy
  simp only [Option.some.injEq] at hy
  subst hy
  simp only [validateWorkspace_fst, isObject_obj, isArray_arr, get_obj_cons, get_obj_nil,
    if_true, hid, elems_arr, String.reduceEq, if_false, Option.some.injEq,
    isValidDate_repaired h12 hnow] at hz
  subst hz
  simp only [validateWorkspace_fst, isObject_obj, isArray_arr, get_obj_cons, get_obj_nil,
    if_true, hid, elems_arr, String.reduceEq, if_false, Option.some.injEq,
    isValidDate_repaired h13 hnow,
    sanitize_twice_fixed (lit "Untitled Workspace") 200 (by decide) (by decide),
    filterMap_twice_fixed _ _ _ (validateAgenda_twice_fixed env1 env2 env3 h12 h13 hnow)]


theorem deepValidateState_state (env : Env) (doc : JsVal)
    (h : (deepValidateState env doc).valid = true) :
    (deepValidateState env doc).state = .obj [("schemaVersion", SCHEMA_VERSION),
      ("workspaces",
        .arr ((doc.get "workspaces").elems.filterMap (accepted (validateWorkspace env)))),
      ("activeWorkspaceId",
        (repairActiveIds ((doc.get "workspaces").elems.filterMap
            (accepted (validateWorkspace env)))
          (if isNullOrString (doc.get "activeWorkspaceId") then doc.get "activeWorkspaceId"
            else .null)
          (if isNullOrString (doc.get "activeAgendaId") then doc.get "activeAgendaId"
            else .null) []).1),
      ("activeAgendaId",
        (repairActiveIds ((doc.get "workspaces").elems.filterMap
            (accepted (validateWorkspace env)))
          (if isNullOrString (doc.get "activeWorkspaceId") then doc.get "activeWorkspaceId"
            else .null)
          (if isNullOrString (doc.get "activeAgendaId") then doc.get "activeAgendaId"
            else .null) []).2.1)] := by
  obtain ⟨h1, h2, h3⟩ := deepValidateState_checks env doc h
  have hw := forEachWorkspace_fst env (doc.get "workspaces").elems [] 0 []
  simp only [List.nil_append] at hw
  simp only [deepValidateState, h1, h2, h3, Bool.false_eq_true, if_false, hw]
  rfl

theorem deepValidateState_valid_of_shape (env : Env) (wss : List JsVal) (aw aa : JsVal) :
    (deepValidateState env (.obj [("schemaVersion", SCHEMA_VERSION), ("workspaces", .arr wss),
      ("activeWorkspaceId", aw), ("activeAgendaId", aa)])).valid = true := by
  simp [deepValidateState, JsVal.truthy, JsVal.typeofObject, SCHEMA_VERSION, strictEq,
    isArray_arr]

theorem repairActiveIds_idem (wss : List JsVal) (aw0 aa0 : JsVal) (e e' : List String) :
    (repairActiveIds wss (repairActiveIds wss aw0 aa0 e).1 (repairActiveIds wss aw0 aa0 e).2.1
      e').1 = (repairActiveIds wss aw0 aa0 e).1 ∧
    (repairActiveIds wss (repairActiveIds wss aw0 aa0 e).1 (repairActiveIds wss aw0 aa0 e).2.1
      e').2.1 = (repairActiveIds wss aw0 aa0 e).2.1 := by
  have hn : JsVal.null.truthy = false := rfl
  cases hreset : (aw0.truthy &&
      (wss.find? (fun ws => strictEq (ws.get "id") aw0)).isNone) with
  | true =>
    have h1 : (repairActiveIds wss aw0 aa0 e).1 = .null := by
      rw [repairActiveIds_fst, hreset]
      rfl
    have h2 := repairActiveIds_snd_of_reset wss aw0 aa0 e hreset
    rw [h1, h2]
    constructor
    · rw [repairActiveIds_fst, hn]
      rfl
    · rw [repairActiveIds_snd_of_keep _ _ _ _ (by rw [hn]; rfl), hn]
      rfl
  | false =>
    have h1 : (repairActiveIds wss aw0 aa0 e).1 = aw0 := by
      rw [repairActiveIds_fst, hreset]
      rfl
    have h2 := repairActiveIds_snd_of_keep wss aw0 aa0 e hreset
    rw [h1]
    constructor
    · rw [repairActiveIds_fst, hreset]
      rfl
    · rw [repairActiveIds_snd_of_keep _ _ _ _ hreset, h2]
      cases hra : (aa0.truthy && aw0.truthy &&
          (match wss.find? (fun w => strictEq (w.get "id") aw0) with
           | some ws => ((ws.get "agendas").elems.find?
                (fun a => strictEq (a.get "id") aa0)).isNone
           | none => false)) with
      | true => simp [hn]
      | false => simp [hra]

theorem isNullOrString_repairActiveIds (wss : List JsVal) (aw0 aa0 : JsVal) (e : List String)
    (haw : isNullOrString aw0 = true) (haa : isNullOrString aa0 = true) :
    isNullOrString (repairActiveIds wss aw0 aa0 e).1 = true ∧
    isNullOrString (repairActiveIds wss aw0 aa0 e).2.1 = true := by
  simp only [repairActiveIds]
  constructor
  · split_ifs <;> first | exact haw | rfl
  · split_ifs <;> first | exact haa | rfl


/-- The state that validation returns for a state of the returned shape whose active ids
are null or strings. -/
theorem deepValidateState_of_shape (env : Env) (wss : List JsVal) (aw aa : JsVal)
    (haw : isNullOrString aw = true) (haa : isNullOrString aa = true) :
    (deepValidateState env (.obj [("schemaVersion", SCHEMA_VERSION), ("workspaces", .arr wss),
      ("activeWorkspaceId", aw), ("activeAgendaId", aa)])).state =
    .obj [("schemaVersion", SCHEMA_VERSION),
      ("workspaces", .arr (wss.filterMap (accepted (validateWorkspace env)))),
      ("activeWorkspaceId",
        (repairActiveIds (wss.filterMap (accepted (validateWorkspace env))) aw aa []).1),
      ("activeAgendaId",
        (repairActiveIds (wss.filterMap (accepted (validateWorkspace env))) aw aa []).2.1)] := by
  rw [deepValidateState_state env _ (deepValidateState_valid_of_shape env wss aw aa)]
  simp only [get_obj_cons, get_obj_nil, String.reduceEq, if_true, if_false, elems_arr, haw, haa]

/-- C2 (as stated, refuted): `blankNameDoc` validates, its validated state validates again,
but the second validation changes the workspace name from the empty string to
`Untitled Workspace`, so it does not return the validated state unchanged. -/
theorem validation_idempotent_counterexample :
    (deepValidateState sampleEnv blankNameDoc).valid = true ∧
    (deepValidateState sampleEnv (deepValidateState sampleEnv blankNameDoc).state).valid =
      true ∧
    ((deepValidateState sampleEnv blankNameDoc).state.get "workspaces").elems.map
      (fun w => w.get "name") = [.str []] ∧
    ((deepValidateState sampleEnv
        (deepValidateState sampleEnv blankNameDoc).state).state.get "workspaces").elems.map
      (fun w => w.get "name") = [.str (lit "Untitled Workspace")] ∧
    (deepValidateState sampleEnv (deepValidateState sampleEnv blankNameDoc).state).state ≠
      (deepValidateState sampleEnv blankNameDoc).state := by
  have h1 : ((deepValidateState sampleEnv blankNameDoc).state.get "workspaces").elems.map
      (fun w => w.get "name") = [.str []] := rfl
  have h2 : ((deepValidateState sampleEnv
        (deepValidateState sampleEnv blankNameDoc).state).state.get "workspaces").elems.map
      (fun w => w.get "name") = [.str (lit "Untitled Workspace")] := rfl
  refine ⟨by decide, by decide, h1, h2, fun hc => ?_⟩
  rw [hc, h1] at h2
  have hne : ([] : JsString) ≠ lit "Untitled Workspace" := by decide
  simp only [List.cons.injEq, JsVal.str.injEq, and_true] at h2
  exact hne h2

/-- C2 (amended): validation settles at the second pass. When a document validates with
state `S`, then `S` validates with a state `S'`, and `S'` validates with the state `S'`
itself; the three passes may read different clocks, they parse dates alike and the clock
reading of the first pass is a valid date. -/
theorem validation_settles_at_second_pass (env1 env2 env3 : Env)
    (h12 : env2.dateParses = env1.dateParses) (h13 : env3.dateParses = env1.dateParses)
    (hnow : env1.dateParses env1.now = true) (doc : JsVal)
    (h : (deepValidateState env1 doc).valid = true) :
    (deepValidateState env2 (deepValidateState env1 doc).state).valid = true ∧
    (deepValidateState env3
      (deepValidateState env2 (deepValidateState env1 doc).state).state).valid = true ∧
    (deepValidateState env3
      (deepValidateState env2 (deepValidateState env1 doc).state).state).state =
      (deepValidateState env2 (deepValidateState env1 doc).state).state := by
  rw [deepValidateState_state env1 doc h]
  obtain ⟨ha1, hb1⟩ := isNullOrString_repairActiveIds
    ((doc.get "workspaces").elems.filterMap (accepted (validateWorkspace env1)))
    _ _ [] (isNullOrString_repaired (doc.get "activeWorkspaceId"))
    (isNullOrString_repaired (doc.get "activeAgendaId"))
  generalize (repairActiveIds ((doc.get "workspaces").elems.filterMap
    (accepted (validateWorkspace env1))) _ _ []).1 = a1 at ha1 ⊢
  generalize (repairActiveIds ((doc.get "workspaces").elems.filterMap
    (accepted (validateWorkspace env1))) _ _ []).2.1 = b1 at hb1 ⊢
  refine ⟨deepValidateState_valid_of_shape env2 _ a1 b1, ?_, ?_⟩
  · rw [deepValidateState_of_shape env2 _ a1 b1 ha1 hb1]
    exact deepValidateState_valid_of_shape env3 _ _ _
  · rw [deepValidateState_of_shape env2 _ a1 b1 ha1 hb1]
    obtain ⟨ha2, hb2⟩ := isNullOrString_repairActiveIds
      (((doc.get "workspaces").elems.filterMap (accepted (validateWorkspace env1))).filterMap
        (accepted (validateWorkspace env2))) a1 b1 [] ha1 hb1
    rw [deepValidateState_of_shape env3 _ _ _ ha2 hb2,
      filterMap_twice_fixed _ _ _ (validateWorkspace_twice_fixed env1 env2 env3 h12 h13 hnow)]
    obtain ⟨hi1, hi2⟩ := repairActiveIds_idem
      (((doc.get "workspaces").elems.filterMap (accepted (validateWorkspace env1))).filterMap
        (accepted (validateWorkspace env2))) a1 b1 [] []
    rw [hi1, hi2]

theorem validation_settles_at_second_pass_witness :
    sampleEnv.dateParses sampleEnv.now = true ∧
    (deepValidateState sampleEnv blankNameDoc).valid = true ∧
    (deepValidateState sampleEnv (deepValidateState sampleEnv blankNameDoc).state).valid =
      true ∧
    (deepValidateState sampleEnv
      (deepValidateState sampleEnv (deepValidateState sampleEnv blankNameDoc).state).state).valid
      = true ∧
    (deepValidateState sampleEnv
      (deepValidateState sampleEnv (deepValidateState sampleEnv blankNameDoc).state).state).state
      = (deepValidateState sampleEnv (deepValidateState sampleEnv blankNameDoc).state).state :=
  ⟨by decide, by decide,
   validation_settles_at_second_pass sampleEnv sampleEnv sampleEnv rfl rfl (by decide)
    blankNameDoc (by decide)⟩

/-! ## Collections and enum fields -/

theorem includes_iff (list : List JsString) (v : JsVal) :
    includes list v = true ↔ IsOneOf list v := by
  unfold IsOneOf
  cases v <;> simp [includes]

theorem validateTask_fst (env : Env) (task : JsVal) (errors : List String)
    (hobj : isObject task = true) (hid : isValidId (task.get "id") = true) :
    (validateTask env task errors).1 = some (.obj [
      ("id", task.get "id"),
      ("title", .str (sanitizeString (orElse (task.get "title") (.str [])) 500)),
      ("description", .str (sanitizeString (orElse (task.get "description") (.str [])) 10000)),
      ("priority", if includes validPriorities (task.get "priority") then task.get "priority"
                   else .str (lit "medium")),
      ("dueDate", if isNullOrString (task.get "dueDate") &&
                      (!(task.get "dueDate").truthy || isValidDate env (task.get "dueDate"))
                  then task.get "dueDate" else .null),
      ("columnId", if includes validColumns (task.get "columnId") then task.get "columnId"
                   else .str (lit "backlog")),
      ("createdAt", if isValidDate env (task.get "createdAt") then task.get "createdAt"
                    else .str env.now),
      ("isFinalized", if isBoolean (task.get "isFinalized") then task.get "isFinalized"
                      else .bool false),
      ("isDeleted", if isBoolean (task.get "isDeleted") then task.get "isDeleted"
                    else .bool false),
      ("finalizedAt", if isNullOrNumber (task.get "finalizedAt") then task.get "finalizedAt"
                      else .null),
      ("deletedAt", if isNullOrNumber (task.get "deletedAt") then task.get "deletedAt"
                    else .null)]) := by
  simp only [validateTask, hobj, hid, truthy_of_isValidId hid, Bool.not_true,
    Bool.false_eq_true, if_false, if_true, get_obj_cons]

theorem validateNote_fst (env : Env) (note : JsVal) (errors : List String)
    (hobj : isObject note = true) (hid : isValidId (note.get "id") = true) :
    (validateNote env note errors).1 = some (.obj [
      ("id", note.get "id"),
      ("type", if strictEq (note.get "type") (.str (lit "folder")) then .str (lit "folder")
               else .str (lit "note")),
      ("title", .str (sanitizeString (orElse (note.get "title") (.str [])) 500)),
      ("content", if strictEq (note.get "type") (.str (lit "folder")) then .undefined
                  else .str (sanitizeString (orElse (note.get "content") (.str [])) 100000)),
      ("parentId", if isNullOrString (note.get "parentId") then note.get "parentId" else .null),
      ("createdAt", if isValidDate env (note.get "createdAt") then note.get "createdAt"
                    else .str env.now),
      ("modifiedAt", if isValidDate env (note.get "modifiedAt") then note.get "modifiedAt"
                     else .str env.now)]) := by
  simp only [validateNote, hobj, hid, truthy_of_isValidId hid, Bool.not_true,
    Bool.false_eq_true, if_false, if_true, get_obj_cons]

/-- C12: for a task object with a valid id the validated priority is the input priority
when that is `low`, `medium` or `high` and `medium` otherwise, the validated columnId is the
input columnId when that is `backlog`, `todo`, `doing` or `done` and `backlog` otherwise;
for a note object with a valid id the validated type is `folder` when the input type is
`folder` and `note` otherwise. -/
theorem enum_fields_fall_back (env : Env) (task note : JsVal) (errors : List String)
    (htask : isObject task = true) (htid : isValidId (task.get "id") = true)
    (hnote : isObject note = true) (hnid : isValidId (note.get "id") = true) :
    ∃ vt vn, (validateTask env task errors).1 = some vt ∧
      (validateNote env note errors).1 = some vn ∧
      (IsOneOf [lit "low", lit "medium", lit "high"] (task.get "priority") →
        vt.get "priority" = task.get "priority") ∧
      (¬ IsOneOf [lit "low", lit "medium", lit "high"] (task.get "priority") →
        vt.get "priority" = .str (lit "medium")) ∧
      (IsOneOf [lit "backlog", lit "todo", lit "doing", lit "done"] (task.get "columnId") →
        vt.get "columnId" = task.get "columnId") ∧
      (¬ IsOneOf [lit "backlog", lit "todo", lit "doing", lit "done"] (task.get "columnId") →
        vt.get "columnId" = .str (lit "backlog")) ∧
      (note.get "type" = .str (lit "folder") → vn.get "type" = .str (lit "folder")) ∧
      (note.get "type" ≠ .str (lit "folder") → vn.get "type" = .str (lit "note")) := by
  have hp := includes_iff validPriorities (task.get "priority")
  have hc := includes_iff validColumns (task.get "columnId")
  have hf := strictEq_str (note.get "type") (lit "folder")
  simp only [validPriorities, validColumns] at hp hc
  refine ⟨_, _, validateTask_fst env task errors htask htid,
    validateNote_fst env note errors hnote hnid, ?_, ?_, ?_, ?_, ?_, ?_⟩
  · intro h
    have := hp.2 h
    simp [validPriorities, this]
  · intro h
    have : includes [lit "low", lit "medium", lit "high"] (task.get "priority") = false := by
      rw [Bool.eq_false_iff]
      exact fun hc' => h (hp.1 hc')
    simp [validPriorities, this]
  · intro h
    have := hc.2 h
    simp [validColumns, this]
  · intro h
    have : includes [lit "backlog", lit "todo", lit "doing", lit "done"]
        (task.get "columnId") = false := by
      rw [Bool.eq_false_iff]
      exact fun hc' => h (hc.1 hc')
    simp [validColumns, this]
  · intro h
    have := hf.2 h
    simp [this]
  · intro h
    have : strictEq (note.get "type") (.str (lit "folder")) = false := by
      rw [Bool.eq_false_iff]
      exact fun hc' => h (hf.1 hc')
    simp [this]

theorem enum_fields_fall_back_witness :
    (∃ vt vn, (validateTask sampleEnv zzzTask []).1 = some vt ∧
      (validateNote sampleEnv oddTypeNote []).1 = some vn ∧
      (IsOneOf [lit "low", lit "medium", lit "high"] (zzzTask.get "priority") →
        vt.get "priority" = zzzTask.get "priority") ∧
      (¬ IsOneOf [lit "low", lit "medium", lit "high"] (zzzTask.get "priority") →
        vt.get "priority" = .str (lit "medium")) ∧
      (IsOneOf [lit "backlog", lit "todo", lit "doing", lit "done"] (zzzTask.get "columnId") →
        vt.get "columnId" = zzzTask.get "columnId") ∧
      (¬ IsOneOf [lit "backlog", lit "todo", lit "doing", lit "done"]
          (zzzTask.get "columnId") →
        vt.get "columnId" = .str (lit "backlog")) ∧
      (oddTypeNote.get "type" = .str (lit "folder") → vn.get "type" = .str (lit "folder")) ∧
      (oddTypeNote.get "type" ≠ .str (lit "folder") → vn.get "type" = .str (lit "note"))) ∧
    (accepted (validateTask sampleEnv) zzzTask).map (fun v => v.get "columnId") =
      some (.str (lit "backlog")) :=
  ⟨enum_fields_fall_back sampleEnv zzzTask oddTypeNote [] rfl rfl rfl rfl, rfl⟩

theorem find?_isNone_eq_all (cols : List JsVal) (d : JsString) :
    (cols.find? (fun c => strictEq (c.get "id") (.str d))).isNone =
      cols.all (fun c => !strictEq (c.get "id") (.str d)) := by
  induction cols with
  | nil => rfl
  | cons a as ih =>
    simp only [List.find?_cons, List.all_cons]
    cases h : strictEq (a.get "id") (.str d)
    · simpa using ih
    · simp

theorem ensureDefaultCols_eq_append (cols : List JsVal) :
    ensureDefaultCols cols = cols ++ missingDefaultCols cols := by
  have h1 : strictEq (.str (lit "todo")) (.str (lit "doing")) = false := by decide
  have h2 : strictEq (.str (lit "todo")) (.str (lit "done")) = false := by decide
  have h3 : strictEq (.str (lit "doing")) (.str (lit "done")) = false := by decide
  simp only [ensureDefaultCols, defaultCols, List.foldl_cons, List.foldl_nil,
    missingDefaultCols, find?_isNone_eq_all, defaultColumn]
  cases ha : cols.all (fun c => !strictEq (c.get "id") (.str (lit "todo"))) <;>
  cases hb : cols.all (fun c => !strictEq (c.get "id") (.str (lit "doing"))) <;>
  cases hc : cols.all (fun c => !strictEq (c.get "id") (.str (lit "done"))) <;>
  simp [List.filter_cons, ha, hb, hc, h1, h2, h3, List.all_append, defaultColumn]


theorem accepted_agenda_shape (env : Env) {x v : JsVal}
    (h : accepted (validateAgenda env) x = some v) :
    v = .obj [("id", x.get "id"),
      ("name", .str (sanitizeString (orElse (x.get "name") (.str (lit "Untitled Agenda"))) 200)),
      ("createdAt", if isValidDate env (x.get "createdAt") then x.get "createdAt"
                    else .str env.now),
      ("notes", .arr ((x.get "notes").elems.filterMap (accepted (validateNote env)))),
      ("tasks", .arr ((x.get "tasks").elems.filterMap (accepted (validateTask env)))),
      ("columns", .arr (ensureDefaultCols
        ((x.get "columns").elems.filterMap (accepted validateColumn)))),
      ("journals", .arr (
        if isArray (x.get "journals") then
          (x.get "journals").elems.filterMap (accepted (validateJournal env))
        else if isArray (x.get "journal") then
          [.obj [("id", .str (lit "default")), ("name", .str (lit "Main Journal")),
                 ("entries", .arr ((x.get "journal").elems.filterMap
                    (accepted (validateJournalEntry env))))]]
        else [])),
      ("snippets", .arr ((x.get "snippets").elems.filterMap (accepted (validateSnippet env)))),
      ("finalizedTasks",
        .arr ((x.get "finalizedTasks").elems.filterMap (accepted (validateTask env)))),
      ("deletedTasks",
        .arr ((x.get "deletedTasks").elems.filterMap (accepted (validateTask env)))),
      ("metrics", validateMetrics (x.get "metrics"))] := by
  obtain ⟨hobj, hid⟩ := accepted_some_valid (validateAgenda_rejects env) h
  unfold accepted at h
  rw [validateAgenda_fst env x [] hobj hid] at h
  exact (Option.some.inj h).symm

theorem accepted_journal_entries (env : Env) {x v : JsVal}
    (h : accepted (validateJournal env) x = some v) :
    FilteredField (validateJournalEntry env) "entries" x v := by
  obtain ⟨hobj, hid⟩ := accepted_some_valid (validateJournal_rejects env) h
  unfold accepted at h
  rw [validateJournal_fst env x [] hobj hid] at h
  cases h
  simp [FilteredField]

/-- C11: collection validation keeps the order. The workspaces of a validated document, the
agendas of a validated workspace, the notes, tasks, finalized tasks, deleted tasks and
snippets of a validated agenda, its journals when the input `journals` is an array, and the
entries of a validated journal are the input list mapped through the validator of the
element, rejected elements removed, in the input order; the columns of a validated agenda
are the validated input columns in input order, followed by the default columns they
lack. -/
theorem collections_keep_order (env : Env) (doc ws0 ws ag0 ag j0 j : JsVal)
    (hdoc : (deepValidateState env doc).valid = true)
    (hws : accepted (validateWorkspace env) ws0 = some ws)
    (hag : accepted (validateAgenda env) ag0 = some ag)
    (hj : accepted (validateJournal env) j0 = some j) :
    FilteredField (validateWorkspace env) "workspaces" doc (deepValidateState env doc).state ∧
    FilteredField (validateAgenda env) "agendas" ws0 ws ∧
    FilteredField (validateNote env) "notes" ag0 ag ∧
    FilteredField (validateTask env) "tasks" ag0 ag ∧
    FilteredField (validateTask env) "finalizedTasks" ag0 ag ∧
    FilteredField (validateTask env) "deletedTasks" ag0 ag ∧
    FilteredField (validateSnippet env) "snippets" ag0 ag ∧
    (isArray (ag0.get "journals") = true →
      FilteredField (validateJournal env) "journals" ag0 ag) ∧
    FilteredField (validateJournalEntry env) "entries" j0 j ∧
    ag.get "columns" = .arr (
      (ag0.get "columns").elems.filterMap (accepted validateColumn) ++
      missingDefaultCols ((ag0.get "columns").elems.filterMap (accepted validateColumn))) := by
  have hshape := accepted_agenda_shape env hag
  refine ⟨deepValidateState_workspaces env doc hdoc, accepted_workspace_agendas env hws,
    ?_, ?_, ?_, ?_, ?_, ?_, accepted_journal_entries env hj, ?_⟩
  · rw [hshape]; simp [FilteredField]
  · rw [hshape]; simp [FilteredField]
  · rw [hshape]; simp [FilteredField]
  · rw [hshape]; simp [FilteredField]
  · rw [hshape]; simp [FilteredField]
  · intro harr
    rw [hshape]
    simp [FilteredField, harr]
  · rw [accepted_agenda_columns env hag, ensureDefaultCols_eq_append]

theorem collections_keep_order_witness :
    ∃ ws ag j, accepted (validateWorkspace sampleEnv) mixedWorkspace = some ws ∧
      accepted (validateAgenda sampleEnv) mixedAgenda = some ag ∧
      accepted (validateJournal sampleEnv) mixedJournal = some j ∧
      (FilteredField (validateWorkspace sampleEnv) "workspaces" (mkDoc [mixedWorkspace] .null .null)
        (deepValidateState sampleEnv (mkDoc [mixedWorkspace] .null .null)).state ∧
      FilteredField (validateAgenda sampleEnv) "agendas" mixedWorkspace ws ∧
      FilteredField (validateNote sampleEnv) "notes" mixedAgenda ag ∧
      FilteredField (validateTask sampleEnv) "tasks" mixedAgenda ag ∧
      FilteredField (validateTask sampleEnv) "finalizedTasks" mixedAgenda ag ∧
      FilteredField (validateTask sampleEnv) "deletedTasks" mixedAgenda ag ∧
      FilteredField (validateSnippet sampleEnv) "snippets" mixedAgenda ag ∧
      (isArray (mixedAgenda.get "journals") = true →
        FilteredField (validateJournal sampleEnv) "journals" mixedAgenda ag) ∧
      FilteredField (validateJournalEntry sampleEnv) "entries" mixedJournal j ∧
      ag.get "columns" = .arr (
        (mixedAgenda.get "columns").elems.filterMap (accepted validateColumn) ++
        missingDefaultCols
          ((mixedAgenda.get "columns").elems.filterMap (accepted validateColumn)))) :=
  ⟨_, _, _, rfl, rfl, rfl,
    collections_keep_order sampleEnv (mkDoc [mixedWorkspace] .null .null) mixedWorkspace _
      mixedAgenda _ mixedJournal _ (by decide) rfl rfl rfl⟩

/-! ## Object spread -/

theorem any_key_eq_lookup (k : String) (fb : List (String × JsVal)) :
    fb.any (fun f => f.1 == k) = (fb.lookup k).isSome := by
  induction fb with
  | nil => rfl
  | cons p rest ih =>
    obtain ⟨a, b⟩ := p
    by_cases h : k = a
    · subst h
      simp [List.lookup_cons]
    · have h2 : (k == a) = false := by simpa using h
      have h3 : (a == k) = false := by simpa using fun e => h e.symm
      simp [List.lookup_cons, h2, h3, ih]

theorem lookup_spread_left (k : String) (fa fb rest : List (String × JsVal)) :
    List.lookup k (fa.map (fun p => (p.1, (fb.lookup p.1).getD p.2)) ++ rest) =
      match fa.lookup k with
      | some v => some ((fb.lookup k).getD v)
      | none => rest.lookup k := by
  induction fa with
  | nil => rfl
  | cons p tail ih =>
    obtain ⟨a, b⟩ := p
    by_cases h : k = a
    · subst h
      simp [List.lookup_cons]
    · have h2 : (k == a) = false := by simpa using h
      simp only [List.map_cons, List.cons_append, List.lookup_cons, h2]
      exact ih

theorem lookup_spread_right (k : String) (fa fb : List (String × JsVal))
    (h : fa.lookup k = none) :
    List.lookup k (fb.filter (fun q => (fa.lookup q.1).isNone)) = fb.lookup k := by
  induction fb with
  | nil => rfl
  | cons p tail ih =>
    obtain ⟨a, b⟩ := p
    by_cases hk : k = a
    · subst hk
      simp [List.filter_cons, h, List.lookup_cons]
    · have h2 : (k == a) = false := by simpa using hk
      by_cases hf : (fa.lookup a).isNone = true
      · simp only [List.filter_cons, hf, if_true, List.lookup_cons, h2]
        exact ih
      · simp only [List.filter_cons, hf, List.lookup_cons, h2]
        simpa using ih

theorem get_objectSpread (fa fb : List (String × JsVal)) (k : String) :
    (objectSpread (.obj fa) (.obj fb)).get k =
      if (JsVal.obj fb).hasKey k then (JsVal.obj fb).get k else (JsVal.obj fa).get k := by
  simp only [objectSpread, ownEntries, JsVal.get, JsVal.hasKey, any_key_eq_lookup,
    lookup_spread_left]
  cases ha : fa.lookup k with
  | some v =>
    cases hb : fb.lookup k <;> simp
  | none =>
    simp only [lookup_spread_right k fa fb ha]
    cases hb : fb.lookup k <;> simp


/-! ## The store: one update -/

theorem saveState_store (codec : JsonCodec) (w : World) (state : JsVal) :
    (saveState codec w state).store = w.store := by
  unfold saveState
  cases w.storage.setItem (codec.stringify state) <;> rfl

theorem saveState_ok (codec : JsonCodec) (w : World) (state : JsVal)
    (h : w.storage.writeThrows = false) :
    saveState codec w state =
      { w with storage := { w.storage with item := some (codec.stringify state) },
               log := w.log ++ [.stored (codec.stringify state)] } := by
  simp [saveState, Storage.setItem, h]

theorem saveState_throws (codec : JsonCodec) (w : World) (state : JsVal)
    (h : w.storage.writeThrows = true) :
    saveState codec w state = { w with log := w.log ++ [.storeFailed] } := by
  simp [saveState, Storage.setItem, h]

/-- The state that `update` assigns. -/
theorem updateState_state (w : World) (updateFn : Mutator) :
    (Store.updateState w updateFn).store.state =
      if ((updateFn (structuredClone w.store.state)).2.truthy &&
          (updateFn (structuredClone w.store.state)).2.typeofObject) = true
      then objectSpread (updateFn (structuredClone w.store.state)).1
        (updateFn (structuredClone w.store.state)).2
      else (updateFn (structuredClone w.store.state)).1 := by
  by_cases h : ((updateFn (structuredClone w.store.state)).2.truthy &&
      (updateFn (structuredClone w.store.state)).2.typeofObject) = true
  · simp only [Store.updateState, h, if_true, Store.setState]
  · simp [Store.updateState, h, Store.setState]

theorem updateState_rest (w : World) (updateFn : Mutator) :
    (Store.updateState w updateFn).store.listeners = w.store.listeners ∧
    (Store.updateState w updateFn).store.initialized = w.store.initialized ∧
    (Store.updateState w updateFn).storage = w.storage ∧
    (Store.updateState w updateFn).log =
      w.log ++ [.stateSet (Store.updateState w updateFn).store.state] := by
  by_cases h : ((updateFn (structuredClone w.store.state)).2.truthy &&
      (updateFn (structuredClone w.store.state)).2.typeofObject) = true
  · simp only [Store.updateState, h, if_true, Store.setState, and_self]
  · simp [Store.updateState, h, Store.setState]

theorem update_store (codec : JsonCodec) (w : World) (updateFn : Mutator) :
    (Store.update codec w updateFn).store = (Store.updateState w updateFn).store := by
  simp [Store.update, Store.notify, saveState_store]

theorem update_state (codec : JsonCodec) (w : World) (updateFn : Mutator) :
    Store.getState (Store.update codec w updateFn) = (Store.updateState w updateFn).store.state := by
  simp [Store.getState, update_store]

theorem update_listeners (codec : JsonCodec) (w : World) (updateFn : Mutator) :
    (Store.update codec w updateFn).store.listeners = w.store.listeners := by
  rw [update_store, (updateState_rest w updateFn).1]

theorem update_initialized (codec : JsonCodec) (w : World) (updateFn : Mutator) :
    (Store.update codec w updateFn).store.initialized = w.store.initialized := by
  rw [update_store, (updateState_rest w updateFn).2.1]

theorem update_ok (codec : JsonCodec) (w : World) (updateFn : Mutator)
    (h : w.storage.writeThrows = false) :
    (Store.update codec w updateFn).storage =
      { w.storage with item := some (codec.stringify (Store.getState (Store.update codec w updateFn))) } ∧
    (Store.update codec w updateFn).log =
      w.log ++ ([.stateSet (Store.getState (Store.update codec w updateFn)),
                 .stored (codec.stringify (Store.getState (Store.update codec w updateFn)))] ++
        w.store.listeners.elems.map
          (fun l => .called l (Store.getState (Store.update codec w updateFn)))) := by
  obtain ⟨h1, -, h3, h4⟩ := updateState_rest w updateFn
  have hw : (Store.updateState w updateFn).storage.writeThrows = false := by rw [h3]; exact h
  rw [update_state]
  simp only [Store.update, Store.notify, saveState_ok codec _ _ hw, h1, h3, h4]
  simp

theorem update_throws (codec : JsonCodec) (w : World) (updateFn : Mutator)
    (h : w.storage.writeThrows = true) :
    (Store.update codec w updateFn).storage = w.storage ∧
    (Store.update codec w updateFn).log =
      w.log ++ ([.stateSet (Store.getState (Store.update codec w updateFn)), .storeFailed] ++
        w.store.listeners.elems.map
          (fun l => .called l (Store.getState (Store.update codec w updateFn)))) := by
  obtain ⟨h1, -, h3, h4⟩ := updateState_rest w updateFn
  have hw : (Store.updateState w updateFn).storage.writeThrows = true := by rw [h3]; exact h
  rw [update_state]
  simp only [Store.update, Store.notify, saveState_throws codec _ _ hw, h1, h3, h4]
  simp

theorem eventsSince_append (w1 w2 : World) (events : List Event)
    (h : w2.log = w1.log ++ events) : eventsSince w1 w2 = events := by
  simp [eventsSince, h]

theorem callsOf_append (l : Nat) (xs ys : List Event) :
    callsOf l (xs ++ ys) = callsOf l xs ++ callsOf l ys := by
  simp [callsOf, List.filterMap_append]

theorem callsOf_calls_not_mem (l : Nat) (s : JsVal) (ls : List Nat) (h : l ∉ ls) :
    callsOf l (ls.map (fun x => Event.called x s)) = [] := by
  induction ls with
  | nil => rfl
  | cons a rest ih =>
    have ha : a ≠ l := fun e => h (e ▸ List.mem_cons_self _ _)
    have hr : l ∉ rest := fun e => h (List.mem_cons_of_mem _ e)
    have := ih hr
    simp only [callsOf] at this ⊢
    simp [List.filterMap_cons, ha, this]

theorem callsOf_calls_mem (l : Nat) (s : JsVal) (ls : List Nat) (hnodup : ls.Nodup)
    (h : l ∈ ls) : callsOf l (ls.map (fun x => Event.called x s)) = [s] := by
  induction ls with
  | nil => cases h
  | cons a rest ih =>
    rw [List.nodup_cons] at hnodup
    by_cases ha : a = l
    · subst ha
      have := callsOf_calls_not_mem a s rest hnodup.1
      simp only [callsOf] at this ⊢
      simp [List.filterMap_cons, this]
    · have hr : l ∈ rest := by
        rcases List.mem_cons.1 h with e | e
        · exact absurd e.symm ha
        · exact e
      have := ih hnodup.2 hr
      simp only [callsOf] at this ⊢
      simp [List.filterMap_cons, ha, this]

/-- In the events of a notification a listener of the set is called once, with the
snapshot, and any other listener is not called. -/
theorem callsOf_calls (l : Nat) (s : JsVal) (ls : ListenerSet) :
    callsOf l (ls.elems.map (fun x => Event.called x s)) = if l ∈ ls.elems then [s] else [] := by
  by_cases h : l ∈ ls.elems
  · rw [if_pos h, callsOf_calls_mem l s _ ls.nodup h]
  · rw [if_neg h, callsOf_calls_not_mem l s _ h]

/-- The calls of a listener during one `update`. -/
theorem callsOf_update (codec : JsonCodec) (w : World) (updateFn : Mutator) (l : Nat) :
    callsOf l (eventsSince w (Store.update codec w updateFn)) =
      if l ∈ w.store.listeners.elems then [Store.getState (Store.update codec w updateFn)]
      else [] := by
  cases h : w.storage.writeThrows with
  | false =>
    rw [eventsSince_append _ _ _ (update_ok codec w updateFn h).2, callsOf_append, callsOf_calls]
    simp [callsOf]
  | true =>
    rw [eventsSince_append _ _ _ (update_throws codec w updateFn h).2, callsOf_append,
      callsOf_calls]
    simp [callsOf]

/-- C13: `Store.update` merges what the mutator returns into the draft. When the mutator,
applied to the copy of the state, leaves the draft `d` and returns an object `r`, the next
state has under every key `k` the value `r[k]` if `r` has the key and `d[k]` otherwise;
when it returns nothing, or anything that is not an object, the next state is `d`. -/
theorem update_merge_semantics (codec : JsonCodec) (w : World) (updateFn : Mutator)
    (d r : JsVal) (hrun : updateFn (structuredClone w.store.state) = (d, r))
    (hd : isObject d = true) :
    (isObject r = true → ∀ k, (Store.getState (Store.update codec w updateFn)).get k =
      if r.hasKey k then r.get k else d.get k) ∧
    (r = .undefined → Store.getState (Store.update codec w updateFn) = d) ∧
    ((r.truthy && r.typeofObject) = false →
      Store.getState (Store.update codec w updateFn) = d) := by
  rw [update_state, updateState_state, hrun]
  refine ⟨fun hr k => ?_, fun hr => ?_, fun hr => ?_⟩
  · obtain ⟨fa, rfl⟩ := (isObject_iff d).1 hd
    obtain ⟨fb, rfl⟩ := (isObject_iff r).1 hr
    rw [if_pos (by rfl)]
    exact get_objectSpread fa fb k
  · subst hr
    rfl
  · simp [hr]

theorem update_merge_semantics_witness :
    Store.getState (Store.update sampleCodec (watchedWorld abState (openStorage none)) returnsB)
      = .obj [("a", .num (.fin 1)), ("b", .num (.fin 3))] ∧
    ((isObject (.obj [("b", .num (.fin 3))]) = true → ∀ k,
      (Store.getState (Store.update sampleCodec (watchedWorld abState (openStorage none))
        returnsB)).get k =
      if (JsVal.obj [("b", .num (.fin 3))]).hasKey k then
        (JsVal.obj [("b", .num (.fin 3))]).get k else abState.get k) ∧
    (JsVal.obj [("b", .num (.fin 3))] = .undefined →
      Store.getState (Store.update sampleCodec (watchedWorld abState (openStorage none))
        returnsB) = abState) ∧
    (((JsVal.obj [("b", .num (.fin 3))]).truthy &&
        (JsVal.obj [("b", .num (.fin 3))]).typeofObject) = false →
      Store.getState (Store.update sampleCodec (watchedWorld abState (openStorage none))
        returnsB) = abState)) :=
  ⟨rfl, update_merge_semantics sampleCodec (watchedWorld abState (openStorage none)) returnsB
    abState (.obj [("b", .num (.fin 3))]) rfl rfl⟩

/-- C14: after a `Store.update` whose write to storage succeeds, the text in storage is
the serialisation of the live state; the transaction assigns that state, writes that text
once, and then calls every listener of the set exactly once, with that same state, and no
other listener. -/
theorem update_persists_and_notifies (codec : JsonCodec) (w : World) (updateFn : Mutator)
    (hwrite : w.storage.writeThrows = false) :
    (Store.update codec w updateFn).storage.item =
      some (codec.stringify (Store.getState (Store.update codec w updateFn))) ∧
    eventsSince w (Store.update codec w updateFn) =
      [.stateSet (Store.getState (Store.update codec w updateFn)),
       .stored (codec.stringify (Store.getState (Store.update codec w updateFn)))] ++
      w.store.listeners.elems.map
        (fun l => .called l (Store.getState (Store.update codec w updateFn))) ∧
    (Store.update codec w updateFn).store.listeners = w.store.listeners ∧
    (∀ l ∈ (Store.update codec w updateFn).store.listeners.elems,
      callsOf l (eventsSince w (Store.update codec w updateFn)) =
        [Store.getState (Store.update codec w updateFn)]) ∧
    (∀ l, l ∉ (Store.update codec w updateFn).store.listeners.elems →
      callsOf l (eventsSince w (Store.update codec w updateFn)) = []) := by
  obtain ⟨h1, h2⟩ := update_ok codec w updateFn hwrite
  refine ⟨by rw [h1], eventsSince_append _ _ _ h2, update_listeners codec w updateFn, ?_, ?_⟩
  · intro l hl
    rw [update_listeners] at hl
    rw [callsOf_update, if_pos hl]
  · intro l hl
    rw [update_listeners] at hl
    rw [callsOf_update, if_neg hl]

theorem update_persists_and_notifies_witness :
    (watchedWorld getInitialState (openStorage (some emptyDocText))).storage.writeThrows = false ∧
    (Store.update sampleCodec (watchedWorld getInitialState (openStorage (some emptyDocText)))
      selectGhostInPlace).storage.item = some ghostDocText ∧
    callsOf 9 (eventsSince (watchedWorld getInitialState (openStorage (some emptyDocText)))
      (Store.update sampleCodec (watchedWorld getInitialState (openStorage (some emptyDocText)))
        selectGhostInPlace)) = [mkDoc [] (.str (lit "ghost")) .null] ∧
    (Store.update sampleCodec (watchedWorld getInitialState (openStorage (some emptyDocText)))
        selectGhostInPlace).storage.item =
      some (sampleCodec.stringify (Store.getState (Store.update sampleCodec
        (watchedWorld getInitialState (openStorage (some emptyDocText))) selectGhostInPlace))) :=
  ⟨rfl, rfl, rfl, (update_persists_and_notifies sampleCodec
    (watchedWorld getInitialState (openStorage (some emptyDocText))) selectGhostInPlace rfl).1⟩

theorem loadState_of_read_throws (env : Env) (codec : JsonCodec) (storage : Storage)
    (h : storage.readThrows = true) : loadState env codec storage = .null := by
  simp [loadState, loadStateBody, Storage.getItem, h]

theorem loadState_of_parse_throws (env : Env) (codec : JsonCodec) (storage : Storage)
    (text : JsString) (hread : storage.getItem = .ok (some text))
    (hparse : codec.parse text = none) : loadState env codec storage = .null := by
  unfold loadState loadStateBody
  rw [hread]
  cases text with
  | nil => rfl
  | cons c rest => simp [hparse]

/-- C16: a failing storage does not change the outcome of a transaction. When the write
throws, `Store.update` still returns: the exception ends in the `catch` of `saveState`, the
store (live state, listeners) is the one that the same call gives over a storage whose
write succeeds, the storage is left as it was, and every listener is called once with the
new state. And `loadState` returns null when the read throws and when `JSON.parse`
throws. -/
theorem storage_failure_keeps_outcome (env : Env) (codec : JsonCodec) (w : World)
    (updateFn : Mutator) (hwrite : w.storage.writeThrows = true) :
    (Store.update codec w updateFn).store =
      (Store.update codec { w with storage := { w.storage with writeThrows := false } }
        updateFn).store ∧
    (Store.update codec w updateFn).storage = w.storage ∧
    eventsSince w (Store.update codec w updateFn) =
      [.stateSet (Store.getState (Store.update codec w updateFn)), .storeFailed] ++
      w.store.listeners.elems.map
        (fun l => .called l (Store.getState (Store.update codec w updateFn))) ∧
    (∀ l ∈ w.store.listeners.elems,
      callsOf l (eventsSince w (Store.update codec w updateFn)) =
        [Store.getState (Store.update codec w updateFn)]) ∧
    (∀ storage : Storage, storage.readThrows = true → loadState env codec storage = .null) ∧
    (∀ (storage : Storage) (text : JsString), storage.getItem = .ok (some text) →
      codec.parse text = none → loadState env codec storage = .null) := by
  obtain ⟨h1, h2⟩ := update_throws codec w updateFn hwrite
  refine ⟨?_, h1, eventsSince_append _ _ _ h2, ?_, loadState_of_read_throws env codec,
    loadState_of_parse_throws env codec⟩
  · rw [update_store, update_store]
    by_cases h : ((updateFn (structuredClone w.store.state)).2.truthy &&
        (updateFn (structuredClone w.store.state)).2.typeofObject) = true
    · simp [Store.updateState, h, Store.setState]
    · simp [Store.updateState, h, Store.setState]
  · intro l hl
    rw [callsOf_update, if_pos hl]

theorem storage_failure_keeps_outcome_witness :
    (watchedWorld getInitialState (fullStorage (some emptyDocText))).storage.writeThrows = true ∧
    Store.getState (Store.update sampleCodec
      (watchedWorld getInitialState (fullStorage (some emptyDocText))) selectGhost) =
      mkDoc [] (.str (lit "ghost")) .null ∧
    (Store.update sampleCodec
      (watchedWorld getInitialState (fullStorage (some emptyDocText))) selectGhost).storage.item =
      some emptyDocText ∧
    loadState sampleEnv sampleCodec (closedStorage (some emptyDocText)) = .null ∧
    loadState sampleEnv sampleCodec (openStorage (some (lit "oops"))) = .null ∧
    (Store.update sampleCodec
      (watchedWorld getInitialState (fullStorage (some emptyDocText))) selectGhost).store =
      (Store.update sampleCodec
        (watchedWorld getInitialState (openStorage (some emptyDocText))) selectGhost).store :=
  ⟨rfl, rfl, rfl, rfl, rfl, (storage_failure_keeps_outcome sampleEnv sampleCodec
    (watchedWorld getInitialState (fullStorage (some emptyDocText))) selectGhost rfl).1⟩

/-! ## The store: loading and `init` -/

theorem deepValidateState_truthy (env : Env) (v : JsVal)
    (h : (deepValidateState env v).valid = true) :
    (deepValidateState env v).state.truthy = true := by
  rw [deepValidateState_state env v h]
  rfl

theorem loadState_of_valid (env : Env) (codec : JsonCodec) (storage : Storage) (v : JsVal)
    (h : HoldsValidDocument env codec storage v) :
    loadState env codec storage = (deepValidateState env v).state := by
  obtain ⟨hread, text, hitem, hne, hparse, hvalid⟩ := h
  cases text with
  | nil => exact absurd rfl hne
  | cons c rest =>
    simp [loadState, loadStateBody, Storage.getItem, hread, hitem, hparse, hvalid]

theorem loadState_of_none (env : Env) (codec : JsonCodec) (storage : Storage)
    (h : NoStoredDocument env codec storage) : loadState env codec storage = .null := by
  rcases h with h | h | h | ⟨text, h, hparse⟩ | ⟨text, v, h, hparse, hvalid⟩
  · simp [loadState, loadStateBody, Storage.getItem, h]
  · cases hr : storage.readThrows <;> simp [loadState, loadStateBody, Storage.getItem, h, hr]
  · cases hr : storage.readThrows <;> simp [loadState, loadStateBody, Storage.getItem, h, hr]
  · cases hr : storage.readThrows
    · cases text <;> simp [loadState, loadStateBody, Storage.getItem, h, hr, hparse]
    · simp [loadState, loadStateBody, Storage.getItem, hr]
  · cases hr : storage.readThrows
    · cases text <;> simp [loadState, loadStateBody, Storage.getItem, h, hr, hparse, hvalid]
    · simp [loadState, loadStateBody, Storage.getItem, hr]

/-- Every storage is in one of the two cases of `init`. -/
theorem storage_cases (env : Env) (codec : JsonCodec) (storage : Storage) :
    NoStoredDocument env codec storage ∨ ∃ v, HoldsValidDocument env codec storage v := by
  cases hr : storage.readThrows with
  | true => exact .inl (.inl hr)
  | false =>
    cases hi : storage.item with
    | none => exact .inl (.inr (.inl hi))
    | some text =>
      by_cases hne : text = []
      · subst hne
        exact .inl (.inr (.inr (.inl hi)))
      · cases hp : codec.parse text with
        | none => exact .inl (.inr (.inr (.inr (.inl ⟨text, hi, hp⟩))))
        | some v =>
          cases hv : (deepValidateState env v).valid with
          | false => exact .inl (.inr (.inr (.inr (.inr ⟨text, v, hi, hp, hv⟩))))
          | true => exact .inr ⟨v, hr, text, hi, hne, hp, hv⟩

theorem init_of_initialized (env : Env) (codec : JsonCodec) (w : World)
    (h : w.store.initialized = true) : Store.init env codec w = w := by
  simp [Store.init, h]

theorem init_of_loaded (env : Env) (codec : JsonCodec) (w : World)
    (hfirst : w.store.initialized = false)
    (h : (loadState env codec w.storage).truthy = true) :
    Store.init env codec w =
      { store := { state := loadState env codec w.storage, listeners := w.store.listeners,
                   initialized := true },
        storage := w.storage,
        log := w.log ++ ([.stateSet (loadState env codec w.storage)] ++
          w.store.listeners.elems.map (fun l => .called l (loadState env codec w.storage))) } := by
  simp [Store.init, hfirst, h, Store.setState, Store.notify]

theorem init_of_not_loaded (env : Env) (codec : JsonCodec) (w : World)
    (hfirst : w.store.initialized = false)
    (h : (loadState env codec w.storage).truthy = false) :
    Store.init env codec w =
      { store := { state := getInitialState, listeners := w.store.listeners,
                   initialized := true },
        storage := if w.storage.writeThrows then w.storage
          else { w.storage with item := some (codec.stringify getInitialState) },
        log := w.log ++ ([.stateSet getInitialState,
            if w.storage.writeThrows then .storeFailed
            else .stored (codec.stringify getInitialState)] ++
          w.store.listeners.elems.map (fun l => .called l getInitialState)) } := by
  cases hw : w.storage.writeThrows with
  | false =>
    have hw2 : (Store.setState w getInitialState).storage.writeThrows = false := hw
    unfold Store.init
    simp only [hfirst, h, Bool.false_eq_true, if_false]
    rw [saveState_ok codec _ _ hw2]
    simp [Store.setState, Store.notify]
  | true =>
    have hw2 : (Store.setState w getInitialState).storage.writeThrows = true := hw
    unfold Store.init
    simp only [hfirst, h, Bool.false_eq_true, if_false]
    rw [saveState_throws codec _ _ hw2]
    simp [Store.setState, Store.notify]

/-- What `init` leaves alone, and the shape of its events. -/
theorem init_frame (env : Env) (codec : JsonCodec) (w : World) :
    (Store.init env codec w).store.listeners = w.store.listeners ∧
    ∃ events calls, (Store.init env codec w).log = w.log ++ (events ++ calls) ∧
      (∀ l, callsOf l events = []) ∧
      (calls = [] ∨ calls = w.store.listeners.elems.map
        (fun l => .called l (Store.getState (Store.init env codec w)))) := by
  cases hi : w.store.initialized with
  | true =>
    rw [init_of_initialized env codec w hi]
    exact ⟨rfl, [], [], by simp, fun l => rfl, .inl rfl⟩
  | false =>
    cases ht : (loadState env codec w.storage).truthy with
    | true =>
      rw [init_of_loaded env codec w hi ht]
      exact ⟨rfl, _, _, rfl, fun l => rfl, .inr rfl⟩
    | false =>
      rw [init_of_not_loaded env codec w hi ht]
      refine ⟨rfl, _, _, rfl, fun l => ?_, .inr rfl⟩
      cases w.storage.writeThrows <;> rfl

theorem init_initialized (env : Env) (codec : JsonCodec) (w : World) :
    (Store.init env codec w).store.initialized = true := by
  cases hi : w.store.initialized with
  | true => rw [init_of_initialized env codec w hi, hi]
  | false =>
    cases ht : (loadState env codec w.storage).truthy with
    | true => rw [init_of_loaded env codec w hi ht]
    | false => rw [init_of_not_loaded env codec w hi ht]

/-- The calls of a listener during a first `init`. -/
theorem callsOf_init (env : Env) (codec : JsonCodec) (w : World) (l : Nat)
    (hfirst : w.store.initialized = false) :
    callsOf l (eventsSince w (Store.init env codec w)) =
      if l ∈ w.store.listeners.elems then [Store.getState (Store.init env codec w)] else [] := by
  cases ht : (loadState env codec w.storage).truthy with
  | true =>
    rw [init_of_loaded env codec w hfirst ht]
    rw [eventsSince_append _ _ _ rfl, callsOf_append]
    simp only [Store.getState, callsOf_calls]
    simp [callsOf]
  | false =>
    rw [init_of_not_loaded env codec w hfirst ht]
    rw [eventsSince_append _ _ _ rfl, callsOf_append]
    simp only [Store.getState, callsOf_calls]
    cases w.storage.writeThrows <;> simp [callsOf]

/-- C15 (as stated, refuted): over a storage that holds the text of the empty document,
the transaction `update(draft => ({ activeWorkspaceId: "ghost" }))` first assigns the new
state and then writes. After its first statement the live state is the new document while
storage still holds the old text, which is not the text of the new document. -/
theorem write_before_swap_counterexample :
    eventsSince (watchedWorld getInitialState (openStorage (some emptyDocText)))
      (Store.update sampleCodec (watchedWorld getInitialState (openStorage (some emptyDocText)))
        selectGhost) =
      [.stateSet (mkDoc [] (.str (lit "ghost")) .null), .stored ghostDocText,
       .called 7 (mkDoc [] (.str (lit "ghost")) .null),
       .called 9 (mkDoc [] (.str (lit "ghost")) .null)] ∧
    (∃ w1 ∈ Store.updateSteps sampleCodec
        (watchedWorld getInitialState (openStorage (some emptyDocText))) selectGhost,
      Store.getState w1 = Store.getState (Store.update sampleCodec
        (watchedWorld getInitialState (openStorage (some emptyDocText))) selectGhost) ∧
      w1.storage.item = some emptyDocText ∧
      w1.storage.item ≠ some (sampleCodec.stringify (Store.getState w1))) :=
  ⟨rfl, Store.updateState (watchedWorld getInitialState (openStorage (some emptyDocText)))
      selectGhost, List.mem_cons_self _ _, rfl, rfl, by decide⟩

/-- C15 (amended): every `Store.update` transaction runs in this order: the live state is
replaced, then the write to storage is attempted, then the listeners are called. So the
write comes after the replacement of the live state and before every notification: after
the first statement the live state is the new one over the storage as it was, and the
listeners are called on a world whose storage, when the write succeeds, holds the text of
the new state. -/
theorem update_swaps_then_writes (codec : JsonCodec) (w : World) (updateFn : Mutator) :
    (∃ write, (write = .stored (codec.stringify (Store.getState (Store.update codec w updateFn)))
        ∨ write = .storeFailed) ∧
      eventsSince w (Store.update codec w updateFn) =
        [.stateSet (Store.getState (Store.update codec w updateFn)), write] ++
        w.store.listeners.elems.map
          (fun l => .called l (Store.getState (Store.update codec w updateFn)))) ∧
    (∃ w1 w2, Store.updateSteps codec w updateFn = [w1, w2, Store.update codec w updateFn] ∧
      Store.getState w1 = Store.getState (Store.update codec w updateFn) ∧
      w1.storage = w.storage ∧
      eventsSince w w1 = [.stateSet (Store.getState (Store.update codec w updateFn))] ∧
      Store.getState w2 = Store.getState (Store.update codec w updateFn) ∧
      (w.storage.writeThrows = false →
        w2.storage.item = some (codec.stringify (Store.getState (Store.update codec w updateFn)))) ∧
      (∀ l, callsOf l (eventsSince w w2) = [])) := by
  have hrest := updateState_rest w updateFn
  refine ⟨?_, Store.updateState w updateFn,
    saveState codec (Store.updateState w updateFn) (Store.updateState w updateFn).store.state,
    rfl, ?_, hrest.2.2.1, ?_, ?_, ?_, ?_⟩
  · cases hw : w.storage.writeThrows with
    | false =>
      exact ⟨_, .inl rfl, eventsSince_append _ _ _ (update_ok codec w updateFn hw).2⟩
    | true =>
      exact ⟨_, .inr rfl, eventsSince_append _ _ _ (update_throws codec w updateFn hw).2⟩
  · rw [update_state]
    rfl
  · rw [update_state]
    exact eventsSince_append _ _ _ hrest.2.2.2
  · rw [update_state]
    simp [Store.getState, saveState_store]
  · intro hw
    have hw2 : (Store.updateState w updateFn).storage.writeThrows = false := by
      rw [hrest.2.2.1]; exact hw
    rw [saveState_ok codec _ _ hw2, update_state]
  · intro l
    cases hw : w.storage.writeThrows with
    | false =>
      have hw2 : (Store.updateState w updateFn).storage.writeThrows = false := by
        rw [hrest.2.2.1]; exact hw
      rw [saveState_ok codec _ _ hw2]
      simp [eventsSince, hrest.2.2.2, callsOf]
    | true =>
      have hw2 : (Store.updateState w updateFn).storage.writeThrows = true := by
        rw [hrest.2.2.1]; exact hw
      rw [saveState_throws codec _ _ hw2]
      simp [eventsSince, hrest.2.2.2, callsOf]

/-- C17 (as stated, refuted): the first `init` over an empty storage that refuses writes
installs the empty initial document, but no document is written: storage stays empty. -/
theorem first_init_counterexample :
    (newWorld (fullStorage none)).store.initialized = false ∧
    (newWorld (fullStorage none)).storage.item = none ∧
    Store.getState (Store.init sampleEnv sampleCodec (newWorld (fullStorage none))) =
      getInitialState ∧
    (Store.init sampleEnv sampleCodec (newWorld (fullStorage none))).storage.item = none ∧
    (Store.init sampleEnv sampleCodec (newWorld (fullStorage none))).storage.item ≠
      some (sampleCodec.stringify getInitialState) ∧
    eventsSince (newWorld (fullStorage none))
      (Store.init sampleEnv sampleCodec (newWorld (fullStorage none))) =
      [.stateSet getInitialState, .storeFailed, .called 7 getInitialState,
       .called 9 getInitialState] :=
  ⟨rfl, rfl, rfl, rfl, by decide, rfl⟩

/-- C17 (amended): the first `init`. If storage can be read and holds a text that parses
to a valid value, the live state becomes the validator's state for it and storage is left
as it is. In every other case (the read throws, no text or the empty text, a text that does
not parse, an invalid value) the live state becomes the empty initial document, and the
text of that document is put in storage when the write succeeds; when the write throws,
storage is left as it is. In both cases every listener is called exactly once, with the
resulting state, and the store is initialised. -/
theorem first_init (env : Env) (codec : JsonCodec) (w : World)
    (hfirst : w.store.initialized = false) :
    (∀ v, HoldsValidDocument env codec w.storage v →
      Store.getState (Store.init env codec w) = (deepValidateState env v).state ∧
      (Store.init env codec w).storage = w.storage ∧
      eventsSince w (Store.init env codec w) =
        [.stateSet (deepValidateState env v).state] ++
        w.store.listeners.elems.map (fun l => .called l (deepValidateState env v).state)) ∧
    (NoStoredDocument env codec w.storage →
      Store.getState (Store.init env codec w) = getInitialState ∧
      (w.storage.writeThrows = false →
        (Store.init env codec w).storage =
          { w.storage with item := some (codec.stringify getInitialState) } ∧
        eventsSince w (Store.init env codec w) =
          [.stateSet getInitialState, .stored (codec.stringify getInitialState)] ++
          w.store.listeners.elems.map (fun l => .called l getInitialState)) ∧
      (w.storage.writeThrows = true → (Store.init env codec w).storage = w.storage)) ∧
    (NoStoredDocument env codec w.storage ∨ ∃ v, HoldsValidDocument env codec w.storage v) ∧
    (∀ l ∈ w.store.listeners.elems,
      callsOf l (eventsSince w (Store.init env codec w)) =
        [Store.getState (Store.init env codec w)]) ∧
    (Store.init env codec w).store.listeners = w.store.listeners ∧
    (Store.init env codec w).store.initialized = true := by
  refine ⟨fun v hv => ?_, fun hnone => ?_, storage_cases env codec w.storage, fun l hl => ?_,
    (init_frame env codec w).1, init_initialized env codec w⟩
  · have hload := loadState_of_valid env codec w.storage v hv
    have htruthy : (loadState env codec w.storage).truthy = true := by
      rw [hload]
      obtain ⟨-, -, -, -, -, hvalid⟩ := hv
      exact deepValidateState_truthy env v hvalid
    rw [init_of_loaded env codec w hfirst htruthy, hload]
    exact ⟨rfl, rfl, eventsSince_append _ _ _ rfl⟩
  · have hload := loadState_of_none env codec w.storage hnone
    have hfalsy : (loadState env codec w.storage).truthy = false := by
      rw [hload]
      rfl
    rw [init_of_not_loaded env codec w hfirst hfalsy]
    refine ⟨rfl, fun hw => ?_, fun hw => ?_⟩
    · refine ⟨by simp [hw], ?_⟩
      rw [eventsSince_append _ _ _ rfl]
      simp [hw]
    · simp [hw]
  · rw [callsOf_init env codec w l hfirst, if_pos hl]

theorem first_init_witness :
    (newWorld (openStorage (some ghostDocText))).store.initialized = false ∧
    HoldsValidDocument sampleEnv sampleCodec (openStorage (some ghostDocText))
      (mkDoc [] (.str (lit "ghost")) .null) ∧
    Store.getState (Store.init sampleEnv sampleCodec
      (newWorld (openStorage (some ghostDocText)))) = mkDoc [] .null .null ∧
    (Store.init sampleEnv sampleCodec (newWorld (openStorage (some ghostDocText)))).storage.item =
      some ghostDocText ∧
    (Store.init sampleEnv sampleCodec (newWorld (openStorage none))).storage.item =
      some emptyDocText ∧
    (Store.init sampleEnv sampleCodec
      (newWorld (openStorage (some ghostDocText)))).store.initialized = true :=
  ⟨rfl, ⟨rfl, ghostDocText, rfl, by decide, rfl, rfl⟩, rfl, rfl, rfl,
    (first_init sampleEnv sampleCodec (newWorld (openStorage (some ghostDocText))) rfl).2.2.2.2.2⟩

/-! ## The store: sequences of calls -/

theorem step_initialized (env : Env) (codec : JsonCodec) (w : World) (op : Op)
    (h : w.store.initialized = true) : (step env codec w op).store.initialized = true := by
  cases op with
  | init => exact init_initialized env codec w
  | update updateFn => exact (update_initialized codec w updateFn).trans h
  | subscribe listener => exact h
  | unsubscribe listener => exact h
  | storageChanged storage => exact h

theorem run_initialized (env : Env) (codec : JsonCodec) (ops : List Op) (w : World)
    (h : w.store.initialized = true) : (run env codec w ops).store.initialized = true := by
  induction ops generalizing w with
  | nil => exact h
  | cons op rest ih => exact ih _ (step_initialized env codec w op h)

theorem run_cons (env : Env) (codec : JsonCodec) (w : World) (op : Op) (ops : List Op) :
    run env codec w (op :: ops) = run env codec (step env codec w op) ops := rfl

theorem mem_add (s : ListenerSet) (a l : Nat) :
    l ∈ (s.add a).elems ↔ l ∈ s.elems ∨ l = a := by
  unfold ListenerSet.add
  by_cases h : a ∈ s.elems
  · rw [dif_pos h]
    exact ⟨.inl, fun hl => hl.elim id (fun e => e ▸ h)⟩
  · rw [dif_neg h]
    simp

theorem mem_delete (s : ListenerSet) (a l : Nat) :
    l ∈ (s.delete a).elems ↔ l ∈ s.elems ∧ l ≠ a := by
  unfold ListenerSet.delete
  exact s.nodup.mem_erase_iff.trans and_comm

/-- One call: its events come after those before, a listener outside the set is not called
and stays outside unless it is subscribed, and a listener of the set stays in it unless it
is unsubscribed. -/
theorem step_listener (env : Env) (codec : JsonCodec) (w : World) (op : Op) (l : Nat) :
    ∃ events, (step env codec w op).log = w.log ++ events ∧
      (l ∉ w.store.listeners.elems → op.subscribes l = false →
        callsOf l events = [] ∧ l ∉ (step env codec w op).store.listeners.elems) ∧
      (l ∈ w.store.listeners.elems → op.unsubscribes l = false →
        l ∈ (step env codec w op).store.listeners.elems) := by
  cases op with
  | init =>
    obtain ⟨hl, events, calls, hlog, hev, hcalls⟩ := init_frame env codec w
    refine ⟨events ++ calls, hlog, fun hn _ => ⟨?_, ?_⟩, fun hm _ => ?_⟩
    · rw [callsOf_append, hev l]
      rcases hcalls with h | h
      · rw [h]; rfl
      · rw [h, callsOf_calls, if_neg hn]; rfl
    · show l ∉ (Store.init env codec w).store.listeners.elems
      rw [hl]; exact hn
    · show l ∈ (Store.init env codec w).store.listeners.elems
      rw [hl]; exact hm
  | update updateFn =>
    have hcalls := callsOf_update codec w updateFn l
    have hl := update_listeners codec w updateFn
    have hlog : ∃ events, (Store.update codec w updateFn).log = w.log ++ events := by
      cases hw : w.storage.writeThrows with
      | false => exact ⟨_, (update_ok codec w updateFn hw).2⟩
      | true => exact ⟨_, (update_throws codec w updateFn hw).2⟩
    obtain ⟨events, hlog⟩ := hlog
    rw [eventsSince_append _ _ _ hlog] at hcalls
    refine ⟨events, hlog, fun hn _ => ⟨?_, ?_⟩, fun hm _ => ?_⟩
    · rw [hcalls, if_neg hn]
    · show l ∉ (Store.update codec w updateFn).store.listeners.elems
      rw [hl]; exact hn
    · show l ∈ (Store.update codec w updateFn).store.listeners.elems
      rw [hl]; exact hm
  | subscribe listener =>
    refine ⟨[.called listener w.store.state], rfl, fun hn hs => ⟨?_, ?_⟩, fun hm _ => ?_⟩
    · have hne : listener ≠ l := by simpa [Op.subscribes] using hs
      simp [callsOf, hne]
    · have hne : listener ≠ l := by simpa [Op.subscribes] using hs
      show l ∉ (w.store.listeners.add listener).elems
      rw [mem_add]
      exact fun h => h.elim hn (fun e => hne e.symm)
    · show l ∈ (w.store.listeners.add listener).elems
      rw [mem_add]
      exact .inl hm
  | unsubscribe listener =>
    refine ⟨[], by simp [step, Store.unsubscribe], fun hn _ => ⟨rfl, ?_⟩, fun hm hu => ?_⟩
    · show l ∉ (w.store.listeners.delete listener).elems
      rw [mem_delete]
      exact fun h => hn h.1
    · have hne : listener ≠ l := by simpa [Op.unsubscribes] using hu
      show l ∈ (w.store.listeners.delete listener).elems
      rw [mem_delete]
      exact ⟨hm, fun e => hne e.symm⟩
  | storageChanged storage =>
    exact ⟨[], by simp [step], fun hn _ => ⟨rfl, hn⟩, fun hm _ => hm⟩

/-- A listener of the set stays in it over calls none of which unsubscribes it. -/
theorem run_keeps_listener (env : Env) (codec : JsonCodec) (l : Nat) (ops : List Op)
    (w : World) (hm : l ∈ w.store.listeners.elems)
    (hops : ops.all (fun op => !op.unsubscribes l) = true) :
    l ∈ (run env codec w ops).store.listeners.elems := by
  induction ops generalizing w with
  | nil => exact hm
  | cons op rest ih =>
    rw [List.all_cons, Bool.and_eq_true] at hops
    obtain ⟨-, -, -, hkeep⟩ := step_listener env codec w op l
    exact ih _ (hkeep hm (by simpa using hops.1)) hops.2

/-- A listener outside the set is not called over calls none of which subscribes it. -/
theorem run_never_calls (env : Env) (codec : JsonCodec) (l : Nat) (ops : List Op)
    (w : World) (hn : l ∉ w.store.listeners.elems)
    (hops : ops.all (fun op => !op.subscribes l) = true) :
    ∃ events, (run env codec w ops).log = w.log ++ events ∧ callsOf l events = [] := by
  induction ops generalizing w with
  | nil => exact ⟨[], by simp [run], rfl⟩
  | cons op rest ih =>
    rw [List.all_cons, Bool.and_eq_true] at hops
    obtain ⟨events, hlog, hout, -⟩ := step_listener env codec w op l
    obtain ⟨hcalls, hn2⟩ := hout hn (by simpa using hops.1)
    obtain ⟨events2, hlog2, hcalls2⟩ := ih _ hn2 hops.2
    refine ⟨events ++ events2, ?_, ?_⟩
    · rw [run_cons, hlog2, hlog, List.append_assoc]
    · rw [callsOf_append, hcalls, hcalls2]; rfl

/-- C18: `Store.init` is idempotent. Once `init` has run, after any sequence of calls
(updates, subscriptions, further `init` calls) and changes of the storage, a further `init`
gives back the same world: the same live state, storage and listeners, and no event, so no
listener is called. -/
theorem init_idempotent (env : Env) (codec : JsonCodec) (w : World) (ops : List Op) :
    Store.init env codec (run env codec (Store.init env codec w) ops) =
      run env codec (Store.init env codec w) ops ∧
    eventsSince (run env codec (Store.init env codec w) ops)
      (Store.init env codec (run env codec (Store.init env codec w) ops)) = [] := by
  have h := init_of_initialized env codec _
    (run_initialized env codec ops _ (init_initialized env codec w))
  rw [h]
  exact ⟨rfl, by simp [eventsSince]⟩

/-- C19: `subscribe(listener)` calls the listener exactly once, at once, with the current
state, and changes neither the state nor the storage. After any later calls none of which
is an unsubscribe function of this listener, an `update` calls it exactly once, with the new
state. Once the returned unsubscribe function has run, no later call (`update`, `init` or
any other, short of subscribing it again) calls it. -/
theorem subscribe_contract (env : Env) (codec : JsonCodec) (w w2 : World) (l : Nat)
    (ops ops2 : List Op) (updateFn : Mutator)
    (hops : ops.all (fun op => !op.unsubscribes l) = true)
    (hops2 : ops2.all (fun op => !op.subscribes l) = true) :
    (eventsSince w (Store.subscribe w l).1 = [.called l (Store.getState w)] ∧
      Store.getState (Store.subscribe w l).1 = Store.getState w ∧
      (Store.subscribe w l).1.storage = w.storage) ∧
    callsOf l (eventsSince (run env codec (Store.subscribe w l).1 ops)
        (Store.update codec (run env codec (Store.subscribe w l).1 ops) updateFn)) =
      [Store.getState (Store.update codec (run env codec (Store.subscribe w l).1 ops)
        updateFn)] ∧
    callsOf l (eventsSince ((Store.subscribe w l).2 w2)
      (run env codec ((Store.subscribe w l).2 w2) ops2)) = [] := by
  refine ⟨⟨eventsSince_append _ _ _ rfl, rfl, rfl⟩, ?_, ?_⟩
  · have hm : l ∈ (Store.subscribe w l).1.store.listeners.elems := by
      show l ∈ (w.store.listeners.add l).elems
      rw [mem_add]
      exact .inr rfl
    rw [callsOf_update, if_pos (run_keeps_listener env codec l ops _ hm hops)]
  · have hn : l ∉ ((Store.subscribe w l).2 w2).store.listeners.elems := by
      show l ∉ (w2.store.listeners.delete l).elems
      rw [mem_delete]
      exact fun h => h.2 rfl
    obtain ⟨events, hlog, hcalls⟩ := run_never_calls env codec l ops2 _ hn hops2
    rw [eventsSince_append _ _ _ hlog, hcalls]

theorem subscribe_contract_witness :
    ([Op.update selectGhost, Op.unsubscribe 7, Op.subscribe 9, Op.init].all
      (fun op => !op.unsubscribes 5) = true) ∧
    ([Op.update selectGhostInPlace, Op.init, Op.subscribe 9].all
      (fun op => !op.subscribes 5) = true) ∧
    (Store.subscribe (watchedWorld getInitialState (openStorage none)) 5).1.store.listeners.elems
      = [7, 9, 5] ∧
    callsOf 5 (eventsSince
      (run sampleEnv sampleCodec
        (Store.subscribe (watchedWorld getInitialState (openStorage none)) 5).1
        [Op.update selectGhost, Op.unsubscribe 7, Op.subscribe 9, Op.init])
      (Store.update sampleCodec (run sampleEnv sampleCodec
        (Store.subscribe (watchedWorld getInitialState (openStorage none)) 5).1
        [Op.update selectGhost, Op.unsubscribe 7, Op.subscribe 9, Op.init]) returnsB)) =
      [Store.getState (Store.update sampleCodec (run sampleEnv sampleCodec
        (Store.subscribe (watchedWorld getInitialState (openStorage none)) 5).1
        [Op.update selectGhost, Op.unsubscribe 7, Op.subscribe 9, Op.init]) returnsB)] :=
  ⟨rfl, rfl, rfl, (subscribe_contract sampleEnv sampleCodec
    (watchedWorld getInitialState (openStorage none)) (newWorld (openStorage none)) 5
    [Op.update selectGhost, Op.unsubscribe 7, Op.subscribe 9, Op.init]
    [Op.update selectGhostInPlace, Op.init, Op.subscribe 9] returnsB rfl rfl).2.1⟩

/-- C20: `parseImportData` fails exactly when the text does not parse or what it parses to
is not valid. When the text does not parse it throws an error with the message for a text
that is not JSON; when the value is not valid it throws an error whose message is a fixed
heading followed by all diagnostics of the validator joined by `", "`; otherwise it returns
the validator's state. -/
theorem parseImportData_contract (env : Env) (codec : JsonCodec) (jsonString : JsString) :
    (codec.parse jsonString = none →
      parseImportData env codec jsonString = .error "El archivo no es JSON válido.") ∧
    (∀ v, codec.parse jsonString = some v → (deepValidateState env v).valid = false →
      parseImportData env codec jsonString =
        .error ("Archivo de backup inválido: " ++
          ", ".intercalate (deepValidateState env v).errors)) ∧
    (∀ v, codec.parse jsonString = some v → (deepValidateState env v).valid = true →
      parseImportData env codec jsonString = .ok (deepValidateState env v).state) ∧
    ((∃ message, parseImportData env codec jsonString = .error message) ↔
      (codec.parse jsonString = none ∨
        ∃ v, codec.parse jsonString = some v ∧ (deepValidateState env v).valid = false)) := by
  cases hp : codec.parse jsonString with
  | none => simp [parseImportData, hp]
  | some v =>
    cases hv : (deepValidateState env v).valid with
    | false => simp [parseImportData, hp, hv]
    | true => simp [parseImportData, hp, hv]

/-! ## Ids, column references and diagnostics -/

theorem accepted_of_hasValidId {validate : JsVal → List String → Option JsVal × List String}
    (hrej : RejectsExactlyBadIds validate) (x : JsVal) :
    (hasValidId x = true → ∃ v, accepted validate x = some v ∧ v.get "id" = x.get "id") ∧
    (hasValidId x = false → accepted validate x = none) := by
  obtain ⟨hiff, hid⟩ := hrej x []
  constructor
  · intro h
    simp only [hasValidId, Bool.and_eq_true] at h
    cases hv : (validate x []).1 with
    | none => exact absurd ⟨h.1, (isValidId_iff _).1 h.2⟩ (hiff.1 hv)
    | some v => exact ⟨v, hv, hid v hv⟩
  · intro h
    apply hiff.2
    intro hc
    have : hasValidId x = true := by
      simp only [hasValidId, Bool.and_eq_true]
      exact ⟨hc.1, (isValidId_iff _).2 hc.2⟩
    rw [h] at this
    cases this

/-- The ids that a collection loop returns are the ids of the input elements that are
objects with a valid id, in order. -/
theorem idsOf_filterMap_accepted
    {validate : JsVal → List String → Option JsVal × List String}
    (hrej : RejectsExactlyBadIds validate) (xs : List JsVal) :
    idsOf (xs.filterMap (accepted validate)) = idsOf (xs.filter hasValidId) := by
  induction xs with
  | nil => rfl
  | cons x xs ih =>
    cases hx : hasValidId x with
    | true =>
      obtain ⟨v, hv, hid⟩ := (accepted_of_hasValidId hrej x).1 hx
      simp only [List.filterMap_cons, hv, List.filter_cons, hx, if_true]
      simp only [idsOf, List.map_cons] at ih ⊢
      rw [ih, hid]
    | false =>
      have hv := (accepted_of_hasValidId hrej x).2 hx
      simp only [List.filterMap_cons, hv, List.filter_cons, hx]
      simpa using ih

/-- C25 (as stated, refuted): `twinIdsDoc` validates, and the returned state has two
workspaces with the id `w1`, the first of which has two agendas with the id `ag1`. -/
theorem validated_ids_unique_counterexample :
    (deepValidateState sampleEnv twinIdsDoc).valid = true ∧
    idsOf ((deepValidateState sampleEnv twinIdsDoc).state.get "workspaces").elems =
      [.str (lit "w1"), .str (lit "w1")] ∧
    ¬ (idsOf ((deepValidateState sampleEnv twinIdsDoc).state.get "workspaces").elems).Nodup ∧
    (∃ ws ∈ ((deepValidateState sampleEnv twinIdsDoc).state.get "workspaces").elems,
      idsOf (ws.get "agendas").elems = [.str (lit "ag1"), .str (lit "ag1")] ∧
      ¬ (idsOf (ws.get "agendas").elems).Nodup) := by
  refine ⟨by decide, rfl, ?_, ?_⟩
  · have h : idsOf ((deepValidateState sampleEnv twinIdsDoc).state.get "workspaces").elems =
        [.str (lit "w1"), .str (lit "w1")] := rfl
    rw [h]
    simp
  · refine ⟨_, List.mem_cons_self _ _, rfl, ?_⟩
    intro hc
    have h2 : ([.str (lit "ag1"), .str (lit "ag1")] : List JsVal).Nodup := hc
    simp at h2

/-- C25 (amended): validation neither checks nor repairs the uniqueness of ids. The ids
of the workspaces of a validated document are the ids of the input workspaces that are
objects with a valid id, in input order, and likewise the agenda ids of each returned
workspace; so they are pairwise distinct exactly when those input ids are. -/
theorem validated_ids_as_in_input (env : Env) (doc : JsVal)
    (h : (deepValidateState env doc).valid = true) :
    idsOf ((deepValidateState env doc).state.get "workspaces").elems =
      idsOf ((doc.get "workspaces").elems.filter hasValidId) ∧
    ((idsOf ((deepValidateState env doc).state.get "workspaces").elems).Nodup ↔
      (idsOf ((doc.get "workspaces").elems.filter hasValidId)).Nodup) ∧
    (∀ w0 ws, accepted (validateWorkspace env) w0 = some ws →
      idsOf (ws.get "agendas").elems = idsOf ((w0.get "agendas").elems.filter hasValidId) ∧
      ((idsOf (ws.get "agendas").elems).Nodup ↔
        (idsOf ((w0.get "agendas").elems.filter hasValidId)).Nodup)) ∧
    (∀ ws ∈ ((deepValidateState env doc).state.get "workspaces").elems,
      ∃ w0 ∈ (doc.get "workspaces").elems, accepted (validateWorkspace env) w0 = some ws) := by
  have hws : idsOf ((deepValidateState env doc).state.get "workspaces").elems =
      idsOf ((doc.get "workspaces").elems.filter hasValidId) := by
    rw [deepValidateState_workspaces env doc h, elems_arr,
      idsOf_filterMap_accepted (validateWorkspace_rejects env)]
  refine ⟨hws, by rw [hws], fun w0 ws hacc => ?_, fun ws hmem => mem_output_workspaces env doc h hmem⟩
  have hag : idsOf (ws.get "agendas").elems =
      idsOf ((w0.get "agendas").elems.filter hasValidId) := by
    rw [accepted_workspace_agendas env hacc, elems_arr,
      idsOf_filterMap_accepted (validateAgenda_rejects env)]
  exact ⟨hag, by rw [hag]⟩

theorem validated_ids_as_in_input_witness :
    (deepValidateState sampleEnv sampleDoc).valid = true ∧
    idsOf ((deepValidateState sampleEnv sampleDoc).state.get "workspaces").elems =
      [.str (lit "w1")] ∧
    idsOf ((deepValidateState sampleEnv sampleDoc).state.get "workspaces").elems =
      idsOf ((sampleDoc.get "workspaces").elems.filter hasValidId) :=
  ⟨by decide, rfl, (validated_ids_as_in_input sampleEnv sampleDoc (by decide)).1⟩

theorem validateColumn_fst (x : JsVal) (errors : List String)
    (hobj : isObject x = true) (hid : isValidId (x.get "id") = true) :
    (validateColumn x errors).1 = some (.obj [("id", x.get "id"),
      ("title", .str (sanitizeString (orElse (x.get "title") (.str [])) 100)),
      ("taskIds", .arr ((x.get "taskIds").elems.filter isValidId))]) := by
  by_cases harr : isArray (x.get "taskIds") = true
  · simp [validateColumn, hobj, hid, truthy_of_isValidId hid, harr]
  · simp [validateColumn, hobj, hid, truthy_of_isValidId hid, harr,
      elems_of_not_isArray (Bool.eq_false_iff.2 harr)]

theorem accepted_column_taskIds {c0 c : JsVal} (h : accepted validateColumn c0 = some c) :
    c.get "taskIds" = .arr ((c0.get "taskIds").elems.filter isValidId) := by
  obtain ⟨hobj, hid⟩ := accepted_some_valid validateColumn_rejects h
  unfold accepted at h
  rw [validateColumn_fst c0 [] hobj hid] at h
  cases h
  simp

/-- C26 (as stated, refuted): `ghostTaskDoc` validates, its agenda has no task, and the
column `todo` of the returned agenda still lists the id `ghost`. -/
theorem columns_reference_tasks_counterexample :
    (deepValidateState sampleEnv ghostTaskDoc).valid = true ∧
    (∃ ws ∈ ((deepValidateState sampleEnv ghostTaskDoc).state.get "workspaces").elems,
      ∃ ag ∈ (ws.get "agendas").elems, ∃ c ∈ (ag.get "columns").elems,
        (ag.get "tasks").elems = [] ∧ JsVal.str (lit "ghost") ∈ (c.get "taskIds").elems) :=
  ⟨by decide, _, List.mem_cons_self _ _, _, List.mem_cons_self _ _, _, List.mem_cons_self _ _,
    rfl, List.mem_cons_self _ _⟩

/-- C26 (amended): validation does not compare the task ids of a column with the tasks of
the agenda. In every agenda of a validated document, each column is either the validated
form of an input column, and then its `taskIds` are the elements of the input `taskIds`
that are valid id strings, in order, or an added default column with no task ids. So every
id in a column's `taskIds` is a valid id string that the input column listed; it need not
be the id of a task of the agenda. -/
theorem column_task_ids_as_in_input (env : Env) (doc : JsVal)
    (h : (deepValidateState env doc).valid = true) :
    ∀ ws ∈ ((deepValidateState env doc).state.get "workspaces").elems,
    ∀ ag ∈ (ws.get "agendas").elems,
    ∃ w0 ∈ (doc.get "workspaces").elems, ∃ a0 ∈ (w0.get "agendas").elems,
      accepted (validateAgenda env) a0 = some ag ∧
      ∀ c ∈ (ag.get "columns").elems,
        ((∃ c0 ∈ (a0.get "columns").elems, accepted validateColumn c0 = some c ∧
            c.get "taskIds" = .arr ((c0.get "taskIds").elems.filter isValidId)) ∨
          c.get "taskIds" = .arr []) ∧
        ∀ id ∈ (c.get "taskIds").elems, isValidId id = true := by
  intro ws hws ag hag
  obtain ⟨w0, hw0, hacc⟩ := mem_output_workspaces env doc h hws
  obtain ⟨a0, ha0, hacca⟩ := mem_workspace_agendas env hacc hag
  refine ⟨w0, hw0, a0, ha0, hacca, fun c hc => ?_⟩
  rw [accepted_agenda_columns env hacca, elems_arr, ensureDefaultCols_eq_append,
    List.mem_append] at hc
  rcases hc with hc | hc
  · obtain ⟨c0, hc0, hcacc⟩ := List.mem_filterMap.1 hc
    have hids := accepted_column_taskIds hcacc
    refine ⟨.inl ⟨c0, hc0, hcacc, hids⟩, fun id hid => ?_⟩
    rw [hids, elems_arr] at hid
    exact (List.mem_filter.1 hid).2
  · have hids : c.get "taskIds" = .arr [] := by
      simp only [missingDefaultCols, List.mem_map] at hc
      obtain ⟨d, -, rfl⟩ := hc
      rfl
    refine ⟨.inr hids, fun id hid => ?_⟩
    rw [hids] at hid
    cases hid

theorem column_task_ids_as_in_input_witness :
    (deepValidateState sampleEnv ghostTaskDoc).valid = true ∧
    (∀ ws ∈ ((deepValidateState sampleEnv ghostTaskDoc).state.get "workspaces").elems,
      ∀ ag ∈ (ws.get "agendas").elems,
      ∃ w0 ∈ (ghostTaskDoc.get "workspaces").elems, ∃ a0 ∈ (w0.get "agendas").elems,
        accepted (validateAgenda sampleEnv) a0 = some ag ∧
        ∀ c ∈ (ag.get "columns").elems,
          ((∃ c0 ∈ (a0.get "columns").elems, accepted validateColumn c0 = some c ∧
              c.get "taskIds" = .arr ((c0.get "taskIds").elems.filter isValidId)) ∨
            c.get "taskIds" = .arr []) ∧
          ∀ id ∈ (c.get "taskIds").elems, isValidId id = true) :=
  ⟨by decide, column_task_ids_as_in_input sampleEnv ghostTaskDoc (by decide)⟩

theorem forEachPush_snd (validate : JsVal → List String → Option JsVal × List String)
    (hv : Appends validate) (xs out : List JsVal) (errors : List String) :
    (forEachPush validate xs out errors).2 = errors ++ xs.flatMap (diagnostics validate) := by
  induction xs generalizing out errors with
  | nil => simp [forEachPush]
  | cons x xs ih =>
    have hx := hv x errors
    rcases hfx : validate x errors with ⟨o, e1⟩
    rw [hfx] at hx
    simp only at hx
    cases o <;> simp [forEachPush, hfx, ih, hx, List.flatMap_cons]

theorem validateArray_snd (validate : JsVal → List String → Option JsVal × List String)
    (hv : Appends validate) (a : JsVal) (errors : List String) :
    (validateArray validate a errors).2 = errors ++ a.elems.flatMap (diagnostics validate) := by
  unfold validateArray
  by_cases h : isArray a = true
  · simp [h, forEachPush_snd validate hv]
  · simp [h, elems_of_not_isArray (Bool.eq_false_iff.2 h)]

theorem appends_of_silent {validate : JsVal → List String → Option JsVal × List String}
    (h : Silent validate) : Appends validate := by
  intro x errors
  simp [diagnostics, h x]

theorem forEachPush_silent (validate : JsVal → List String → Option JsVal × List String)
    (hv : Silent validate) (xs out : List JsVal) (errors : List String) :
    (forEachPush validate xs out errors).2 = errors := by
  rw [forEachPush_snd validate (appends_of_silent hv)]
  have : xs.flatMap (diagnostics validate) = [] := by
    rw [List.flatMap_eq_nil_iff]
    intro x _
    exact hv x []
  rw [this, List.append_nil]

theorem validateArray_silent (validate : JsVal → List String → Option JsVal × List String)
    (hv : Silent validate) (a : JsVal) (errors : List String) :
    (validateArray validate a errors).2 = errors := by
  unfold validateArray
  by_cases h : isArray a = true
  · simp [h, forEachPush_silent validate hv]
  · simp [h]

theorem validateJournalEntry_silent (env : Env) : Silent (validateJournalEntry env) := by
  intro x errors
  by_cases hobj : isObject x = true
  · by_cases hid : isValidId (x.get "id") = true
    · simp [validateJournalEntry, hobj, hid, truthy_of_isValidId hid]
    · simp [validateJournalEntry, hobj, hid, JsVal.truthy]
  · simp [validateJournalEntry, hobj]

theorem validateSnippet_silent (env : Env) : Silent (validateSnippet env) := by
  intro x errors
  by_cases hobj : isObject x = true
  · by_cases hid : isValidId (x.get "id") = true
    · simp [validateSnippet, hobj, hid, truthy_of_isValidId hid]
    · simp [validateSnippet, hobj, hid, JsVal.truthy]
  · simp [validateSnippet, hobj]

theorem validateColumn_silent : Silent validateColumn := by
  intro x errors
  by_cases hobj : isObject x = true
  · by_cases hid : isValidId (x.get "id") = true
    · simp [validateColumn, hobj, hid, truthy_of_isValidId hid]
    · simp [validateColumn, hobj, hid, JsVal.truthy]
  · simp [validateColumn, hobj]

theorem validateJournal_silent (env : Env) : Silent (validateJournal env) := by
  intro x errors
  by_cases hobj : isObject x = true
  · by_cases hid : isValidId (x.get "id") = true
    · simp [validateJournal, hobj, hid, truthy_of_isValidId hid,
        validateArray_silent _ (validateJournalEntry_silent env)]
    · simp [validateJournal, hobj, hid, JsVal.truthy]
  · simp [validateJournal, hobj]

/-- What `validateNote` adds to the diagnostics: one message when it rejects, nothing
when it accepts. -/
theorem validateNote_snd (env : Env) (x : JsVal) (errors : List String) :
    (validateNote env x errors).2 =
      errors ++ (if !isObject x then ["Note is not an object"]
        else if !hasValidId x then ["Note missing valid ID"] else []) := by
  by_cases hobj : isObject x = true
  · by_cases hid : isValidId (x.get "id") = true
    · simp [validateNote, hobj, hid, hasValidId, truthy_of_isValidId hid]
    · simp [validateNote, hobj, hid, hasValidId, JsVal.truthy]
  · simp [validateNote, hobj]

theorem validateTask_snd (env : Env) (x : JsVal) (errors : List String) :
    (validateTask env x errors).2 =
      errors ++ (if !isObject x then ["Task is not an object"]
        else if !hasValidId x then ["Task missing valid ID"] else []) := by
  by_cases hobj : isObject x = true
  · by_cases hid : isValidId (x.get "id") = true
    · simp [validateTask, hobj, hid, hasValidId, truthy_of_isValidId hid]
    · simp [validateTask, hobj, hid, hasValidId, JsVal.truthy]
  · simp [validateTask, hobj]

theorem validateNote_appends (env : Env) : Appends (validateNote env) := by
  intro x errors
  rw [diagnostics, validateNote_snd, validateNote_snd]
  simp

theorem validateTask_appends (env : Env) : Appends (validateTask env) := by
  intro x errors
  rw [diagnostics, validateTask_snd, validateTask_snd]
  simp

/-- What `validateAgenda` adds to the diagnostics: one message when it rejects, the
diagnostics of its notes, tasks, finalized tasks and deleted tasks when it accepts. -/
theorem validateAgenda_snd (env : Env) (x : JsVal) (errors : List String) :
    (validateAgenda env x errors).2 =
      errors ++ (if !isObject x then ["Agenda is not an object"]
        else if !hasValidId x then ["Agenda missing valid ID"]
        else (x.get "notes").elems.flatMap (diagnostics (validateNote env)) ++
          (x.get "tasks").elems.flatMap (diagnostics (validateTask env)) ++
          (x.get "finalizedTasks").elems.flatMap (diagnostics (validateTask env)) ++
          (x.get "deletedTasks").elems.flatMap (diagnostics (validateTask env))) := by
  by_cases hobj : isObject x = true
  · by_cases hid : isValidId (x.get "id") = true
    · have hcols : ∀ e, (if (isArray (x.get "columns") &&
            decide (0 < (x.get "columns").elems.length)) = true
          then forEachPush validateColumn (x.get "columns").elems [] e else ([], e)).2 = e := by
        intro e
        split
        · exact forEachPush_silent _ validateColumn_silent _ _ _
        · rfl
      have hj : ∀ e, (if isArray (x.get "journals") = true then
            forEachPush (validateJournal env) (x.get "journals").elems [] e
          else if isArray (x.get "journal") = true then
            ([JsVal.obj [("id", .str (lit "default")), ("name", .str (lit "Main Journal")),
                ("entries", .arr (forEachPush (validateJournalEntry env)
                  (x.get "journal").elems [] e).1)]],
              (forEachPush (validateJournalEntry env) (x.get "journal").elems [] e).2)
          else ([], e)).2 = e := by
        intro e
        split
        · exact forEachPush_silent _ (validateJournal_silent env) _ _ _
        · split
          · exact forEachPush_silent _ (validateJournalEntry_silent env) _ _ _
          · rfl
      simp only [validateAgenda, hobj, hid, hasValidId, truthy_of_isValidId hid,
        Bool.not_true, Bool.false_eq_true, if_false, if_true, Bool.and_self,
        validateArray_snd _ (validateTask_appends env),
        validateArray_silent _ (validateSnippet_silent env), hj, hcols,
        validateArray_snd _ (validateNote_appends env), List.append_assoc]
    · simp [validateAgenda, hobj, hid, hasValidId, JsVal.truthy]
  · simp [validateAgenda, hobj]

theorem validateAgenda_appends (env : Env) : Appends (validateAgenda env) := by
  intro x errors
  rw [diagnostics, validateAgenda_snd, validateAgenda_snd]
  simp

theorem validateWorkspace_snd (env : Env) (x : JsVal) (errors : List String) :
    (validateWorkspace env x errors).2 =
      errors ++ (if !isObject x then ["Workspace is not an object"]
        else if !hasValidId x then ["Workspace missing valid ID"]
        else (x.get "agendas").elems.flatMap (diagnostics (validateAgenda env))) := by
  by_cases hobj : isObject x = true
  · by_cases hid : isValidId (x.get "id") = true
    · simp [validateWorkspace, hobj, hid, hasValidId, truthy_of_isValidId hid,
        validateArray_snd _ (validateAgenda_appends env)]
    · simp [validateWorkspace, hobj, hid, hasValidId, JsVal.truthy]
  · simp [validateWorkspace, hobj]

theorem diagnostics_nil_of_note (env : Env) (x : JsVal)
    (h : diagnostics (validateNote env) x = []) : hasValidId x = true := by
  rw [diagnostics, validateNote_snd] at h
  by_cases hobj : isObject x = true
  · cases hv : hasValidId x with
    | true => rfl
    | false => simp [hobj, hv] at h
  · simp [hobj] at h

theorem diagnostics_nil_of_task (env : Env) (x : JsVal)
    (h : diagnostics (validateTask env) x = []) : hasValidId x = true := by
  rw [diagnostics, validateTask_snd] at h
  by_cases hobj : isObject x = true
  · cases hv : hasValidId x with
    | true => rfl
    | false => simp [hobj, hv] at h
  · simp [hobj] at h

theorem diagnostics_nil_of_agenda (env : Env) (x : JsVal)
    (h : diagnostics (validateAgenda env) x = []) :
    hasValidId x = true ∧
    (∀ n ∈ (x.get "notes").elems, hasValidId n = true) ∧
    (∀ t ∈ (x.get "tasks").elems, hasValidId t = true) ∧
    (∀ t ∈ (x.get "finalizedTasks").elems, hasValidId t = true) ∧
    (∀ t ∈ (x.get "deletedTasks").elems, hasValidId t = true) := by
  rw [diagnostics, validateAgenda_snd] at h
  by_cases hobj : isObject x = true
  · cases hv : hasValidId x with
    | false => simp [hobj, hv] at h
    | true =>
      simp only [hobj, hv, Bool.not_true, Bool.false_eq_true, if_false, List.nil_append,
        List.append_eq_nil, List.flatMap_eq_nil_iff] at h
      obtain ⟨⟨⟨hn, ht⟩, hf⟩, hd⟩ := h
      exact ⟨rfl, fun n hm => diagnostics_nil_of_note env n (hn n hm),
        fun t hm => diagnostics_nil_of_task env t (ht t hm),
        fun t hm => diagnostics_nil_of_task env t (hf t hm),
        fun t hm => diagnostics_nil_of_task env t (hd t hm)⟩
  · simp [hobj] at h

theorem diagnostics_nil_of_workspace (env : Env) (x : JsVal)
    (h : diagnostics (validateWorkspace env) x = []) :
    hasValidId x = true ∧
    ∀ a ∈ (x.get "agendas").elems, diagnostics (validateAgenda env) a = [] := by
  rw [diagnostics, validateWorkspace_snd] at h
  by_cases hobj : isObject x = true
  · cases hv : hasValidId x with
    | false => simp [hobj, hv] at h
    | true =>
      simp only [hobj, hv, Bool.not_true, Bool.false_eq_true, if_false, List.nil_append,
        List.flatMap_eq_nil_iff] at h
      exact ⟨rfl, h⟩
  · simp [hobj] at h

theorem validateWorkspace_appends (env : Env) : Appends (validateWorkspace env) := by
  intro x errors
  rw [diagnostics, validateWorkspace_snd, validateWorkspace_snd]
  simp

theorem forEachWorkspace_snd_nil (env : Env) (xs out : List JsVal) (idx : Nat)
    (errors : List String) (h : (forEachWorkspace env xs idx out errors).2 = []) :
    errors = [] ∧ ∀ x ∈ xs, diagnostics (validateWorkspace env) x = [] := by
  induction xs generalizing out errors idx with
  | nil => exact ⟨h, fun x hx => by cases hx⟩
  | cons x xs ih =>
    have hx := validateWorkspace_appends env x errors
    rcases hfx : validateWorkspace env x errors with ⟨o, e1⟩
    rw [hfx] at hx
    simp only at hx
    cases o with
    | none =>
      simp only [forEachWorkspace, hfx] at h
      have := (ih _ _ _ h).1
      simp at this
    | some v =>
      simp only [forEachWorkspace, hfx] at h
      obtain ⟨h1, h2⟩ := ih _ _ _ h
      rw [h1] at hx
      have hx' := List.append_eq_nil.1 hx.symm
      refine ⟨hx'.1, fun y hy => ?_⟩
      rcases List.mem_cons.1 hy with rfl | hy
      · exact hx'.2
      · exact h2 y hy

theorem repairActiveIds_errors_nil (wss : List JsVal) (aw aa : JsVal) (errors : List String)
    (h : (repairActiveIds wss aw aa errors).2.2 = []) : errors = [] := by
  unfold repairActiveIds at h
  simp only at h
  split at h <;> split at h <;> simp_all

theorem deepValidateState_errors_nil (env : Env) (doc : JsVal)
    (h : (deepValidateState env doc).valid = true)
    (he : (deepValidateState env doc).errors = []) :
    ∀ w0 ∈ (doc.get "workspaces").elems, diagnostics (validateWorkspace env) w0 = [] := by
  obtain ⟨h1, h2, h3⟩ := deepValidateState_checks env doc h
  simp only [deepValidateState, h1, h2, h3, Bool.false_eq_true, if_false] at he
  exact (forEachWorkspace_snd_nil env _ _ _ _ (repairActiveIds_errors_nil _ _ _ _ he)).2

/-- C27 (the code on `silentDropDoc`): the document validates with an empty list of
diagnostics, although validation dropped a snippet, a column, a journal and a journal
entry of its agenda, none of which has an id. The same entities without an id, given to
`validateNote` and `validateTask` with the same empty list, are dropped with the
diagnostics `Note missing valid ID` and `Task missing valid ID`. -/
theorem dropped_entities_leave_no_diagnostic :
    (deepValidateState sampleEnv silentDropDoc).valid = true ∧
    (deepValidateState sampleEnv silentDropDoc).errors = [] ∧
    validateSnippet sampleEnv (.obj [("title", .str (lit "no id"))]) [] = (none, []) ∧
    validateColumn (.obj [("title", .str (lit "no id"))]) [] = (none, []) ∧
    validateJournal sampleEnv (.obj [("name", .str (lit "no id"))]) [] = (none, []) ∧
    validateJournalEntry sampleEnv (.obj [("text", .str (lit "no id"))]) [] = (none, []) ∧
    validateNote sampleEnv (.obj [("title", .str (lit "no id"))]) [] =
      (none, ["Note missing valid ID"]) ∧
    validateTask sampleEnv (.obj [("title", .str (lit "no id"))]) [] =
      (none, ["Task missing valid ID"]) ∧
    (silentDropAgenda.get "snippets").elems.length = 1 ∧
    (∃ ws ∈ ((deepValidateState sampleEnv silentDropDoc).state.get "workspaces").elems,
      ∃ ag ∈ (ws.get "agendas").elems,
        (ag.get "snippets").elems = [] ∧
        idsOf (ag.get "columns").elems =
          [.str (lit "todo"), .str (lit "doing"), .str (lit "done")] ∧
        idsOf (ag.get "journals").elems = [.str (lit "j1")] ∧
        (∀ j ∈ (ag.get "journals").elems, (j.get "entries").elems = [])) :=
  ⟨by decide, by decide, rfl, rfl, rfl, rfl, rfl, rfl, rfl, _, List.mem_cons_self _ _, _,
    List.mem_cons_self _ _, rfl, rfl, rfl, fun j hj => by
      rcases List.mem_singleton.1 hj with rfl
      rfl⟩

/-- The diagnostics of the eight validators as the code has them. Each of `validateNote`,
`validateTask`, `validateAgenda` and `validateWorkspace` appends a message when it rejects
its input; `validateJournalEntry`, `validateJournal`, `validateSnippet` and `validateColumn`
take the list of diagnostics and never add to it. So a document that validates with an
empty list of diagnostics lost no workspace, no agenda, and no note, task, finalized task or
deleted task: all of them are objects with a valid id. -/
theorem diagnostics_of_the_validators (env : Env) :
    (∀ x errors, (validateNote env x errors).1 = none →
      ∃ message, (validateNote env x errors).2 = errors ++ [message]) ∧
    (∀ x errors, (validateTask env x errors).1 = none →
      ∃ message, (validateTask env x errors).2 = errors ++ [message]) ∧
    (∀ x errors, (validateAgenda env x errors).1 = none →
      ∃ message, (validateAgenda env x errors).2 = errors ++ [message]) ∧
    (∀ x errors, (validateWorkspace env x errors).1 = none →
      ∃ message, (validateWorkspace env x errors).2 = errors ++ [message]) ∧
    (Silent (validateJournalEntry env) ∧ Silent (validateJournal env) ∧
      Silent (validateSnippet env) ∧ Silent validateColumn) ∧
    (∀ doc, (deepValidateState env doc).valid = true →
      (deepValidateState env doc).errors = [] →
      ∀ w0 ∈ (doc.get "workspaces").elems, hasValidId w0 = true ∧
        ∀ a0 ∈ (w0.get "agendas").elems, hasValidId a0 = true ∧
          (∀ n ∈ (a0.get "notes").elems, hasValidId n = true) ∧
          (∀ t ∈ (a0.get "tasks").elems, hasValidId t = true) ∧
          (∀ t ∈ (a0.get "finalizedTasks").elems, hasValidId t = true) ∧
          (∀ t ∈ (a0.get "deletedTasks").elems, hasValidId t = true)) := by
  have key : ∀ (validate : JsVal → List String → Option JsVal × List String) (m1 m2 : String)
      (rest : JsVal → List String),
      (∀ x errors, (validate x errors).2 = errors ++ (if !isObject x then [m1]
        else if !hasValidId x then [m2] else rest x)) →
      RejectsExactlyBadIds validate →
      ∀ x errors, (validate x errors).1 = none →
        ∃ message, (validate x errors).2 = errors ++ [message] := by
    intro validate m1 m2 rest hsnd hrej x errors hnone
    rw [hsnd]
    by_cases hobj : isObject x = true
    · cases hv : hasValidId x with
      | false => exact ⟨m2, by simp [hobj]⟩
      | true =>
        exfalso
        simp only [hasValidId, Bool.and_eq_true] at hv
        exact ((hrej x errors).1.1 hnone) ⟨hv.1, (isValidId_iff _).1 hv.2⟩
    · exact ⟨m1, by simp [hobj]⟩
  refine ⟨key _ _ _ (fun _ => []) (validateNote_snd env) (validateNote_rejects env),
    key _ _ _ (fun _ => []) (validateTask_snd env) (validateTask_rejects env),
    key _ _ _ _ (validateAgenda_snd env) (validateAgenda_rejects env),
    key _ _ _ _ (validateWorkspace_snd env) (validateWorkspace_rejects env),
    ⟨validateJournalEntry_silent env, validateJournal_silent env, validateSnippet_silent env,
      validateColumn_silent⟩, ?_⟩
  intro doc hvalid herr w0 hw0
  obtain ⟨hw, hags⟩ :=
    diagnostics_nil_of_workspace env w0 (deepValidateState_errors_nil env doc hvalid herr w0 hw0)
  exact ⟨hw, fun a0 ha0 => diagnostics_nil_of_agenda env a0 (hags a0 ha0)⟩

/-! ## Sanitized strings -/

theorem accepted_note_fields (env : Env) {n0 n : JsVal}
    (h : accepted (validateNote env) n0 = some n) :
    IsSanitized (n.get "title") 500 ∧
    (n.get "content" = .undefined ∨ IsSanitized (n.get "content") 100000) := by
  obtain ⟨hobj, hid⟩ := accepted_some_valid (validateNote_rejects env) h
  unfold accepted at h
  rw [validateNote_fst env n0 [] hobj hid] at h
  cases h
  refine ⟨⟨_, rfl⟩, ?_⟩
  by_cases hf : strictEq (n0.get "type") (.str (lit "folder")) = true
  · left
    simp [hf]
  · right
    exact ⟨orElse (n0.get "content") (.str []), by simp [hf]⟩

theorem accepted_task_fields (env : Env) {t0 t : JsVal}
    (h : accepted (validateTask env) t0 = some t) :
    IsSanitized (t.get "title") 500 ∧ IsSanitized (t.get "description") 10000 := by
  obtain ⟨hobj, hid⟩ := accepted_some_valid (validateTask_rejects env) h
  unfold accepted at h
  rw [validateTask_fst env t0 [] hobj hid] at h
  cases h
  exact ⟨⟨_, rfl⟩, ⟨_, rfl⟩⟩

theorem accepted_entry_fields (env : Env) {e0 e : JsVal}
    (h : accepted (validateJournalEntry env) e0 = some e) :
    IsSanitized (e.get "text") 50000 := by
  obtain ⟨hobj, hid⟩ := accepted_some_valid (validateJournalEntry_rejects env) h
  unfold accepted at h
  rw [validateJournalEntry_fst env e0 [] hobj hid] at h
  cases h
  exact ⟨_, rfl⟩

theorem accepted_agenda_sanitized (env : Env) {a0 ag : JsVal}
    (h : accepted (validateAgenda env) a0 = some ag) : SanitizedFields ag := by
  have hshape := accepted_agenda_shape env h
  refine ⟨fun n hn => ?_, fun t ht => ?_, fun j hj e he => ?_⟩
  · rw [hshape] at hn
    simp only [get_obj_cons, get_obj_nil, String.reduceEq, if_true, if_false, elems_arr,
      List.mem_filterMap] at hn
    obtain ⟨n0, -, hacc⟩ := hn
    exact accepted_note_fields env hacc
  · rw [hshape] at ht
    simp only [get_obj_cons, get_obj_nil, String.reduceEq, if_true, if_false, elems_arr,
      List.mem_append, List.mem_filterMap] at ht
    rcases ht with (⟨t0, -, hacc⟩ | ⟨t0, -, hacc⟩) | ⟨t0, -, hacc⟩ <;>
      exact accepted_task_fields env hacc
  · rw [hshape] at hj
    simp only [get_obj_cons, get_obj_nil, String.reduceEq, if_true, if_false, elems_arr] at hj
    by_cases hjs : isArray (a0.get "journals") = true
    · rw [if_pos hjs, List.mem_filterMap] at hj
      obtain ⟨j0, -, hacc⟩ := hj
      have hent := accepted_journal_entries env hacc
      rw [FilteredField] at hent
      rw [hent, elems_arr, List.mem_filterMap] at he
      obtain ⟨e0, -, hacce⟩ := he
      exact accepted_entry_fields env hacce
    · rw [if_neg hjs] at hj
      by_cases hjl : isArray (a0.get "journal") = true
      · rw [if_pos hjl, List.mem_singleton] at hj
        subst hj
        simp only [get_obj_cons, get_obj_nil, String.reduceEq, if_true, if_false, elems_arr,
          List.mem_filterMap] at he
        obtain ⟨e0, -, hacce⟩ := he
        exact accepted_entry_fields env hacce
      · rw [if_neg hjl] at hj
        cases hj

/-- In a validated document the string fields of the notes, tasks and journal entries of
every agenda are values of `sanitizeString`. -/
theorem validated_fields_sanitized (env : Env) (doc : JsVal)
    (h : (deepValidateState env doc).valid = true) :
    ∀ ws ∈ ((deepValidateState env doc).state.get "workspaces").elems,
    ∀ ag ∈ (ws.get "agendas").elems, SanitizedFields ag := by
  intro ws hws ag hag
  obtain ⟨w0, -, hacc⟩ := mem_output_workspaces env doc h hws
  obtain ⟨a0, -, hacca⟩ := mem_workspace_agendas env hacc hag
  exact accepted_agenda_sanitized env hacca

theorem isStringWithin_of_sanitized {v : JsVal} {cap : Nat} (h : IsSanitized v cap) :
    IsStringWithin v cap := by
  obtain ⟨x, rfl⟩ := h
  exact ⟨_, rfl, (sanitizeString_shape x cap).2⟩

/-- C28: string fields are capped. For every value and every cap, `sanitizeString` returns
the empty string when the value is not a string, and a string of at most `cap` code units in
every case. So in every agenda of a validated document each note title and each task title
(active, finalized or deleted) has at most 500 code units, each note content (a folder has
none) at most 100000, each task description at most 10000 and each journal entry text at
most 50000. -/
theorem string_fields_are_capped (env : Env) (doc : JsVal)
    (h : (deepValidateState env doc).valid = true) :
    (∀ (s : JsVal) (cap : Nat),
      (isString s = false → sanitizeString s cap = []) ∧ (sanitizeString s cap).length ≤ cap) ∧
    ∀ ws ∈ ((deepValidateState env doc).state.get "workspaces").elems,
    ∀ ag ∈ (ws.get "agendas").elems,
      (∀ n ∈ (ag.get "notes").elems, IsStringWithin (n.get "title") 500 ∧
        (n.get "content" = .undefined ∨ IsStringWithin (n.get "content") 100000)) ∧
      (∀ t ∈ (ag.get "tasks").elems ++ (ag.get "finalizedTasks").elems ++
          (ag.get "deletedTasks").elems,
        IsStringWithin (t.get "title") 500 ∧ IsStringWithin (t.get "description") 10000) ∧
      (∀ j ∈ (ag.get "journals").elems, ∀ e ∈ (j.get "entries").elems,
        IsStringWithin (e.get "text") 50000) := by
  refine ⟨fun s cap => ⟨fun hs => ?_, (sanitizeString_shape s cap).2⟩, fun ws hws ag hag => ?_⟩
  · cases s <;> simp_all [isString, sanitizeString]
  · obtain ⟨hn, ht, hj⟩ := validated_fields_sanitized env doc h ws hws ag hag
    exact ⟨fun n hm => ⟨isStringWithin_of_sanitized (hn n hm).1,
        (hn n hm).2.imp id isStringWithin_of_sanitized⟩,
      fun t hm => ⟨isStringWithin_of_sanitized (ht t hm).1,
        isStringWithin_of_sanitized (ht t hm).2⟩,
      fun j hm e he => isStringWithin_of_sanitized (hj j hm e he)⟩

theorem string_fields_are_capped_witness :
    (deepValidateState sampleEnv sampleDoc).valid = true ∧
    sanitizeString (.str (lit "  abcdef  ")) 3 = lit "abc" ∧
    sanitizeString (.num (.fin 7)) 3 = [] ∧
    (∀ ws ∈ ((deepValidateState sampleEnv sampleDoc).state.get "workspaces").elems,
      ∀ ag ∈ (ws.get "agendas").elems,
        ∀ t ∈ (ag.get "tasks").elems ++ (ag.get "finalizedTasks").elems ++
            (ag.get "deletedTasks").elems,
          IsStringWithin (t.get "title") 500 ∧ IsStringWithin (t.get "description") 10000) :=
  ⟨by decide, by decide, rfl, fun ws hws ag hag =>
    ((string_fields_are_capped sampleEnv sampleDoc (by decide)).2 ws hws ag hag).2.1⟩

theorem noTrailingWs_trim (s : JsString) : NoTrailingWs (trim s) := by
  intro c hc
  rw [trim_eq_rdropWhile] at hc
  have hne : List.rdropWhile isWhiteSpace (s.dropWhile isWhiteSpace) ≠ [] := by
    intro h
    rw [h] at hc
    simp at hc
  rw [List.getLast?_eq_getLast _ hne, Option.some.injEq] at hc
  have := List.rdropWhile_last_not isWhiteSpace (s.dropWhile isWhiteSpace) hne
  rw [hc] at this
  simpa using this

/-- C29 (as stated, refuted): the string `a b` sanitized for the cap 2 is `a` followed by a
blank: it ends with a whitespace code unit. -/
theorem sanitized_trailing_whitespace_counterexample :
    sanitizeString (.str (lit "a b")) 2 = lit "a " ∧
    (lit "a ").getLast? = some 32 ∧ isWhiteSpace 32 = true ∧
    ¬ NoTrailingWs (sanitizeString (.str (lit "a b")) 2) := by
  refine ⟨by decide, by decide, by decide, fun h => ?_⟩
  have := h 32 (by decide)
  simp [isWhiteSpace] at this

/-- C29 (amended): `sanitizeString` trims first and cuts afterwards. For every string and
cap its value is the first `cap` code units of the trimmed string; it never starts with
whitespace, and it is the trimmed string itself, which does not end with whitespace either,
when that has at most `cap` code units. A longer string is cut, and the cut can leave
whitespace at the end. So in a validated document every note and task title, note content
(a folder has none), task description and journal entry text is a value of `sanitizeString`
for the cap of its field that is free of leading whitespace, and free of trailing whitespace
when it was not cut: when the string it was made from has a trimmed form within the cap, and
in particular whenever the field is shorter than its cap. -/
theorem sanitized_strings_trimmed_then_cut (env : Env) (doc : JsVal)
    (h : (deepValidateState env doc).valid = true) :
    (∀ (s : JsString) (cap : Nat),
      sanitizeString (.str s) cap = (trim s).take cap ∧
      NoLeadingWs (sanitizeString (.str s) cap) ∧
      NoLeadingWs (trim s) ∧ NoTrailingWs (trim s) ∧
      ((trim s).length ≤ cap → sanitizeString (.str s) cap = trim s ∧
        NoTrailingWs (sanitizeString (.str s) cap))) ∧
    ∀ ws ∈ ((deepValidateState env doc).state.get "workspaces").elems,
    ∀ ag ∈ (ws.get "agendas").elems,
      (∀ n ∈ (ag.get "notes").elems, NoLeadingWs (n.get "title").chars ∧
        NoLeadingWs (n.get "content").chars ∧ TrimmedUnlessCut (n.get "title") 500 ∧
        (n.get "content" = .undefined ∨ TrimmedUnlessCut (n.get "content") 100000)) ∧
      (∀ t ∈ (ag.get "tasks").elems ++ (ag.get "finalizedTasks").elems ++
          (ag.get "deletedTasks").elems,
        NoLeadingWs (t.get "title").chars ∧ NoLeadingWs (t.get "description").chars ∧
        TrimmedUnlessCut (t.get "title") 500 ∧
        TrimmedUnlessCut (t.get "description") 10000) ∧
      (∀ j ∈ (ag.get "journals").elems, ∀ e ∈ (j.get "entries").elems,
        NoLeadingWs (e.get "text").chars ∧ TrimmedUnlessCut (e.get "text") 50000) := by
  have heq : ∀ (s : JsString) (cap : Nat), (trim s).length ≤ cap →
      sanitizeString (.str s) cap = trim s := by
    intro s cap hle
    simp only [sanitizeString, slice0]
    exact List.take_of_length_le hle
  have hend : ∀ (x : JsVal) (cap : Nat), (∀ s, x = .str s → (trim s).length ≤ cap) →
      NoTrailingWs (sanitizeString x cap) := by
    intro x cap hx
    by_cases hs : ∃ s, x = .str s
    · obtain ⟨s, rfl⟩ := hs
      rw [heq s cap (hx s rfl)]
      exact noTrailingWs_trim s
    · have hnil : sanitizeString x cap = [] := by
        cases x <;> first | rfl | exact absurd ⟨_, rfl⟩ hs
      rw [hnil]
      intro c hc
      cases hc
  have hshort : ∀ (x : JsVal) (cap : Nat), (sanitizeString x cap).length < cap →
      NoTrailingWs (sanitizeString x cap) := by
    intro x cap hlt
    apply hend
    rintro s rfl
    simp only [sanitizeString, slice0, List.length_take] at hlt
    omega
  have key : ∀ {v : JsVal} {cap : Nat}, IsSanitized v cap →
      NoLeadingWs v.chars ∧ TrimmedUnlessCut v cap := by
    intro v cap hv
    obtain ⟨x, rfl⟩ := hv
    exact ⟨(sanitizeString_shape x cap).1, x, rfl, (sanitizeString_shape x cap).1,
      hend x cap, hshort x cap⟩
  refine ⟨fun s cap => ⟨rfl, (sanitizeString_shape (.str s) cap).1, noLeadingWs_trim s,
    noTrailingWs_trim s, fun hle => ⟨heq s cap hle, heq s cap hle ▸ noTrailingWs_trim s⟩⟩,
    fun ws hws ag hag => ?_⟩
  obtain ⟨hn, ht, hj⟩ := validated_fields_sanitized env doc h ws hws ag hag
  refine ⟨fun n hm => ⟨(key (hn n hm).1).1, ?_, (key (hn n hm).1).2, ?_⟩,
    fun t hm => ⟨(key (ht t hm).1).1, (key (ht t hm).2).1, (key (ht t hm).1).2,
      (key (ht t hm).2).2⟩,
    fun j hm e he => key (hj j hm e he)⟩
  · rcases (hn n hm).2 with hu | hs
    · rw [hu]
      intro c hc
      simp [JsVal.chars] at hc
    · exact (key hs).1
  · exact (hn n hm).2.imp id (fun hs => (key hs).2)

theorem sanitized_strings_trimmed_then_cut_witness :
    (deepValidateState sampleEnv sampleDoc).valid = true ∧
    sanitizeString (.str (lit "  a b  ")) 3 = lit "a b" ∧
    sanitizeString (.str (lit "  a b  ")) 3 = (trim (lit "  a b  ")).take 3 ∧
    (∀ ws ∈ ((deepValidateState sampleEnv sampleDoc).state.get "workspaces").elems,
      ∀ ag ∈ (ws.get "agendas").elems,
        ∀ t ∈ (ag.get "tasks").elems ++ (ag.get "finalizedTasks").elems ++
            (ag.get "deletedTasks").elems,
          TrimmedUnlessCut (t.get "title") 500 ∧
          TrimmedUnlessCut (t.get "description") 10000) :=
  ⟨by decide, by decide,
    ((sanitized_strings_trimmed_then_cut sampleEnv sampleDoc (by decide)).1
      (lit "  a b  ") 3).1,
    fun ws hws ag hag t ht =>
      (((sanitized_strings_trimmed_then_cut sampleEnv sampleDoc (by decide)).2
        ws hws ag hag).2.1 t ht).2.2⟩

theorem validateSnippet_fst (env : Env) (x : JsVal) (errors : List String)
    (hobj : isObject x = true) (hid : isValidId (x.get "id") = true) :
    (validateSnippet env x errors).1 = some (.obj [("id", x.get "id"),
      ("title", .str (sanitizeString (orElse (x.get "title") (.str [])) 500)),
      ("code", if isString (x.get "code") then .str (slice0 (x.get "code").chars 100000)
               else .str []),
      ("language", .str (sanitizeString (orElse (x.get "language") (.str (lit "text"))) 50)),
      ("description", .str (sanitizeString (orElse (x.get "description") (.str [])) 2000)),
      ("tags", .arr (if isArray (x.get "tags") then validateTags (x.get "tags").elems else [])),
      ("createdAt", if isValidDate env (x.get "createdAt") then x.get "createdAt"
                    else .str env.now)]) := by
  simp [validateSnippet, hobj, hid, truthy_of_isValidId hid]

theorem accepted_snippet_code (env : Env) (snippet : JsVal) (code : JsString)
    (hobj : isObject snippet = true) (hid : isValidId (snippet.get "id") = true)
    (hcode : snippet.get "code" = .str code) :
    ∃ v, accepted (validateSnippet env) snippet = some v ∧
      v.get "code" = .str (code.take 100000) := by
  refine ⟨_, validateSnippet_fst env snippet [] hobj hid, ?_⟩
  simp only [get_obj_cons, String.reduceEq, if_true, if_false, hcode, isString, JsVal.chars,
    slice0]

/-- C30 (as stated, refuted): the snippet `longCodeSnippet` has a valid id and a code of
100001 code units; validation accepts it with a code of 100000 code units, which is not
the input code. -/
theorem snippet_code_counterexample :
    isObject longCodeSnippet = true ∧ isValidId (longCodeSnippet.get "id") = true ∧
    longCodeSnippet.get "code" = .str (List.replicate 100001 97) ∧
    (∃ v, accepted (validateSnippet sampleEnv) longCodeSnippet = some v ∧
      v.get "code" = .str (List.replicate 100000 97) ∧
      v.get "code" ≠ longCodeSnippet.get "code") := by
  have hobj : isObject longCodeSnippet = true := rfl
  have hid : isValidId (longCodeSnippet.get "id") = true := by decide
  have hcode : longCodeSnippet.get "code" = .str (List.replicate 100001 97) := rfl
  obtain ⟨v, hv, hvc⟩ := accepted_snippet_code sampleEnv longCodeSnippet _ hobj hid hcode
  have hmin : min 100000 100001 = 100000 := by decide
  rw [List.take_replicate, hmin] at hvc
  refine ⟨hobj, hid, hcode, v, hv, hvc, ?_⟩
  rw [hvc, hcode]
  intro hc
  have hlen := congrArg (fun x => x.chars.length) hc
  simp only [JsVal.chars, List.length_replicate] at hlen
  exact absurd hlen (by decide)

/-- C30 (amended): the code of a snippet is neither trimmed nor escaped, but it is cut. For
every snippet object with a valid id whose code is a string, the code of the validated
snippet is the first 100000 code units of the input code: the input code itself, code unit
for code unit, when it has at most 100000 code units, and a proper initial part of it
otherwise. -/
theorem snippet_code_kept_up_to_cap (env : Env) (snippet : JsVal) (code : JsString)
    (hobj : isObject snippet = true) (hid : isValidId (snippet.get "id") = true)
    (hcode : snippet.get "code" = .str code) :
    ∃ v, accepted (validateSnippet env) snippet = some v ∧
      v.get "code" = .str (code.take 100000) ∧
      (code.length ≤ 100000 → v.get "code" = .str code) ∧
      (100000 < code.length → (v.get "code").chars.length = 100000 ∧
        v.get "code" ≠ .str code) := by
  obtain ⟨v, hv, hvc⟩ := accepted_snippet_code env snippet code hobj hid hcode
  refine ⟨v, hv, hvc, fun hle => ?_, fun hlt => ?_⟩
  · rw [hvc, List.take_of_length_le hle]
  · have hlen : (code.take 100000).length = 100000 := by
      rw [List.length_take]
      omega
    refine ⟨by rw [hvc]; exact hlen, ?_⟩
    rw [hvc]
    intro hc
    rw [JsVal.str.injEq] at hc
    rw [hc] at hlen
    omega

theorem snippet_code_kept_up_to_cap_witness :
    isObject (JsVal.obj [("id", .str (lit "s1")), ("code", .str (lit "  x = 1;\n "))]) = true ∧
    (∃ v, accepted (validateSnippet sampleEnv)
        (.obj [("id", .str (lit "s1")), ("code", .str (lit "  x = 1;\n "))]) = some v ∧
      v.get "code" = .str ((lit "  x = 1;\n ").take 100000) ∧
      ((lit "  x = 1;\n ").length ≤ 100000 → v.get "code" = .str (lit "  x = 1;\n ")) ∧
      (100000 < (lit "  x = 1;\n ").length → (v.get "code").chars.length = 100000 ∧
        v.get "code" ≠ .str (lit "  x = 1;\n "))) :=
  ⟨rfl, snippet_code_kept_up_to_cap sampleEnv
    (.obj [("id", .str (lit "s1")), ("code", .str (lit "  x = 1;\n "))]) (lit "  x = 1;\n ")
    rfl (by decide) rfl⟩

/-! ## Actions: steps on well-shaped values -/

theorem prop_of_isObject {x : JsVal} (h : isObject x = true) (k : String) :
    x.prop k = .ok (x.get k) := by
  obtain ⟨fields, rfl⟩ := (isObject_iff x).1 h
  rfl

theorem prop_of_truthy {x : JsVal} (h : x.truthy = true) (k : String) :
    x.prop k = .ok (x.get k) := by
  cases x <;> first | rfl | simp [JsVal.truthy] at h

theorem truthy_of_isObject {x : JsVal} (h : isObject x = true) : x.truthy = true := by
  obtain ⟨fields, rfl⟩ := (isObject_iff x).1 h
  rfl

theorem findByKey_ok (k : String) (v : JsVal) (xs : List JsVal) (h : AllObjects xs) :
    findByKey k v xs = .ok ((xs.find? (fun x => strictEq (x.get k) v)).getD .undefined) ∧
    findIndexByKey k v xs = .ok (xs.findIdx? (fun x => strictEq (x.get k) v)) := by
  induction xs with
  | nil => exact ⟨rfl, rfl⟩
  | cons x xs ih =>
    have hx := prop_of_isObject (h x (List.mem_cons_self _ _)) k
    obtain ⟨ih1, ih2⟩ := ih (fun y hy => h y (List.mem_cons_of_mem _ hy))
    by_cases hp : strictEq (x.get k) v = true
    · simp [findByKey, findIndexByKey, hx, hp, elementAt, List.findIdx?_cons]
    · have hidx : findIndexByKey k v (x :: xs) =
          .ok ((xs.findIdx? (fun x => strictEq (x.get k) v)).map (· + 1)) := by
        simp only [findIndexByKey, hx, hp, Bool.false_eq_true, if_false, ih2]
        cases xs.findIdx? (fun x => strictEq (x.get k) v) <;> rfl
      refine ⟨?_, ?_⟩
      · simp only [findByKey, hidx, List.find?_cons, hp]
        simp only [findByKey, ih2] at ih1
        cases hi : xs.findIdx? (fun x => strictEq (x.get k) v) with
        | none =>
          rw [hi] at ih1
          simpa [elementAt] using ih1
        | some i =>
          rw [hi] at ih1
          simpa [elementAt] using ih1
      · rw [hidx, List.findIdx?_cons]
        simp only [hp, Bool.false_eq_true, if_false, zero_add]
        rw [List.findIdx?_succ]

theorem mapThrowing_ok (f : JsVal → Except Fault JsVal) (g : JsVal → JsVal) (xs : List JsVal)
    (h : ∀ x ∈ xs, f x = .ok (g x)) : mapThrowing f xs = .ok (xs.map g) := by
  induction xs with
  | nil => rfl
  | cons x xs ih =>
    simp only [mapThrowing, h x (List.mem_cons_self _ _),
      ih (fun y hy => h y (List.mem_cons_of_mem _ hy)), List.map_cons]

theorem get_setKeys_other (fields more : List (String × JsVal)) (k : String)
    (h : more.lookup k = none) :
    (objectSpread (.obj fields) (.obj more)).get k = (JsVal.obj fields).get k := by
  rw [get_objectSpread]
  have : (JsVal.obj more).hasKey k = false := by
    rw [JsVal.hasKey, any_key_eq_lookup, h]
    rfl
  rw [this]
  rfl

theorem get_setKeys_same (fields more : List (String × JsVal)) (k : String) (x : JsVal)
    (h : more.lookup k = some x) :
    (objectSpread (.obj fields) (.obj more)).get k = x := by
  rw [get_objectSpread]
  have : (JsVal.obj more).hasKey k = true := by
    rw [JsVal.hasKey, any_key_eq_lookup, h]
    rfl
  rw [this, if_pos rfl]
  simp [JsVal.get, h]

/-! ## Moving a note -/

theorem movedNote_id (clock : Clock) (itemId newParentId n : JsVal)
    (hn : isObject n = true) :
    (movedNote clock itemId newParentId n).get "id" = n.get "id" := by
  obtain ⟨fields, rfl⟩ := (isObject_iff n).1 hn
  unfold movedNote
  split
  · exact get_setKeys_other _ _ _ (by simp [List.lookup])
  · rfl

theorem movedNote_parentId (clock : Clock) (itemId newParentId n : JsVal)
    (hn : isObject n = true) :
    (movedNote clock itemId newParentId n).get "parentId" =
      if strictEq (n.get "id") itemId then newParentId else n.get "parentId" := by
  obtain ⟨fields, rfl⟩ := (isObject_iff n).1 hn
  unfold movedNote
  split
  · exact get_setKeys_same _ _ _ _ (by simp [List.lookup])
  · rfl

theorem movedNote_isObject (clock : Clock) (itemId newParentId n : JsVal)
    (hn : isObject n = true) : isObject (movedNote clock itemId newParentId n) = true := by
  unfold movedNote
  split
  · rfl
  · exact hn

theorem find?_movedNote (clock : Clock) (itemId newParentId c : JsVal) (notes : List JsVal)
    (h : AllObjects notes) :
    (notes.map (movedNote clock itemId newParentId)).find?
        (fun n => strictEq (n.get "id") c) =
      (notes.find? (fun n => strictEq (n.get "id") c)).map
        (movedNote clock itemId newParentId) := by
  induction notes with
  | nil => rfl
  | cons n notes ih =>
    have hn := h n (List.mem_cons_self _ _)
    have ih' := ih (fun y hy => h y (List.mem_cons_of_mem _ hy))
    simp only [List.map_cons, List.find?_cons, movedNote_id clock itemId newParentId n hn]
    cases strictEq (n.get "id") c
    · exact ih'
    · rfl

/-- The parent relation after the move: the parent of the item is the new parent, every
other parent reference is as before. -/
theorem parentOf_moved (clock : Clock) (itemId newParentId c : JsVal) (notes : List JsVal)
    (h : AllObjects notes) :
    parentOf (notes.map (movedNote clock itemId newParentId)) c =
      if strictEq c itemId = true ∧
          (notes.find? (fun n => strictEq (n.get "id") c)).isSome = true
      then newParentId else parentOf notes c := by
  unfold parentOf
  rw [find?_movedNote clock itemId newParentId c notes h]
  cases hf : notes.find? (fun n => strictEq (n.get "id") c) with
  | none => simp
  | some n =>
    have hn : isObject n = true := h n (List.mem_of_find?_eq_some hf)
    have hid : n.get "id" = c := strictEq_eq_true (by simpa using List.find?_some hf)
    simp only [Option.map_some', movedNote_parentId clock itemId newParentId n hn, hid,
      Option.isSome_some, and_true]

theorem reachesNull_succ_of (notes : List JsVal) (k : Nat) (c : JsVal)
    (h : reachesNull notes k (parentOf notes c) = true) :
    reachesNull notes (k + 1) c = true := by
  simp [reachesNull, h]

theorem reachesNull_of_falsy (notes : List JsVal) (c : JsVal)
    (hids : ∀ n ∈ notes, (n.get "id").truthy = true) (hc : c.truthy = false) :
    reachesNull notes 1 c = true := by
  have hnone : notes.find? (fun n => strictEq (n.get "id") c) = none := by
    rw [List.find?_eq_none]
    intro n hn hs
    have := hids n hn
    have hid : n.get "id" = c := strictEq_eq_true hs
    rw [hid, hc] at this
    cases this
  simp [reachesNull, parentOf, hnone, isNull]

theorem ancestorWalk_step (notes : List JsVal) (h : AllObjects notes) (itemId c : JsVal)
    (fuel : Nat) (hc : c.truthy = true) (hne : strictEq c itemId = false) :
    NoteActions.ancestorWalk notes itemId (fuel + 1) c =
      NoteActions.ancestorWalk notes itemId fuel (parentOf notes c) := by
  rw [NoteActions.ancestorWalk]
  simp only [hc, hne, Bool.not_true, Bool.false_eq_true, if_false,
    (findByKey_ok "id" c notes h).1]
  congr 1
  unfold parentOf
  cases hf : notes.find? (fun n => strictEq (n.get "id") c) with
  | none => rfl
  | some n =>
    have hn : isObject n = true := h n (List.mem_of_find?_eq_some hf)
    simp [truthy_of_isObject hn]

theorem ancestorWalk_of_falsy (notes : List JsVal) (itemId c : JsVal) (fuel : Nat)
    (hc : c.truthy = false) : NoteActions.ancestorWalk notes itemId fuel c = .ok false := by
  cases fuel <;> simp [NoteActions.ancestorWalk, hc]

/-- A walk that ends without meeting the item starts at a value from which the notes
after the move arrive at null. -/
theorem reachesNull_moved_of_walk (clock : Clock) (itemId newParentId : JsVal)
    (notes : List JsVal) (h : ∀ n ∈ notes, isObject n = true ∧ (n.get "id").truthy = true)
    (fuel : Nat) (c : JsVal)
    (hwalk : NoteActions.ancestorWalk notes itemId fuel c = .ok false) :
    ∃ k, reachesNull (notes.map (movedNote clock itemId newParentId)) k c = true := by
  have hobj : AllObjects notes := fun n hn => (h n hn).1
  have hids' : ∀ n ∈ notes.map (movedNote clock itemId newParentId),
      (n.get "id").truthy = true := by
    intro n hn
    obtain ⟨m, hm, rfl⟩ := List.mem_map.1 hn
    rw [movedNote_id clock itemId newParentId m (h m hm).1]
    exact (h m hm).2
  induction fuel generalizing c with
  | zero =>
    cases hc : c.truthy with
    | false => exact ⟨1, reachesNull_of_falsy _ c hids' hc⟩
    | true => simp [NoteActions.ancestorWalk, hc] at hwalk
  | succ fuel ih =>
    cases hc : c.truthy with
    | false => exact ⟨1, reachesNull_of_falsy _ c hids' hc⟩
    | true =>
      cases hs : strictEq c itemId with
      | true => simp [NoteActions.ancestorWalk, hc, hs] at hwalk
      | false =>
        rw [ancestorWalk_step notes hobj itemId c fuel hc hs] at hwalk
        obtain ⟨k, hk⟩ := ih _ hwalk
        refine ⟨k + 1, reachesNull_succ_of _ k c ?_⟩
        rw [parentOf_moved clock itemId newParentId c notes hobj]
        simpa [hs] using hk

/-- A value from which the notes arrive at null still does after the move, when the new
parent does. -/
theorem reachesNull_moved (clock : Clock) (itemId newParentId : JsVal) (notes : List JsVal)
    (h : AllObjects notes)
    (hnew : ∃ k, reachesNull (notes.map (movedNote clock itemId newParentId)) k newParentId
      = true)
    (k : Nat) (c : JsVal) (hk : reachesNull notes k c = true) :
    ∃ k2, reachesNull (notes.map (movedNote clock itemId newParentId)) k2 c = true := by
  induction k generalizing c with
  | zero => exact ⟨0, hk⟩
  | succ k ih =>
    simp only [reachesNull, Bool.or_eq_true] at hk
    rcases hk with hk | hk
    · exact ⟨0, by simpa [reachesNull] using hk⟩
    · by_cases hcase : strictEq c itemId = true ∧
          (notes.find? (fun n => strictEq (n.get "id") c)).isSome = true
      · obtain ⟨k2, hk2⟩ := hnew
        refine ⟨k2 + 1, reachesNull_succ_of _ k2 c ?_⟩
        rw [parentOf_moved clock itemId newParentId c notes h, if_pos hcase]
        exact hk2
      · obtain ⟨k2, hk2⟩ := ih _ hk
        refine ⟨k2 + 1, reachesNull_succ_of _ k2 c ?_⟩
        rw [parentOf_moved clock itemId newParentId c notes h, if_neg hcase]
        exact hk2

/-- The walk ends when the notes arrive at null from its start. -/
theorem ancestorWalk_ends (notes : List JsVal) (h : AllObjects notes) (itemId : JsVal)
    (k : Nat) (c : JsVal) (hk : reachesNull notes k c = true) :
    ∀ fuel, k ≤ fuel → ∃ b, NoteActions.ancestorWalk notes itemId fuel c = .ok b := by
  induction k generalizing c with
  | zero =>
    intro fuel _
    have hc : c.truthy = false := by
      cases c <;> simp_all [reachesNull, isNull, JsVal.truthy]
    exact ⟨false, ancestorWalk_of_falsy notes itemId c fuel hc⟩
  | succ k ih =>
    intro fuel hfuel
    cases hc : c.truthy with
    | false => exact ⟨false, ancestorWalk_of_falsy notes itemId c fuel hc⟩
    | true =>
      obtain ⟨fuel, rfl⟩ : ∃ f, fuel = f + 1 := ⟨fuel - 1, by omega⟩
      cases hs : strictEq c itemId with
      | true => exact ⟨true, by simp [NoteActions.ancestorWalk, hc, hs]⟩
      | false =>
        rw [ancestorWalk_step notes h itemId c fuel hc hs]
        simp only [reachesNull, Bool.or_eq_true] at hk
        rcases hk with hk | hk
        · cases c <;> simp_all [isNull, JsVal.truthy]
        · exact ih _ hk fuel (by omega)

theorem reachesNull_of_acyclic (notes : List JsVal) (hacyclic : Acyclic notes) (c : JsVal) :
    ∃ k, reachesNull notes k c = true := by
  cases hf : notes.find? (fun n => strictEq (n.get "id") c) with
  | none => exact ⟨1, by simp [reachesNull, parentOf, hf, isNull]⟩
  | some n =>
    obtain ⟨k, hk⟩ := hacyclic n (List.mem_of_find?_eq_some hf)
    exact ⟨k + 1, reachesNull_succ_of _ k c (by simpa [parentOf, hf] using hk)⟩

/-- What `moveItem` does to an agenda whose notes are an array of objects. -/
theorem moveItemInAgenda_eq (clock : Clock) (fuel : Nat) (itemId newParentId agenda : JsVal)
    (notes : List JsVal) (h : HasNotes agenda notes) :
    NoteActions.moveItemInAgenda clock fuel itemId newParentId agenda =
      match notes.find? (fun n => strictEq (n.get "id") itemId) with
      | none => .ok agenda
      | some item =>
        match (if strictEq (item.get "type") (.str (lit "folder")) then
            NoteActions.ancestorWalk notes itemId fuel newParentId else .ok false) with
        | .error e => .error e
        | .ok true => .ok agenda
        | .ok false =>
          .ok (objectSpread agenda
            (.obj [("notes", .arr (notes.map (movedNote clock itemId newParentId)))])) := by
  obtain ⟨hobj, hnotes, hall⟩ := h
  have hallobj : AllObjects notes := fun n hn => (hall n hn).1
  have horelse : JsVal.orElse (.arr notes) (.arr []) = .arr notes := rfl
  have hitems : JsVal.items (.arr notes) = .ok notes := rfl
  have hund : JsVal.undefined.truthy = false := rfl
  unfold NoteActions.moveItemInAgenda
  simp only [prop_of_isObject hobj, hnotes, horelse, hitems,
    (findByKey_ok "id" itemId notes hallobj).1, bind, Except.bind, pure, Except.pure]
  rw [mapThrowing_ok _ (movedNote clock itemId newParentId) notes (by
    intro n hn
    simp only [prop_of_isObject (hallobj n hn), movedNote]
    split <;> rfl)]
  cases hf : notes.find? (fun n => strictEq (n.get "id") itemId) with
  | none => simp only [Option.getD_none, hund, Bool.not_false, if_true]
  | some item =>
    have hitem : item.truthy = true :=
      truthy_of_isObject (hallobj item (List.mem_of_find?_eq_some hf))
    simp only [Option.getD_some, hitem, Bool.not_true, Bool.false_eq_true, if_false]
    by_cases hfolder : strictEq (item.get "type") (.str (lit "folder")) = true
    · simp only [hfolder, if_true]
      cases NoteActions.ancestorWalk notes itemId fuel newParentId with
      | error e => rfl
      | ok b => cases b <;> rfl
    · simp only [hfolder, if_false]
      rfl

theorem acyclic_moved (clock : Clock) (itemId newParentId : JsVal) (notes : List JsVal)
    (h : ∀ n ∈ notes, isObject n = true ∧ (n.get "id").truthy = true)
    (hacyclic : Acyclic notes) (fuel : Nat)
    (hwalk : NoteActions.ancestorWalk notes itemId fuel newParentId = .ok false) :
    Acyclic (notes.map (movedNote clock itemId newParentId)) := by
  have hobj : AllObjects notes := fun n hn => (h n hn).1
  have hnew := reachesNull_moved_of_walk clock itemId newParentId notes h fuel newParentId hwalk
  intro n hn
  obtain ⟨m, hm, rfl⟩ := List.mem_map.1 hn
  rw [movedNote_parentId clock itemId newParentId m (h m hm).1]
  split
  · exact hnew
  · obtain ⟨k, hk⟩ := hacyclic m hm
    exact reachesNull_moved clock itemId newParentId notes hobj hnew k _ hk

theorem get_notes_moved (agenda : JsVal) (hobj : isObject agenda = true) (notes : List JsVal) :
    (objectSpread agenda (.obj [("notes", .arr notes)])).get "notes" = .arr notes := by
  obtain ⟨fields, rfl⟩ := (isObject_iff agenda).1 hobj
  exact get_setKeys_same _ _ _ _ (by simp [List.lookup])

theorem reachesNull_self_parent (notes : List JsVal) (c : JsVal) (hc : isNull c = false)
    (hp : parentOf notes c = c) : ∀ k, reachesNull notes k c = false := by
  intro k
  induction k with
  | zero => simpa [reachesNull] using hc
  | succ k ih => simp [reachesNull, hc, hp, ih]

/-- C22 (as stated, refuted): the agenda `loneNoteAgenda` has one note `n1`, of type `note`,
at the root: the ids are unique and the parent relation has no cycle. `moveItem` of `n1`
under `n1` runs no ancestor walk, since the item is not a folder, and makes `n1` its own
parent. -/
theorem move_keeps_forest_counterexample :
    (idsOf loneNote).Nodup ∧ Acyclic loneNote ∧ isForest loneNote ∧
    (∃ agenda, NoteActions.moveItemInAgenda laterClock 5 (.str (lit "n1")) (.str (lit "n1"))
        loneNoteAgenda = .ok agenda ∧
      (agenda.get "notes").elems.map (fun n => (n.get "id", n.get "parentId")) =
        [(.str (lit "n1"), .str (lit "n1"))] ∧
      ¬ Acyclic (agenda.get "notes").elems ∧ ¬ isForest (agenda.get "notes").elems) := by
  refine ⟨by simp [idsOf, loneNote], fun n hn => ⟨0, ?_⟩, by decide, _, rfl, rfl, ?_, by decide⟩
  · rcases List.mem_singleton.1 hn with rfl
    rfl
  · intro hc
    obtain ⟨k, hk⟩ := hc _ (List.mem_cons_self _ _)
    have := reachesNull_self_parent
      ((objectSpread loneNoteAgenda (.obj [("notes", .arr (loneNote.map
        (movedNote laterClock (.str (lit "n1")) (.str (lit "n1")))))])).get "notes").elems
      (.str (lit "n1")) rfl rfl k
    exact Bool.noConfusion (this.symm.trans hk)

/-- C22 (amended): `moveItem` keeps the parent relation free of cycles when the moved item
is a folder; for an item of any other type it runs no check. For every agenda whose notes
are objects with truthy ids and an acyclic parent relation, every `itemId` whose note (the
first one with that id), if there is one, is a folder, and every `newParentId`: with enough
fuel the ancestor walk ends and `moveItem` returns an agenda whose notes have the same ids in
the same order and an acyclic parent relation. -/
theorem move_folder_keeps_forest (clock : Clock) (itemId newParentId agenda : JsVal)
    (notes : List JsVal) (h : HasNotes agenda notes) (hacyclic : Acyclic notes)
    (hfolder : ∀ item, notes.find? (fun n => strictEq (n.get "id") itemId) = some item →
      strictEq (item.get "type") (.str (lit "folder")) = true) :
    ∃ fuel0, ∀ fuel, fuel0 ≤ fuel →
      ∃ moved, NoteActions.moveItemInAgenda clock fuel itemId newParentId agenda = .ok moved ∧
        idsOf (moved.get "notes").elems = idsOf notes ∧
        Acyclic (moved.get "notes").elems := by
  have hallobj : AllObjects notes := fun n hn => (h.2.2 n hn).1
  obtain ⟨k, hk⟩ := reachesNull_of_acyclic notes hacyclic newParentId
  refine ⟨k, fun fuel hfuel => ?_⟩
  rw [moveItemInAgenda_eq clock fuel itemId newParentId agenda notes h]
  have hsame : idsOf (agenda.get "notes").elems = idsOf notes ∧
      Acyclic (agenda.get "notes").elems := by
    rw [h.2.1]
    exact ⟨rfl, hacyclic⟩
  cases hf : notes.find? (fun n => strictEq (n.get "id") itemId) with
  | none => exact ⟨agenda, rfl, hsame⟩
  | some item =>
    simp only [hfolder item hf, if_true]
    obtain ⟨b, hb⟩ := ancestorWalk_ends notes hallobj itemId k newParentId hk fuel hfuel
    rw [hb]
    cases b with
    | true => exact ⟨agenda, rfl, hsame⟩
    | false =>
      refine ⟨_, rfl, ?_, ?_⟩
      · rw [get_notes_moved agenda h.1, elems_arr]
        simp only [idsOf, List.map_map]
        apply List.map_congr_left
        intro n hn
        exact movedNote_id clock itemId newParentId n (hallobj n hn)
      · rw [get_notes_moved agenda h.1, elems_arr]
        exact acyclic_moved clock itemId newParentId notes h.2.2 hacyclic fuel hb

theorem move_folder_keeps_forest_witness :
    HasNotes foldersAgenda nestedFolders ∧ Acyclic nestedFolders ∧
    NoteActions.moveItemInAgenda laterClock 5 (.str (lit "F2")) .null foldersAgenda =
      .ok (objectSpread foldersAgenda (.obj [("notes", .arr (nestedFolders.map
        (movedNote laterClock (.str (lit "F2")) .null)))])) ∧
    (∃ fuel0, ∀ fuel, fuel0 ≤ fuel →
      ∃ moved, NoteActions.moveItemInAgenda laterClock fuel (.str (lit "F2")) .null
          foldersAgenda = .ok moved ∧
        idsOf (moved.get "notes").elems = idsOf nestedFolders ∧
        Acyclic (moved.get "notes").elems) :=
  have hnotes : HasNotes foldersAgenda nestedFolders :=
    ⟨rfl, rfl, fun n hn => by
      simp only [nestedFolders, List.mem_cons, List.mem_singleton, List.not_mem_nil,
        or_false] at hn
      rcases hn with rfl | rfl <;> exact ⟨rfl, rfl⟩⟩
  have hacyclic : Acyclic nestedFolders := fun n hn => by
    simp only [nestedFolders, List.mem_cons, List.mem_singleton, List.not_mem_nil,
      or_false] at hn
    rcases hn with rfl | rfl
    · exact ⟨0, rfl⟩
    · exact ⟨1, rfl⟩
  ⟨hnotes, hacyclic, rfl,
    move_folder_keeps_forest laterClock (.str (lit "F2")) .null foldersAgenda nestedFolders
      hnotes hacyclic (fun item hitem => by
        have : item = nestedFolders.getD 1 .null := by
          have h2 : nestedFolders.find? (fun n => strictEq (n.get "id") (.str (lit "F2"))) =
              some (nestedFolders.getD 1 .null) := rfl
          rw [h2] at hitem
          exact (Option.some.inj hitem).symm
        rw [this]
        rfl)⟩

/-! ## The frame of the rebuilding actions -/

theorem isObject_of_get_arr {v : JsVal} {k : String} {xs : List JsVal}
    (h : v.get k = .arr xs) : isObject v = true := by
  cases v <;> first | rfl | simp [JsVal.get] at h

theorem arr_elems_of_isArray {v : JsVal} (h : isArray v = true) : v = .arr v.elems := by
  cases v <;> first | rfl | simp [isArray] at h

/-- What the frame returns on a document with workspaces, for a body that returns `g a`
on every addressed agenda `a`. -/
theorem rebuildAgenda_eq (clock : Clock) (agendaId : JsVal)
    (body : JsVal → Except Fault JsVal) (g : JsVal → JsVal) (state active : JsVal)
    (wss : List JsVal) (h : HasWorkspaces state active wss)
    (hbody : ∀ a, Addressed state agendaId a → body a = .ok (g a)) :
    rebuildAgenda clock agendaId body state =
      .ok (state, .obj [("workspaces",
        .arr (wss.map (rebuiltWorkspace clock active agendaId g)))]) := by
  obtain ⟨hactive, htruthy, hwss, hshape⟩ := h
  have hstate : isObject state = true := isObject_of_get_arr hwss
  have hitems : JsVal.items (.arr wss) = .ok wss := rfl
  unfold rebuildAgenda
  simp only [prop_of_isObject hstate, hactive, htruthy, hwss, hitems, bind, Except.bind, pure,
    Except.pure, Bool.not_true, Bool.false_eq_true, if_false]
  rw [mapThrowing_ok _ (rebuiltWorkspace clock active agendaId g) wss]
  intro ws hws
  obtain ⟨hwsobj, hags⟩ := hshape ws hws
  simp only [prop_of_isObject hwsobj, rebuiltWorkspace]
  by_cases hid : strictEq (ws.get "id") active = true
  · obtain ⟨harr, hobjs⟩ := hags hid
    have hitems2 : JsVal.items (ws.get "agendas") = .ok (ws.get "agendas").elems := by
      rw [arr_elems_of_isArray harr]
      rfl
    simp only [hid, if_true, hitems2]
    rw [mapThrowing_ok _ (fun a => if strictEq (a.get "id") agendaId then g a else a)]
    intro a ha
    simp only [prop_of_isObject (hobjs a ha)]
    by_cases haid : strictEq (a.get "id") agendaId = true
    · simp only [haid, if_true]
      exact hbody a ⟨ws, by rw [hwss]; exact hws, by rw [hactive]; exact hid, ha, haid⟩
    · simp only [haid, Bool.false_eq_true, if_false]
  · simp only [hid, Bool.false_eq_true, if_false]

/-- The state after `store.update` with a mutator that leaves the draft `d` and returns the
object `r`. -/
theorem updateWith_ok (codec : JsonCodec) (w : World)
    (mutator : JsVal → Except Fault (JsVal × JsVal))
    (fields more : List (String × JsVal))
    (h : mutator (Store.getState w) = .ok (.obj fields, .obj more)) :
    ∃ w2, Store.updateWith codec w mutator = .ok w2 ∧
      Store.getState w2 = objectSpread (.obj fields) (.obj more) := by
  refine ⟨_, by
    unfold Store.updateWith
    rw [show structuredClone w.store.state = Store.getState w from rfl, h], ?_⟩
  rw [update_state, updateState_state]
  rfl

theorem ancestorWalk_of_reachesItem (notes : List JsVal) (h : AllObjects notes)
    (itemId : JsVal) (k : Nat) (c : JsVal) (hk : reachesItem notes itemId k c = true) :
    ∀ fuel, k < fuel → NoteActions.ancestorWalk notes itemId fuel c = .ok true := by
  induction k generalizing c with
  | zero =>
    intro fuel hfuel
    obtain ⟨fuel, rfl⟩ : ∃ f, fuel = f + 1 := ⟨fuel - 1, by omega⟩
    simp only [reachesItem, Bool.and_eq_true] at hk
    simp [NoteActions.ancestorWalk, hk.1, hk.2]
  | succ k ih =>
    intro fuel hfuel
    obtain ⟨fuel, rfl⟩ : ∃ f, fuel = f + 1 := ⟨fuel - 1, by omega⟩
    simp only [reachesItem, Bool.and_eq_true, Bool.or_eq_true] at hk
    obtain ⟨hc, hk⟩ := hk
    cases hs : strictEq c itemId with
    | true => simp [NoteActions.ancestorWalk, hc, hs]
    | false =>
      rw [ancestorWalk_step notes h itemId c fuel hc hs]
      rcases hk with hk | hk
      · rw [hs] at hk
        cases hk
      · exact ih _ hk fuel (by omega)

theorem get_rebuiltWorkspace_same (clock : Clock) (active agendaId ws : JsVal)
    (hobj : isObject ws = true) (hid : strictEq (ws.get "id") active = true)
    (harr : isArray (ws.get "agendas") = true) :
    OnlyStamped clock ws (rebuiltWorkspace clock active agendaId (fun a => a) ws) := by
  obtain ⟨fields, rfl⟩ := (isObject_iff ws).1 hobj
  intro key
  have hmap : (JsVal.arr (((JsVal.obj fields).get "agendas").elems.map
      (fun a => if strictEq (a.get "id") agendaId = true then a else a))) =
      (JsVal.obj fields).get "agendas" := by
    have : (fun a : JsVal => if strictEq (a.get "id") agendaId = true then a else a) = id := by
      funext a
      split <;> rfl
    rw [this, List.map_id]
    exact (arr_elems_of_isArray harr).symm
  simp only [rebuiltWorkspace, hid, if_true, hmap]
  by_cases hm : key = "modifiedAt"
  · subst hm
    rw [if_pos rfl]
    exact get_setKeys_same _ _ _ _ (by simp [List.lookup])
  · rw [if_neg hm]
    by_cases ha : key = "agendas"
    · subst ha
      exact get_setKeys_same _ _ _ _ (by simp [List.lookup])
    · apply get_setKeys_other
      have h1 : (key == "agendas") = false := by simpa using ha
      have h2 : (key == "modifiedAt") = false := by simpa using hm
      simp [List.lookup, h1, h2]

/-- C21 (as stated, refuted): in `foldersDoc` the folder `F2` is a child of `F1`. Moving
`F1` under `F2` is refused, the notes stay as they are, but the document after the call is
not the document before it: the workspace has a new `modifiedAt`. -/
theorem cyclic_move_counterexample :
    reachesItem nestedFolders (.str (lit "F1")) 1 (.str (lit "F2")) = true ∧
    (∃ w2, NoteActions.moveItem laterClock sampleCodec 5 (.str (lit "ag1")) (.str (lit "F1"))
        (.str (lit "F2")) (watchedWorld foldersDoc (openStorage none)) = .ok w2 ∧
      ((Store.getState w2).get "workspaces").elems.map (fun ws => ws.get "modifiedAt") =
        [.str (lit "2024-06-01T00:00:00.000Z")] ∧
      ((Store.getState (watchedWorld foldersDoc (openStorage none))).get
        "workspaces").elems.map (fun ws => ws.get "modifiedAt") =
        [.str (lit "2024-01-01T00:00:00.000Z")] ∧
      ((Store.getState w2).get "workspaces").elems.map (fun ws => ws.get "agendas") =
        [.arr [foldersAgenda]] ∧
      Store.getState w2 ≠ Store.getState (watchedWorld foldersDoc (openStorage none))) := by
  refine ⟨by decide, _, rfl, rfl, rfl, rfl, fun hc => ?_⟩
  have h := congrArg
    (fun s : JsVal => (s.get "workspaces").elems.map (fun ws => (ws.get "modifiedAt").chars)) hc
  revert h
  decide

/-- C21 (amended): a move that would close a cycle is refused, but the call still stamps
the workspace. For every document with workspaces in which every addressed agenda (an
agenda with the id `agendaId` in a workspace with the active id) has the folder `itemId`
among its notes and `itemId` is `newParentId` itself or an ancestor of it, `moveItem` with
enough fuel returns; afterwards every property of the document other than `workspaces` is as
before, the workspaces are the same in number and order, a workspace with another id is
unchanged, and a workspace with the active id differs from the one before only in
`modifiedAt`, which is the clock reading: its agendas and their notes are as before. -/
theorem cyclic_move_only_stamps_workspace (clock : Clock) (codec : JsonCodec) (w : World)
    (agendaId itemId newParentId active : JsVal) (wss : List JsVal) (k : Nat)
    (h : HasWorkspaces (Store.getState w) active wss)
    (hcycle : ∀ a, Addressed (Store.getState w) agendaId a →
      ∃ notes item, HasNotes a notes ∧
        notes.find? (fun n => strictEq (n.get "id") itemId) = some item ∧
        strictEq (item.get "type") (.str (lit "folder")) = true ∧
        reachesItem notes itemId k newParentId = true) :
    ∀ fuel, k < fuel →
      ∃ w2, NoteActions.moveItem clock codec fuel agendaId itemId newParentId w = .ok w2 ∧
        (∀ key, key ≠ "workspaces" →
          (Store.getState w2).get key = (Store.getState w).get key) ∧
        ∃ wss2, (Store.getState w2).get "workspaces" = .arr wss2 ∧
          List.Forall₂ (fun ws ws2 =>
            if strictEq (ws.get "id") active = true then OnlyStamped clock ws ws2
            else ws2 = ws) wss wss2 := by
  intro fuel hfuel
  have hbody : ∀ a, Addressed (Store.getState w) agendaId a →
      NoteActions.moveItemInAgenda clock fuel itemId newParentId a = .ok ((fun a => a) a) := by
    intro a ha
    obtain ⟨notes, item, hnotes, hitem, hfolder, hreach⟩ := hcycle a ha
    rw [moveItemInAgenda_eq clock fuel itemId newParentId a notes hnotes, hitem]
    simp only [hfolder, if_true,
      ancestorWalk_of_reachesItem notes (fun n hn => (hnotes.2.2 n hn).1) itemId k newParentId
        hreach fuel hfuel]
  have hframe := rebuildAgenda_eq clock agendaId
    (NoteActions.moveItemInAgenda clock fuel itemId newParentId) (fun a => a)
    (Store.getState w) active wss h hbody
  obtain ⟨fields, hfields⟩ := (isObject_iff _).1 (isObject_of_get_arr h.2.2.1)
  rw [hfields] at hframe
  obtain ⟨w2, hw2, hstate⟩ := updateWith_ok codec w
    (NoteActions.moveItemMutator clock fuel agendaId itemId newParentId) fields _
    (by rw [hfields]; exact hframe)
  refine ⟨w2, hw2, fun key hkey => ?_,
    wss.map (rebuiltWorkspace clock active agendaId (fun a => a)), ?_, ?_⟩
  · rw [hstate, hfields]
    apply get_setKeys_other
    have h1 : (key == "workspaces") = false := by simpa using hkey
    simp [List.lookup, h1]
  · rw [hstate]
    exact get_setKeys_same _ _ _ _ (by simp [List.lookup])
  · rw [List.forall₂_map_right_iff, List.forall₂_same]
    intro ws hws
    obtain ⟨hobj, hags⟩ := h.2.2.2 ws hws
    by_cases hid : strictEq (ws.get "id") active = true
    · rw [if_pos hid]
      exact get_rebuiltWorkspace_same clock active agendaId ws hobj hid (hags hid).1
    · rw [if_neg hid]
      simp [rebuiltWorkspace, hid]

theorem foldersDoc_shape :
    HasWorkspaces (Store.getState (watchedWorld foldersDoc (openStorage none)))
      (.str (lit "w1")) (foldersDoc.get "workspaces").elems := by
  refine ⟨rfl, rfl, rfl, fun ws hws => ?_⟩
  rcases List.mem_singleton.1 hws with rfl
  refine ⟨rfl, fun _ => ⟨rfl, fun a ha => ?_⟩⟩
  rcases List.mem_singleton.1 ha with rfl
  rfl

theorem foldersDoc_addressed (a : JsVal)
    (h : Addressed (Store.getState (watchedWorld foldersDoc (openStorage none)))
      (.str (lit "ag1")) a) : a = foldersAgenda := by
  obtain ⟨ws, hws, -, ha, -⟩ := h
  rcases List.mem_singleton.1 hws with rfl
  exact List.mem_singleton.1 ha

theorem nestedFolders_notes : HasNotes foldersAgenda nestedFolders := by
  refine ⟨rfl, rfl, fun n hn => ?_⟩
  simp only [nestedFolders, List.mem_cons, List.mem_singleton, List.not_mem_nil,
    or_false] at hn
  rcases hn with rfl | rfl <;> exact ⟨rfl, rfl⟩

theorem cyclic_move_only_stamps_workspace_witness :
    HasWorkspaces (Store.getState (watchedWorld foldersDoc (openStorage none)))
      (.str (lit "w1")) (foldersDoc.get "workspaces").elems ∧
    reachesItem nestedFolders (.str (lit "F1")) 1 (.str (lit "F2")) = true ∧
    (∀ fuel, 1 < fuel →
      ∃ w2, NoteActions.moveItem laterClock sampleCodec fuel (.str (lit "ag1"))
          (.str (lit "F1")) (.str (lit "F2")) (watchedWorld foldersDoc (openStorage none))
          = .ok w2 ∧
        (∀ key, key ≠ "workspaces" → (Store.getState w2).get key =
          (Store.getState (watchedWorld foldersDoc (openStorage none))).get key) ∧
        ∃ wss2, (Store.getState w2).get "workspaces" = .arr wss2 ∧
          List.Forall₂ (fun ws ws2 =>
            if strictEq (ws.get "id") (.str (lit "w1")) = true then
              OnlyStamped laterClock ws ws2
            else ws2 = ws) (foldersDoc.get "workspaces").elems wss2) :=
  ⟨foldersDoc_shape, by decide,
    cyclic_move_only_stamps_workspace laterClock sampleCodec
      (watchedWorld foldersDoc (openStorage none)) (.str (lit "ag1")) (.str (lit "F1"))
      (.str (lit "F2")) (.str (lit "w1")) (foldersDoc.get "workspaces").elems 1
      foldersDoc_shape (fun a ha => by
        rw [foldersDoc_addressed a ha]
        exact ⟨nestedFolders, _, nestedFolders_notes, rfl, rfl, by decide⟩)⟩

/-! ## Archiving tasks -/

theorem setProp_spec (v : JsVal) (hv : isObject v = true) (k : String) (x : JsVal) :
    ∃ v2, v.setProp k x = .ok v2 ∧ isObject v2 = true ∧ v2.get k = x ∧
      ∀ key, key ≠ k → v2.get key = v.get key := by
  obtain ⟨fields, rfl⟩ := (isObject_iff v).1 hv
  refine ⟨_, rfl, rfl, get_setKeys_same _ _ _ _ (by simp [List.lookup]), fun key hkey => ?_⟩
  apply get_setKeys_other
  have h1 : (key == k) = false := by simpa using hkey
  simp [List.lookup, h1]

theorem items_of_isArray {v : JsVal} (h : isArray v = true) : v.items = .ok v.elems := by
  cases v <;> first | rfl | simp [isArray] at h

theorem elems_undefined : JsVal.undefined.elems = [] := rfl

theorem pushTo_spec (list : String) (task agenda : JsVal) (hobj : isObject agenda = true)
    (hlist : agenda.get list = .undefined ∨ isArray (agenda.get list) = true) :
    ∃ a2, TaskActions.pushTo list task agenda = .ok a2 ∧ isObject a2 = true ∧
      a2.get list = .arr ((agenda.get list).elems ++ [task]) ∧
      ∀ key, key ≠ list → a2.get key = agenda.get key := by
  obtain ⟨a2, ha2, hobj2, hget, hother⟩ :=
    setProp_spec agenda hobj list (.arr ((agenda.get list).elems ++ [task]))
  refine ⟨a2, ?_, hobj2, hget, hother⟩
  unfold TaskActions.pushTo
  rcases hlist with hu | ha
  · rw [hu] at ha2 ⊢
    exact ha2
  · have ht : (agenda.get list).truthy = true := by
      rw [arr_elems_of_isArray ha]
      rfl
    simp only [ht, Bool.not_true, Bool.false_eq_true, if_false, items_of_isArray ha, bind,
      Except.bind]
    exact ha2

theorem findIdx?_spec (p : JsVal → Bool) (xs : List JsVal) :
    (∀ i, xs.findIdx? p = some i → ∃ x, xs[i]? = some x ∧ p x = true ∧
      xs.getD i .undefined = x) ∧
    (xs.findIdx? p = none → ∀ x ∈ xs, p x = false) := by
  induction xs with
  | nil => exact ⟨fun i h => by simp at h, fun _ x hx => by cases hx⟩
  | cons y ys ih =>
    by_cases hy : p y = true
    · refine ⟨fun i h => ?_, fun h => ?_⟩
      · simp only [List.findIdx?_cons, hy, if_true, Option.some.injEq] at h
        subst h
        exact ⟨y, by simp, hy, rfl⟩
      · simp [List.findIdx?_cons, hy] at h
    · have hcons : (y :: ys).findIdx? p = (ys.findIdx? p).map (· + 1) := by
        rw [List.findIdx?_cons]
        simp only [hy, Bool.false_eq_true, if_false, zero_add]
        rw [List.findIdx?_succ]
      refine ⟨fun i h => ?_, fun h => ?_⟩
      · rw [hcons] at h
        cases hj : ys.findIdx? p with
        | none => simp [hj] at h
        | some j =>
          simp only [hj, Option.map_some', Option.some.injEq] at h
          subst h
          obtain ⟨x, hx, hpx, hd⟩ := ih.1 j hj
          exact ⟨x, by simpa using hx, hpx, by simpa [List.getD] using hd⟩
      · rw [hcons] at h
        have hnone : ys.findIdx? p = none := by
          cases hj : ys.findIdx? p with
          | none => rfl
          | some j => simp [hj] at h
        intro x hx
        rcases List.mem_cons.1 hx with rfl | hx
        · simpa using hy
        · exact ih.2 hnone x hx

theorem perm_cons_eraseIdx (xs : List JsVal) (i : Nat) (x : JsVal) (h : xs[i]? = some x) :
    List.Perm xs (x :: xs.eraseIdx i) := by
  induction xs generalizing i with
  | nil => simp at h
  | cons y ys ih =>
    cases i with
    | zero =>
      simp only [List.getElem?_cons_zero, Option.some.injEq] at h
      subst h
      exact List.Perm.refl _
    | succ j =>
      simp only [List.getElem?_cons_succ] at h
      simp only [List.eraseIdx_cons_succ]
      exact ((ih j h).cons y).trans (List.Perm.swap x y _)

theorem idsOf_perm_eraseIdx (xs : List JsVal) (i : Nat) (x : JsVal) (h : xs[i]? = some x) :
    List.Perm (idsOf xs) (x.get "id" :: idsOf (xs.eraseIdx i)) := by
  have := (perm_cons_eraseIdx xs i x h).map (fun t : JsVal => t.get "id")
  simpa [idsOf] using this

theorem idsOf_append_single (xs : List JsVal) (x : JsVal) :
    idsOf (xs ++ [x]) = idsOf xs ++ [x.get "id"] := by
  simp [idsOf]

theorem mem_of_getElem?_eq_some {xs : List JsVal} {i : Nat} {x : JsVal}
    (h : xs[i]? = some x) : x ∈ xs := by
  obtain ⟨hi, rfl⟩ := List.getElem?_eq_some_iff.1 h
  exact List.getElem_mem hi

theorem dropFromColumn_spec (taskId columnId agenda : JsVal) (hobj : isObject agenda = true)
    (harr : isArray (agenda.get "columns") = true)
    (hcols : ∀ c ∈ (agenda.get "columns").elems,
      isObject c = true ∧ isArray (c.get "taskIds") = true) :
    ∃ a2, TaskActions.dropFromColumn taskId columnId agenda = .ok a2 ∧ isObject a2 = true ∧
      ∀ key, key ≠ "columns" → a2.get key = agenda.get key := by
  have hallobj : AllObjects (agenda.get "columns").elems := fun c hc => (hcols c hc).1
  have hund : JsVal.undefined.truthy = false := rfl
  unfold TaskActions.dropFromColumn
  simp only [prop_of_isObject hobj, items_of_isArray harr,
    (findByKey_ok "id" columnId _ hallobj).2, bind, Except.bind, pure, Except.pure]
  cases hi : (agenda.get "columns").elems.findIdx? (fun c => strictEq (c.get "id") columnId) with
  | none =>
    simp only [elementAt, hund, Bool.not_false, if_true]
    exact ⟨agenda, rfl, hobj, fun _ _ => rfl⟩
  | some j =>
    obtain ⟨c, hc, -, hd⟩ := (findIdx?_spec _ _).1 j hi
    obtain ⟨hcobj, hcids⟩ := hcols c (mem_of_getElem?_eq_some hc)
    obtain ⟨c2, hc2, -, -, -⟩ := setProp_spec c hcobj "taskIds"
      (.arr ((c.get "taskIds").elems.filter (fun id => !strictEq id taskId)))
    obtain ⟨a2, ha2, hobj2, -, hother⟩ := setProp_spec agenda hobj "columns"
      (.arr ((agenda.get "columns").elems.set j c2))
    simp only [elementAt, hd, truthy_of_isObject hcobj, Bool.not_true, Bool.false_eq_true,
      if_false, items_of_isArray hcids, hc2, Option.getD_some]
    exact ⟨a2, ha2, hobj2, hother⟩

/-- What `finalizeTask` does to an agenda with task lists. -/
theorem finalizeTaskInAgenda_spec (clock : Clock) (taskId agenda : JsVal)
    (h : TaskLists agenda) :
    ((agenda.get "tasks").elems.findIdx? (fun t => strictEq (t.get "id") taskId) = none →
      TaskActions.finalizeTaskInAgenda clock taskId agenda = .ok .untouched) ∧
    ((agenda.get "tasks").elems.findIdx? (fun t => strictEq (t.get "id") taskId) ≠ none →
      ∃ a task moved,
        TaskActions.finalizeTaskInAgenda clock taskId agenda = .ok (.completed a) ∧
        MovedBetween "tasks" "finalizedTasks" "deletedTasks" taskId agenda a task moved ∧
        moved.get "finalizedAt" = .num (.fin clock.ms)) := by
  obtain ⟨hobj, htasks, htobj, hcolarr, hcols, hfin, -, -, -⟩ := h
  unfold TaskActions.finalizeTaskInAgenda
  simp only [prop_of_isObject hobj, items_of_isArray htasks,
    (findByKey_ok "id" taskId _ htobj).2, bind, Except.bind, pure, Except.pure]
  refine ⟨fun hnone => by rw [hnone], fun hsome => ?_⟩
  obtain ⟨i, hi⟩ := Option.ne_none_iff_exists'.1 hsome
  obtain ⟨task, htask, -, hd⟩ := (findIdx?_spec _ _).1 i hi
  have htaskobj : isObject task = true := htobj task (mem_of_getElem?_eq_some htask)
  obtain ⟨a1, ha1, hobj1, hget1, hother1⟩ := setProp_spec agenda hobj "tasks"
    (.arr ((agenda.get "tasks").elems.eraseIdx i))
  obtain ⟨a2, ha2, hobj2, hother2⟩ := dropFromColumn_spec taskId (task.get "columnId") a1 hobj1
    (by rw [hother1 "columns" (by decide)]; exact hcolarr)
    (by rw [hother1 "columns" (by decide)]; exact hcols)
  obtain ⟨moved, hmoved, -, hstamp, hmovedother⟩ := setProp_spec task htaskobj "finalizedAt"
    (.num (.fin clock.ms))
  obtain ⟨a3, ha3, -, hget3, hother3⟩ := pushTo_spec "finalizedTasks" moved a2 hobj2
    (by rw [hother2 _ (by decide), hother1 _ (by decide)]; exact hfin)
  refine ⟨a3, task, moved, ?_, ⟨i, hi, htask, ?_, ?_, ?_, hmovedother "id" (by decide)⟩, hstamp⟩
  · simp only [hi, hd, ha1, prop_of_isObject htaskobj, ha2, hmoved, ha3]
  · rw [hother3 _ (by decide), hother2 _ (by decide), hget1]
  · rw [hget3, hother2 _ (by decide), hother1 _ (by decide)]
  · rw [hother3 _ (by decide), hother2 _ (by decide), hother1 _ (by decide)]

theorem truthy_of_isArray {v : JsVal} (h : isArray v = true) : v.truthy = true := by
  cases v <;> first | rfl | simp [isArray] at h

theorem rejectByKey_ok (k : String) (v : JsVal) (xs : List JsVal) (h : AllObjects xs) :
    rejectByKey k v xs = .ok (xs.filter (fun x => !strictEq (x.get k) v)) := by
  induction xs with
  | nil => rfl
  | cons x xs ih =>
    simp only [rejectByKey, prop_of_isObject (h x (List.mem_cons_self _ _)),
      ih (fun y hy => h y (List.mem_cons_of_mem _ hy)), List.filter_cons]
    cases strictEq (x.get k) v <;> rfl

theorem get_deleteProp (v : JsVal) (k key : String) :
    (v.deleteProp k).get key = if key = k then .undefined else v.get key := by
  cases v with
  | obj fields =>
    simp only [JsVal.deleteProp, JsVal.get]
    induction fields with
    | nil => simp
    | cons f fs ih =>
      obtain ⟨a, b⟩ := f
      by_cases hak : a = k
      · subst hak
        simp only [List.filter_cons, beq_self_eq_true, Bool.not_true, Bool.false_eq_true,
          if_false, ih]
        by_cases hk : key = a
        · simp [hk]
        · have : (key == a) = false := by simpa using hk
          simp [hk, List.lookup, this]
      · have h1 : (a == k) = false := by simpa using hak
        simp only [List.filter_cons, h1, Bool.not_false, if_true, List.lookup]
        by_cases hka : key = a
        · subst hka
          simp [hak]
        · have h2 : (key == a) = false := by simpa using hka
          simp only [h2]
          exact ih
  | _ => simp [JsVal.deleteProp, JsVal.get]

/-- What `recycleTask` does to an agenda with task lists. -/
theorem recycleTaskInAgenda_spec (clock : Clock) (taskId agenda : JsVal)
    (h : TaskLists agenda) :
    ((agenda.get "tasks").elems.findIdx? (fun t => strictEq (t.get "id") taskId) = none →
      (agenda.get "finalizedTasks").elems.findIdx? (fun t => strictEq (t.get "id") taskId) =
        none →
      TaskActions.recycleTaskInAgenda clock taskId agenda = .ok .untouched) ∧
    ((agenda.get "tasks").elems.findIdx? (fun t => strictEq (t.get "id") taskId) ≠ none →
      ∃ a task moved,
        TaskActions.recycleTaskInAgenda clock taskId agenda = .ok (.completed a) ∧
        MovedBetween "tasks" "deletedTasks" "finalizedTasks" taskId agenda a task moved ∧
        moved.get "deletedAt" = .num (.fin clock.ms)) ∧
    ((agenda.get "tasks").elems.findIdx? (fun t => strictEq (t.get "id") taskId) = none →
      (agenda.get "finalizedTasks").elems.findIdx? (fun t => strictEq (t.get "id") taskId) ≠
        none →
      ∃ a task moved,
        TaskActions.recycleTaskInAgenda clock taskId agenda = .ok (.completed a) ∧
        MovedBetween "finalizedTasks" "deletedTasks" "tasks" taskId agenda a task moved ∧
        moved.get "deletedAt" = .num (.fin clock.ms)) := by
  obtain ⟨hobj, htasks, htobj, hcolarr, hcols, hfin, hfobj, hdel, -⟩ := h
  have hund : JsVal.undefined.truthy = false := rfl
  unfold TaskActions.recycleTaskInAgenda
  simp only [prop_of_isObject hobj, items_of_isArray htasks,
    (findByKey_ok "id" taskId _ htobj).2, bind, Except.bind, pure, Except.pure]
  refine ⟨fun hnone hnone2 => ?_, fun hsome => ?_, fun hnone hsome => ?_⟩
  · rw [hnone]
    rcases hfin with hu | ha
    · simp only [hu, hund, Bool.false_eq_true, if_false]
    · simp only [truthy_of_isArray ha, if_true, items_of_isArray ha,
        (findByKey_ok "id" taskId _ hfobj).2, hnone2]
  · obtain ⟨i, hi⟩ := Option.ne_none_iff_exists'.1 hsome
    obtain ⟨task, htask, -, hd⟩ := (findIdx?_spec _ _).1 i hi
    have htaskobj : isObject task = true := htobj task (mem_of_getElem?_eq_some htask)
    obtain ⟨a1, ha1, hobj1, hget1, hother1⟩ := setProp_spec agenda hobj "tasks"
      (.arr ((agenda.get "tasks").elems.eraseIdx i))
    obtain ⟨a2, ha2, hobj2, hother2⟩ := dropFromColumn_spec taskId (task.get "columnId") a1
      hobj1 (by rw [hother1 "columns" (by decide)]; exact hcolarr)
      (by rw [hother1 "columns" (by decide)]; exact hcols)
    obtain ⟨moved, hmoved, -, hstamp, hmovedother⟩ := setProp_spec task htaskobj "deletedAt"
      (.num (.fin clock.ms))
    obtain ⟨a3, ha3, -, hget3, hother3⟩ := pushTo_spec "deletedTasks" moved a2 hobj2
      (by rw [hother2 _ (by decide), hother1 _ (by decide)]; exact hdel)
    refine ⟨a3, task, moved, ?_, ⟨i, hi, htask, ?_, ?_, ?_, hmovedother "id" (by decide)⟩,
      hstamp⟩
    · simp only [hi, hd, ha1, prop_of_isObject htaskobj, ha2, truthy_of_isObject htaskobj,
        Bool.not_true, Bool.false_eq_true, if_false, hmoved, ha3]
    · rw [hother3 _ (by decide), hother2 _ (by decide), hget1]
    · rw [hget3, hother2 _ (by decide), hother1 _ (by decide)]
    · rw [hother3 _ (by decide), hother2 _ (by decide), hother1 _ (by decide)]
  · obtain ⟨i, hi⟩ := Option.ne_none_iff_exists'.1 hsome
    obtain ⟨task, htask, -, hd⟩ := (findIdx?_spec _ _).1 i hi
    have htaskobj : isObject task = true := hfobj task (mem_of_getElem?_eq_some htask)
    have ha : isArray (agenda.get "finalizedTasks") = true := by
      rcases hfin with hu | ha
      · rw [hu] at hi
        simp [JsVal.elems] at hi
      · exact ha
    obtain ⟨a1, ha1, hobj1, hget1, hother1⟩ := setProp_spec agenda hobj "finalizedTasks"
      (.arr ((agenda.get "finalizedTasks").elems.eraseIdx i))
    obtain ⟨moved, hmoved, -, hstamp, hmovedother⟩ := setProp_spec task htaskobj "deletedAt"
      (.num (.fin clock.ms))
    obtain ⟨a3, ha3, -, hget3, hother3⟩ := pushTo_spec "deletedTasks" moved a1 hobj1
      (by rw [hother1 _ (by decide)]; exact hdel)
    refine ⟨a3, task, moved, ?_, ⟨i, hi, htask, ?_, ?_, ?_, hmovedother "id" (by decide)⟩,
      hstamp⟩
    · simp only [hnone, truthy_of_isArray ha, if_true, items_of_isArray ha,
        (findByKey_ok "id" taskId _ hfobj).2, hi, hd, ha1, truthy_of_isObject htaskobj,
        Bool.not_true, Bool.false_eq_true, if_false, hmoved, ha3]
    · rw [hother3 _ (by decide), hget1]
    · rw [hget3, hother1 _ (by decide)]
    · rw [hother3 _ (by decide), hother1 _ (by decide)]

/-- What `restoreTask` does to an agenda with task lists. -/
theorem restoreTaskInAgenda_spec (taskId agenda : JsVal) (h : TaskLists agenda) :
    ((agenda.get "deletedTasks").elems.findIdx? (fun t => strictEq (t.get "id") taskId) = none →
      TaskActions.restoreTaskInAgenda taskId agenda = .ok .untouched) ∧
    ((agenda.get "deletedTasks").elems.findIdx? (fun t => strictEq (t.get "id") taskId) ≠ none →
      ∃ a task moved,
        TaskActions.restoreTaskInAgenda taskId agenda = .ok (.completed a) ∧
        MovedBetween "deletedTasks" "tasks" "finalizedTasks" taskId agenda a task moved ∧
        moved.get "columnId" = .str (lit "backlog") ∧
        moved.get "deletedAt" = .undefined ∧ moved.get "finalizedAt" = .undefined) := by
  obtain ⟨hobj, htasks, -, hcolarr, hcols, -, -, hdel, hdobj⟩ := h
  have hund : JsVal.undefined.truthy = false := rfl
  refine ⟨fun hnone => ?_, fun hsome => ?_⟩
  · unfold TaskActions.restoreTaskInAgenda
    rcases hdel with hu | ha
    · simp only [hu, hund, Bool.not_false, if_true, pure, Except.pure]
    · simp only [truthy_of_isArray ha, Bool.not_true, Bool.false_eq_true, if_false,
        items_of_isArray ha, (findByKey_ok "id" taskId _ hdobj).2, hnone, bind, Except.bind,
        pure, Except.pure]
  · obtain ⟨i, hi⟩ := Option.ne_none_iff_exists'.1 hsome
    obtain ⟨task, htask, -, hd⟩ := (findIdx?_spec _ _).1 i hi
    have htaskobj : isObject task = true := hdobj task (mem_of_getElem?_eq_some htask)
    have ha : isArray (agenda.get "deletedTasks") = true := by
      rcases hdel with hu | ha
      · rw [hu] at hi
        simp [JsVal.elems] at hi
      · exact ha
    obtain ⟨a1, ha1, hobj1, hget1, hother1⟩ := setProp_spec agenda hobj "deletedTasks"
      (.arr ((agenda.get "deletedTasks").elems.eraseIdx i))
    obtain ⟨task1, htask1, hobjt1, hcolumn, htask1other⟩ := setProp_spec task htaskobj
      "columnId" (.str (lit "backlog"))
    have htasks1 : isArray (a1.get "tasks") = true := by
      rw [hother1 _ (by decide)]; exact htasks
    obtain ⟨a2, ha2, hobj2, hget2, hother2⟩ := setProp_spec a1 hobj1 "tasks"
      (.arr ((a1.get "tasks").elems ++
        [(task1.deleteProp "deletedAt").deleteProp "finalizedAt"]))
    have hcolarr2 : isArray (a2.get "columns") = true := by
      rw [hother2 _ (by decide), hother1 _ (by decide)]; exact hcolarr
    have hcols2 : ∀ c ∈ (a2.get "columns").elems,
        isObject c = true ∧ isArray (c.get "taskIds") = true := by
      rw [hother2 _ (by decide), hother1 _ (by decide)]; exact hcols
    have horelse : JsVal.orElse (a2.get "columns") (.arr []) = a2.get "columns" := by
      simp [JsVal.orElse, truthy_of_isArray hcolarr2]
    have hmovedget : ∀ key,
        ((task1.deleteProp "deletedAt").deleteProp "finalizedAt").get key =
          if key = "finalizedAt" then .undefined
          else if key = "deletedAt" then .undefined else task1.get key := by
      intro key
      rw [get_deleteProp, get_deleteProp]
    have hmoved : MovedBetween "deletedTasks" "tasks" "finalizedTasks" taskId agenda a2 task
        ((task1.deleteProp "deletedAt").deleteProp "finalizedAt") := by
      refine ⟨i, hi, htask, ?_, ?_, ?_, ?_⟩
      · rw [hother2 _ (by decide), hget1]
      · rw [hget2, hother1 _ (by decide)]
      · rw [hother2 _ (by decide), hother1 _ (by decide)]
      · rw [hmovedget, if_neg (by decide), if_neg (by decide), htask1other _ (by decide)]
    have hfields : ((task1.deleteProp "deletedAt").deleteProp "finalizedAt").get "columnId" =
          .str (lit "backlog") ∧
        ((task1.deleteProp "deletedAt").deleteProp "finalizedAt").get "deletedAt" =
          .undefined ∧
        ((task1.deleteProp "deletedAt").deleteProp "finalizedAt").get "finalizedAt" =
          .undefined := by
      refine ⟨?_, ?_, ?_⟩
      · rw [hmovedget, if_neg (by decide), if_neg (by decide), hcolumn]
      · rw [hmovedget, if_neg (by decide), if_pos rfl]
      · rw [hmovedget, if_pos rfl]
    have hallcols : AllObjects (a2.get "columns").elems := fun c hc => (hcols2 c hc).1
    cases hj : (a2.get "columns").elems.findIdx?
        (fun c => strictEq (c.get "id") (.str (lit "backlog"))) with
    | none =>
      refine ⟨a2, task, _, ?_, hmoved, hfields⟩
      unfold TaskActions.restoreTaskInAgenda
      simp only [truthy_of_isArray ha, Bool.not_true, Bool.false_eq_true, if_false,
        items_of_isArray ha, (findByKey_ok "id" taskId _ hdobj).2, hi, hd, ha1, htask1,
        items_of_isArray htasks1, ha2, horelse, items_of_isArray hcolarr2,
        (findByKey_ok "id" (.str (lit "backlog")) _ hallcols).2, bind,
        Except.bind, pure, Except.pure, hj, elementAt, hund]
    | some j =>
      obtain ⟨c, hc, -, hcd⟩ := (findIdx?_spec _ _).1 j hj
      obtain ⟨hcobj, hcids⟩ := hcols2 c (mem_of_getElem?_eq_some hc)
      obtain ⟨c2, hc2, -, -, -⟩ := setProp_spec c hcobj "taskIds"
        (.arr ((c.get "taskIds").elems ++
          [((task1.deleteProp "deletedAt").deleteProp "finalizedAt").get "id"]))
      obtain ⟨a3, ha3, -, -, hother3⟩ := setProp_spec a2 hobj2 "columns"
        (.arr ((a2.get "columns").elems.set j c2))
      obtain ⟨i2, h1, h2, h3, h4, h5, h6⟩ := hmoved
      refine ⟨a3, task, _, ?_, ⟨i2, h1, h2, ?_, ?_, ?_, h6⟩, hfields⟩
      · unfold TaskActions.restoreTaskInAgenda
        simp only [truthy_of_isArray ha, Bool.not_true, Bool.false_eq_true, if_false,
          items_of_isArray ha, (findByKey_ok "id" taskId _ hdobj).2, hi, hd, ha1, htask1,
          items_of_isArray htasks1, ha2, horelse, items_of_isArray hcolarr2,
          (findByKey_ok "id" (.str (lit "backlog")) _ hallcols).2, bind,
          Except.bind, pure, Except.pure, hj, elementAt, hcd, truthy_of_isObject hcobj,
          if_true, items_of_isArray hcids, Option.getD_some, hc2, ha3]
      · rw [hother3 _ (by decide), h3]
      · rw [hother3 _ (by decide), h4]
      · rw [hother3 _ (by decide), h5]

/-- What `permanentDeleteTask` does to an agenda with task lists. -/
theorem permanentDeleteTaskInAgenda_spec (taskId agenda : JsVal) (h : TaskLists agenda) :
    ∃ a, TaskActions.permanentDeleteTaskInAgenda taskId agenda = .ok (.completed a) ∧
      a.get "tasks" = agenda.get "tasks" ∧
      a.get "finalizedTasks" = agenda.get "finalizedTasks" ∧
      (a.get "deletedTasks").elems =
        (agenda.get "deletedTasks").elems.filter (fun t => !strictEq (t.get "id") taskId) := by
  obtain ⟨hobj, -, -, -, -, -, -, hdel, hdobj⟩ := h
  have hund : JsVal.undefined.truthy = false := rfl
  unfold TaskActions.permanentDeleteTaskInAgenda
  rcases hdel with hu | ha
  · simp only [hu, hund, Bool.false_eq_true, if_false, pure, Except.pure]
    exact ⟨agenda, rfl, rfl, rfl, by rw [hu]; rfl⟩
  · obtain ⟨a1, ha1, -, hget1, hother1⟩ := setProp_spec agenda hobj "deletedTasks"
      (.arr ((agenda.get "deletedTasks").elems.filter
        (fun t => !strictEq (t.get "id") taskId)))
    simp only [truthy_of_isArray ha, if_true, items_of_isArray ha,
      rejectByKey_ok "id" taskId _ hdobj, ha1, bind, Except.bind, pure, Except.pure]
    exact ⟨a1, rfl, hother1 _ (by decide), hother1 _ (by decide), by rw [hget1]; rfl⟩

theorem archive_perm_first (s s2 t o : List JsVal) (x : JsVal)
    (h : List.Perm s (x :: s2)) :
    List.Perm (s2 ++ (t ++ [x]) ++ o) (s ++ t ++ o) ∧
    List.Perm (s2 ++ o ++ (t ++ [x])) (s ++ o ++ t) ∧
    List.Perm (o ++ s2 ++ (t ++ [x])) (o ++ s ++ t) ∧
    List.Perm ((t ++ [x]) ++ o ++ s2) (t ++ o ++ s) := by
  have hm : (s : Multiset JsVal) = x ::ₘ (s2 : Multiset JsVal) := by
    rw [Multiset.cons_coe]
    exact Multiset.coe_eq_coe.2 h
  refine ⟨?_, ?_, ?_, ?_⟩ <;>
  · rw [← Multiset.coe_eq_coe]
    simp only [← Multiset.coe_add, hm, ← Multiset.singleton_add, ← Multiset.cons_coe,
      Multiset.coe_nil]
    abel

theorem exclusive_of_moved {taskId a1 a2 task moved : JsVal} (hex : Exclusive a1) :
    (MovedBetween "tasks" "finalizedTasks" "deletedTasks" taskId a1 a2 task moved →
      Exclusive a2) ∧
    (MovedBetween "tasks" "deletedTasks" "finalizedTasks" taskId a1 a2 task moved →
      Exclusive a2) ∧
    (MovedBetween "finalizedTasks" "deletedTasks" "tasks" taskId a1 a2 task moved →
      Exclusive a2) ∧
    (MovedBetween "deletedTasks" "tasks" "finalizedTasks" taskId a1 a2 task moved →
      Exclusive a2) := by
  unfold Exclusive archiveIds at *
  refine ⟨?_, ?_, ?_, ?_⟩
  · rintro ⟨i, -, htask, hs, ht, ho, hid⟩
    rw [hs, ht, ho]
    simp only [elems_arr, idsOf_append_single, hid]
    exact ((archive_perm_first _ _ (idsOf (a1.get "finalizedTasks").elems)
      (idsOf (a1.get "deletedTasks").elems) _
      (idsOf_perm_eraseIdx _ i task htask)).1.nodup_iff).2 hex
  · rintro ⟨i, -, htask, hs, ht, ho, hid⟩
    rw [hs, ht, ho]
    simp only [elems_arr, idsOf_append_single, hid]
    exact ((archive_perm_first _ _ (idsOf (a1.get "deletedTasks").elems)
      (idsOf (a1.get "finalizedTasks").elems) _
      (idsOf_perm_eraseIdx _ i task htask)).2.1.nodup_iff).2 hex
  · rintro ⟨i, -, htask, hs, ht, ho, hid⟩
    rw [hs, ht, ho]
    simp only [elems_arr, idsOf_append_single, hid]
    exact ((archive_perm_first _ _ (idsOf (a1.get "deletedTasks").elems)
      (idsOf (a1.get "tasks").elems) _
      (idsOf_perm_eraseIdx _ i task htask)).2.2.1.nodup_iff).2 hex
  · rintro ⟨i, -, htask, hs, ht, ho, hid⟩
    rw [hs, ht, ho]
    simp only [elems_arr, idsOf_append_single, hid]
    exact ((archive_perm_first _ _ (idsOf (a1.get "tasks").elems)
      (idsOf (a1.get "finalizedTasks").elems) _
      (idsOf_perm_eraseIdx _ i task htask)).2.2.2.nodup_iff).2 hex

/-- What the four archival actions do to the agenda they look up. For every agenda with
task lists in which every task id occurs exactly once across `tasks`, `finalizedTasks` and
`deletedTasks`, each of the four bodies returns, and the same holds of the agenda it
leaves. The body of `finalizeTask` does nothing when no active task has the id and
otherwise moves the first such task from `tasks` to the end of `finalizedTasks`; that of
`recycleTask` moves it from `tasks`, or else from `finalizedTasks`, to the end of
`deletedTasks`, and does nothing when it is in neither; that of `restoreTask` moves it from
`deletedTasks` to the end of `tasks` with the column id `backlog`; that of
`permanentDeleteTask` removes every deleted task with the id and leaves the other two lists
as they are. The moved task keeps its id. -/
theorem archival_in_agenda (clock : Clock) (taskId agenda : JsVal)
    (h : TaskLists agenda) (hex : Exclusive agenda) :
    (((agenda.get "tasks").elems.findIdx? (fun t => strictEq (t.get "id") taskId) = none →
        TaskActions.finalizeTaskInAgenda clock taskId agenda = .ok .untouched) ∧
      ((agenda.get "tasks").elems.findIdx? (fun t => strictEq (t.get "id") taskId) ≠ none →
        ∃ a task moved,
          TaskActions.finalizeTaskInAgenda clock taskId agenda = .ok (.completed a) ∧
          MovedBetween "tasks" "finalizedTasks" "deletedTasks" taskId agenda a task moved ∧
          Exclusive a)) ∧
    (((agenda.get "tasks").elems.findIdx? (fun t => strictEq (t.get "id") taskId) = none →
        (agenda.get "finalizedTasks").elems.findIdx? (fun t => strictEq (t.get "id") taskId)
          = none →
        TaskActions.recycleTaskInAgenda clock taskId agenda = .ok .untouched) ∧
      ((agenda.get "tasks").elems.findIdx? (fun t => strictEq (t.get "id") taskId) ≠ none →
        ∃ a task moved,
          TaskActions.recycleTaskInAgenda clock taskId agenda = .ok (.completed a) ∧
          MovedBetween "tasks" "deletedTasks" "finalizedTasks" taskId agenda a task moved ∧
          Exclusive a) ∧
      ((agenda.get "tasks").elems.findIdx? (fun t => strictEq (t.get "id") taskId) = none →
        (agenda.get "finalizedTasks").elems.findIdx? (fun t => strictEq (t.get "id") taskId)
          ≠ none →
        ∃ a task moved,
          TaskActions.recycleTaskInAgenda clock taskId agenda = .ok (.completed a) ∧
          MovedBetween "finalizedTasks" "deletedTasks" "tasks" taskId agenda a task moved ∧
          Exclusive a)) ∧
    (((agenda.get "deletedTasks").elems.findIdx? (fun t => strictEq (t.get "id") taskId)
          = none →
        TaskActions.restoreTaskInAgenda taskId agenda = .ok .untouched) ∧
      ((agenda.get "deletedTasks").elems.findIdx? (fun t => strictEq (t.get "id") taskId)
          ≠ none →
        ∃ a task moved,
          TaskActions.restoreTaskInAgenda taskId agenda = .ok (.completed a) ∧
          MovedBetween "deletedTasks" "tasks" "finalizedTasks" taskId agenda a task moved ∧
          moved.get "columnId" = .str (lit "backlog") ∧ Exclusive a)) ∧
    (∃ a, TaskActions.permanentDeleteTaskInAgenda taskId agenda = .ok (.completed a) ∧
      a.get "tasks" = agenda.get "tasks" ∧
      a.get "finalizedTasks" = agenda.get "finalizedTasks" ∧
      (a.get "deletedTasks").elems =
        (agenda.get "deletedTasks").elems.filter (fun t => !strictEq (t.get "id") taskId) ∧
      Exclusive a) := by
  obtain ⟨hf1, hf2⟩ := finalizeTaskInAgenda_spec clock taskId agenda h
  obtain ⟨hr1, hr2, hr3⟩ := recycleTaskInAgenda_spec clock taskId agenda h
  obtain ⟨hs1, hs2⟩ := restoreTaskInAgenda_spec taskId agenda h
  obtain ⟨a, hp, hpt, hpf, hpd⟩ := permanentDeleteTaskInAgenda_spec taskId agenda h
  refine ⟨⟨hf1, fun hsome => ?_⟩, ⟨hr1, fun hsome => ?_, fun hnone hsome => ?_⟩,
    ⟨hs1, fun hsome => ?_⟩, a, hp, hpt, hpf, hpd, ?_⟩
  · obtain ⟨a, task, moved, h1, h2, -⟩ := hf2 hsome
    exact ⟨a, task, moved, h1, h2, (exclusive_of_moved hex).1 h2⟩
  · obtain ⟨a, task, moved, h1, h2, -⟩ := hr2 hsome
    exact ⟨a, task, moved, h1, h2, (exclusive_of_moved hex).2.1 h2⟩
  · obtain ⟨a, task, moved, h1, h2, -⟩ := hr3 hnone hsome
    exact ⟨a, task, moved, h1, h2, (exclusive_of_moved hex).2.2.1 h2⟩
  · obtain ⟨a, task, moved, h1, h2, h3, -⟩ := hs2 hsome
    exact ⟨a, task, moved, h1, h2, h3, (exclusive_of_moved hex).2.2.2 h2⟩
  · unfold Exclusive archiveIds at *
    rw [hpt, hpf, hpd]
    refine hex.sublist ?_
    refine List.Sublist.append (List.Sublist.refl _) ?_
    exact (List.filter_sublist _).map _

theorem archiveAgenda_lists : TaskLists archiveAgenda := by
  refine ⟨rfl, rfl, ?_, rfl, ?_, .inl rfl, ?_, .inr rfl, ?_⟩
  · intro t ht
    rcases List.mem_singleton.1 ht with rfl
    rfl
  · intro c hc
    rcases List.mem_singleton.1 hc with rfl
    exact ⟨rfl, rfl⟩
  · intro t ht
    cases ht
  · intro t ht
    rcases List.mem_singleton.1 ht with rfl
    rfl

theorem archiveAgenda_exclusive : Exclusive archiveAgenda := by
  have h : archiveIds archiveAgenda = [.str (lit "t1"), .str (lit "t9")] := rfl
  unfold Exclusive
  rw [h]
  simp [lit]

/-! ## Moving a task -/

theorem get_setKey (v : JsVal) (hv : isObject v = true) (k : String) (x : JsVal) :
    (objectSpread v (.obj [(k, x)])).get k = x ∧
    ∀ key, key ≠ k → (objectSpread v (.obj [(k, x)])).get key = v.get key := by
  obtain ⟨fields, rfl⟩ := (isObject_iff v).1 hv
  refine ⟨get_setKeys_same _ _ _ _ (by simp [List.lookup]), fun key hkey => ?_⟩
  apply get_setKeys_other
  have h1 : (key == k) = false := by simpa using hkey
  simp [List.lookup, h1]

theorem clearedColumn_shape (taskId old c : JsVal)
    (hc : isObject c = true ∧ isArray (c.get "taskIds") = true) :
    isObject (clearedColumn taskId old c) = true ∧
    isArray ((clearedColumn taskId old c).get "taskIds") = true ∧
    (clearedColumn taskId old c).get "id" = c.get "id" ∧
    ((clearedColumn taskId old c).get "taskIds").elems =
      if strictEq (c.get "id") old then
        (c.get "taskIds").elems.filter (fun id => !strictEq id taskId)
      else (c.get "taskIds").elems := by
  unfold clearedColumn
  by_cases h : strictEq (c.get "id") old = true
  · obtain ⟨hsame, hother⟩ := get_setKey c hc.1 "taskIds"
      (.arr ((c.get "taskIds").elems.filter (fun id => !strictEq id taskId)))
    rw [if_pos h, if_pos h]
    exact ⟨rfl, by rw [hsame]; rfl, hother "id" (by decide), by rw [hsame]; rfl⟩
  · rw [if_neg h, if_neg h]
    exact ⟨hc.1, hc.2, rfl, rfl⟩

theorem filledColumn_shape (taskId : JsVal) (newIndex : JsNum) (c : JsVal)
    (hc : isObject c = true) :
    isObject (filledColumn taskId newIndex c) = true ∧
    (filledColumn taskId newIndex c).get "id" = c.get "id" ∧
    ((filledColumn taskId newIndex c).get "taskIds").elems =
      TaskActions.spliceIn (c.get "taskIds").elems
        (TaskActions.insertIndex newIndex (c.get "taskIds").elems.length) taskId := by
  unfold filledColumn
  obtain ⟨hsame, hother⟩ := get_setKey c hc "taskIds"
    (.arr (TaskActions.spliceIn (c.get "taskIds").elems
      (TaskActions.insertIndex newIndex (c.get "taskIds").elems.length) taskId))
  rw [hsame, hother "id" (by decide)]
  exact ⟨rfl, rfl, rfl⟩

theorem backlogged_shape (columns : List JsVal)
    (h : ∀ c ∈ columns, isObject c = true ∧ isArray (c.get "taskIds") = true) :
    ∀ c ∈ backlogged columns, isObject c = true ∧ isArray (c.get "taskIds") = true := by
  intro c hc
  unfold backlogged at hc
  split at hc
  · rcases List.mem_cons.1 hc with rfl | hc
    · exact ⟨rfl, rfl⟩
    · exact h c hc
  · exact h c hc

theorem withBacklog_ok (columns : List JsVal) (h : AllObjects columns) :
    TaskActions.withBacklog columns = .ok (backlogged columns) := by
  have hund : JsVal.undefined.truthy = false := rfl
  unfold TaskActions.withBacklog backlogged
  simp only [(findByKey_ok "id" (.str (lit "backlog")) columns h).1, bind, Except.bind, pure,
    Except.pure]
  cases hf : columns.find? (fun c => strictEq (c.get "id") (.str (lit "backlog"))) with
  | none =>
    simp only [Option.getD_none, hund, Bool.not_false, if_true, Option.isNone_none]
    rfl
  | some c =>
    have hc : c.truthy = true := truthy_of_isObject (h c (List.mem_of_find?_eq_some hf))
    simp only [Option.getD_some, hc, Bool.not_true, Bool.false_eq_true, if_false,
      Option.isNone_some]

/-- What `moveTask` does to an agenda with a board. -/
theorem moveTaskInAgenda_eq (taskId targetColumnId : JsVal) (newIndex : JsNum)
    (agenda : JsVal) (tasks columns : List JsVal) (h : HasBoard agenda tasks columns) :
    (tasks.find? (fun t => strictEq (t.get "id") taskId) = none →
      TaskActions.moveTaskInAgenda taskId targetColumnId newIndex agenda = .ok agenda) ∧
    (∀ task, tasks.find? (fun t => strictEq (t.get "id") taskId) = some task →
      TaskActions.moveTaskInAgenda taskId targetColumnId newIndex agenda =
        .ok (objectSpread agenda (.obj [
          ("tasks", .arr (movedTasks taskId targetColumnId task tasks)),
          ("columns", .arr (movedColumns taskId targetColumnId newIndex task columns))]))) := by
  obtain ⟨hobj, htasks, htobj, hcolumns, hcols⟩ := h
  have hund : JsVal.undefined.truthy = false := rfl
  have hitems : ∀ xs : List JsVal, JsVal.items (.arr xs) = .ok xs := fun _ => rfl
  have horelse : ∀ xs : List JsVal, JsVal.orElse (.arr xs) (.arr []) = .arr xs := fun _ => rfl
  have hcobj : AllObjects columns := fun c hc => (hcols c hc).1
  have hbshape := backlogged_shape columns (fun c hc => ⟨(hcols c hc).1, (hcols c hc).2.1⟩)
  refine ⟨fun hnone => ?_, fun task hsome => ?_⟩
  · unfold TaskActions.moveTaskInAgenda
    simp only [prop_of_isObject hobj, htasks, hitems, (findByKey_ok "id" taskId tasks htobj).1,
      hnone, Option.getD_none, hund, Bool.not_false, if_true, bind, Except.bind, pure,
      Except.pure]
  · have htask : task.truthy = true :=
      truthy_of_isObject (htobj task (List.mem_of_find?_eq_some hsome))
    have hcleared : ∀ c ∈ (backlogged columns).map
        (clearedColumn taskId (orElse (task.get "columnId") (.str (lit "backlog")))),
        isObject c = true ∧ isArray (c.get "taskIds") = true := by
      intro c hc
      obtain ⟨c0, hc0, rfl⟩ := List.mem_map.1 hc
      have := clearedColumn_shape taskId
        (orElse (task.get "columnId") (.str (lit "backlog"))) c0 (hbshape c0 hc0)
      exact ⟨this.1, this.2.1⟩
    unfold TaskActions.moveTaskInAgenda
    simp only [prop_of_isObject hobj, htasks, hitems, (findByKey_ok "id" taskId tasks htobj).1,
      hsome, Option.getD_some, htask, Bool.not_true, Bool.false_eq_true, if_false, hcolumns,
      horelse, withBacklog_ok columns hcobj, bind, Except.bind, pure, Except.pure]
    rw [mapThrowing_ok _
      (clearedColumn taskId (orElse (task.get "columnId") (.str (lit "backlog"))))
      (backlogged columns) (by
        intro c hc
        obtain ⟨hco, hca⟩ := hbshape c hc
        have hor : JsVal.orElse (c.get "taskIds") (.arr []) = c.get "taskIds" := by
          simp [JsVal.orElse, truthy_of_isArray hca]
        simp only [prop_of_isObject hco, clearedColumn, hor, items_of_isArray hca]
        split <;> rfl)]
    simp only []
    rw [mapThrowing_ok _ (fun t =>
        if strictEq (t.get "id") taskId then
          objectSpread task (.obj [("columnId", targetColumnId)])
        else t) tasks (by
        intro t ht
        simp only [prop_of_isObject (htobj t ht)])]
    simp only [(findByKey_ok "id" targetColumnId _ (fun c hc => (hcleared c hc).1)).2]
    unfold movedColumns filledColumns movedTasks
    cases hi : ((backlogged columns).map
        (clearedColumn taskId (orElse (task.get "columnId") (.str (lit "backlog"))))).findIdx?
        (fun c => strictEq (c.get "id") targetColumnId) with
    | none => rfl
    | some i =>
      obtain ⟨c, hc, -, hd⟩ := (findIdx?_spec _ _).1 i hi
      obtain ⟨hco, hca⟩ := hcleared c (mem_of_getElem?_eq_some hc)
      have hor : JsVal.orElse (c.get "taskIds") (.arr []) = c.get "taskIds" := by
        simp [JsVal.orElse, truthy_of_isArray hca]
      have hspread : spreadItems (c.get "taskIds") = .ok (c.get "taskIds").elems := by
        rw [arr_elems_of_isArray hca]
        rfl
      simp only [hd, hor, hspread, filledColumn]

theorem occurrences_append (v : JsVal) (xs ys : List JsVal) :
    occurrences v (xs ++ ys) = occurrences v xs + occurrences v ys := by
  simp [occurrences, List.filter_append]

theorem occurrences_columns_cons (v c : JsVal) (cs : List JsVal) :
    occurrences v (columnTaskIds (c :: cs)) =
      occurrences v (c.get "taskIds").elems + occurrences v (columnTaskIds cs) := by
  simp [columnTaskIds, List.flatMap_cons, occurrences_append]

theorem occurrences_filter_le (v : JsVal) (p : JsVal → Bool) (xs : List JsVal) :
    occurrences v (xs.filter p) ≤ occurrences v xs := by
  unfold occurrences
  rw [List.filter_filter]
  exact (List.monotone_filter_right xs (fun a h => by
    simp only [Bool.and_eq_true] at h
    exact h.1)).length_le

theorem occurrences_filter_self (v : JsVal) (xs : List JsVal) :
    occurrences v (xs.filter (fun id => !strictEq id v)) = 0 := by
  unfold occurrences
  rw [List.filter_filter, List.length_eq_zero, List.filter_eq_nil_iff]
  intro a _
  cases strictEq a v <;> simp

theorem occurrences_spliceIn (v taskId : JsVal) (ids : List JsVal) (k : Nat) :
    occurrences v (TaskActions.spliceIn ids k taskId) =
      occurrences v ids + (if strictEq taskId v then 1 else 0) := by
  have h : occurrences v ids = occurrences v (ids.take k) + occurrences v (ids.drop k) := by
    rw [← occurrences_append, List.take_append_drop]
  unfold TaskActions.spliceIn
  rw [occurrences_append, h]
  unfold occurrences
  rw [List.filter_cons]
  split <;> simp
  omega

theorem occurrences_ne_zero {v : JsVal} {xs : List JsVal} (h : occurrences v xs ≠ 0) :
    ∃ id ∈ xs, strictEq id v = true := by
  unfold occurrences at h
  obtain ⟨id, hid⟩ := List.exists_mem_of_length_pos (Nat.pos_of_ne_zero h)
  exact ⟨id, (List.mem_filter.1 hid).1, (List.mem_filter.1 hid).2⟩

/-- Taking the task id out of the old columns: no id occurs more often than before, and
the task id does not occur any more when only old columns listed it. -/
theorem occurrences_cleared (taskId old : JsVal) (cols : List JsVal)
    (h : ∀ c ∈ cols, isObject c = true ∧ isArray (c.get "taskIds") = true) :
    (∀ v, occurrences v (columnTaskIds (cols.map (clearedColumn taskId old))) ≤
      occurrences v (columnTaskIds cols)) ∧
    ((∀ c ∈ cols, occurrences taskId (c.get "taskIds").elems ≠ 0 →
        strictEq (c.get "id") old = true) →
      occurrences taskId (columnTaskIds (cols.map (clearedColumn taskId old))) = 0) := by
  induction cols with
  | nil => exact ⟨fun v => le_refl _, fun _ => rfl⟩
  | cons c cs ih =>
    obtain ⟨ih1, ih2⟩ := ih (fun x hx => h x (List.mem_cons_of_mem _ hx))
    have hshape := (clearedColumn_shape taskId old c (h c (List.mem_cons_self _ _))).2.2.2
    refine ⟨fun v => ?_, fun hold => ?_⟩
    · rw [List.map_cons, occurrences_columns_cons, occurrences_columns_cons, hshape]
      have := ih1 v
      split
      · have := occurrences_filter_le v (fun id => !strictEq id taskId) (c.get "taskIds").elems
        omega
      · omega
    · rw [List.map_cons, occurrences_columns_cons, hshape,
        ih2 (fun x hx => hold x (List.mem_cons_of_mem _ hx))]
      by_cases hc : strictEq (c.get "id") old = true
      · rw [if_pos hc, occurrences_filter_self]
      · rw [if_neg hc]
        by_contra hne
        exact hc (hold c (List.mem_cons_self _ _) (by omega))

theorem occurrences_set (v : JsVal) (cols : List JsVal) (i : Nat) (c c2 : JsVal)
    (h : cols[i]? = some c) :
    occurrences v (columnTaskIds (cols.set i c2)) + occurrences v (c.get "taskIds").elems =
      occurrences v (columnTaskIds cols) + occurrences v (c2.get "taskIds").elems := by
  induction cols generalizing i with
  | nil => simp at h
  | cons x xs ih =>
    cases i with
    | zero =>
      simp only [List.getElem?_cons_zero, Option.some.injEq] at h
      subst h
      rw [List.set_cons_zero, occurrences_columns_cons, occurrences_columns_cons]
      omega
    | succ j =>
      simp only [List.getElem?_cons_succ] at h
      rw [List.set_cons_succ, occurrences_columns_cons, occurrences_columns_cons]
      have := ih j h
      omega

/-- Splicing the task id into the target column: an id occurs as often as before, the
task id once more when there is a target column. -/
theorem occurrences_filled (taskId targetColumnId : JsVal) (newIndex : JsNum)
    (cols : List JsVal) (h : AllObjects cols) (v : JsVal) :
    occurrences v (columnTaskIds (filledColumns taskId targetColumnId newIndex cols)) ≤
      occurrences v (columnTaskIds cols) + (if strictEq taskId v then 1 else 0) := by
  unfold filledColumns
  cases hi : cols.findIdx? (fun c => strictEq (c.get "id") targetColumnId) with
  | none => exact Nat.le_add_right _ _
  | some i =>
    obtain ⟨c, hc, -, hd⟩ := (findIdx?_spec _ _).1 i hi
    have hset := occurrences_set v cols i c (filledColumn taskId newIndex c) hc
    rw [(filledColumn_shape taskId newIndex c (h c (mem_of_getElem?_eq_some hc))).2.2,
      occurrences_spliceIn] at hset
    simp only [hd]
    omega

theorem mem_filledColumns (taskId targetColumnId : JsVal) (newIndex : JsNum)
    (cols : List JsVal) (c2 : JsVal)
    (hc2 : c2 ∈ filledColumns taskId targetColumnId newIndex cols) :
    c2 ∈ cols ∨ ∃ c ∈ cols, strictEq (c.get "id") targetColumnId = true ∧
      c2 = filledColumn taskId newIndex c := by
  unfold filledColumns at hc2
  cases hi : cols.findIdx? (fun c => strictEq (c.get "id") targetColumnId) with
  | none =>
    rw [hi] at hc2
    exact .inl hc2
  | some i =>
    rw [hi] at hc2
    obtain ⟨c, hc, hp, hd⟩ := (findIdx?_spec _ _).1 i hi
    rcases List.mem_or_eq_of_mem_set hc2 with hm | he
    · exact .inl hm
    · exact .inr ⟨c, mem_of_getElem?_eq_some hc, hp, by rw [he, hd]⟩

theorem mem_movedTasks (taskId targetColumnId task : JsVal) (tasks : List JsVal)
    (htask : isObject task = true) (hid : strictEq (task.get "id") taskId = true)
    (u : JsVal) (hu : u ∈ movedTasks taskId targetColumnId task tasks) :
    ∃ t ∈ tasks, u.get "id" = t.get "id" ∧
      ((strictEq (t.get "id") taskId = true ∧ u.get "columnId" = targetColumnId) ∨
        (strictEq (t.get "id") taskId = false ∧ u = t)) := by
  obtain ⟨t, ht, rfl⟩ := List.mem_map.1 hu
  obtain ⟨hsame, hother⟩ := get_setKey task htask "columnId" targetColumnId
  refine ⟨t, ht, ?_⟩
  cases hs : strictEq (t.get "id") taskId with
  | true =>
    simp only [if_true]
    refine ⟨?_, .inl ⟨trivial, hsame⟩⟩
    rw [hother "id" (by decide), strictEq_eq_true hid, strictEq_eq_true hs]
  | false =>
    simp

theorem columnTaskIds_backlogged (v : JsVal) (columns : List JsVal) :
    occurrences v (columnTaskIds (backlogged columns)) = occurrences v (columnTaskIds columns) := by
  unfold backlogged
  split
  · rw [occurrences_columns_cons]
    simp [backlogColumn, occurrences]
  · rfl

/-- C24: `moveTask` keeps a task in at most one column. For every agenda with a board
(tasks and columns are arrays of objects, the column ids are truthy, as non-empty strings
are, and the `taskIds` are arrays) in which every active task id is listed at most once
across all columns and only by a column whose id is the task's `columnId`, `moveTask`
returns an agenda in which the same holds, for every task id, target column id and index.
Ids are compared as the program compares them, with `===`. (The action applies this function
to every agenda with the given id in a workspace with the active id.) -/
theorem move_task_keeps_one_column (taskId targetColumnId : JsVal) (newIndex : JsNum)
    (agenda : JsVal) (tasks columns : List JsVal) (h : HasBoard agenda tasks columns)
    (hinv : InOneColumn tasks columns) :
    ∃ moved, TaskActions.moveTaskInAgenda taskId targetColumnId newIndex agenda = .ok moved ∧
      InOneColumn (moved.get "tasks").elems (moved.get "columns").elems := by
  obtain ⟨hnone, hsome⟩ := moveTaskInAgenda_eq taskId targetColumnId newIndex agenda tasks
    columns h
  obtain ⟨hobj, htasks, htobj, hcolumns, hcols⟩ := h
  cases hf : tasks.find? (fun t => strictEq (t.get "id") taskId) with
  | none =>
    refine ⟨agenda, hnone hf, ?_⟩
    rw [htasks, hcolumns]
    exact hinv
  | some task =>
    refine ⟨_, hsome task hf, ?_⟩
    obtain ⟨fields, hfields⟩ := (isObject_iff agenda).1 hobj
    have hgt : (objectSpread agenda (.obj [
        ("tasks", .arr (movedTasks taskId targetColumnId task tasks)),
        ("columns", .arr (movedColumns taskId targetColumnId newIndex task columns))])).get
        "tasks" = .arr (movedTasks taskId targetColumnId task tasks) := by
      rw [hfields]
      exact get_setKeys_same _ _ _ _ (by simp [List.lookup])
    have hgc : (objectSpread agenda (.obj [
        ("tasks", .arr (movedTasks taskId targetColumnId task tasks)),
        ("columns", .arr (movedColumns taskId targetColumnId newIndex task columns))])).get
        "columns" = .arr (movedColumns taskId targetColumnId newIndex task columns) := by
      rw [hfields]
      exact get_setKeys_same _ _ _ _ (by simp [List.lookup])
    rw [hgt, hgc, elems_arr, elems_arr]
    -- the task that was found
    have htaskmem : task ∈ tasks := List.mem_of_find?_eq_some hf
    have htaskobj : isObject task = true := htobj task htaskmem
    have htaskid : strictEq (task.get "id") taskId = true := by
      simpa using List.find?_some hf
    have hrefl : strictEq taskId taskId = true := by
      have := htaskid
      rwa [strictEq_eq_true htaskid] at this
    -- the columns before the task id is spliced in
    have hbshape := backlogged_shape columns (fun c hc => ⟨(hcols c hc).1, (hcols c hc).2.1⟩)
    have hold : ∀ c ∈ backlogged columns, occurrences taskId (c.get "taskIds").elems ≠ 0 →
        strictEq (c.get "id") (orElse (task.get "columnId") (.str (lit "backlog"))) = true := by
      intro c hc hocc
      have hcmem : c ∈ columns := by
        unfold backlogged at hc
        split at hc
        · rcases List.mem_cons.1 hc with rfl | hc
          · exact absurd rfl hocc
          · exact hc
        · exact hc
      have hnamed := (hinv task htaskmem).2 c hcmem (by rwa [strictEq_eq_true htaskid])
      have hcol : task.get "columnId" = c.get "id" := (strictEq_eq_true hnamed).symm
      have htruthy : (task.get "columnId").truthy = true := by
        rw [hcol]
        exact (hcols c hcmem).2.2
      simpa [JsVal.orElse, htruthy] using hnamed
    obtain ⟨hle, hzero⟩ := occurrences_cleared taskId
      (orElse (task.get "columnId") (.str (lit "backlog"))) (backlogged columns) hbshape
    have hzero := hzero hold
    have hclearedobj : AllObjects ((backlogged columns).map (clearedColumn taskId
        (orElse (task.get "columnId") (.str (lit "backlog"))))) := by
      intro c hc
      obtain ⟨c0, hc0, rfl⟩ := List.mem_map.1 hc
      exact (clearedColumn_shape taskId _ c0 (hbshape c0 hc0)).1
    -- a column after the move, and the column it comes from
    have horigin : ∀ c2 ∈ movedColumns taskId targetColumnId newIndex task columns,
        ∀ v, occurrences v (c2.get "taskIds").elems ≠ 0 →
          (strictEq taskId v = true ∧ strictEq (c2.get "id") targetColumnId = true) ∨
          (strictEq v taskId = false ∧ ∃ c ∈ columns, c2.get "id" = c.get "id" ∧
            occurrences v (c.get "taskIds").elems ≠ 0) := by
      intro c2 hc2 v hocc
      have hcase : ∃ c1 ∈ (backlogged columns).map (clearedColumn taskId
            (orElse (task.get "columnId") (.str (lit "backlog")))),
          c2.get "id" = c1.get "id" ∧
          ((strictEq taskId v = true ∧ strictEq (c2.get "id") targetColumnId = true) ∨
            occurrences v (c1.get "taskIds").elems ≠ 0) := by
        rcases mem_filledColumns taskId targetColumnId newIndex _ c2 hc2 with hm | ⟨c1, hc1, ht, rfl⟩
        · exact ⟨c2, hm, rfl, .inr hocc⟩
        · obtain ⟨-, hid, hids⟩ := filledColumn_shape taskId newIndex c1 (hclearedobj c1 hc1)
          refine ⟨c1, hc1, hid, ?_⟩
          rw [hids, occurrences_spliceIn] at hocc
          by_cases hs : strictEq taskId v = true
          · exact .inl ⟨hs, by rw [hid]; exact ht⟩
          · right
            simpa [hs] using hocc
      obtain ⟨c1, hc1, hid1, hor⟩ := hcase
      rcases hor with hl | hocc1
      · exact .inl hl
      · obtain ⟨c0, hc0, rfl⟩ := List.mem_map.1 hc1
        obtain ⟨-, -, hid0, hids0⟩ := clearedColumn_shape taskId
          (orElse (task.get "columnId") (.str (lit "backlog"))) c0 (hbshape c0 hc0)
        have hocc0 : occurrences v (c0.get "taskIds").elems ≠ 0 := by
          rw [hids0] at hocc1
          split at hocc1
          · have := occurrences_filter_le v (fun id => !strictEq id taskId)
              (c0.get "taskIds").elems
            omega
          · exact hocc1
        have hvne : strictEq v taskId = false := by
          cases hs : strictEq v taskId with
          | false => rfl
          | true =>
            exfalso
            have hv : v = taskId := strictEq_eq_true hs
            subst hv
            have hmem : occurrences v (columnTaskIds ((backlogged columns).map
                (clearedColumn v (orElse (task.get "columnId") (.str (lit "backlog")))))) ≠ 0 := by
              obtain ⟨id, hid, hids⟩ := occurrences_ne_zero hocc1
              unfold occurrences
              rw [Ne, List.length_eq_zero, List.filter_eq_nil_iff]
              intro hall
              exact absurd hids (hall id (by
                unfold columnTaskIds
                exact List.mem_flatMap.2 ⟨_, hc1, hid⟩))
            exact hmem hzero
        right
        refine ⟨hvne, c0, ?_, by rw [hid1, hid0], hocc0⟩
        unfold backlogged at hc0
        split at hc0
        · rcases List.mem_cons.1 hc0 with rfl | hc0
          · exact absurd rfl hocc0
          · exact hc0
        · exact hc0
    intro u hu
    obtain ⟨t, ht, huid, hcase⟩ := mem_movedTasks taskId targetColumnId task tasks htaskobj
      htaskid u hu
    have hcount := occurrences_filled taskId targetColumnId newIndex _ hclearedobj (u.get "id")
    have hle2 := hle (u.get "id")
    rw [columnTaskIds_backlogged] at hle2
    rcases hcase with ⟨hmoved, hcolumn⟩ | ⟨hstay, rfl⟩
    · -- the moved task
      have huid2 : u.get "id" = taskId := by rw [huid, strictEq_eq_true hmoved]
      refine ⟨?_, fun c2 hc2 hocc => ?_⟩
      · rw [huid2] at hcount ⊢
        unfold movedColumns
        rw [hzero, hrefl] at hcount
        simpa using hcount
      · rcases horigin c2 hc2 _ hocc with ⟨-, htarget⟩ | ⟨hne, -⟩
        · rw [hcolumn]; exact htarget
        · rw [huid2, hrefl] at hne
          cases hne
    · -- a task that stays
      have hne : strictEq taskId (u.get "id") = false := by
        cases hs : strictEq taskId (u.get "id") with
        | false => rfl
        | true =>
          have : taskId = u.get "id" := strictEq_eq_true hs
          rw [← this, hrefl] at hstay
          cases hstay
      refine ⟨?_, fun c2 hc2 hocc => ?_⟩
      · unfold movedColumns
        rw [hne] at hcount
        have := (hinv u ht).1
        simp only [Bool.false_eq_true, if_false, add_zero] at hcount
        omega
      · rcases horigin c2 hc2 _ hocc with ⟨hs, -⟩ | ⟨-, c, hc, hid, hocc0⟩
        · rw [hne] at hs
          cases hs
        · rw [hid]
          exact (hinv u ht).2 c hc hocc0

theorem boardAgenda_board :
    HasBoard boardAgenda (boardAgenda.get "tasks").elems (boardAgenda.get "columns").elems := by
  refine ⟨rfl, rfl, fun t ht => ?_, rfl, fun c hc => ?_⟩
  · simp only [boardAgenda, get_obj_cons, String.reduceEq, if_true, if_false, elems_arr,
      List.mem_cons, List.mem_singleton, List.not_mem_nil, or_false] at ht
    rcases ht with rfl | rfl <;> rfl
  · simp only [boardAgenda, get_obj_cons, String.reduceEq, if_true, if_false, elems_arr,
      List.mem_cons, List.mem_singleton, List.not_mem_nil, or_false] at hc
    rcases hc with rfl | rfl <;> exact ⟨rfl, rfl, rfl⟩

theorem boardAgenda_inOneColumn :
    InOneColumn (boardAgenda.get "tasks").elems (boardAgenda.get "columns").elems := by
  intro t ht
  simp only [boardAgenda, get_obj_cons, String.reduceEq, if_true, if_false, elems_arr,
    List.mem_cons, List.mem_singleton, List.not_mem_nil, or_false] at ht
  rcases ht with rfl | rfl
  · refine ⟨by decide, fun c hc hocc => ?_⟩
    simp only [boardAgenda, get_obj_cons, String.reduceEq, if_true, if_false, elems_arr,
      List.mem_cons, List.mem_singleton, List.not_mem_nil, or_false] at hc
    rcases hc with rfl | rfl
    · rfl
    · exact absurd (by decide) hocc
  · refine ⟨by decide, fun c hc hocc => ?_⟩
    simp only [boardAgenda, get_obj_cons, String.reduceEq, if_true, if_false, elems_arr,
      List.mem_cons, List.mem_singleton, List.not_mem_nil, or_false] at hc
    rcases hc with rfl | rfl
    · exact absurd (by decide) hocc
    · rfl

theorem move_task_keeps_one_column_witness :
    HasBoard boardAgenda (boardAgenda.get "tasks").elems (boardAgenda.get "columns").elems ∧
    InOneColumn (boardAgenda.get "tasks").elems (boardAgenda.get "columns").elems ∧
    (TaskActions.moveTaskInAgenda (.str (lit "t1")) (.str (lit "done")) (.fin 0)
        boardAgenda).map (fun a => ((a.get "tasks").elems.map (fun t => t.get "columnId"),
          (a.get "columns").elems.map (fun c => c.get "taskIds"))) =
      .ok ([.str (lit "done"), .str (lit "done")],
        [.arr [], .arr [], .arr [.str (lit "t1"), .str (lit "t2")]]) ∧
    (∃ moved, TaskActions.moveTaskInAgenda (.str (lit "t1")) (.str (lit "done")) (.fin 0)
        boardAgenda = .ok moved ∧
      InOneColumn (moved.get "tasks").elems (moved.get "columns").elems) :=
  ⟨boardAgenda_board, boardAgenda_inOneColumn, rfl,
    move_task_keeps_one_column (.str (lit "t1")) (.str (lit "done")) (.fin 0) boardAgenda _ _
      boardAgenda_board boardAgenda_inOneColumn⟩

/-! ## Metrics, due dates and the import scenario -/

/-- What `validateMetrics` returns, key by key: only the three allowed keys occur, a key
occurs exactly when the input is an object with a number (not `NaN`) under it, its value is
then `Math.max(0, Math.floor(v))`, and that is a non-negative integer when the input number
is finite. -/
theorem validateMetrics_keys (metrics : JsVal) :
    (∃ fields, validateMetrics metrics = .obj fields ∧
      ∀ k, (k ∈ fields.map Prod.fst → k ∈ allowedKeys) ∧
        (k ∈ fields.map Prod.fst ↔
          k ∈ allowedKeys ∧ isObject metrics = true ∧ isNumber (metrics.get k) = true)) ∧
    (∀ k ∈ allowedKeys, isObject metrics = true → isNumber (metrics.get k) = true →
      (validateMetrics metrics).get k = maxZeroFloor (metrics.get k) ∧
      ∀ q : ℚ, metrics.get k = .num (.fin q) →
        (validateMetrics metrics).get k = .num (.fin ((max 0 ⌊q⌋).toNat : ℚ)) ∧
        IsNonNegInteger ((validateMetrics metrics).get k)) := by
  have hu : isNumber JsVal.undefined = false := rfl
  by_cases hobj : isObject metrics = true
  · refine ⟨⟨allowedKeys.filterMap (fun key =>
        if isNumber (metrics.get key) then some (key, maxZeroFloor (metrics.get key))
        else none), by simp only [validateMetrics, hobj, Bool.not_true, Bool.false_eq_true,
      if_false], fun k => ?_⟩, ?_⟩
    · have hmem : k ∈ (allowedKeys.filterMap (fun key =>
          if isNumber (metrics.get key) then some (key, maxZeroFloor (metrics.get key))
          else none)).map Prod.fst ↔ k ∈ allowedKeys ∧ isNumber (metrics.get k) = true := by
        simp only [List.mem_map, List.mem_filterMap, Prod.exists]
        constructor
        · rintro ⟨a, b, ⟨key, hkey, hsome⟩, rfl⟩
          by_cases hn : isNumber (metrics.get key) = true
          · simp only [hn, if_true, Option.some.injEq, Prod.mk.injEq] at hsome
            obtain ⟨rfl, -⟩ := hsome
            exact ⟨hkey, hn⟩
          · simp [hn] at hsome
        · rintro ⟨hk, hn⟩
          exact ⟨k, maxZeroFloor (metrics.get k), ⟨k, hk, by simp [hn]⟩, rfl⟩
      exact ⟨fun h => (hmem.1 h).1, ⟨fun h => ⟨(hmem.1 h).1, hobj, (hmem.1 h).2⟩,
        fun h => hmem.2 ⟨h.1, h.2.2⟩⟩⟩
    · intro k hk _ hn
      have hval : (validateMetrics metrics).get k = maxZeroFloor (metrics.get k) := by
        simp only [validateMetrics, hobj, Bool.not_true, Bool.false_eq_true, if_false,
          allowedKeys, List.mem_cons, List.mem_singleton, List.not_mem_nil, or_false] at hk ⊢
        by_cases h1 : isNumber (metrics.get "focusDays") = true <;>
        by_cases h2 : isNumber (metrics.get "incidentsResolved") = true <;>
        by_cases h3 : isNumber (metrics.get "deepWorkDays") = true <;>
        rcases hk with rfl | rfl | rfl <;>
        simp_all [List.filterMap_cons, JsVal.get, List.lookup]
      refine ⟨hval, fun q hq => ?_⟩
      have hq2 : (validateMetrics metrics).get k = .num (.fin ((max 0 ⌊q⌋).toNat : ℚ)) := by
        rw [hval, hq]
        simp only [maxZeroFloor, maxZero, floorNum, JsVal.num.injEq, JsNum.fin.injEq]
        have h1 : max (0 : ℚ) (⌊q⌋ : ℚ) = ((max 0 ⌊q⌋ : ℤ) : ℚ) := by
          push_cast
          rfl
        rw [h1]
        have h2 : ((max 0 ⌊q⌋).toNat : ℤ) = max 0 ⌊q⌋ := Int.toNat_of_nonneg (le_max_left _ _)
        exact_mod_cast h2.symm
      exact ⟨hq2, ⟨_, hq2⟩⟩
  · refine ⟨⟨[], by simp [validateMetrics, hobj], fun k => by simp [hobj]⟩, ?_⟩
    intro k _ h
    exact absurd h hobj

/-- C31 (the code at the failing input): for the metrics object with `focusDays` equal to
`Infinity`, which `isNumber` accepts, `validateMetrics` returns `focusDays` equal to
`Infinity`, which is not a non-negative integer. -/
theorem validateMetrics_infinity :
    isNumber (infiniteMetrics.get "focusDays") = true ∧
    validateMetrics infiniteMetrics = .obj [("focusDays", .num .posInf)] ∧
    (validateMetrics infiniteMetrics).get "focusDays" = .num .posInf ∧
    ¬ IsNonNegInteger ((validateMetrics infiniteMetrics).get "focusDays") := by
  refine ⟨rfl, rfl, rfl, ?_⟩
  rintro ⟨n, hn⟩
  have h : (validateMetrics infiniteMetrics).get "focusDays" = .num .posInf := rfl
  rw [h] at hn
  cases hn

/-- C32 (as stated, refuted): the task `emptyDueDateTask` has a valid id and the empty
string as `dueDate`; the validated task keeps the empty string, which is not null and does
not parse as a date. -/
theorem due_date_nullable_date_counterexample :
    isObject emptyDueDateTask = true ∧ isValidId (emptyDueDateTask.get "id") = true ∧
    sampleEnv.dateParses [] = false ∧
    (∃ v, accepted (validateTask sampleEnv) emptyDueDateTask = some v ∧
      v.get "dueDate" = .str [] ∧
      ¬ (v.get "dueDate" = .null ∨ ParsesAsDate sampleEnv (v.get "dueDate"))) := by
  refine ⟨rfl, by decide, by decide, _, rfl, rfl, ?_⟩
  have h : ∀ v : JsVal, v = .str [] → ¬ (v = .null ∨ ParsesAsDate sampleEnv v) := by
    rintro v rfl (h | ⟨s, hs, hp⟩)
    · cases h
    · cases hs
      revert hp
      decide
  exact h _ rfl

/-- C32 (amended): the validated `dueDate` is null, the empty string, or a string that
parses as a date. For every task object with a valid id the validated task has the input
`dueDate` when that is null, the empty string or a string that parses as a date, and null
otherwise. -/
theorem due_date_null_empty_or_date (env : Env) (task : JsVal)
    (hobj : isObject task = true) (hid : isValidId (task.get "id") = true) :
    ∃ v, accepted (validateTask env) task = some v ∧
      (v.get "dueDate" = .null ∨ v.get "dueDate" = .str [] ∨
        ParsesAsDate env (v.get "dueDate")) ∧
      ((task.get "dueDate" = .null ∨ task.get "dueDate" = .str [] ∨
          ParsesAsDate env (task.get "dueDate")) → v.get "dueDate" = task.get "dueDate") ∧
      (¬ (task.get "dueDate" = .null ∨ task.get "dueDate" = .str [] ∨
          ParsesAsDate env (task.get "dueDate")) → v.get "dueDate" = .null) := by
  have hkey : (isNullOrString (task.get "dueDate") &&
        (!(task.get "dueDate").truthy || isValidDate env (task.get "dueDate"))) = true ↔
      (task.get "dueDate" = .null ∨ task.get "dueDate" = .str [] ∨
        ParsesAsDate env (task.get "dueDate")) := by
    unfold ParsesAsDate
    cases task.get "dueDate" with
    | str s =>
      cases s with
      | nil => simp [isNullOrString, isNull, isString, JsVal.truthy]
      | cons a s => simp [isNullOrString, isNull, isString, JsVal.truthy, isValidDate]
    | _ => simp [isNullOrString, isNull, isString, JsVal.truthy, isValidDate]
  refine ⟨_, validateTask_fst env task [] hobj hid, ?_, ?_, ?_⟩
  · by_cases hc : (isNullOrString (task.get "dueDate") &&
        (!(task.get "dueDate").truthy || isValidDate env (task.get "dueDate"))) = true
    · simpa [get_obj_cons, hc] using hkey.1 hc
    · simp [get_obj_cons, hc]
  · intro h
    simp [get_obj_cons, hkey.2 h]
  · intro h
    have hc := mt hkey.1 h
    simp [get_obj_cons, hc]

theorem due_date_null_empty_or_date_witness :
    isObject emptyDueDateTask = true ∧ isValidId (emptyDueDateTask.get "id") = true ∧
    ∃ v, accepted (validateTask sampleEnv) emptyDueDateTask = some v ∧
      (v.get "dueDate" = .null ∨ v.get "dueDate" = .str [] ∨
        ParsesAsDate sampleEnv (v.get "dueDate")) ∧
      ((emptyDueDateTask.get "dueDate" = .null ∨ emptyDueDateTask.get "dueDate" = .str [] ∨
          ParsesAsDate sampleEnv (emptyDueDateTask.get "dueDate")) →
        v.get "dueDate" = emptyDueDateTask.get "dueDate") ∧
      (¬ (emptyDueDateTask.get "dueDate" = .null ∨ emptyDueDateTask.get "dueDate" = .str [] ∨
          ParsesAsDate sampleEnv (emptyDueDateTask.get "dueDate")) →
        v.get "dueDate" = .null) :=
  ⟨rfl, by decide, due_date_null_empty_or_date sampleEnv emptyDueDateTask rfl (by decide)⟩

/-- The state that validation returns for the document of the import scenario. -/
theorem deepValidateState_scenario (env : Env) :
    (deepValidateState env scenarioDoc).valid = true ∧
    (deepValidateState env scenarioDoc).state.get "workspaces" =
      .arr [.obj [("id", .str (lit "w1")), ("name", .str (lit "Untitled Workspace")),
        ("createdAt", .str env.now), ("modifiedAt", .str env.now),
        ("agendas", .arr [.obj [("id", .str (lit "ag1")),
          ("name", .str (lit "Untitled Agenda")), ("createdAt", .str env.now),
          ("notes", .arr []),
          ("tasks", .arr [.obj [("id", .str (lit "t1")), ("title", .str (lit "x")),
            ("description", .str []), ("priority", .str (lit "medium")), ("dueDate", .null),
            ("columnId", .str (lit "backlog")), ("createdAt", .str env.now),
            ("isFinalized", .bool false), ("isDeleted", .bool false), ("finalizedAt", .null),
            ("deletedAt", .null)]]),
          ("columns", .arr [defaultColumn (lit "todo"), defaultColumn (lit "doing"),
            defaultColumn (lit "done")]),
          ("journals", .arr []), ("snippets", .arr []), ("finalizedTasks", .arr []),
          ("deletedTasks", .arr []), ("metrics", .obj [])]])]] := by
  have hvalid : (deepValidateState env scenarioDoc).valid = true := by
    rcases deepValidateState_valid_iff env scenarioDoc with h | h
    · exact h.2.2.2.1
    · exact absurd ⟨rfl, rfl, rfl⟩ h.1
  refine ⟨hvalid, ?_⟩
  rw [deepValidateState_workspaces env scenarioDoc hvalid]
  have htask : accepted (validateTask env) scenarioTask =
      some (.obj [("id", .str (lit "t1")), ("title", .str (lit "x")),
        ("description", .str []), ("priority", .str (lit "medium")), ("dueDate", .null),
        ("columnId", .str (lit "backlog")), ("createdAt", .str env.now),
        ("isFinalized", .bool false), ("isDeleted", .bool false), ("finalizedAt", .null),
        ("deletedAt", .null)]) := by
    unfold accepted
    rw [validateTask_fst env scenarioTask [] rfl (by decide)]
    have h1 : sanitizeString (orElse (.str (lit "x")) (.str [])) 500 = lit "x" := by decide
    have h2 : sanitizeString (orElse .undefined (.str [])) 10000 = [] := by decide
    have h3 : includes validPriorities .undefined = false := rfl
    have h4 : includes validColumns (.str (lit "zzz")) = false := by decide
    simp [scenarioTask, get_obj_cons, get_obj_nil, h1, h2, h3, h4, isNullOrString, isNull,
      isString, isValidDate, isBoolean, isNullOrNumber, isNumber]
  have hagenda : accepted (validateAgenda env) scenarioAgenda =
      some (.obj [("id", .str (lit "ag1")),
        ("name", .str (lit "Untitled Agenda")), ("createdAt", .str env.now),
        ("notes", .arr []),
        ("tasks", .arr [.obj [("id", .str (lit "t1")), ("title", .str (lit "x")),
          ("description", .str []), ("priority", .str (lit "medium")), ("dueDate", .null),
          ("columnId", .str (lit "backlog")), ("createdAt", .str env.now),
          ("isFinalized", .bool false), ("isDeleted", .bool false), ("finalizedAt", .null),
          ("deletedAt", .null)]]),
        ("columns", .arr [defaultColumn (lit "todo"), defaultColumn (lit "doing"),
          defaultColumn (lit "done")]),
        ("journals", .arr []), ("snippets", .arr []), ("finalizedTasks", .arr []),
        ("deletedTasks", .arr []), ("metrics", .obj [])]) := by
    unfold accepted
    rw [validateAgenda_fst env scenarioAgenda [] rfl (by decide)]
    have h1 : sanitizeString (orElse .undefined (.str (lit "Untitled Agenda"))) 200 =
        lit "Untitled Agenda" := by decide
    have h2 : ensureDefaultCols [] = [defaultColumn (lit "todo"), defaultColumn (lit "doing"),
        defaultColumn (lit "done")] := rfl
    have h3 : validateMetrics .undefined = .obj [] := rfl
    simp [scenarioAgenda, get_obj_cons, get_obj_nil, h1, h2, h3, htask, isValidDate, isArray,
      elems_undefined]
  have hws : accepted (validateWorkspace env) scenarioWorkspace =
      some (.obj [("id", .str (lit "w1")),
        ("name", .str (lit "Untitled Workspace")),
        ("createdAt", .str env.now), ("modifiedAt", .str env.now),
        ("agendas", .arr [.obj [("id", .str (lit "ag1")),
          ("name", .str (lit "Untitled Agenda")), ("createdAt", .str env.now),
          ("notes", .arr []),
          ("tasks", .arr [.obj [("id", .str (lit "t1")), ("title", .str (lit "x")),
            ("description", .str []), ("priority", .str (lit "medium")), ("dueDate", .null),
            ("columnId", .str (lit "backlog")), ("createdAt", .str env.now),
            ("isFinalized", .bool false), ("isDeleted", .bool false), ("finalizedAt", .null),
            ("deletedAt", .null)]]),
          ("columns", .arr [defaultColumn (lit "todo"), defaultColumn (lit "doing"),
            defaultColumn (lit "done")]),
          ("journals", .arr []), ("snippets", .arr []), ("finalizedTasks", .arr []),
          ("deletedTasks", .arr []), ("metrics", .obj [])]])]) := by
    unfold accepted
    rw [validateWorkspace_fst env scenarioWorkspace [] rfl (by decide)]
    have h1 : sanitizeString (orElse .undefined (.str (lit "Untitled Workspace"))) 200 =
        lit "Untitled Workspace" := by decide
    simp [scenarioWorkspace, get_obj_cons, get_obj_nil, h1, hagenda, isValidDate]
  simp [scenarioDoc, get_obj_cons, hws]

/-- C33 (as stated, refuted): importing the text of the scenario yields a document whose
agenda `ag1` has three columns, not four: `todo`, `doing` and `done`. -/
theorem import_scenario_four_columns_counterexample :
    ∃ state ws ag, parseImportData sampleEnv scenarioCodec scenarioText = .ok state ∧
      state.get "workspaces" = .arr [ws] ∧ ws.get "agendas" = .arr [ag] ∧
      ag.get "id" = .str (lit "ag1") ∧
      idsOf (ag.get "columns").elems = [.str (lit "todo"), .str (lit "doing"),
        .str (lit "done")] ∧
      (ag.get "columns").elems.length = 3 ∧ (ag.get "columns").elems.length ≠ 4 := by
  obtain ⟨hvalid, hws⟩ := deepValidateState_scenario sampleEnv
  have hparse : scenarioCodec.parse scenarioText = some scenarioDoc := by
    simp [scenarioCodec]
  refine ⟨_, _, _, by simp [parseImportData, hparse, hvalid], hws, rfl, rfl, rfl, rfl,
    by decide⟩

/-- C33 (amended): importing the document of the scenario yields one workspace `w1` with one
agenda `ag1` which has exactly three columns, `todo`, `doing` and `done`, all empty; the
validator adds no `backlog` column, although the task `t1` gets the column id `backlog`. This
holds for every clock and every `JSON.parse` that reads the text as that document. -/
theorem import_scenario_three_columns (env : Env) (codec : JsonCodec)
    (hparse : codec.parse scenarioText = some scenarioDoc) :
    ∃ state ws ag task, parseImportData env codec scenarioText = .ok state ∧
      state.get "workspaces" = .arr [ws] ∧ ws.get "id" = .str (lit "w1") ∧
      ws.get "agendas" = .arr [ag] ∧ ag.get "id" = .str (lit "ag1") ∧
      ag.get "tasks" = .arr [task] ∧ task.get "id" = .str (lit "t1") ∧
      task.get "columnId" = .str (lit "backlog") ∧
      ag.get "columns" = .arr [defaultColumn (lit "todo"), defaultColumn (lit "doing"),
        defaultColumn (lit "done")] ∧
      idsOf (ag.get "columns").elems = [.str (lit "todo"), .str (lit "doing"),
        .str (lit "done")] ∧
      (ag.get "columns").elems.length = 3 ∧
      ¬ hasColumn ag "backlog" := by
  obtain ⟨hvalid, hws⟩ := deepValidateState_scenario env
  refine ⟨_, _, _, _, by simp [parseImportData, hparse, hvalid], hws, rfl, rfl, rfl, rfl, rfl,
    rfl, rfl, rfl, rfl, ?_⟩
  simp [hasColumn, get_obj_cons, defaultColumn, lit]

theorem import_scenario_three_columns_witness :
    scenarioCodec.parse scenarioText = some scenarioDoc ∧
    ∃ state ws ag task, parseImportData sampleEnv scenarioCodec scenarioText = .ok state ∧
      state.get "workspaces" = .arr [ws] ∧ ws.get "id" = .str (lit "w1") ∧
      ws.get "agendas" = .arr [ag] ∧ ag.get "id" = .str (lit "ag1") ∧
      ag.get "tasks" = .arr [task] ∧ task.get "id" = .str (lit "t1") ∧
      task.get "columnId" = .str (lit "backlog") ∧
      ag.get "columns" = .arr [defaultColumn (lit "todo"), defaultColumn (lit "doing"),
        defaultColumn (lit "done")] ∧
      idsOf (ag.get "columns").elems = [.str (lit "todo"), .str (lit "doing"),
        .str (lit "done")] ∧
      (ag.get "columns").elems.length = 3 ∧
      ¬ hasColumn ag "backlog" :=
  ⟨by simp [scenarioCodec],
    import_scenario_three_columns sampleEnv scenarioCodec (by simp [scenarioCodec])⟩

/-! ## The length of the ancestor walk -/

theorem parentOf_null (notes : List JsVal) (hids : ∀ n ∈ notes, (n.get "id").truthy = true) :
    parentOf notes .null = .null := by
  have hnone : notes.find? (fun n => strictEq (n.get "id") .null) = none := by
    rw [List.find?_eq_none]
    intro n hn hs
    have := hids n hn
    have hid : n.get "id" = .null := strictEq_eq_true (by simpa using hs)
    rw [hid] at this
    cases this
  simp [parentOf, hnone]

theorem iterate_parentOf_null (notes : List JsVal)
    (hids : ∀ n ∈ notes, (n.get "id").truthy = true) (j : Nat) :
    (parentOf notes)^[j] .null = .null := by
  induction j with
  | zero => rfl
  | succ j ih => rw [Function.iterate_succ_apply, parentOf_null notes hids, ih]

/-- A value that the parent relation leads back to itself never arrives at null. -/
theorem reachesNull_of_cycle (notes : List JsVal)
    (hids : ∀ n ∈ notes, (n.get "id").truthy = true) (k : Nat) :
    ∀ (c : JsVal) (j : Nat), 1 ≤ j → c ≠ .null → (parentOf notes)^[j] c = c →
      reachesNull notes k c = false := by
  induction k with
  | zero =>
    intro c j _ hc _
    cases c <;> simp_all [reachesNull, isNull]
  | succ k ih =>
    intro c j hj hc hcycle
    have hnull : isNull c = false := by cases c <;> simp_all [isNull]
    have hnext : parentOf notes c ≠ .null := by
      intro h
      obtain ⟨i, rfl⟩ : ∃ i, j = i + 1 := ⟨j - 1, by omega⟩
      rw [Function.iterate_succ_apply, h, iterate_parentOf_null notes hids] at hcycle
      exact hc hcycle.symm
    have hcycle2 : (parentOf notes)^[j] (parentOf notes c) = parentOf notes c := by
      rw [← Function.iterate_succ_apply, Function.iterate_succ_apply', hcycle]
    simp [reachesNull, hnull, ih _ j hj hnext hcycle2]

/-- The walk with the ids it has passed: they are distinct ids of notes other than the
item, so the walk cannot pass more of them than there are notes besides the item. -/
theorem ancestorWalk_within (notes : List JsVal)
    (h : ∀ n ∈ notes, isObject n = true ∧ (n.get "id").truthy = true)
    (hacyclic : Acyclic notes) (itemId : JsVal)
    (hitem : ∃ item ∈ notes, strictEq (item.get "id") itemId = true) :
    ∀ (fuel : Nat) (visited : List JsVal) (c : JsVal), visited.Nodup →
      (∀ v ∈ visited, v ∈ idsOf notes ∧ strictEq v itemId = false ∧
        ∃ j, 1 ≤ j ∧ (parentOf notes)^[j] v = c) →
      notes.length ≤ visited.length + fuel →
      ∃ b, NoteActions.ancestorWalk notes itemId fuel c = .ok b := by
  have hobj : AllObjects notes := fun n hn => (h n hn).1
  have hids : ∀ n ∈ notes, (n.get "id").truthy = true := fun n hn => (h n hn).2
  obtain ⟨item, hitemmem, hitemid⟩ := hitem
  have hself : strictEq itemId itemId = true := by
    have := hitemid
    rwa [strictEq_eq_true hitemid] at this
  have hcount : ∀ visited : List JsVal, visited.Nodup →
      (∀ v ∈ visited, v ∈ idsOf notes ∧ strictEq v itemId = false) →
      visited.length + 1 ≤ notes.length := by
    intro visited hnd hv
    have hnd2 : (itemId :: visited).Nodup := by
      refine List.nodup_cons.2 ⟨fun hmem => ?_, hnd⟩
      have := (hv itemId hmem).2
      rw [hself] at this
      cases this
    have hsub : itemId :: visited ⊆ idsOf notes := by
      intro v hv2
      rcases List.mem_cons.1 hv2 with rfl | hv2
      · exact List.mem_map.2 ⟨item, hitemmem, strictEq_eq_true hitemid⟩
      · exact (hv v hv2).1
    have := (List.Nodup.subperm hnd2 hsub).length_le
    simpa [idsOf] using this
  intro fuel
  induction fuel with
  | zero =>
    intro visited c hnd hv hlen
    cases hc : c.truthy with
    | false => exact ⟨false, ancestorWalk_of_falsy notes itemId c 0 hc⟩
    | true =>
      have := hcount visited hnd (fun v hv2 => ⟨(hv v hv2).1, (hv v hv2).2.1⟩)
      omega
  | succ fuel ih =>
    intro visited c hnd hv hlen
    cases hc : c.truthy with
    | false => exact ⟨false, ancestorWalk_of_falsy notes itemId c _ hc⟩
    | true =>
      cases hs : strictEq c itemId with
      | true => exact ⟨true, by simp [NoteActions.ancestorWalk, hc, hs]⟩
      | false =>
        rw [ancestorWalk_step notes hobj itemId c fuel hc hs]
        cases hf : notes.find? (fun n => strictEq (n.get "id") c) with
        | none =>
          have hp : parentOf notes c = .null := by simp [parentOf, hf]
          rw [hp]
          exact ⟨false, ancestorWalk_of_falsy notes itemId .null fuel rfl⟩
        | some n =>
          have hn : n ∈ notes := List.mem_of_find?_eq_some hf
          have hnid : n.get "id" = c := strictEq_eq_true (by simpa using List.find?_some hf)
          have hcne : c ≠ .null := by
            intro h0
            rw [h0] at hc
            cases hc
          have hfresh : c ∉ visited := by
            intro hmem
            obtain ⟨-, -, j, hj, hcycle⟩ := hv c hmem
            obtain ⟨k, hk⟩ := reachesNull_of_acyclic notes hacyclic c
            rw [reachesNull_of_cycle notes hids k c j hj hcne hcycle] at hk
            cases hk
          apply ih (c :: visited) (parentOf notes c) (List.nodup_cons.2 ⟨hfresh, hnd⟩)
          · intro v hv2
            rcases List.mem_cons.1 hv2 with hvc | hv2
            · rw [hvc]
              exact ⟨List.mem_map.2 ⟨n, hn, hnid⟩, hs, 1, le_refl 1, rfl⟩
            · obtain ⟨h1, h2, j, hj, hcycle⟩ := hv v hv2
              exact ⟨h1, h2, j + 1, by omega, by rw [Function.iterate_succ_apply', hcycle]⟩
          · simp only [List.length_cons]
            omega

/-- A walk that has ended gives the same answer when it is allowed more passes. -/
theorem ancestorWalk_more_fuel (notes : List JsVal) (itemId : JsVal) :
    ∀ (fuel : Nat) (c : JsVal) (b : Bool),
      NoteActions.ancestorWalk notes itemId fuel c = .ok b →
      NoteActions.ancestorWalk notes itemId (fuel + 1) c = .ok b := by
  intro fuel
  induction fuel with
  | zero =>
    intro c b hb
    cases hc : c.truthy with
    | false =>
      rw [ancestorWalk_of_falsy notes itemId c 0 hc] at hb
      rw [ancestorWalk_of_falsy notes itemId c 1 hc]
      exact hb
    | true => simp [NoteActions.ancestorWalk, hc] at hb
  | succ fuel ih =>
    intro c b hb
    cases hc : c.truthy with
    | false =>
      rw [ancestorWalk_of_falsy notes itemId c _ hc] at hb
      rw [ancestorWalk_of_falsy notes itemId c _ hc]
      exact hb
    | true =>
      rw [NoteActions.ancestorWalk] at hb ⊢
      simp only [hc, Bool.not_true, Bool.false_eq_true, if_false] at hb ⊢
      cases hs : strictEq c itemId with
      | true => simpa [hs] using hb
      | false =>
        simp only [hs, Bool.false_eq_true, if_false] at hb ⊢
        cases hfind : findByKey "id" c notes with
        | error e => simp [hfind] at hb
        | ok p =>
          simp only [hfind] at hb ⊢
          exact ih _ b hb

theorem ancestorWalk_fuel_le (notes : List JsVal) (itemId c : JsVal) (b : Bool) (fuel : Nat)
    (hb : NoteActions.ancestorWalk notes itemId fuel c = .ok b) :
    ∀ more, fuel ≤ more → NoteActions.ancestorWalk notes itemId more c = .ok b := by
  intro more hmore
  induction more with
  | zero =>
    have : fuel = 0 := by omega
    rw [← this]
    exact hb
  | succ m ih =>
    by_cases hm : fuel ≤ m
    · exact ancestorWalk_more_fuel notes itemId m c b (ih hm)
    · have : fuel = m + 1 := by omega
      rw [← this]
      exact hb

/-- C39: the ancestor walk of `moveItem` ends within as many passes as the agenda has
notes when the parent relation is acyclic. For every list of notes that are objects with
truthy ids (as non-empty strings are) and an acyclic parent relation, every `itemId` that is
the id of a note (the folder being moved: the walk runs only when it was found) and every
`newParentId`, the loop that follows `parentId` upward from `newParentId` ends within
`notes.length` passes, at the item (answer `true`) or at a missing note or a falsy parent
(answer `false`), and so does `moveItem` on an agenda with these notes. -/
theorem ancestor_walk_ends_within_notes (clock : Clock) (itemId newParentId agenda : JsVal)
    (notes : List JsVal) (h : HasNotes agenda notes) (hacyclic : Acyclic notes)
    (hitem : ∃ item ∈ notes, strictEq (item.get "id") itemId = true) :
    (∃ b, ∀ fuel, notes.length ≤ fuel →
      NoteActions.ancestorWalk notes itemId fuel newParentId = .ok b) ∧
    ∃ moved, ∀ fuel, notes.length ≤ fuel →
      NoteActions.moveItemInAgenda clock fuel itemId newParentId agenda = .ok moved := by
  obtain ⟨b, hb⟩ := ancestorWalk_within notes h.2.2 hacyclic itemId hitem notes.length []
    newParentId List.nodup_nil (fun v hv => absurd hv (List.not_mem_nil v)) (by simp)
  have hall := ancestorWalk_fuel_le notes itemId newParentId b notes.length hb
  refine ⟨⟨b, hall⟩, ?_⟩
  cases hf : notes.find? (fun n => strictEq (n.get "id") itemId) with
  | none =>
    exact ⟨agenda, fun fuel _ => by
      rw [moveItemInAgenda_eq clock fuel itemId newParentId agenda notes h, hf]⟩
  | some item =>
    cases htype : strictEq (item.get "type") (.str (lit "folder")) with
    | false =>
      exact ⟨objectSpread agenda
          (.obj [("notes", .arr (notes.map (movedNote clock itemId newParentId)))]),
        fun fuel _ => by
          rw [moveItemInAgenda_eq clock fuel itemId newParentId agenda notes h, hf]
          simp only [htype, Bool.false_eq_true, if_false]⟩
    | true =>
      cases b with
      | true =>
        exact ⟨agenda, fun fuel hfuel => by
          rw [moveItemInAgenda_eq clock fuel itemId newParentId agenda notes h, hf]
          simp only [htype, if_true, hall fuel hfuel]⟩
      | false =>
        exact ⟨objectSpread agenda
            (.obj [("notes", .arr (notes.map (movedNote clock itemId newParentId)))]),
          fun fuel hfuel => by
            rw [moveItemInAgenda_eq clock fuel itemId newParentId agenda notes h, hf]
            simp only [htype, if_true, hall fuel hfuel]⟩

theorem nestedFolders_acyclic : Acyclic nestedFolders := by
  intro n hn
  simp only [nestedFolders, List.mem_cons, List.mem_singleton, List.not_mem_nil,
    or_false] at hn
  rcases hn with rfl | rfl
  · exact ⟨0, rfl⟩
  · exact ⟨1, rfl⟩

theorem ancestor_walk_ends_within_notes_witness :
    HasNotes foldersAgenda nestedFolders ∧ Acyclic nestedFolders ∧
    (∃ item ∈ nestedFolders, strictEq (item.get "id") (.str (lit "F1")) = true) ∧
    NoteActions.ancestorWalk nestedFolders (.str (lit "F1")) nestedFolders.length
      (.str (lit "F2")) = .ok true ∧
    ((∃ b, ∀ fuel, nestedFolders.length ≤ fuel →
      NoteActions.ancestorWalk nestedFolders (.str (lit "F1")) fuel (.str (lit "F2")) = .ok b) ∧
    ∃ moved, ∀ fuel, nestedFolders.length ≤ fuel →
      NoteActions.moveItemInAgenda laterClock fuel (.str (lit "F1")) (.str (lit "F2"))
        foldersAgenda = .ok moved) :=
  ⟨nestedFolders_notes, nestedFolders_acyclic, ⟨_, List.mem_cons_self _ _, by decide⟩,
    rfl,
    ancestor_walk_ends_within_notes laterClock (.str (lit "F1")) (.str (lit "F2"))
      foldersAgenda nestedFolders nestedFolders_notes nestedFolders_acyclic
      ⟨_, List.mem_cons_self _ _, by decide⟩⟩

/-! ## The place of a moved task -/

/-- The index at which `moveTask` inserts is a position of the list, the one that
`newIndex` asks for. -/
theorem insertIndex_requested (newIndex : JsNum) (length : Nat) :
    TaskActions.insertIndex newIndex length ≤ length ∧
    RequestedPosition newIndex length (TaskActions.insertIndex newIndex length) := by
  cases newIndex with
  | nan =>
    refine ⟨le_refl _, fun n h => ?_, fun q h => ?_, fun _ => rfl⟩
    · cases h
    · cases h
  | posInf =>
    refine ⟨le_refl _, fun n h => ?_, fun q h => ?_, fun _ => rfl⟩
    · cases h
    · cases h
  | negInf =>
    refine ⟨le_refl _, fun n h => ?_, fun q h => ?_, fun _ => rfl⟩
    · cases h
    · cases h
  | fin q =>
    by_cases hq : 0 ≤ q ∧ q ≤ (length : ℚ)
    · have hval : TaskActions.insertIndex (.fin q) length = (Int.floor q).toNat := by
        simp only [TaskActions.insertIndex, hq, and_self, if_true]
      have hfloor0 : 0 ≤ Int.floor q := Int.floor_nonneg.2 hq.1
      have hcast : (((Int.floor q).toNat : ℤ) : ℚ) = ((Int.floor q : ℤ) : ℚ) := by
        rw [Int.toNat_of_nonneg hfloor0]
      have hcast2 : (((Int.floor q).toNat : ℕ) : ℚ) = ((Int.floor q : ℤ) : ℚ) := by
        rw [← hcast]
        norm_cast
      have hle : (Int.floor q).toNat ≤ length := by
        have h1 : Int.floor q ≤ (length : ℤ) := by
          have := Int.floor_le q
          have h2 : ((Int.floor q : ℤ) : ℚ) ≤ ((length : ℤ) : ℚ) := by
            push_cast
            exact le_trans this hq.2
          exact_mod_cast h2
        omega
      rw [hval]
      refine ⟨hle, fun n hn _ => ?_, fun q2 hq2 _ _ => ?_, fun hno => ?_⟩
      · rw [JsNum.fin.injEq] at hn
        rw [hn]
        simp
      · rw [JsNum.fin.injEq] at hq2
        subst hq2
        rw [hcast2]
        exact ⟨Int.floor_le q, Int.lt_floor_add_one q⟩
      · exact absurd hq (hno q rfl)
    · have hval : TaskActions.insertIndex (.fin q) length = length := by
        simp only [TaskActions.insertIndex, hq, if_false]
      rw [hval]
      refine ⟨le_refl _, fun n hn hle => ?_, fun q2 hq2 h0 hl => ?_, fun _ => rfl⟩
      · rw [JsNum.fin.injEq] at hn
        exact absurd ⟨by rw [hn]; exact Nat.cast_nonneg n, by rw [hn]; exact_mod_cast hle⟩ hq
      · rw [JsNum.fin.injEq] at hq2
        subst hq2
        exact absurd ⟨h0, hl⟩ hq

theorem spliceIn_at (ids : List JsVal) (k : Nat) (taskId : JsVal) (hk : k ≤ ids.length) :
    (TaskActions.spliceIn ids k taskId)[k]? = some taskId ∧
    (TaskActions.spliceIn ids k taskId).eraseIdx k = ids ∧
    (TaskActions.spliceIn ids k taskId).length = ids.length + 1 := by
  unfold TaskActions.spliceIn
  have hlen : (ids.take k).length = k := by simp [hk]
  refine ⟨?_, ?_, ?_⟩
  · rw [List.getElem?_append_right (by omega)]
    simp [hlen]
  · rw [List.eraseIdx_append_of_length_le (by omega)]
    simp [hlen]
  · simp
    omega

theorem otherIds_spliceIn (ids : List JsVal) (k : Nat) (taskId : JsVal)
    (hrefl : strictEq taskId taskId = true) :
    otherIds taskId (TaskActions.spliceIn ids k taskId) = otherIds taskId ids := by
  unfold otherIds TaskActions.spliceIn
  rw [List.filter_append, List.filter_cons]
  simp only [hrefl, Bool.not_true, Bool.false_eq_true, if_false]
  rw [← List.filter_append, List.take_append_drop]

theorem otherIds_idem (taskId : JsVal) (ids : List JsVal) :
    otherIds taskId (otherIds taskId ids) = otherIds taskId ids := by
  unfold otherIds
  simp

theorem occurrences_otherIds (taskId : JsVal) (ids : List JsVal) :
    occurrences taskId (otherIds taskId ids) = 0 := by
  unfold occurrences otherIds
  rw [List.length_eq_zero, List.filter_eq_nil_iff]
  intro a ha
  have := (List.mem_filter.1 ha).2
  simpa using this

theorem findIdx?_map_cleared (taskId old target : JsVal) (cols : List JsVal)
    (h : ∀ c ∈ cols, isObject c = true ∧ isArray (c.get "taskIds") = true) :
    (cols.map (clearedColumn taskId old)).findIdx? (fun c => strictEq (c.get "id") target) =
      cols.findIdx? (fun c => strictEq (c.get "id") target) := by
  induction cols with
  | nil => rfl
  | cons c cs ih =>
    have hid := (clearedColumn_shape taskId old c (h c (List.mem_cons_self _ _))).2.2.1
    rw [List.map_cons, List.findIdx?_cons, List.findIdx?_cons, hid]
    split
    · rfl
    · rw [List.findIdx?_succ, List.findIdx?_succ,
        ih (fun x hx => h x (List.mem_cons_of_mem _ hx))]

/-- What `moveTask` does to an agenda with a board that has a task with the id `taskId`
and a column with the id `targetColumnId`, for every index: it returns the agenda with the
task placed. -/
theorem moveTaskInAgenda_places (taskId targetColumnId : JsVal) (newIndex : JsNum)
    (agenda : JsVal) (tasks columns : List JsVal) (h : HasBoard agenda tasks columns)
    (task : JsVal) (htask : tasks.find? (fun t => strictEq (t.get "id") taskId) = some task)
    (i : Nat)
    (hi : (backlogged columns).findIdx? (fun c => strictEq (c.get "id") targetColumnId) =
      some i) :
    ∃ moved, TaskActions.moveTaskInAgenda taskId targetColumnId newIndex agenda = .ok moved ∧
      TaskPlaced taskId targetColumnId newIndex agenda moved := by
  obtain ⟨-, hsome⟩ := moveTaskInAgenda_eq taskId targetColumnId newIndex agenda
    tasks columns h
  obtain ⟨hobj, htasks, htobj, hcolumns, hcols⟩ := h
  have het : (agenda.get "tasks").elems = tasks := by
    rw [htasks]
    rfl
  have hec : (agenda.get "columns").elems = columns := by
    rw [hcolumns]
    rfl
  refine ⟨_, hsome task htask, task, i, by rw [het]; exact htask, by rw [hec]; exact hi, ?_⟩
  rw [het, hec]
  obtain ⟨fields, hfields⟩ := (isObject_iff agenda).1 hobj
  have hgt : (objectSpread agenda (.obj [
      ("tasks", .arr (movedTasks taskId targetColumnId task tasks)),
      ("columns", .arr (movedColumns taskId targetColumnId newIndex task
        columns))])).get "tasks" = .arr (movedTasks taskId targetColumnId task tasks) := by
    rw [hfields]
    exact get_setKeys_same _ _ _ _ (by simp [List.lookup])
  have hgc : (objectSpread agenda (.obj [
      ("tasks", .arr (movedTasks taskId targetColumnId task tasks)),
      ("columns", .arr (movedColumns taskId targetColumnId newIndex task
        columns))])).get "columns" =
      .arr (movedColumns taskId targetColumnId newIndex task columns) := by
    rw [hfields]
    exact get_setKeys_same _ _ _ _ (by simp [List.lookup])
  have hgo : ∀ key, key ≠ "tasks" → key ≠ "columns" → (objectSpread agenda (.obj [
      ("tasks", .arr (movedTasks taskId targetColumnId task tasks)),
      ("columns", .arr (movedColumns taskId targetColumnId newIndex task
        columns))])).get key = agenda.get key := by
    intro key h1 h2
    rw [hfields]
    apply get_setKeys_other
    have h3 : (key == "tasks") = false := by simpa using h1
    have h4 : (key == "columns") = false := by simpa using h2
    simp [List.lookup, h3, h4]
  refine ⟨hgo, ?_⟩
  rw [hgt, hgc, elems_arr, elems_arr]
  have htaskmem : task ∈ tasks := List.mem_of_find?_eq_some htask
  have htaskobj : isObject task = true := htobj task htaskmem
  have htaskid : strictEq (task.get "id") taskId = true := by
    simpa using List.find?_some htask
  have hrefl : strictEq taskId taskId = true := by
    have := htaskid
    rwa [strictEq_eq_true htaskid] at this
  have hbshape := backlogged_shape columns (fun c hc => ⟨(hcols c hc).1, (hcols c hc).2.1⟩)
  -- the columns after the move
  have hidx : ((backlogged columns).map (clearedColumn taskId
        (orElse (task.get "columnId") (.str (lit "backlog"))))).findIdx?
      (fun c => strictEq (c.get "id") targetColumnId) = some i := by
    rw [findIdx?_map_cleared taskId _ targetColumnId (backlogged columns) hbshape, hi]
  have hmoved : movedColumns taskId targetColumnId newIndex task columns =
      ((backlogged columns).map (clearedColumn taskId
        (orElse (task.get "columnId") (.str (lit "backlog"))))).set i
        (filledColumn taskId newIndex
          (((backlogged columns).map (clearedColumn taskId
            (orElse (task.get "columnId") (.str (lit "backlog"))))).getD i .undefined)) := by
    unfold movedColumns filledColumns
    rw [hidx]
  refine ⟨?_, ?_, ?_, ?_⟩
  · simp only [idsOf, movedTasks, List.map_map]
    apply List.map_congr_left
    intro t ht
    cases hs : strictEq (t.get "id") taskId with
    | false => simp [hs]
    | true =>
      simp only [Function.comp, hs, if_true]
      rw [(get_setKey task htaskobj "columnId" targetColumnId).2 "id" (by decide),
        strictEq_eq_true htaskid, strictEq_eq_true hs]
  · intro u hu hs
    obtain ⟨t, -, huid, hcase⟩ := mem_movedTasks taskId targetColumnId task tasks htaskobj
      htaskid u hu
    rcases hcase with ⟨-, hcol⟩ | ⟨hne, rfl⟩
    · exact hcol
    · rw [hs] at hne
      cases hne
  · rw [hmoved]
    simp
  · intro p c0 hp
    have hc0 : isObject c0 = true ∧ isArray (c0.get "taskIds") = true :=
      hbshape c0 (mem_of_getElem?_eq_some hp)
    obtain ⟨hcobj, -, hcid, hcids⟩ := clearedColumn_shape taskId
      (orElse (task.get "columnId") (.str (lit "backlog"))) c0 hc0
    have hp1 : ((backlogged columns).map (clearedColumn taskId
          (orElse (task.get "columnId") (.str (lit "backlog")))))[p]? =
        some (clearedColumn taskId (orElse (task.get "columnId") (.str (lit "backlog")))
          c0) := by
      rw [List.getElem?_map, hp]
      rfl
    have hplt : p < ((backlogged columns).map (clearedColumn taskId
        (orElse (task.get "columnId") (.str (lit "backlog"))))).length := by
      by_contra hge
      rw [List.getElem?_eq_none (by omega)] at hp1
      cases hp1
    by_cases hpi : p = i
    · subst hpi
      have hgetD : ((backlogged columns).map (clearedColumn taskId
            (orElse (task.get "columnId") (.str (lit "backlog"))))).getD p .undefined =
          clearedColumn taskId (orElse (task.get "columnId") (.str (lit "backlog"))) c0 := by
        rw [List.getD_eq_getElem?_getD, hp1]
        rfl
      obtain ⟨-, hfid, hfids⟩ := filledColumn_shape taskId newIndex
        (clearedColumn taskId (orElse (task.get "columnId") (.str (lit "backlog"))) c0) hcobj
      refine ⟨_, by rw [hmoved, List.getElem?_set_self hplt, hgetD], ?_, ?_,
        fun hne => absurd rfl hne, fun hne => absurd rfl hne, ?_⟩
      · rw [hfid, hcid]
      · rw [hfids, otherIds_spliceIn _ _ _ hrefl, hcids]
        split
        · exact otherIds_idem taskId _
        · rfl
      · intro _ rest hrest
        have hrest2 : ((clearedColumn taskId
            (orElse (task.get "columnId") (.str (lit "backlog"))) c0).get "taskIds").elems =
            rest := by
          rw [hcids, hrest]
          rfl
        rw [hfids, hrest2]
        obtain ⟨hle, hreq⟩ := insertIndex_requested newIndex rest.length
        have := spliceIn_at rest (TaskActions.insertIndex newIndex rest.length) taskId hle
        exact ⟨_, hreq, this.1, this.2.1⟩
    · refine ⟨_, by rw [hmoved, List.getElem?_set_ne (fun hh => hpi hh.symm), hp1], hcid, ?_,
        ?_, ?_, fun hh => absurd hh hpi⟩
      · rw [hcids]
        split
        · exact otherIds_idem taskId _
        · rfl
      · intro _ hold
        rw [hcids, if_pos hold]
        exact occurrences_otherIds taskId _
      · intro _ hold
        unfold clearedColumn
        rw [if_neg (by simp [hold])]

/-! ## Deleting a note and the notes below it -/

theorem prop_eq_ok {v x : JsVal} {k : String} (h : v.prop k = .ok x) : x = v.get k := by
  cases v <;> simp_all [JsVal.prop]

theorem prop_eq_error {v : JsVal} {k : String} {e : Fault} (h : v.prop k = .error e) :
    e = .typeError := by
  cases v <;> simp_all [JsVal.prop]

theorem sameValueZero_eq {a b : JsVal} (h : sameValueZero a b = true) : a = b := by
  unfold sameValueZero at h
  split at h
  · rfl
  · exact strictEq_eq_true h

theorem sameValueZero_self {a : JsVal} (h : isPrimitive a = true) : sameValueZero a a = true := by
  cases a with
  | num n => cases n <;> simp [sameValueZero, strictEq]
  | arr xs => simp [isPrimitive] at h
  | obj fields => simp [isPrimitive] at h
  | _ => simp [sameValueZero, strictEq]

theorem any_sameValueZero_of_mem {s : List JsVal} {a : JsVal} (ha : a ∈ s)
    (hp : isPrimitive a = true) : s.any (sameValueZero a) = true :=
  List.any_eq_true.2 ⟨a, ha, sameValueZero_self hp⟩

theorem mem_of_any_sameValueZero {s : List JsVal} {a : JsVal}
    (h : s.any (sameValueZero a) = true) : a ∈ s := by
  obtain ⟨e, he, hs⟩ := List.any_eq_true.1 h
  rw [sameValueZero_eq hs]
  exact he

theorem countP_lt_of_stricter (p q : JsVal → Bool) (l : List JsVal)
    (hsub : ∀ x ∈ l, q x = true → p x = true) (hex : ∃ x ∈ l, p x = true ∧ q x = false) :
    l.countP q < l.countP p := by
  induction l with
  | nil =>
    obtain ⟨x, hx, -⟩ := hex
    cases hx
  | cons y ys ih =>
    have hle : ys.countP q ≤ ys.countP p := by
      apply List.countP_mono_left
      intro x hx hq
      exact hsub x (List.mem_cons_of_mem _ hx) hq
    obtain ⟨x, hx, hpx, hqx⟩ := hex
    rw [List.countP_cons, List.countP_cons]
    rcases List.mem_cons.1 hx with rfl | hx
    · simp only [hpx, hqx, if_true, Bool.false_eq_true, if_false]
      omega
    · have := ih (fun z hz => hsub z (List.mem_cons_of_mem _ hz)) ⟨x, hx, hpx, hqx⟩
      have hy := hsub y (List.mem_cons_self _ _)
      cases hq : q y with
      | false =>
        simp only [Bool.false_eq_true, if_false]
        omega
      | true =>
        simp only [hy hq, if_true]
        omega

/-- One pass of the search: the marked ids only grow; a pass that reports a change has
marked a note that was not marked, and a pass that reports none has left the set as it was,
no note being one to mark. -/
theorem markChildren_spec (ns : List JsVal)
    (hprim : ∀ n ∈ ns, isPrimitive (n.get "id") = true) :
    ∀ (toDelete : List JsVal) (changed : Bool) (marked : List JsVal) (changed2 : Bool),
      NoteActions.markChildren ns toDelete changed = .ok (marked, changed2) →
      (∀ x, toDelete.any (sameValueZero x) = true → marked.any (sameValueZero x) = true) ∧
      (changed2 = true → changed = true ∨ ∃ n ∈ ns,
        toDelete.any (sameValueZero (n.get "id")) = false ∧
        marked.any (sameValueZero (n.get "id")) = true) ∧
      (changed2 = false → changed = false ∧ marked = toDelete ∧
        ∀ n ∈ ns, toMark toDelete n = false) := by
  induction ns with
  | nil =>
    intro toDelete changed marked changed2 h
    simp only [NoteActions.markChildren, Except.ok.injEq, Prod.mk.injEq] at h
    obtain ⟨rfl, rfl⟩ := h
    exact ⟨fun _ hx => hx, fun hc => .inl hc, fun hc => ⟨hc, rfl, fun n hn => by cases hn⟩⟩
  | cons n rest ih =>
    intro toDelete changed marked changed2 h
    have ih := ih (fun x hx => hprim x (List.mem_cons_of_mem _ hx))
    rw [NoteActions.markChildren] at h
    cases hp : n.prop "parentId" with
    | error e => simp [hp] at h
    | ok parentId =>
      have hpid : parentId = n.get "parentId" := prop_eq_ok hp
      subst hpid
      simp only [hp] at h
      by_cases hc : toMark toDelete n = true
      · have hc2 := hc
        unfold toMark at hc2
        rw [if_pos hc2] at h
        simp only [Bool.and_eq_true, Bool.not_eq_true'] at hc2
        obtain ⟨hmono, hch, -⟩ := ih _ _ _ _ h
        have hnew : (toDelete ++ [n.get "id"]).any (sameValueZero (n.get "id")) = true :=
          any_sameValueZero_of_mem (by simp) (hprim n (List.mem_cons_self _ _))
        refine ⟨fun x hx => hmono x (by simp [List.any_append, hx]), fun _ => .inr
          ⟨n, List.mem_cons_self _ _, hc2.2, hmono _ hnew⟩, fun hfalse => ?_⟩
        have hall := (ih _ _ _ _ h).2.2 hfalse
        exact absurd hall.1 (by simp)
      · have hc2 := hc
        unfold toMark at hc2
        rw [if_neg hc2] at h
        obtain ⟨hmono, hch, hno⟩ := ih _ _ _ _ h
        refine ⟨hmono, fun htrue => ?_, fun hfalse => ?_⟩
        · rcases hch htrue with h1 | ⟨m, hm, h2⟩
          · exact .inl h1
          · exact .inr ⟨m, List.mem_cons_of_mem _ hm, h2⟩
        · obtain ⟨h1, h2, h3⟩ := hno hfalse
          refine ⟨h1, h2, fun m hm => ?_⟩
          rcases List.mem_cons.1 hm with rfl | hm
          · simpa using hc
          · exact h3 m hm

theorem markChildren_fault (ns toDelete : List JsVal) (changed : Bool) :
    NoteActions.markChildren ns toDelete changed ≠ .error .outOfFuel := by
  induction ns generalizing toDelete changed with
  | nil => simp [NoteActions.markChildren]
  | cons n rest ih =>
    rw [NoteActions.markChildren]
    cases hp : n.prop "parentId" with
    | error e =>
      rw [prop_eq_error hp]
      simp
    | ok parentId =>
      simp only
      split
      · exact ih _ _
      · exact ih _ _

theorem markChildren_returns (ns : List JsVal) (hobj : AllObjects ns) (toDelete : List JsVal)
    (changed : Bool) : ∃ r, NoteActions.markChildren ns toDelete changed = .ok r := by
  induction ns generalizing toDelete changed with
  | nil => exact ⟨_, rfl⟩
  | cons n rest ih =>
    have ih := ih (fun x hx => hobj x (List.mem_cons_of_mem _ hx))
    rw [NoteActions.markChildren, prop_of_isObject (hobj n (List.mem_cons_self _ _))]
    simp only
    split
    · exact ih _ _
    · exact ih _ _

/-- A pass that reports a change leaves fewer unmarked notes. -/
theorem unmarked_lt (notes : List JsVal)
    (hprim : ∀ n ∈ notes, isPrimitive (n.get "id") = true) (toDelete marked : List JsVal)
    (h : NoteActions.markChildren notes toDelete false = .ok (marked, true)) :
    unmarked notes marked < unmarked notes toDelete := by
  obtain ⟨hmono, hch, -⟩ := markChildren_spec notes hprim _ _ _ _ h
  rcases hch rfl with h0 | ⟨n, hn, h1, h2⟩
  · cases h0
  · unfold unmarked
    apply countP_lt_of_stricter
    · intro x _ hq
      cases hx : toDelete.any (sameValueZero (x.get "id")) with
      | false => rfl
      | true =>
        rw [hmono _ hx] at hq
        cases hq
    · exact ⟨n, hn, by simp [h1], by simp [h2]⟩

theorem collectDescendants_fault (notes : List JsVal)
    (hprim : ∀ n ∈ notes, isPrimitive (n.get "id") = true) :
    ∀ (fuel : Nat) (toDelete : List JsVal), unmarked notes toDelete < fuel →
      NoteActions.collectDescendants notes fuel toDelete ≠ .error .outOfFuel := by
  intro fuel
  induction fuel with
  | zero =>
    intro toDelete h
    omega
  | succ fuel ih =>
    intro toDelete h
    rw [NoteActions.collectDescendants]
    cases hm : NoteActions.markChildren notes toDelete false with
    | error e =>
      have := markChildren_fault notes toDelete false
      rw [hm] at this
      simpa using this
    | ok r =>
      obtain ⟨marked, changed⟩ := r
      cases changed with
      | false => simp
      | true =>
        simp only [if_true]
        have := unmarked_lt notes hprim toDelete marked hm
        exact ih marked (by omega)

theorem collectDescendants_more_fuel (notes : List JsVal) :
    ∀ (fuel : Nat) (toDelete result : List JsVal),
      NoteActions.collectDescendants notes fuel toDelete = .ok result →
      NoteActions.collectDescendants notes (fuel + 1) toDelete = .ok result := by
  intro fuel
  induction fuel with
  | zero =>
    intro toDelete result h
    simp [NoteActions.collectDescendants] at h
  | succ fuel ih =>
    intro toDelete result h
    rw [NoteActions.collectDescendants] at h ⊢
    cases hm : NoteActions.markChildren notes toDelete false with
    | error e => simp [hm] at h
    | ok r =>
      obtain ⟨marked, changed⟩ := r
      simp only [hm] at h ⊢
      cases changed with
      | false => simpa using h
      | true =>
        simp only [if_true] at h ⊢
        exact ih marked result h

theorem collectDescendants_fuel_le (notes toDelete result : List JsVal) (fuel : Nat)
    (h : NoteActions.collectDescendants notes fuel toDelete = .ok result) :
    ∀ more, fuel ≤ more → NoteActions.collectDescendants notes more toDelete = .ok result := by
  intro more hmore
  induction more with
  | zero =>
    have : fuel = 0 := by omega
    rw [← this]
    exact h
  | succ m ih =>
    by_cases hm : fuel ≤ m
    · exact collectDescendants_more_fuel notes m toDelete result (ih hm)
    · have : fuel = m + 1 := by omega
      rw [← this]
      exact h

/-- The search on notes that are objects: it ends, with a set that contains the one it
started from and in which no note is left to mark. -/
theorem collectDescendants_ok (notes : List JsVal) (hobj : AllObjects notes)
    (hprim : ∀ n ∈ notes, isPrimitive (n.get "id") = true) :
    ∀ (fuel : Nat) (toDelete : List JsVal), unmarked notes toDelete < fuel →
      ∃ result, NoteActions.collectDescendants notes fuel toDelete = .ok result ∧
        (∀ x, toDelete.any (sameValueZero x) = true → result.any (sameValueZero x) = true) ∧
        ∀ n ∈ notes, toMark result n = false := by
  intro fuel
  induction fuel with
  | zero =>
    intro toDelete h
    omega
  | succ fuel ih =>
    intro toDelete h
    obtain ⟨r, hm⟩ := markChildren_returns notes hobj toDelete false
    obtain ⟨marked, changed⟩ := r
    obtain ⟨hmono, -, hno⟩ := markChildren_spec notes hprim _ _ _ _ hm
    rw [NoteActions.collectDescendants]
    simp only [hm]
    cases changed with
    | false =>
      obtain ⟨-, hsame, hnone⟩ := hno rfl
      refine ⟨marked, by simp, hmono, ?_⟩
      rw [hsame]
      exact hnone
    | true =>
      simp only [if_true]
      have hlt := unmarked_lt notes hprim toDelete marked hm
      obtain ⟨result, hres, hmono2, hnone⟩ := ih marked (by omega)
      exact ⟨result, hres, fun x hx => hmono2 x (hmono x hx), hnone⟩

theorem unmarked_le (notes toDelete : List JsVal) : unmarked notes toDelete ≤ notes.length :=
  List.countP_le_length _

/-- C38: the descendant search of `deleteItem` ends within (number of notes + 1) passes,
for every list of notes whose ids are primitive values (strings, as the model of the set
requires), whatever their parent references are: equal ids, references to no note and
cycles included. A pass after which the loop continues has marked the id of a note that
was not marked before, so the number of notes whose id is unmarked goes down with every such
pass; allowed `notes.length + 1` passes or more, the search never runs out of them, and on
notes that are objects it returns the same set for every such allowance. -/
theorem descendant_search_terminates (allNotes : List JsVal) (itemId : JsVal)
    (hprim : ∀ n ∈ allNotes, isPrimitive (n.get "id") = true) :
    (∀ toDelete marked, NoteActions.markChildren allNotes toDelete false = .ok (marked, true) →
      (∃ n ∈ allNotes, toDelete.any (sameValueZero (n.get "id")) = false ∧
        marked.any (sameValueZero (n.get "id")) = true) ∧
      unmarked allNotes marked < unmarked allNotes toDelete) ∧
    (∀ fuel, allNotes.length + 1 ≤ fuel →
      NoteActions.collectDescendants allNotes fuel [itemId] ≠ .error .outOfFuel) ∧
    (AllObjects allNotes → ∃ toDelete, ∀ fuel, allNotes.length + 1 ≤ fuel →
      NoteActions.collectDescendants allNotes fuel [itemId] = .ok toDelete) := by
  refine ⟨fun toDelete marked h => ⟨?_, unmarked_lt allNotes hprim toDelete marked h⟩,
    fun fuel hfuel => ?_, fun hobj => ?_⟩
  · rcases (markChildren_spec allNotes hprim _ _ _ _ h).2.1 rfl with h0 | hex
    · cases h0
    · exact hex
  · have := unmarked_le allNotes [itemId]
    exact collectDescendants_fault allNotes hprim fuel [itemId] (by omega)
  · have := unmarked_le allNotes [itemId]
    obtain ⟨result, hres, -, -⟩ := collectDescendants_ok allNotes hobj hprim
      (allNotes.length + 1) [itemId] (by omega)
    exact ⟨result, collectDescendants_fuel_le allNotes [itemId] result _ hres⟩

theorem cyclicNotes_primitive : ∀ n ∈ cyclicNotes, isPrimitive (n.get "id") = true := by
  intro n hn
  simp only [cyclicNotes, List.mem_cons, List.mem_singleton, List.not_mem_nil,
    or_false] at hn
  rcases hn with rfl | rfl | rfl <;> rfl

theorem descendant_search_terminates_witness :
    (∀ n ∈ cyclicNotes, isPrimitive (n.get "id") = true) ∧
    NoteActions.collectDescendants cyclicNotes 2 [.str (lit "a")] =
      .ok [.str (lit "a"), .str (lit "b")] ∧
    ((∀ toDelete marked,
      NoteActions.markChildren cyclicNotes toDelete false = .ok (marked, true) →
      (∃ n ∈ cyclicNotes, toDelete.any (sameValueZero (n.get "id")) = false ∧
        marked.any (sameValueZero (n.get "id")) = true) ∧
      unmarked cyclicNotes marked < unmarked cyclicNotes toDelete) ∧
    (∀ fuel, cyclicNotes.length + 1 ≤ fuel →
      NoteActions.collectDescendants cyclicNotes fuel [.str (lit "a")] ≠
        .error .outOfFuel) ∧
    (AllObjects cyclicNotes → ∃ toDelete, ∀ fuel, cyclicNotes.length + 1 ≤ fuel →
      NoteActions.collectDescendants cyclicNotes fuel [.str (lit "a")] = .ok toDelete)) :=
  ⟨cyclicNotes_primitive, rfl,
    descendant_search_terminates cyclicNotes (.str (lit "a")) cyclicNotes_primitive⟩

theorem markChildren_below (notes : List JsVal) (itemId : JsVal)
    (ns : List JsVal) (hns : ∀ n ∈ ns, n ∈ notes) :
    ∀ (toDelete : List JsVal) (changed : Bool) (marked : List JsVal) (changed2 : Bool),
      NoteActions.markChildren ns toDelete changed = .ok (marked, changed2) →
      AllBelow notes itemId toDelete → AllBelow notes itemId marked := by
  induction ns with
  | nil =>
    intro toDelete changed marked changed2 h hall
    simp only [NoteActions.markChildren, Except.ok.injEq, Prod.mk.injEq] at h
    rw [← h.1]
    exact hall
  | cons n rest ih =>
    intro toDelete changed marked changed2 h hall
    have ih := ih (fun x hx => hns x (List.mem_cons_of_mem _ hx))
    rw [NoteActions.markChildren] at h
    cases hp : n.prop "parentId" with
    | error e => simp [hp] at h
    | ok parentId =>
      have hpid : parentId = n.get "parentId" := prop_eq_ok hp
      subst hpid
      simp only [hp] at h
      by_cases hc : toMark toDelete n = true
      · have hc2 := hc
        unfold toMark at hc2
        rw [if_pos hc2] at h
        simp only [Bool.and_eq_true, Bool.not_eq_true'] at hc2
        apply ih _ _ _ _ h
        intro e he
        rcases List.mem_append.1 he with he | he
        · exact hall e he
        · rw [List.mem_singleton.1 he]
          exact Below.child n (hns n (List.mem_cons_self _ _)) hc2.1.1
            (hall _ (mem_of_any_sameValueZero hc2.1.2))
      · have hc2 := hc
        unfold toMark at hc2
        rw [if_neg hc2] at h
        exact ih _ _ _ _ h hall

theorem collectDescendants_below (notes : List JsVal) (itemId : JsVal) :
    ∀ (fuel : Nat) (toDelete result : List JsVal),
      NoteActions.collectDescendants notes fuel toDelete = .ok result →
      AllBelow notes itemId toDelete → AllBelow notes itemId result := by
  intro fuel
  induction fuel with
  | zero =>
    intro toDelete result h
    simp [NoteActions.collectDescendants] at h
  | succ fuel ih =>
    intro toDelete result h hall
    rw [NoteActions.collectDescendants] at h
    cases hm : NoteActions.markChildren notes toDelete false with
    | error e => simp [hm] at h
    | ok r =>
      obtain ⟨marked, changed⟩ := r
      simp only [hm] at h
      have hmarked := markChildren_below notes itemId notes (fun _ hn => hn) _ _ _ _ hm hall
      cases changed with
      | false =>
        simp only [Bool.false_eq_true, if_false, Except.ok.injEq] at h
        rw [← h]
        exact hmarked
      | true =>
        simp only [if_true] at h
        exact ih marked result h hmarked

theorem dropMarked_ok (toDelete notes : List JsVal) (hobj : AllObjects notes) :
    NoteActions.dropMarked toDelete notes =
      .ok (notes.filter (fun n => !toDelete.any (sameValueZero (n.get "id")))) := by
  induction notes with
  | nil => rfl
  | cons n rest ih =>
    simp only [NoteActions.dropMarked, prop_of_isObject (hobj n (List.mem_cons_self _ _)),
      ih (fun y hy => hobj y (List.mem_cons_of_mem _ hy)), List.filter_cons]
    cases toDelete.any (sameValueZero (n.get "id")) <;> rfl

/-- The set at which the search ends holds, among the primitive values, exactly the ids of
the item and of the notes below it. -/
theorem marked_iff_below (notes : List JsVal) (itemId : JsVal) (result : List JsVal)
    (hall : AllBelow notes itemId result)
    (hstart : isPrimitive itemId = true → result.any (sameValueZero itemId) = true)
    (hparent : ∀ n ∈ notes, isPrimitive (n.get "parentId") = true)
    (hnone : ∀ n ∈ notes, toMark result n = false) (x : JsVal)
    (hx : isPrimitive x = true) :
    result.any (sameValueZero x) = true ↔ Below notes itemId x := by
  constructor
  · intro h
    exact hall x (mem_of_any_sameValueZero h)
  · intro h
    revert hx
    induction h with
    | item => exact hstart
    | child n hn htruthy _ ih =>
      intro _
      have hmarked := ih (hparent n hn)
      have := hnone n hn
      unfold toMark at this
      simpa [htruthy, hmarked] using this

/-- What `deleteItem` does to an agenda whose notes are objects with truthy ids and
primitive values as `id` and `parentId`, for every `itemId`: with `notes.length + 1` passes
or more allowed to the search it returns the agenda without the item and the notes below
it. -/
theorem deleteItemInAgenda_spec (itemId agenda : JsVal) (notes : List JsVal)
    (h : HasNotes agenda notes) (hprim : PrimitiveLinks notes) :
    ∃ moved, (∀ fuel, notes.length + 1 ≤ fuel →
        NoteActions.deleteItemInAgenda fuel itemId agenda = .ok moved) ∧
      NotesDeleted itemId agenda moved := by
  obtain ⟨hobj, hnotes, hshape⟩ := h
  have hallobj : AllObjects notes := fun n hn => (hshape n hn).1
  have hids : ∀ n ∈ notes, isPrimitive (n.get "id") = true := fun n hn => (hprim n hn).1
  have hle := unmarked_le notes [itemId]
  obtain ⟨result, hres, hmono, hnone⟩ := collectDescendants_ok notes hallobj hids
    (notes.length + 1) [itemId] (by omega)
  have hstart0 : AllBelow notes itemId [itemId] := by
    intro e he
    rw [List.mem_singleton.1 he]
    exact Below.item
  have hall := collectDescendants_below notes itemId _ _ _ hres hstart0
  have hstart : isPrimitive itemId = true → result.any (sameValueZero itemId) = true :=
    fun hp => hmono itemId (any_sameValueZero_of_mem (List.mem_singleton.2 rfl) hp)
  have hiff := marked_iff_below notes itemId result hall hstart (fun n hn => (hprim n hn).2)
    hnone
  have hkeep : ∀ n ∈ notes, (!result.any (sameValueZero (n.get "id"))) = true ↔
      ¬ Below notes itemId (n.get "id") := by
    intro n hn
    rw [← hiff (n.get "id") (hids n hn)]
    simp
  have helems : (agenda.get "notes").elems = notes := by
    rw [hnotes]
    rfl
  refine ⟨objectSpread agenda (.obj [("notes",
      .arr (notes.filter (fun n => !result.any (sameValueZero (n.get "id")))))]),
    fun fuel hfuel => ?_, fun n => !result.any (sameValueZero (n.get "id")), ?_, ?_,
    (get_setKey agenda hobj "notes" _).2, ?_⟩
  · have horelse : JsVal.orElse (.arr notes) (.arr []) = .arr notes := rfl
    have hitems : JsVal.items (.arr notes) = .ok notes := rfl
    unfold NoteActions.deleteItemInAgenda
    simp only [hnotes, horelse, hitems,
      collectDescendants_fuel_le notes [itemId] result _ hres fuel hfuel,
      dropMarked_ok result notes hallobj, bind, Except.bind, pure, Except.pure]
  · rw [helems]
    exact hkeep
  · rw [helems]
    exact (get_setKey agenda hobj "notes" _).1
  · rw [helems]
    intro n hn r hr hrout hparent
    have hnmem := (List.mem_filter.1 hn).1
    have hnkeep := (hkeep n hnmem).1 (List.mem_filter.1 hn).2
    have hrbelow : Below notes itemId (r.get "id") := by
      by_contra hnot
      exact hrout (List.mem_filter.2 ⟨hr, (hkeep r hr).2 hnot⟩)
    have htruthy : (n.get "parentId").truthy = true := by
      rw [hparent]
      exact (hshape r hr).2
    rw [← hparent] at hrbelow
    exact hnkeep (Below.child n hnmem htruthy hrbelow)

theorem cyclicNotes_shape :
    HasNotes (.obj [("id", .str (lit "ag1")), ("notes", .arr cyclicNotes)]) cyclicNotes := by
  refine ⟨rfl, rfl, fun n hn => ?_⟩
  simp only [cyclicNotes, List.mem_cons, List.mem_singleton, List.not_mem_nil,
    or_false] at hn
  rcases hn with rfl | rfl | rfl <;> exact ⟨rfl, rfl⟩

theorem cyclicNotes_links : PrimitiveLinks cyclicNotes := by
  intro n hn
  simp only [cyclicNotes, List.mem_cons, List.mem_singleton, List.not_mem_nil,
    or_false] at hn
  rcases hn with rfl | rfl | rfl <;> exact ⟨rfl, rfl⟩

/-! ## Actions: what a mutator's answer does to the document -/

theorem objectSpread_nil (fields : List (String × JsVal)) :
    objectSpread (.obj fields) (.obj []) = .obj fields := by
  simp [objectSpread, ownEntries]

theorem lookup_unique (fields : List (String × JsVal)) (k : String) (v : JsVal)
    (hnd : (fields.map Prod.fst).Nodup) (h : fields.lookup k = some v) :
    ∀ p ∈ fields, p.1 = k → p.2 = v := by
  induction fields with
  | nil => intro p hp; cases hp
  | cons a rest ih =>
    obtain ⟨ak, av⟩ := a
    simp only [List.map_cons, List.nodup_cons] at hnd
    intro p hp hk
    by_cases hka : k = ak
    · subst hka
      simp only [List.lookup, beq_self_eq_true, Option.some.injEq] at h
      rcases List.mem_cons.1 hp with rfl | hp
      · exact h
      · exact absurd (List.mem_map.2 ⟨p, hp, hk⟩) hnd.1
    · have hne : (k == ak) = false := by simpa using hka
      simp only [List.lookup, hne] at h
      rcases List.mem_cons.1 hp with rfl | hp
      · exact absurd hk.symm hka
      · exact ih hnd.2 h p hp hk

/-- Writing to a property the value it has leaves an object with distinct keys as it
is. -/
theorem objectSpread_same (fields : List (String × JsVal)) (k : String) (v : JsVal)
    (hnd : (fields.map Prod.fst).Nodup) (h : fields.lookup k = some v) :
    objectSpread (.obj fields) (.obj [(k, v)]) = .obj fields := by
  have huniq := lookup_unique fields k v hnd h
  simp only [objectSpread, ownEntries, JsVal.obj.injEq]
  have h1 : List.filter (fun p => (List.lookup p.1 fields).isNone) [(k, v)] = [] := by
    simp [List.filter_cons, h]
  rw [h1, List.append_nil]
  conv_rhs => rw [← List.map_id fields]
  apply List.map_congr_left
  intro p hp
  by_cases hk : p.1 = k
  · have := huniq p hp hk
    simp only [id, List.lookup, hk, beq_self_eq_true, Option.getD_some]
    rw [← this, ← hk]
  · have hne : (p.1 == k) = false := by simpa using hk
    simp [List.lookup, hne]

theorem updateWith_keeps (codec : JsonCodec) (w : World)
    (mutator : JsVal → Except Fault (JsVal × JsVal))
    (h : mutator (Store.getState w) = .ok (Store.getState w, .undefined)) :
    ∃ w2, Store.updateWith codec w mutator = .ok w2 ∧ Store.getState w2 = Store.getState w := by
  refine ⟨_, by
    unfold Store.updateWith
    rw [show structuredClone w.store.state = Store.getState w from rfl, h], ?_⟩
  rw [update_state, updateState_state]
  rfl

theorem hasText_str (s : JsString) : hasText (.str s) = .ok (!(trim s).isEmpty) := by
  cases s with
  | nil => rfl
  | cons a s => simp [hasText, JsVal.truthy, JsVal.trimCall]

theorem mapByKey_ok (k : String) (v : JsVal) (f : JsVal → Except Fault JsVal)
    (g : JsVal → JsVal) (xs : List JsVal) (hobj : AllObjects xs)
    (hf : ∀ x ∈ xs, strictEq (x.get k) v = true → f x = .ok (g x)) :
    mapByKey k v f xs = .ok (xs.map (fun x => if strictEq (x.get k) v then g x else x)) := by
  unfold mapByKey
  apply mapThrowing_ok
  intro x hx
  simp only [prop_of_isObject (hobj x hx), bind, Except.bind, pure, Except.pure]
  by_cases hs : strictEq (x.get k) v = true
  · simp only [hs, if_true]
    exact hf x hx hs
  · simp [hs]

theorem updateWith_spread (codec : JsonCodec) (w : World)
    (mutator : JsVal → Except Fault (JsVal × JsVal)) (more : List (String × JsVal))
    (hobj : isObject (Store.getState w) = true)
    (h : mutator (Store.getState w) = .ok (Store.getState w, .obj more)) :
    ∃ w2, Store.updateWith codec w mutator = .ok w2 ∧
      Store.getState w2 = objectSpread (Store.getState w) (.obj more) ∧
      (∀ k x, more.lookup k = some x → (Store.getState w2).get k = x) ∧
      (∀ k, more.lookup k = none → (Store.getState w2).get k = (Store.getState w).get k) := by
  obtain ⟨fields, hfields⟩ := (isObject_iff _).1 hobj
  rw [hfields] at h
  obtain ⟨w2, hw2, hstate⟩ := updateWith_ok codec w mutator fields more
    (by rw [← hfields] at h ⊢; exact h)
  refine ⟨w2, hw2, by rw [hstate, hfields], fun k x hk => ?_, fun k hk => ?_⟩
  · rw [hstate]
    exact get_setKeys_same fields more k x hk
  · rw [hstate, hfields]
    exact get_setKeys_other fields more k hk

theorem strictEq_of_str {s : JsString} {a b : JsVal} (ha : a = .str s) :
    strictEq a b = true ↔ a = b := by
  constructor
  · exact strictEq_eq_true
  · intro h
    rw [← h, ha]
    simp [strictEq]

/-! ## Workspace actions -/

theorem createWorkspaceMutator_eq (clock : Clock) (newId name : JsString) (state : JsVal)
    (wss : List JsVal) (h : WorkspaceList state wss) :
    WorkspaceActions.createWorkspaceMutator clock newId name state =
      .ok (state, .obj [("workspaces", .arr (wss ++ [.obj [("id", .str newId),
          ("name", .str name), ("createdAt", .str clock.iso), ("modifiedAt", .str clock.iso),
          ("agendas", .arr [])]])),
        ("activeWorkspaceId", orElse (state.get "activeWorkspaceId") (.str newId))]) := by
  have hsp : spreadItems (.arr wss) = .ok wss := rfl
  unfold WorkspaceActions.createWorkspaceMutator
  simp only [prop_of_isObject h.1, h.2.1, hsp, bind, Except.bind, pure, Except.pure]

theorem renameWorkspaceMutator_eq (clock : Clock) (id : JsVal) (newName : JsString)
    (state : JsVal) (wss : List JsVal) (h : WorkspaceList state wss) :
    WorkspaceActions.renameWorkspaceMutator clock id newName state =
      .ok (state, .obj [("workspaces", .arr (wss.map (fun ws =>
        if strictEq (ws.get "id") id then
          objectSpread ws (.obj [("name", .str newName), ("modifiedAt", .str clock.iso)])
        else ws)))]) := by
  have hit : JsVal.items (.arr wss) = .ok wss := rfl
  unfold WorkspaceActions.renameWorkspaceMutator
  simp only [prop_of_isObject h.1, h.2.1, hit, bind, Except.bind, pure, Except.pure]
  rw [mapByKey_ok "id" id _ (fun ws => objectSpread ws
    (.obj [("name", .str newName), ("modifiedAt", .str clock.iso)])) wss
    (fun ws hws => (h.2.2 ws hws).1) (fun _ _ _ => rfl)]

theorem deleteWorkspaceMutator_eq (id state : JsVal) (wss : List JsVal)
    (h : WorkspaceList state wss) :
    WorkspaceActions.deleteWorkspaceMutator id state =
      .ok (state, .obj [("workspaces",
          .arr (wss.filter (fun ws => !strictEq (ws.get "id") id))),
        ("activeWorkspaceId",
          if strictEq (state.get "activeWorkspaceId") id then .null
          else state.get "activeWorkspaceId"),
        ("activeAgendaId", .null)]) := by
  have hit : JsVal.items (.arr wss) = .ok wss := rfl
  unfold WorkspaceActions.deleteWorkspaceMutator
  simp only [prop_of_isObject h.1, h.2.1, hit, bind, Except.bind, pure, Except.pure,
    rejectByKey_ok "id" id wss (fun ws hws => (h.2.2 ws hws).1)]

theorem selectWorkspaceMutator_eq (id state : JsVal) (wss : List JsVal)
    (h : WorkspaceList state wss) :
    WorkspaceActions.selectWorkspaceMutator id state =
      .ok (state,
        if (wss.find? (fun ws => strictEq (ws.get "id") id)).isSome || strictEq id .null then
          .obj [("activeWorkspaceId", id), ("activeAgendaId", .null)]
        else .obj []) := by
  have hit : JsVal.items (.arr wss) = .ok wss := rfl
  have hund : JsVal.undefined.truthy = false := rfl
  unfold WorkspaceActions.selectWorkspaceMutator
  simp only [prop_of_isObject h.1, h.2.1, hit, bind, Except.bind, pure, Except.pure,
    (findByKey_ok "id" id wss (fun ws hws => (h.2.2 ws hws).1)).1]
  cases hf : wss.find? (fun ws => strictEq (ws.get "id") id) with
  | none =>
    simp only [Option.getD_none, hund, Bool.false_or, Option.isSome_none]
    split <;> rfl
  | some ws =>
    have hws : ws.truthy = true :=
      truthy_of_isObject (h.2.2 ws (List.mem_of_find?_eq_some hf)).1
    simp only [Option.getD_some, hws, Bool.true_or, if_true, Option.isSome_some]

theorem active_null_or_id (state : JsVal) (wss : List JsVal) (h : WorkspaceList state wss)
    (hsound : SoundActive state) :
    state.get "activeWorkspaceId" = .null ∨
    ∃ ws ∈ wss, ∃ s : JsString, s ≠ [] ∧ ws.get "id" = .str s ∧
      state.get "activeWorkspaceId" = .str s := by
  rcases hsound with h0 | ⟨ws, hws, hid⟩
  · exact .inl h0
  · rw [h.2.1, elems_arr] at hws
    obtain ⟨-, s, hs, hne⟩ := h.2.2 ws hws
    exact .inr ⟨ws, hws, s, hne, hs, by rw [← hid, hs]⟩

theorem truthy_str_of_ne_nil {s : JsString} (h : s ≠ []) : (JsVal.str s).truthy = true := by
  cases s with
  | nil => exact absurd rfl h
  | cons a s => rfl

theorem createWorkspace_sound (clock : Clock) (codec : JsonCodec) (w : World)
    (wss : List JsVal) (newId name : JsString) (h : WorkspaceList (Store.getState w) wss)
    (hsound : SoundActive (Store.getState w))
    (hfresh : ∀ ws ∈ wss, ws.get "id" ≠ .str newId) :
    ∃ w2, WorkspaceActions.createWorkspace clock codec newId (.str name) w = .ok w2 ∧
      SoundActive (Store.getState w2) ∧
      (trim name = [] → w2 = w) ∧
      (trim name ≠ [] →
        idsOf ((Store.getState w2).get "workspaces").elems = idsOf wss ++ [.str newId] ∧
        ((Store.getState w2).get "activeWorkspaceId" = .str newId ↔
          (Store.getState w).get "activeWorkspaceId" = .null) ∧
        ((Store.getState w).get "activeWorkspaceId" ≠ .null →
          (Store.getState w2).get "activeWorkspaceId" =
            (Store.getState w).get "activeWorkspaceId")) := by
  have htrim : JsVal.trimCall (.str name) = .ok (trim name) := rfl
  by_cases ht : trim name = []
  · refine ⟨w, ?_, hsound, fun _ => rfl, fun hne => absurd ht hne⟩
    unfold WorkspaceActions.createWorkspace
    simp [hasText_str, ht, bind, Except.bind, pure, Except.pure]
  · obtain ⟨w2, hw2, -, hget, -⟩ := updateWith_spread codec w
      (WorkspaceActions.createWorkspaceMutator clock newId (trim name)) _ h.1
      (createWorkspaceMutator_eq clock newId (trim name) _ wss h)
    have hwork : (Store.getState w2).get "workspaces" = .arr (wss ++ [.obj [("id", .str newId),
        ("name", .str (trim name)), ("createdAt", .str clock.iso),
        ("modifiedAt", .str clock.iso), ("agendas", .arr [])]]) :=
      hget "workspaces" _ (by simp [List.lookup])
    have hact2 : (Store.getState w2).get "activeWorkspaceId" =
        orElse ((Store.getState w).get "activeWorkspaceId") (.str newId) :=
      hget "activeWorkspaceId" _ (by simp [List.lookup])
    have hempty : (trim name).isEmpty = false := by
      simpa [List.isEmpty_iff] using ht
    refine ⟨w2, ?_, ?_, fun h0 => absurd h0 ht, fun _ => ⟨?_, ?_, ?_⟩⟩
    · unfold WorkspaceActions.createWorkspace
      simp only [hasText_str, hempty, htrim, bind, Except.bind, pure, Except.pure,
        Bool.not_false, Bool.not_true, Bool.false_eq_true, if_false]
      exact hw2
    · rcases active_null_or_id _ wss h hsound with h0 | ⟨ws, hws, s, hne, hid, hs⟩
      · right
        refine ⟨_, (by
          rw [hwork, elems_arr]
          exact List.mem_append_right _ (List.mem_singleton.2 rfl)), ?_⟩
        rw [hact2, h0]
        rfl
      · right
        refine ⟨ws, (by
          rw [hwork, elems_arr]
          exact List.mem_append_left _ hws), ?_⟩
        rw [hact2, hs, hid]
        simp [JsVal.orElse, truthy_str_of_ne_nil hne]
    · rw [hwork, elems_arr]
      simp [idsOf, get_obj_cons]
    · rw [hact2]
      rcases active_null_or_id _ wss h hsound with h0 | ⟨ws, hws, s, hne, hid, hs⟩
      · rw [h0]
        exact ⟨fun _ => rfl, fun _ => rfl⟩
      · rw [hs]
        simp only [JsVal.orElse, truthy_str_of_ne_nil hne, if_true]
        constructor
        · intro heq
          exact absurd (hid.trans heq) (hfresh ws hws)
        · intro h0
          cases h0
    · intro hnn
      rw [hact2]
      rcases active_null_or_id _ wss h hsound with h0 | ⟨ws, hws, s, hne, hid, hs⟩
      · exact absurd h0 hnn
      · rw [hs]
        simp [JsVal.orElse, truthy_str_of_ne_nil hne]

theorem renameWorkspace_sound (clock : Clock) (codec : JsonCodec) (w : World)
    (wss : List JsVal) (id : JsVal) (newName : JsString)
    (h : WorkspaceList (Store.getState w) wss) (hsound : SoundActive (Store.getState w)) :
    ∃ w2, WorkspaceActions.renameWorkspace clock codec id (.str newName) w = .ok w2 ∧
      SoundActive (Store.getState w2) ∧
      idsOf ((Store.getState w2).get "workspaces").elems = idsOf wss ∧
      (Store.getState w2).get "activeWorkspaceId" =
        (Store.getState w).get "activeWorkspaceId" := by
  have htrim : JsVal.trimCall (.str newName) = .ok (trim newName) := rfl
  by_cases ht : trim newName = []
  · refine ⟨w, ?_, hsound, by rw [h.2.1, elems_arr], rfl⟩
    unfold WorkspaceActions.renameWorkspace
    simp [hasText_str, ht, bind, Except.bind, pure, Except.pure]
  · obtain ⟨w2, hw2, -, hget, hkeep⟩ := updateWith_spread codec w
      (WorkspaceActions.renameWorkspaceMutator clock id (trim newName)) _ h.1
      (renameWorkspaceMutator_eq clock id (trim newName) _ wss h)
    have hwork : (Store.getState w2).get "workspaces" = .arr (wss.map (fun ws =>
        if strictEq (ws.get "id") id then
          objectSpread ws (.obj [("name", .str (trim newName)),
            ("modifiedAt", .str clock.iso)])
        else ws)) := hget "workspaces" _ (by simp [List.lookup])
    have hact : (Store.getState w2).get "activeWorkspaceId" =
        (Store.getState w).get "activeWorkspaceId" :=
      hkeep "activeWorkspaceId" (by simp [List.lookup])
    have hempty : (trim newName).isEmpty = false := by
      simpa [List.isEmpty_iff] using ht
    have hid : ∀ ws ∈ wss, (if strictEq (ws.get "id") id then
          objectSpread ws (.obj [("name", .str (trim newName)),
            ("modifiedAt", .str clock.iso)])
        else ws).get "id" = ws.get "id" := by
      intro ws hws
      split
      · obtain ⟨fields, rfl⟩ := (isObject_iff ws).1 (h.2.2 ws hws).1
        exact get_setKeys_other fields _ "id" (by simp [List.lookup])
      · rfl
    refine ⟨w2, ?_, ?_, ?_, hact⟩
    · unfold WorkspaceActions.renameWorkspace
      simp only [hasText_str, hempty, htrim, bind, Except.bind, pure, Except.pure,
        Bool.not_false, Bool.not_true, Bool.false_eq_true, if_false]
      exact hw2
    · rcases active_null_or_id _ wss h hsound with h0 | ⟨ws, hws, s, hne, hid2, hs⟩
      · exact .inl (hact.trans h0)
      · right
        refine ⟨_, (by
          rw [hwork, elems_arr]
          exact List.mem_map.2 ⟨ws, hws, rfl⟩), ?_⟩
        rw [hid ws hws, hact, hid2, hs]
    · rw [hwork, elems_arr]
      simp only [idsOf, List.map_map]
      apply List.map_congr_left
      intro ws hws
      exact hid ws hws

theorem deleteWorkspace_sound (codec : JsonCodec) (w : World) (wss : List JsVal) (id : JsVal)
    (h : WorkspaceList (Store.getState w) wss) (hsound : SoundActive (Store.getState w)) :
    ∃ w2, WorkspaceActions.deleteWorkspace codec id w = .ok w2 ∧
      SoundActive (Store.getState w2) ∧
      (Store.getState w2).get "workspaces" =
        .arr (wss.filter (fun ws => !strictEq (ws.get "id") id)) ∧
      (id = (Store.getState w).get "activeWorkspaceId" →
        (Store.getState w2).get "activeWorkspaceId" = .null) ∧
      (id ≠ (Store.getState w).get "activeWorkspaceId" →
        (Store.getState w2).get "activeWorkspaceId" =
          (Store.getState w).get "activeWorkspaceId") := by
  obtain ⟨w2, hw2, -, hget, -⟩ := updateWith_spread codec w
    (WorkspaceActions.deleteWorkspaceMutator id) _ h.1
    (deleteWorkspaceMutator_eq id _ wss h)
  have hwork : (Store.getState w2).get "workspaces" =
      .arr (wss.filter (fun ws => !strictEq (ws.get "id") id)) :=
    hget "workspaces" _ (by simp [List.lookup])
  have hact : (Store.getState w2).get "activeWorkspaceId" =
      if strictEq ((Store.getState w).get "activeWorkspaceId") id then .null
      else (Store.getState w).get "activeWorkspaceId" :=
    hget "activeWorkspaceId" _ (by simp [List.lookup])
  have hself : strictEq ((Store.getState w).get "activeWorkspaceId")
      ((Store.getState w).get "activeWorkspaceId") = true := by
    rcases active_null_or_id _ wss h hsound with h0 | ⟨ws, hws, s, hne, hid, hs⟩
    · rw [h0]
      rfl
    · rw [hs]
      simp [strictEq]
  refine ⟨w2, hw2, ?_, hwork, fun heq => ?_, fun hne => ?_⟩
  · by_cases hs : strictEq ((Store.getState w).get "activeWorkspaceId") id = true
    · left
      rw [hact, if_pos hs]
    · rw [if_neg hs] at hact
      rcases active_null_or_id _ wss h hsound with h0 | ⟨ws, hws, s, hne, hid, hs2⟩
      · exact .inl (hact.trans h0)
      · right
        refine ⟨ws, (by
          rw [hwork, elems_arr]
          refine List.mem_filter.2 ⟨hws, ?_⟩
          rw [hid, ← hs2]
          simpa using hs), ?_⟩
        rw [hact, hid, hs2]
  · subst heq
    rw [hact, hself, if_pos rfl]
  · have hs : strictEq ((Store.getState w).get "activeWorkspaceId") id = false := by
      cases hs : strictEq ((Store.getState w).get "activeWorkspaceId") id with
      | false => rfl
      | true => exact absurd (strictEq_eq_true hs).symm hne
    rw [hact, hs]
    rfl

theorem selectWorkspace_sound (codec : JsonCodec) (w : World) (wss : List JsVal) (id : JsVal)
    (h : WorkspaceList (Store.getState w) wss) (hsound : SoundActive (Store.getState w)) :
    ∃ w2, WorkspaceActions.selectWorkspace codec id w = .ok w2 ∧
      SoundActive (Store.getState w2) ∧
      (Store.getState w2).get "workspaces" = .arr wss ∧
      (id ≠ .null → (∀ ws ∈ wss, ws.get "id" ≠ id) →
        Store.getState w2 = Store.getState w) ∧
      ((id = .null ∨ ∃ ws ∈ wss, ws.get "id" = id) →
        (Store.getState w2).get "activeWorkspaceId" = id ∧
        (Store.getState w2).get "activeAgendaId" = .null) := by
  have hmut := selectWorkspaceMutator_eq id _ wss h
  have hfound : (wss.find? (fun ws => strictEq (ws.get "id") id)).isSome = true ↔
      ∃ ws ∈ wss, ws.get "id" = id := by
    rw [List.find?_isSome]
    constructor
    · rintro ⟨ws, hws, hs⟩
      exact ⟨ws, hws, strictEq_eq_true hs⟩
    · rintro ⟨ws, hws, hid⟩
      obtain ⟨-, s, hs, -⟩ := h.2.2 ws hws
      exact ⟨ws, hws, (strictEq_of_str hs).2 hid⟩
  have hnull : strictEq id .null = true ↔ id = .null := by
    constructor
    · exact strictEq_eq_true
    · rintro rfl
      rfl
  by_cases hc : ((wss.find? (fun ws => strictEq (ws.get "id") id)).isSome ||
      strictEq id .null) = true
  · rw [if_pos hc] at hmut
    obtain ⟨w2, hw2, -, hget, hkeep⟩ := updateWith_spread codec w
      (WorkspaceActions.selectWorkspaceMutator id) _ h.1 hmut
    have hact : (Store.getState w2).get "activeWorkspaceId" = id :=
      hget "activeWorkspaceId" _ (by simp [List.lookup])
    have hag : (Store.getState w2).get "activeAgendaId" = .null :=
      hget "activeAgendaId" _ (by simp [List.lookup])
    have hwork : (Store.getState w2).get "workspaces" = .arr wss := by
      rw [hkeep "workspaces" (by simp [List.lookup]), h.2.1]
    have hcase : id = .null ∨ ∃ ws ∈ wss, ws.get "id" = id := by
      rcases Bool.or_eq_true _ _ ▸ hc with h1 | h2
      · exact .inr (hfound.1 h1)
      · exact .inl (hnull.1 h2)
    refine ⟨w2, hw2, ?_, hwork, fun hne hall => ?_, fun _ => ⟨hact, hag⟩⟩
    · rcases hcase with h0 | ⟨ws, hws, hid⟩
      · exact .inl (hact.trans h0)
      · exact .inr ⟨ws, by rw [hwork, elems_arr]; exact hws, by rw [hact, hid]⟩
    · rcases hcase with h0 | ⟨ws, hws, hid⟩
      · exact absurd h0 hne
      · exact absurd hid (hall ws hws)
  · rw [if_neg hc] at hmut
    obtain ⟨w2, hw2, hstate, -, -⟩ := updateWith_spread codec w
      (WorkspaceActions.selectWorkspaceMutator id) _ h.1 hmut
    obtain ⟨fields, hfields⟩ := (isObject_iff _).1 h.1
    have hsame : Store.getState w2 = Store.getState w := by
      rw [hstate, hfields, objectSpread_nil]
    refine ⟨w2, hw2, by rw [hsame]; exact hsound, by rw [hsame, h.2.1], fun _ _ => hsame,
      fun hcase => ?_⟩
    exfalso
    apply hc
    rcases hcase with h0 | hex
    · simp [hnull.2 h0]
    · simp [hfound.2 hex]

/-- C37: the workspace actions keep the active workspace id sound. For every document
whose workspaces are objects with non-empty strings as ids and whose `activeWorkspaceId` is
null or the id of one of them, every id `newId` from `generateId()` that no workspace has
yet, every name that is a string and every `id`: each of `createWorkspace`,
`renameWorkspace`, `deleteWorkspace` and `selectWorkspace` returns and leaves a document in
which `activeWorkspaceId` is null or the id of a workspace. `createWorkspace` with a name
that is not blank adds the new workspace and makes it the active one exactly when none was
active (with a blank name it does nothing); `renameWorkspace` keeps the ids and the active
id; `deleteWorkspace` removes every workspace with the id, sets the active id to null when
it was that id and keeps it otherwise; `selectWorkspace` with an id that is not null and
names no workspace leaves the document as it is, and otherwise makes the id the active
one and the active agenda id null. -/
theorem workspace_actions_keep_active_sound (clock : Clock) (codec : JsonCodec) (w : World)
    (wss : List JsVal) (newId : JsString) (h : WorkspaceList (Store.getState w) wss)
    (hsound : SoundActive (Store.getState w))
    (hfresh : ∀ ws ∈ wss, ws.get "id" ≠ .str newId) :
    (∀ name : JsString,
      ∃ w2, WorkspaceActions.createWorkspace clock codec newId (.str name) w = .ok w2 ∧
        SoundActive (Store.getState w2) ∧
        (trim name = [] → w2 = w) ∧
        (trim name ≠ [] →
          idsOf ((Store.getState w2).get "workspaces").elems = idsOf wss ++ [.str newId] ∧
          ((Store.getState w2).get "activeWorkspaceId" = .str newId ↔
            (Store.getState w).get "activeWorkspaceId" = .null) ∧
          ((Store.getState w).get "activeWorkspaceId" ≠ .null →
            (Store.getState w2).get "activeWorkspaceId" =
              (Store.getState w).get "activeWorkspaceId"))) ∧
    (∀ (id : JsVal) (newName : JsString),
      ∃ w2, WorkspaceActions.renameWorkspace clock codec id (.str newName) w = .ok w2 ∧
        SoundActive (Store.getState w2) ∧
        idsOf ((Store.getState w2).get "workspaces").elems = idsOf wss ∧
        (Store.getState w2).get "activeWorkspaceId" =
          (Store.getState w).get "activeWorkspaceId") ∧
    (∀ id : JsVal,
      ∃ w2, WorkspaceActions.deleteWorkspace codec id w = .ok w2 ∧
        SoundActive (Store.getState w2) ∧
        (Store.getState w2).get "workspaces" =
          .arr (wss.filter (fun ws => !strictEq (ws.get "id") id)) ∧
        (id = (Store.getState w).get "activeWorkspaceId" →
          (Store.getState w2).get "activeWorkspaceId" = .null) ∧
        (id ≠ (Store.getState w).get "activeWorkspaceId" →
          (Store.getState w2).get "activeWorkspaceId" =
            (Store.getState w).get "activeWorkspaceId")) ∧
    (∀ id : JsVal,
      ∃ w2, WorkspaceActions.selectWorkspace codec id w = .ok w2 ∧
        SoundActive (Store.getState w2) ∧
        (Store.getState w2).get "workspaces" = .arr wss ∧
        (id ≠ .null → (∀ ws ∈ wss, ws.get "id" ≠ id) →
          Store.getState w2 = Store.getState w) ∧
        ((id = .null ∨ ∃ ws ∈ wss, ws.get "id" = id) →
          (Store.getState w2).get "activeWorkspaceId" = id ∧
          (Store.getState w2).get "activeAgendaId" = .null)) :=
  ⟨fun name => createWorkspace_sound clock codec w wss newId name h hsound hfresh,
    fun id newName => renameWorkspace_sound clock codec w wss id newName h hsound,
    fun id => deleteWorkspace_sound codec w wss id h hsound,
    fun id => selectWorkspace_sound codec w wss id h hsound⟩

theorem foldersDoc_workspaceList :
    WorkspaceList (Store.getState (watchedWorld foldersDoc (openStorage none)))
      (foldersDoc.get "workspaces").elems := by
  refine ⟨rfl, rfl, fun ws hws => ?_⟩
  have hw : (foldersDoc.get "workspaces").elems =
      [.obj [("id", .str (lit "w1")), ("modifiedAt", .str (lit "2024-01-01T00:00:00.000Z")),
             ("agendas", .arr [foldersAgenda])]] := rfl
  rw [hw, List.mem_singleton] at hws
  subst hws
  exact ⟨rfl, lit "w1", rfl, by decide⟩

theorem workspace_actions_keep_active_sound_witness :
    WorkspaceList (Store.getState (watchedWorld foldersDoc (openStorage none)))
      (foldersDoc.get "workspaces").elems ∧
    SoundActive (Store.getState (watchedWorld foldersDoc (openStorage none))) ∧
    (∀ ws ∈ (foldersDoc.get "workspaces").elems, ws.get "id" ≠ .str (lit "w9")) ∧
    (∃ w2, WorkspaceActions.createWorkspace laterClock sampleCodec (lit "w9")
        (.str (lit "Home")) (watchedWorld foldersDoc (openStorage none)) = .ok w2 ∧
      SoundActive (Store.getState w2) ∧
      (Store.getState w2).get "activeWorkspaceId" = .str (lit "w1")) ∧
    (∃ w2, WorkspaceActions.deleteWorkspace sampleCodec (.str (lit "w1"))
        (watchedWorld foldersDoc (openStorage none)) = .ok w2 ∧
      SoundActive (Store.getState w2) ∧
      (Store.getState w2).get "activeWorkspaceId" = .null) ∧
    (∃ w2, WorkspaceActions.selectWorkspace sampleCodec (.str (lit "ghost"))
        (watchedWorld foldersDoc (openStorage none)) = .ok w2 ∧
      Store.getState w2 = Store.getState (watchedWorld foldersDoc (openStorage none))) :=
  have hsound : SoundActive (Store.getState (watchedWorld foldersDoc (openStorage none))) :=
    .inr ⟨_, List.mem_singleton.2 rfl, rfl⟩
  have hfresh : ∀ ws ∈ (foldersDoc.get "workspaces").elems, ws.get "id" ≠ .str (lit "w9") :=
    fun ws hws => by
      have hw : (foldersDoc.get "workspaces").elems =
          [.obj [("id", .str (lit "w1")),
                 ("modifiedAt", .str (lit "2024-01-01T00:00:00.000Z")),
                 ("agendas", .arr [foldersAgenda])]] := rfl
      rw [hw, List.mem_singleton] at hws
      subst hws
      simp [get_obj_cons, lit]
  have hall := workspace_actions_keep_active_sound laterClock sampleCodec
    (watchedWorld foldersDoc (openStorage none)) (foldersDoc.get "workspaces").elems
    (lit "w9") foldersDoc_workspaceList hsound hfresh
  ⟨foldersDoc_workspaceList, hsound, hfresh,
    (let ⟨w2, h1, h2, _, h4⟩ := hall.1 (lit "Home")
     ⟨w2, h1, h2, (h4 (by decide)).2.2 (by
       intro h0
       cases h0)⟩),
    (let ⟨w2, h1, h2, _, h4, _⟩ := hall.2.2.1 (.str (lit "w1"))
     ⟨w2, h1, h2, h4 rfl⟩),
    (let ⟨w2, h1, _, _, h4, _⟩ := hall.2.2.2 (.str (lit "ghost"))
     ⟨w2, h1, h4 (by intro h0; cases h0) (fun ws hws => by
       have hw : (foldersDoc.get "workspaces").elems =
           [.obj [("id", .str (lit "w1")),
                  ("modifiedAt", .str (lit "2024-01-01T00:00:00.000Z")),
                  ("agendas", .arr [foldersAgenda])]] := rfl
       rw [hw, List.mem_singleton] at hws
       subst hws
       simp [get_obj_cons, lit])⟩)⟩

/-! ## Actions without an active workspace -/

theorem keepsDocument_ok (w : World) : KeepsDocument w (.ok w) := ⟨w, rfl, rfl⟩

theorem noActive_isObject {state : JsVal} {wss : List JsVal}
    (h : NoActiveWorkspace state wss) : isObject state = true := by
  obtain ⟨⟨fields, rfl, -⟩, -⟩ := h
  rfl

/-- A mutator that answers with nothing, or with the workspaces as they are, leaves the
document as it was. -/
theorem updateWith_idle (codec : JsonCodec) (w : World)
    (mutator : JsVal → Except Fault (JsVal × JsVal)) (wss : List JsVal)
    (h : NoActiveWorkspace (Store.getState w) wss)
    (hm : mutator (Store.getState w) = .ok (Store.getState w, .undefined) ∨
      mutator (Store.getState w) =
        .ok (Store.getState w, .obj [("workspaces", .arr wss)])) :
    KeepsDocument w (Store.updateWith codec w mutator) := by
  rcases hm with hm | hm
  · exact updateWith_keeps codec w mutator hm
  · obtain ⟨⟨fields, hfields, hnd⟩, hwss, -, -⟩ := h
    obtain ⟨w2, hw2, hstate, -, -⟩ := updateWith_spread codec w mutator _
      (by rw [hfields]; rfl) hm
    refine ⟨w2, hw2, ?_⟩
    have hlookup : fields.lookup "workspaces" = some (.arr wss) := by
      rw [hfields] at hwss
      simp only [JsVal.get] at hwss
      cases hl : fields.lookup "workspaces" with
      | none =>
        rw [hl] at hwss
        cases hwss
      | some v =>
        rw [hl] at hwss
        simp only [Option.getD_some] at hwss
        rw [hwss]
    rw [hstate, hfields, objectSpread_same fields "workspaces" (.arr wss) hnd hlookup]

theorem mapThrowing_idle (f : JsVal → Except Fault JsVal) (xs : List JsVal)
    (h : ∀ x ∈ xs, f x = .ok x) : mapThrowing f xs = .ok xs := by
  have := mapThrowing_ok f (fun x => x) xs h
  rwa [List.map_id'] at this

theorem rebuildAgenda_idle (clock : Clock) (agendaId : JsVal)
    (body : JsVal → Except Fault JsVal) (state : JsVal) (wss : List JsVal)
    (h : NoActiveWorkspace state wss) :
    rebuildAgenda clock agendaId body state = .ok (state, .undefined) ∨
    rebuildAgenda clock agendaId body state =
      .ok (state, .obj [("workspaces", .arr wss)]) := by
  have hobj := noActive_isObject h
  obtain ⟨-, hwss, hall, hnone⟩ := h
  have hit : JsVal.items (.arr wss) = .ok wss := rfl
  unfold rebuildAgenda
  simp only [prop_of_isObject hobj, bind, Except.bind, pure, Except.pure]
  by_cases ha : (state.get "activeWorkspaceId").truthy = true
  · right
    simp only [ha, Bool.not_true, Bool.false_eq_true, if_false, hwss, hit]
    rw [mapThrowing_idle _ wss]
    intro ws hws
    simp only [prop_of_isObject (hall ws hws), hnone ws hws, Bool.false_eq_true, if_false]
  · left
    simp [ha]

theorem rebuildWorkspace_idle (clock : Clock) (agendasOf : JsVal → Except Fault (List JsVal))
    (state : JsVal) (wss : List JsVal) (h : NoActiveWorkspace state wss) :
    AgendaActions.rebuildWorkspace clock agendasOf state = .ok (state, .undefined) ∨
    AgendaActions.rebuildWorkspace clock agendasOf state =
      .ok (state, .obj [("workspaces", .arr wss)]) := by
  have hobj := noActive_isObject h
  obtain ⟨-, hwss, hall, hnone⟩ := h
  have hit : JsVal.items (.arr wss) = .ok wss := rfl
  unfold AgendaActions.rebuildWorkspace
  simp only [prop_of_isObject hobj, bind, Except.bind, pure, Except.pure]
  by_cases ha : (state.get "activeWorkspaceId").truthy = true
  · right
    simp only [ha, Bool.not_true, Bool.false_eq_true, if_false, hwss, hit]
    rw [mapThrowing_idle _ wss]
    intro ws hws
    simp only [prop_of_isObject (hall ws hws), hnone ws hws, Bool.false_eq_true, if_false]
  · left
    simp [ha]

theorem changeAgenda_idle (clock : Clock) (agendaId : JsVal)
    (body : JsVal → Except Fault Ending) (state : JsVal) (wss : List JsVal)
    (h : NoActiveWorkspace state wss) :
    changeAgenda clock agendaId body state = .ok (state, .undefined) := by
  have hobj := noActive_isObject h
  obtain ⟨-, hwss, hall, hnone⟩ := h
  have hit : JsVal.items (.arr wss) = .ok wss := rfl
  have hund : JsVal.undefined.truthy = false := rfl
  have hfind : wss.findIdx? (fun ws => strictEq (ws.get "id")
      (state.get "activeWorkspaceId")) = none := by
    rw [List.findIdx?_eq_none_iff]
    intro ws hws
    rw [hnone ws hws]
  unfold changeAgenda
  simp only [prop_of_isObject hobj, hwss, hit,
    (findByKey_ok "id" (state.get "activeWorkspaceId") wss hall).2, hfind, elementAt, hund,
    bind, Except.bind, pure, Except.pure, Bool.not_false, if_true]

/-- An action behind the guard `if (!text || !text.trim()) return;` keeps the document when
the update it makes for a text that is not blank does. -/
theorem guarded_keeps (w : World) (text : JsString) (next : JsString → Except Fault World)
    (h : KeepsDocument w (next (trim text))) :
    KeepsDocument w (do
      if !(← hasText (.str text)) then pure w
      else
        let trimmed ← (JsVal.str text).trimCall
        next trimmed) := by
  have htrim : JsVal.trimCall (.str text) = .ok (trim text) := rfl
  simp only [hasText_str, htrim, bind, Except.bind, pure, Except.pure]
  cases (trim text).isEmpty with
  | true => exact keepsDocument_ok w
  | false => exact h

/-- C34: the guard clauses abort cleanly. For every document in which no workspace has the
active workspace id (the id is null, or it names no workspace) and whose workspaces are
objects, every agenda-scoped action returns and leaves the document of the store equal to
the document before the call: `createAgenda`, `deleteAgenda` and `renameAgenda`; the six
note actions; the eight task actions; the five journal actions; the three snippet actions
and the two metrics actions. This holds for all arguments; a name, a text and a task title
are strings (blank or not), as the guards in front of the actions expect them. -/
theorem guard_clauses_abort (clock : Clock) (codec : JsonCodec) (w : World)
    (wss : List JsVal) (h : NoActiveWorkspace (Store.getState w) wss)
    (newId text : JsString) (agendaId a b c d : JsVal) (key : String) (newIndex : JsNum)
    (fuel : Nat) (more : List (String × JsVal)) :
    (KeepsDocument w (AgendaActions.createAgenda clock codec newId (.str text) w) ∧
      KeepsDocument w (AgendaActions.deleteAgenda clock codec agendaId w) ∧
      KeepsDocument w (AgendaActions.renameAgenda clock codec agendaId (.str text) w)) ∧
    (KeepsDocument w (NoteActions.createNote clock codec newId agendaId a b c d w) ∧
      KeepsDocument w (NoteActions.createFolder clock codec newId agendaId a b w) ∧
      KeepsDocument w (NoteActions.updateNote clock codec agendaId a b w) ∧
      KeepsDocument w (NoteActions.deleteItem clock codec fuel agendaId a w) ∧
      KeepsDocument w (NoteActions.deleteNote clock codec fuel agendaId a w) ∧
      KeepsDocument w (NoteActions.moveItem clock codec fuel agendaId a b w)) ∧
    (KeepsDocument w (TaskActions.createTask clock codec newId agendaId
        (.obj (("title", .str text) :: more)) w) ∧
      KeepsDocument w (TaskActions.moveTask clock codec agendaId a b newIndex w) ∧
      KeepsDocument w (TaskActions.deleteTask clock codec agendaId a w) ∧
      KeepsDocument w (TaskActions.updateTask clock codec agendaId a b w) ∧
      KeepsDocument w (TaskActions.finalizeTask clock codec agendaId a w) ∧
      KeepsDocument w (TaskActions.recycleTask clock codec agendaId a w) ∧
      KeepsDocument w (TaskActions.restoreTask clock codec agendaId a w) ∧
      KeepsDocument w (TaskActions.permanentDeleteTask clock codec agendaId a w)) ∧
    (KeepsDocument w (JournalActions.addEntry clock codec newId agendaId (.str text) a w) ∧
      KeepsDocument w (JournalActions.deleteEntry clock codec agendaId a b w) ∧
      KeepsDocument w (JournalActions.createJournal clock codec newId agendaId a w) ∧
      KeepsDocument w (JournalActions.renameJournal clock codec agendaId a b w) ∧
      KeepsDocument w (JournalActions.deleteJournal clock codec agendaId a w)) ∧
    (KeepsDocument w (SnippetActions.createSnippet clock codec newId agendaId a w) ∧
      KeepsDocument w (SnippetActions.deleteSnippet clock codec agendaId a w) ∧
      KeepsDocument w (SnippetActions.updateSnippet clock codec agendaId a b w)) ∧
    (KeepsDocument w (MetricsActions.updateMetric clock codec agendaId key a w) ∧
      KeepsDocument w (MetricsActions.incrementMetric clock codec agendaId key w)) := by
  have hmap : ∀ body : JsVal → Except Fault JsVal,
      KeepsDocument w (Store.updateWith codec w (rebuildAgenda clock agendaId body)) :=
    fun body => updateWith_idle codec w _ wss h (rebuildAgenda_idle clock agendaId body _ wss h)
  have hws : ∀ agendasOf : JsVal → Except Fault (List JsVal),
      KeepsDocument w (Store.updateWith codec w
        (AgendaActions.rebuildWorkspace clock agendasOf)) :=
    fun agendasOf => updateWith_idle codec w _ wss h
      (rebuildWorkspace_idle clock agendasOf _ wss h)
  have hplace : ∀ body : JsVal → Except Fault Ending,
      KeepsDocument w (Store.updateWith codec w (changeAgenda clock agendaId body)) :=
    fun body => updateWith_idle codec w _ wss h
      (.inl (changeAgenda_idle clock agendaId body _ wss h))
  have htitle : (JsVal.obj (("title", .str text) :: more)).prop "title" = .ok (.str text) := by
    simp [JsVal.prop, JsVal.get, List.lookup]
  refine ⟨⟨?_, hws _, ?_⟩, ⟨hmap _, hmap _, hmap _, hmap _, hmap _, hmap _⟩,
    ⟨?_, hmap _, hmap _, hmap _, hplace _, hplace _, hplace _, hplace _⟩,
    ⟨?_, hmap _, hmap _, hmap _, hmap _⟩, ⟨hmap _, hmap _, hmap _⟩, ⟨hmap _, hmap _⟩⟩
  · exact guarded_keeps w text _ (hws _)
  · exact guarded_keeps w text _ (hws _)
  · unfold TaskActions.createTask
    rw [htitle]
    exact guarded_keeps w text _ (hmap _)
  · exact guarded_keeps w text _ (hmap _)

theorem idleDoc_noActive :
    NoActiveWorkspace (Store.getState (watchedWorld idleDoc (openStorage none)))
      (idleDoc.get "workspaces").elems := by
  refine ⟨⟨_, rfl, by decide⟩, rfl, fun ws hws => ?_, fun ws hws => ?_⟩
  · rcases List.mem_singleton.1 hws with rfl
    rfl
  · rcases List.mem_singleton.1 hws with rfl
    rfl

theorem guard_clauses_abort_witness :
    NoActiveWorkspace (Store.getState (watchedWorld idleDoc (openStorage none)))
      (idleDoc.get "workspaces").elems ∧
    KeepsDocument (watchedWorld idleDoc (openStorage none))
      (NoteActions.createNote laterClock sampleCodec (lit "n9") (.str (lit "ag1"))
        (.str (lit "title")) .undefined .undefined .undefined
        (watchedWorld idleDoc (openStorage none))) ∧
    KeepsDocument (watchedWorld idleDoc (openStorage none))
      (TaskActions.finalizeTask laterClock sampleCodec (.str (lit "ag1")) (.str (lit "t1"))
        (watchedWorld idleDoc (openStorage none))) ∧
    KeepsDocument (watchedWorld idleDoc (openStorage none))
      (AgendaActions.createAgenda laterClock sampleCodec (lit "ag9") (.str (lit "Plans"))
        (watchedWorld idleDoc (openStorage none))) :=
  have hall := guard_clauses_abort laterClock sampleCodec
    (watchedWorld idleDoc (openStorage none)) (idleDoc.get "workspaces").elems
    idleDoc_noActive (lit "ag9") (lit "Plans") (.str (lit "ag1")) (.str (lit "t1")) .null .null
    .null "focusDays" (.fin 0) 4 []
  have hnote := guard_clauses_abort laterClock sampleCodec
    (watchedWorld idleDoc (openStorage none)) (idleDoc.get "workspaces").elems
    idleDoc_noActive (lit "n9") (lit "Plans") (.str (lit "ag1")) (.str (lit "title"))
    .undefined .undefined .undefined "focusDays" (.fin 0) 4 []
  ⟨idleDoc_noActive, hnote.2.1.1, hall.2.2.1.2.2.2.2.1, hall.1.1⟩

/-! ## Actions on the store: the addressed agenda -/

theorem get_objectSpread_self (fields : List (String × JsVal)) (k : String) :
    (objectSpread (.obj fields) (.obj fields)).get k = (JsVal.obj fields).get k := by
  cases hl : fields.lookup k with
  | none => exact get_setKeys_other fields fields k hl
  | some x =>
    rw [get_setKeys_same fields fields k x hl]
    simp [JsVal.get, hl]

/-- The state after `store.update` with a mutator that returns the draft it has changed. -/
theorem updateWith_draft (codec : JsonCodec) (w : World)
    (mutator : JsVal → Except Fault (JsVal × JsVal)) (draft : JsVal)
    (hobj : isObject draft = true)
    (h : mutator (Store.getState w) = .ok (draft, draft)) :
    ∃ w2, Store.updateWith codec w mutator = .ok w2 ∧
      ∀ k, (Store.getState w2).get k = draft.get k := by
  obtain ⟨fields, rfl⟩ := (isObject_iff _).1 hobj
  obtain ⟨w2, hw2, hstate⟩ := updateWith_ok codec w mutator fields fields h
  exact ⟨w2, hw2, fun k => by rw [hstate]; exact get_objectSpread_self fields k⟩

/-- The in-place frame on a document in which the workspace and the agenda are found: a
body that leaves the agenda untouched leaves the draft as it is and returns nothing; a body
that runs to its end returns the draft with the changed agenda at its place and the
workspace stamped. -/
theorem changeAgenda_eq (clock : Clock) (agendaId : JsVal)
    (body : JsVal → Except Fault Ending) (state : JsVal) (i : Nat) (ws : JsVal) (j : Nat)
    (agenda : JsVal) (h : FirstAddressed state agendaId i ws j agenda) :
    (body agenda = .ok .untouched →
      changeAgenda clock agendaId body state = .ok (state, .undefined)) ∧
    (∀ a2, body agenda = .ok (.completed a2) →
      ∃ draft, changeAgenda clock agendaId body state = .ok (draft, draft) ∧
        isObject draft = true ∧ AgendaChanged clock i ws j a2 state draft) := by
  obtain ⟨hwarr, hwobj, hi, hws, haarr, haobj, hj, hagenda⟩ := h
  have hstate : isObject state = true := by
    cases state with
    | obj fields => rfl
    | _ => simp [JsVal.get, isArray] at hwarr
  have hwsobj : isObject ws = true := hwobj ws (mem_of_getElem?_eq_some hws)
  have hagobj : isObject agenda = true := haobj agenda (mem_of_getElem?_eq_some hagenda)
  have hwst : ws.truthy = true := by
    obtain ⟨f, rfl⟩ := (isObject_iff ws).1 hwsobj
    rfl
  have hagt : agenda.truthy = true := by
    obtain ⟨f, rfl⟩ := (isObject_iff agenda).1 hagobj
    rfl
  have hel1 : elementAt (state.get "workspaces").elems (some i) = ws := by
    simp [elementAt, List.getD_eq_getElem?_getD, hws]
  have hel2 : elementAt (ws.get "agendas").elems (some j) = agenda := by
    simp [elementAt, List.getD_eq_getElem?_getD, hagenda]
  constructor
  · intro hb
    unfold changeAgenda
    simp only [prop_of_isObject hstate, items_of_isArray hwarr,
      (findByKey_ok "id" (state.get "activeWorkspaceId") _ hwobj).2, hi, hel1, hwst,
      items_of_isArray haarr, (findByKey_ok "id" agendaId _ haobj).2, hj, hel2, hagt, hb,
      bind, Except.bind, pure, Except.pure, Bool.not_true, Bool.false_eq_true, if_false]
  · intro a2 hb
    obtain ⟨ws1, hws1, hobj1, hget1, hother1⟩ := setProp_spec ws hwsobj "agendas"
      (.arr ((ws.get "agendas").elems.set j a2))
    obtain ⟨ws2, hws2, hobj2, hget2, hother2⟩ := setProp_spec ws1 hobj1 "modifiedAt"
      (.str clock.iso)
    obtain ⟨draft, hdraft, hobjd, hgetd, hotherd⟩ := setProp_spec state hstate "workspaces"
      (.arr ((state.get "workspaces").elems.set i ws2))
    refine ⟨draft, ?_, hobjd, hotherd, ws2, hgetd, ?_, hget2, fun key h1 h2 => ?_⟩
    · unfold changeAgenda
      simp only [prop_of_isObject hstate, items_of_isArray hwarr,
        (findByKey_ok "id" (state.get "activeWorkspaceId") _ hwobj).2, hi, hel1, hwst,
        items_of_isArray haarr, (findByKey_ok "id" agendaId _ haobj).2, hj, hel2, hagt, hb,
        bind, Except.bind, pure, Except.pure, Bool.not_true, Bool.false_eq_true, if_false,
        Option.getD_some, hws1, hws2, hdraft]
    · rw [hother2 "agendas" (by decide), hget1]
    · rw [hother2 key h2, hother1 key h1]

/-- An action on the in-place frame, on the store. -/
theorem inPlace_action (clock : Clock) (codec : JsonCodec) (w : World) (agendaId : JsVal)
    (body : JsVal → Except Fault Ending) (i : Nat) (ws : JsVal) (j : Nat) (agenda : JsVal)
    (h : FirstAddressed (Store.getState w) agendaId i ws j agenda) :
    (body agenda = .ok .untouched →
      ∃ w2, Store.updateWith codec w (changeAgenda clock agendaId body) = .ok w2 ∧
        Store.getState w2 = Store.getState w) ∧
    (∀ a2, body agenda = .ok (.completed a2) →
      ∃ w2, Store.updateWith codec w (changeAgenda clock agendaId body) = .ok w2 ∧
        AgendaChanged clock i ws j a2 (Store.getState w) (Store.getState w2)) := by
  obtain ⟨h1, h2⟩ := changeAgenda_eq clock agendaId body (Store.getState w) i ws j agenda h
  refine ⟨fun hb => updateWith_keeps codec w _ (h1 hb), fun a2 hb => ?_⟩
  obtain ⟨draft, hd, hobj, hother, ws2, hwss, hrest⟩ := h2 a2 hb
  obtain ⟨w2, hw2, hget⟩ := updateWith_draft codec w _ draft hobj hd
  refine ⟨w2, hw2, fun key hkey => ?_, ws2, ?_, hrest⟩
  · rw [hget, hother key hkey]
  · rw [hget, hwss]

/-- An action on the rebuilding frame, on the store: when the body returns on every
addressed agenda, with a result that `R` relates to the agenda, the action returns and the
document has been rebuilt as `R` says. -/
theorem rebuild_action (clock : Clock) (codec : JsonCodec) (w : World) (agendaId : JsVal)
    (body : JsVal → Except Fault JsVal) (R : JsVal → JsVal → Prop) (active : JsVal)
    (wss : List JsVal) (h : HasWorkspaces (Store.getState w) active wss)
    (hbody : ∀ a, Addressed (Store.getState w) agendaId a → ∃ a2, body a = .ok a2 ∧ R a a2) :
    ∃ w2, Store.updateWith codec w (rebuildAgenda clock agendaId body) = .ok w2 ∧
      Rebuilt clock agendaId R (Store.getState w) (Store.getState w2) := by
  classical
  have hg : ∀ a, ∃ a2, Addressed (Store.getState w) agendaId a → body a = .ok a2 ∧ R a a2 := by
    intro a
    by_cases ha : Addressed (Store.getState w) agendaId a
    · obtain ⟨a2, h2⟩ := hbody a ha
      exact ⟨a2, fun _ => h2⟩
    · exact ⟨a, fun h => absurd h ha⟩
  choose g hgspec using hg
  have hframe := rebuildAgenda_eq clock agendaId body g (Store.getState w) active wss h
    (fun a ha => (hgspec a ha).1)
  obtain ⟨fields, hfields⟩ := (isObject_iff _).1 (isObject_of_get_arr h.2.2.1)
  rw [hfields] at hframe
  obtain ⟨w2, hw2, hstate⟩ := updateWith_ok codec w (rebuildAgenda clock agendaId body) fields _
    (by rw [hfields]; exact hframe)
  have hwss : (Store.getState w).get "workspaces" = .arr wss := h.2.2.1
  have hact : (Store.getState w).get "activeWorkspaceId" = active := h.1
  refine ⟨w2, hw2, fun key hkey => ?_,
    wss.map (rebuiltWorkspace clock active agendaId g), ?_, ?_⟩
  · rw [hstate, hfields]
    apply get_setKeys_other
    have h1 : (key == "workspaces") = false := by simpa using hkey
    simp [List.lookup, h1]
  · rw [hstate]
    exact get_setKeys_same _ _ _ _ (by simp [List.lookup])
  · rw [hwss, hact, elems_arr, List.forall₂_map_right_iff, List.forall₂_same]
    intro ws hws
    obtain ⟨hobj, hags⟩ := h.2.2.2 ws hws
    by_cases hid : strictEq (ws.get "id") active = true
    · rw [if_pos hid]
      obtain ⟨harr, haobj⟩ := hags hid
      obtain ⟨wf, rfl⟩ := (isObject_iff ws).1 hobj
      simp only [rebuiltWorkspace, hid, if_true]
      refine ⟨get_setKeys_same _ _ _ _ (by simp [List.lookup]), fun key h1 h2 => ?_,
        ((JsVal.obj wf).get "agendas").elems.map
          (fun a => if strictEq (a.get "id") agendaId then g a else a),
        get_setKeys_same _ _ _ _ (by simp [List.lookup]), ?_⟩
      · apply get_setKeys_other
        have h3 : (key == "agendas") = false := by simpa using h1
        have h4 : (key == "modifiedAt") = false := by simpa using h2
        simp [List.lookup, h3, h4]
      · rw [List.forall₂_map_right_iff, List.forall₂_same]
        intro a ha
        by_cases haid : strictEq (a.get "id") agendaId = true
        · rw [if_pos haid, if_pos haid]
          exact (hgspec a ⟨_, by rw [hwss]; exact hws, by rw [hact]; exact hid, ha, haid⟩).2
        · rw [if_neg haid]
          simp [haid]
    · rw [if_neg hid]
      simp [rebuiltWorkspace, hid]

theorem archiveDoc_addressed :
    FirstAddressed (Store.getState (watchedWorld archiveDoc (openStorage none)))
      (.str (lit "ag1")) 0 archiveWorkspace 0 archiveAgenda := by
  refine ⟨rfl, fun x hx => ?_, rfl, rfl, rfl, fun x hx => ?_, rfl, rfl⟩
  · rcases List.mem_singleton.1 hx with rfl
    rfl
  · rcases List.mem_singleton.1 hx with rfl
    rfl

/-- C23: task archival keeps the three lists exclusive. For every document in which the
archival actions find their agenda (the first agenda with the id `agendaId` in the first
workspace with the active id), that agenda having task lists in which every task id occurs
exactly once across `tasks`, `finalizedTasks` and `deletedTasks`, each of the four actions
returns, and the same holds of the agenda that the store has at that place afterwards.
`finalizeTask` leaves the document as it is when no active task has the id and otherwise
moves the first such task from `tasks` to the end of `finalizedTasks`; `recycleTask` moves
it from `tasks`, or else from `finalizedTasks`, to the end of `deletedTasks`, and leaves the
document as it is when the task is in neither; `restoreTask` moves it from `deletedTasks` to
the end of `tasks` with the column id `backlog`, and leaves the document as it is when no
deleted task has the id; `permanentDeleteTask` removes every deleted task with the id and
leaves the other two lists as they are. The moved task keeps its id. An action that changes
the agenda stamps the workspace; every other agenda and workspace and every other property
of the document stay as they are. -/
theorem archival_keeps_lists_exclusive (clock : Clock) (codec : JsonCodec) (w : World)
    (agendaId taskId : JsVal) (i : Nat) (ws : JsVal) (j : Nat) (agenda : JsVal)
    (hdoc : FirstAddressed (Store.getState w) agendaId i ws j agenda)
    (h : TaskLists agenda) (hex : Exclusive agenda) :
    (((agenda.get "tasks").elems.findIdx? (fun t => strictEq (t.get "id") taskId) = none →
        ∃ w2, TaskActions.finalizeTask clock codec agendaId taskId w = .ok w2 ∧
          Store.getState w2 = Store.getState w) ∧
      ((agenda.get "tasks").elems.findIdx? (fun t => strictEq (t.get "id") taskId) ≠ none →
        ∃ w2 a task moved,
          TaskActions.finalizeTask clock codec agendaId taskId w = .ok w2 ∧
          AgendaChanged clock i ws j a (Store.getState w) (Store.getState w2) ∧
          MovedBetween "tasks" "finalizedTasks" "deletedTasks" taskId agenda a task moved ∧
          Exclusive a)) ∧
    (((agenda.get "tasks").elems.findIdx? (fun t => strictEq (t.get "id") taskId) = none →
        (agenda.get "finalizedTasks").elems.findIdx? (fun t => strictEq (t.get "id") taskId)
          = none →
        ∃ w2, TaskActions.recycleTask clock codec agendaId taskId w = .ok w2 ∧
          Store.getState w2 = Store.getState w) ∧
      ((agenda.get "tasks").elems.findIdx? (fun t => strictEq (t.get "id") taskId) ≠ none →
        ∃ w2 a task moved,
          TaskActions.recycleTask clock codec agendaId taskId w = .ok w2 ∧
          AgendaChanged clock i ws j a (Store.getState w) (Store.getState w2) ∧
          MovedBetween "tasks" "deletedTasks" "finalizedTasks" taskId agenda a task moved ∧
          Exclusive a) ∧
      ((agenda.get "tasks").elems.findIdx? (fun t => strictEq (t.get "id") taskId) = none →
        (agenda.get "finalizedTasks").elems.findIdx? (fun t => strictEq (t.get "id") taskId)
          ≠ none →
        ∃ w2 a task moved,
          TaskActions.recycleTask clock codec agendaId taskId w = .ok w2 ∧
          AgendaChanged clock i ws j a (Store.getState w) (Store.getState w2) ∧
          MovedBetween "finalizedTasks" "deletedTasks" "tasks" taskId agenda a task moved ∧
          Exclusive a)) ∧
    (((agenda.get "deletedTasks").elems.findIdx? (fun t => strictEq (t.get "id") taskId)
          = none →
        ∃ w2, TaskActions.restoreTask clock codec agendaId taskId w = .ok w2 ∧
          Store.getState w2 = Store.getState w) ∧
      ((agenda.get "deletedTasks").elems.findIdx? (fun t => strictEq (t.get "id") taskId)
          ≠ none →
        ∃ w2 a task moved,
          TaskActions.restoreTask clock codec agendaId taskId w = .ok w2 ∧
          AgendaChanged clock i ws j a (Store.getState w) (Store.getState w2) ∧
          MovedBetween "deletedTasks" "tasks" "finalizedTasks" taskId agenda a task moved ∧
          moved.get "columnId" = .str (lit "backlog") ∧ Exclusive a)) ∧
    (∃ w2 a, TaskActions.permanentDeleteTask clock codec agendaId taskId w = .ok w2 ∧
      AgendaChanged clock i ws j a (Store.getState w) (Store.getState w2) ∧
      a.get "tasks" = agenda.get "tasks" ∧
      a.get "finalizedTasks" = agenda.get "finalizedTasks" ∧
      (a.get "deletedTasks").elems =
        (agenda.get "deletedTasks").elems.filter (fun t => !strictEq (t.get "id") taskId) ∧
      Exclusive a) := by
  obtain ⟨⟨hf1, hf2⟩, ⟨hr1, hr2, hr3⟩, ⟨hs1, hs2⟩, a4, hp, hpt, hpf, hpd, hpe⟩ :=
    archival_in_agenda clock taskId agenda h hex
  have hfin := inPlace_action clock codec w agendaId
    (TaskActions.finalizeTaskInAgenda clock taskId) i ws j agenda hdoc
  have hrec := inPlace_action clock codec w agendaId
    (TaskActions.recycleTaskInAgenda clock taskId) i ws j agenda hdoc
  have hres := inPlace_action clock codec w agendaId
    (TaskActions.restoreTaskInAgenda taskId) i ws j agenda hdoc
  have hper := inPlace_action clock codec w agendaId
    (TaskActions.permanentDeleteTaskInAgenda taskId) i ws j agenda hdoc
  refine ⟨⟨fun hnone => hfin.1 (hf1 hnone), fun hsome => ?_⟩,
    ⟨fun h1 h2 => hrec.1 (hr1 h1 h2), fun hsome => ?_, fun hnone hsome => ?_⟩,
    ⟨fun hnone => hres.1 (hs1 hnone), fun hsome => ?_⟩, ?_⟩
  · obtain ⟨a, task, moved, hrun, hmoved, hexa⟩ := hf2 hsome
    obtain ⟨w2, hw2, hch⟩ := hfin.2 a hrun
    exact ⟨w2, a, task, moved, hw2, hch, hmoved, hexa⟩
  · obtain ⟨a, task, moved, hrun, hmoved, hexa⟩ := hr2 hsome
    obtain ⟨w2, hw2, hch⟩ := hrec.2 a hrun
    exact ⟨w2, a, task, moved, hw2, hch, hmoved, hexa⟩
  · obtain ⟨a, task, moved, hrun, hmoved, hexa⟩ := hr3 hnone hsome
    obtain ⟨w2, hw2, hch⟩ := hrec.2 a hrun
    exact ⟨w2, a, task, moved, hw2, hch, hmoved, hexa⟩
  · obtain ⟨a, task, moved, hrun, hmoved, hcol, hexa⟩ := hs2 hsome
    obtain ⟨w2, hw2, hch⟩ := hres.2 a hrun
    exact ⟨w2, a, task, moved, hw2, hch, hmoved, hcol, hexa⟩
  · obtain ⟨w2, hw2, hch⟩ := hper.2 a4 hp
    exact ⟨w2, a4, hw2, hch, hpt, hpf, hpd, hpe⟩

theorem archival_keeps_lists_exclusive_witness :
    FirstAddressed (Store.getState (watchedWorld archiveDoc (openStorage none)))
      (.str (lit "ag1")) 0 archiveWorkspace 0 archiveAgenda ∧
    TaskLists archiveAgenda ∧ Exclusive archiveAgenda ∧
    (TaskActions.finalizeTask laterClock sampleCodec (.str (lit "ag1")) (.str (lit "t1"))
        (watchedWorld archiveDoc (openStorage none))).map
      (fun w2 => ((Store.getState w2).get "workspaces").elems.map (fun ws =>
        (ws.get "modifiedAt", (ws.get "agendas").elems.map (fun a =>
          (idsOf (a.get "tasks").elems, idsOf (a.get "finalizedTasks").elems,
            idsOf (a.get "deletedTasks").elems))))) =
      .ok [(.str (lit "2024-06-01T00:00:00.000Z"),
        [([], [.str (lit "t1")], [.str (lit "t9")])])] ∧
    (∃ w2 a task moved,
      TaskActions.finalizeTask laterClock sampleCodec (.str (lit "ag1")) (.str (lit "t1"))
        (watchedWorld archiveDoc (openStorage none)) = .ok w2 ∧
      AgendaChanged laterClock 0 archiveWorkspace 0 a
        (Store.getState (watchedWorld archiveDoc (openStorage none))) (Store.getState w2) ∧
      MovedBetween "tasks" "finalizedTasks" "deletedTasks" (.str (lit "t1")) archiveAgenda a
        task moved ∧
      Exclusive a) :=
  ⟨archiveDoc_addressed, archiveAgenda_lists, archiveAgenda_exclusive, rfl,
    (archival_keeps_lists_exclusive laterClock sampleCodec
      (watchedWorld archiveDoc (openStorage none)) (.str (lit "ag1")) (.str (lit "t1")) 0
      archiveWorkspace 0 archiveAgenda archiveDoc_addressed archiveAgenda_lists
      archiveAgenda_exclusive).1.2 (by decide)⟩

/-- An index of one half in a list of one id stands for the position 0. -/
theorem insertIndex_half : TaskActions.insertIndex (.fin (1 / 2)) 1 = 0 := by
  have hf : Int.floor ((1 : ℚ) / 2) = 0 := by
    rw [Int.floor_eq_iff]
    norm_num
  have hq : (0 : ℚ) ≤ 1 / 2 ∧ (1 : ℚ) / 2 ≤ ((1 : ℕ) : ℚ) := by norm_num
  simp only [TaskActions.insertIndex, hq, and_self, if_true, hf]
  rfl

theorem boardDoc_shape :
    HasWorkspaces (Store.getState (watchedWorld boardDoc (openStorage none)))
      (.str (lit "w1")) (boardDoc.get "workspaces").elems := by
  refine ⟨rfl, rfl, rfl, fun ws hws => ?_⟩
  rcases List.mem_singleton.1 hws with rfl
  refine ⟨rfl, fun _ => ⟨rfl, fun a ha => ?_⟩⟩
  rcases List.mem_singleton.1 ha with rfl
  rfl

theorem boardDoc_addressed (a : JsVal)
    (h : Addressed (Store.getState (watchedWorld boardDoc (openStorage none)))
      (.str (lit "ag1")) a) : a = boardAgenda := by
  obtain ⟨ws, hws, -, ha, -⟩ := h
  rcases List.mem_singleton.1 hws with rfl
  exact List.mem_singleton.1 ha

/-- C36: `moveTask` places the task at the requested index. For every document with
workspaces in which every addressed agenda (an agenda with the id `agendaId` in a workspace
with the active id) has a board (tasks and columns are arrays of objects, the column ids
are truthy and the `taskIds` are arrays), a task with the id `taskId` and a column with the
id `targetColumnId` (counted with the empty backlog column that `moveTask` puts in front
when no column has the id `backlog`), and for every number `newIndex`, NaN standing for an
index that is left out: `moveTask` returns, and in the document of the store every
addressed agenda has the task placed. The tasks keep their ids and every task with the id
`taskId` has the column id `targetColumnId`; every column keeps its place and its id, and
the ids other than `taskId` keep their order in it; a column with the old column id of the
task other than the target no longer lists `taskId`, any other column but the target is
unchanged; and in the target column `taskId` stands at position `newIndex` when `newIndex`
is an integer with `0 ≤ newIndex ≤ L`, at the integer part of `newIndex` when it is a
fraction in that range, and at position `L`, the end, in every other case (a negative, too
large or infinite index, NaN), where `L` is the number of ids of the target after the
removal, the ids around it being those ids. The workspace is stamped, and every other
agenda, every other workspace and every other property of the document are as before. -/
theorem move_task_places_at_index (clock : Clock) (codec : JsonCodec) (w : World)
    (agendaId taskId targetColumnId : JsVal) (newIndex : JsNum) (active : JsVal)
    (wss : List JsVal) (h : HasWorkspaces (Store.getState w) active wss)
    (hboard : ∀ a, Addressed (Store.getState w) agendaId a →
      HasBoard a (a.get "tasks").elems (a.get "columns").elems ∧
      (a.get "tasks").elems.find? (fun t => strictEq (t.get "id") taskId) ≠ none ∧
      (backlogged (a.get "columns").elems).findIdx?
        (fun c => strictEq (c.get "id") targetColumnId) ≠ none) :
    ∃ w2, TaskActions.moveTask clock codec agendaId taskId targetColumnId newIndex w = .ok w2 ∧
      Rebuilt clock agendaId (TaskPlaced taskId targetColumnId newIndex) (Store.getState w)
        (Store.getState w2) :=
  rebuild_action clock codec w agendaId
    (TaskActions.moveTaskInAgenda taskId targetColumnId newIndex)
    (TaskPlaced taskId targetColumnId newIndex) active wss h
    (fun a ha => by
      obtain ⟨hb, ht, hc⟩ := hboard a ha
      obtain ⟨task, htask⟩ := Option.ne_none_iff_exists'.1 ht
      obtain ⟨i, hi⟩ := Option.ne_none_iff_exists'.1 hc
      exact moveTaskInAgenda_places taskId targetColumnId newIndex a _ _ hb task htask i hi)

theorem move_task_places_at_index_witness :
    HasWorkspaces (Store.getState (watchedWorld boardDoc (openStorage none)))
      (.str (lit "w1")) (boardDoc.get "workspaces").elems ∧
    (TaskActions.moveTask laterClock sampleCodec (.str (lit "ag1")) (.str (lit "t1"))
        (.str (lit "done")) (.fin 0) (watchedWorld boardDoc (openStorage none))).map
      (fun w2 => ((Store.getState w2).get "workspaces").elems.map (fun ws =>
        (ws.get "agendas").elems.map (fun a =>
          (a.get "columns").elems.map (fun c => c.get "taskIds")))) =
      .ok [[[.arr [], .arr [], .arr [.str (lit "t1"), .str (lit "t2")]]]] ∧
    (TaskActions.moveTask laterClock sampleCodec (.str (lit "ag1")) (.str (lit "t1"))
        (.str (lit "done")) .nan (watchedWorld boardDoc (openStorage none))).map
      (fun w2 => ((Store.getState w2).get "workspaces").elems.map (fun ws =>
        (ws.get "agendas").elems.map (fun a =>
          (a.get "columns").elems.map (fun c => c.get "taskIds")))) =
      .ok [[[.arr [], .arr [], .arr [.str (lit "t2"), .str (lit "t1")]]]] ∧
    (∃ w2, TaskActions.moveTask laterClock sampleCodec (.str (lit "ag1")) (.str (lit "t1"))
        (.str (lit "done")) (.fin 0) (watchedWorld boardDoc (openStorage none)) = .ok w2 ∧
      Rebuilt laterClock (.str (lit "ag1"))
        (TaskPlaced (.str (lit "t1")) (.str (lit "done")) (.fin 0))
        (Store.getState (watchedWorld boardDoc (openStorage none))) (Store.getState w2)) :=
  ⟨boardDoc_shape, rfl, rfl,
    move_task_places_at_index laterClock sampleCodec
      (watchedWorld boardDoc (openStorage none)) (.str (lit "ag1")) (.str (lit "t1"))
      (.str (lit "done")) (.fin 0) (.str (lit "w1")) (boardDoc.get "workspaces").elems
      boardDoc_shape (fun a ha => by
        rw [boardDoc_addressed a ha]
        exact ⟨boardAgenda_board, fun hc => Option.noConfusion hc, by decide⟩)⟩

theorem cyclicDoc_shape :
    HasWorkspaces (Store.getState (watchedWorld cyclicDoc (openStorage none)))
      (.str (lit "w1")) (cyclicDoc.get "workspaces").elems := by
  refine ⟨rfl, rfl, rfl, fun ws hws => ?_⟩
  rcases List.mem_singleton.1 hws with rfl
  refine ⟨rfl, fun _ => ⟨rfl, fun a ha => ?_⟩⟩
  rcases List.mem_singleton.1 ha with rfl
  rfl

theorem cyclicDoc_addressed (a : JsVal)
    (h : Addressed (Store.getState (watchedWorld cyclicDoc (openStorage none)))
      (.str (lit "ag1")) a) : a = cyclicAgenda := by
  obtain ⟨ws, hws, -, ha, -⟩ := h
  rcases List.mem_singleton.1 hws with rfl
  exact List.mem_singleton.1 ha

/-- C35: `deleteItem` removes the item and exactly the notes below it. For every document
with workspaces in which the notes of every addressed agenda (an agenda with the id
`agendaId` in a workspace with the active id) are objects with truthy ids and primitive
values as `id` and `parentId`, and for every `itemId` whatever (the id of a note, an id
that no note has, null, a value that is no id at all), with more passes allowed to the
search than an addressed agenda has notes: `deleteItem` returns, and so does `deleteNote`,
which is the same call; in the document of the store every addressed agenda then has, in
their order, exactly the notes whose id is neither `itemId` nor the id of a note below it
(a note is below the item when it has a parent link, a truthy `parentId`, to `itemId` or to
the id of a note below the item), every other property of the agenda is as before, and no
note that stays has a `parentId` equal to the id of a note that was removed; the workspace
is stamped, and every other agenda, every other workspace and every other property of the
document are as before. -/
theorem delete_removes_item_and_descendants (clock : Clock) (codec : JsonCodec) (w : World)
    (agendaId itemId active : JsVal) (wss : List JsVal)
    (h : HasWorkspaces (Store.getState w) active wss)
    (hnotes : ∀ a, Addressed (Store.getState w) agendaId a →
      HasNotes a (a.get "notes").elems ∧ PrimitiveLinks (a.get "notes").elems) :
    ∀ fuel, (∀ a, Addressed (Store.getState w) agendaId a →
        (a.get "notes").elems.length < fuel) →
      ∃ w2, NoteActions.deleteItem clock codec fuel agendaId itemId w = .ok w2 ∧
        NoteActions.deleteNote clock codec fuel agendaId itemId w = .ok w2 ∧
        Rebuilt clock agendaId (NotesDeleted itemId) (Store.getState w)
          (Store.getState w2) := by
  intro fuel hfuel
  obtain ⟨w2, hw2, hr⟩ := rebuild_action clock codec w agendaId
    (NoteActions.deleteItemInAgenda fuel itemId) (NotesDeleted itemId) active wss h
    (fun a ha => by
      obtain ⟨hn, hp⟩ := hnotes a ha
      obtain ⟨moved, hm, hd⟩ := deleteItemInAgenda_spec itemId a _ hn hp
      have := hfuel a ha
      exact ⟨moved, hm fuel (by omega), hd⟩)
  exact ⟨w2, hw2, hw2, hr⟩

theorem delete_removes_item_and_descendants_witness :
    HasWorkspaces (Store.getState (watchedWorld cyclicDoc (openStorage none)))
      (.str (lit "w1")) (cyclicDoc.get "workspaces").elems ∧
    (NoteActions.deleteItem laterClock sampleCodec 4 (.str (lit "ag1")) (.str (lit "a"))
        (watchedWorld cyclicDoc (openStorage none))).map
      (fun w2 => ((Store.getState w2).get "workspaces").elems.map (fun ws =>
        (ws.get "modifiedAt", (ws.get "agendas").elems.map (fun a =>
          idsOf (a.get "notes").elems)))) =
      .ok [(.str (lit "2024-06-01T00:00:00.000Z"), [[.str (lit "c")]])] ∧
    (NoteActions.deleteItem laterClock sampleCodec 4 (.str (lit "ag1")) .null
        (watchedWorld cyclicDoc (openStorage none))).map
      (fun w2 => ((Store.getState w2).get "workspaces").elems.map (fun ws =>
        (ws.get "agendas").elems.map (fun a => idsOf (a.get "notes").elems))) =
      .ok [[[.str (lit "a"), .str (lit "b"), .str (lit "c")]]] ∧
    (∀ fuel, (∀ a, Addressed (Store.getState (watchedWorld cyclicDoc (openStorage none)))
          (.str (lit "ag1")) a → (a.get "notes").elems.length < fuel) →
      ∃ w2, NoteActions.deleteItem laterClock sampleCodec fuel (.str (lit "ag1"))
          (.str (lit "a")) (watchedWorld cyclicDoc (openStorage none)) = .ok w2 ∧
        NoteActions.deleteNote laterClock sampleCodec fuel (.str (lit "ag1"))
          (.str (lit "a")) (watchedWorld cyclicDoc (openStorage none)) = .ok w2 ∧
        Rebuilt laterClock (.str (lit "ag1")) (NotesDeleted (.str (lit "a")))
          (Store.getState (watchedWorld cyclicDoc (openStorage none)))
          (Store.getState w2)) :=
  ⟨cyclicDoc_shape, rfl, rfl,
    delete_removes_item_and_descendants laterClock sampleCodec
      (watchedWorld cyclicDoc (openStorage none)) (.str (lit "ag1")) (.str (lit "a"))
      (.str (lit "w1")) (cyclicDoc.get "workspaces").elems cyclicDoc_shape (fun a ha => by
        rw [cyclicDoc_addressed a ha]
        exact ⟨cyclicNotes_shape, cyclicNotes_links⟩)⟩

end Notebook
